import Mathlib

/-! ZygOS TCP event plane (dp/net/tcp_api.c, inc/ix/queue.h)

A shallow embedding of the plumbing between the TCP core and the
application: the intrusive queue of `queue.h`, the connection control
block (`struct tcpapi_pcb`), the ready pipeline, the descriptor handlers
and the TCP-core callbacks.

Memory is modelled column-wise: an object is a natural number (its pool
index), `NULL` is `none`, and a field of the object in slot `i` is the
value of a map at `i`.  Faults of the C program (a failed `assert`, a
dereferenced `NULL`, an index outside a table, a loop that does not end
within the given fuel) are results of type `Fault`.
-/

namespace Zygos

/-! ## Constants -/

/-- Flag bit: the CCB was asked to enqueue while acknowledgements were outstanding. -/
def PCB_FLAG_READY : Nat := 1
/-- Flag bit: the CCB is to be freed when the last acknowledgement arrives. -/
def PCB_FLAG_CLOSED : Nat := 2
/-- Pending one-shot event bit for KNOCK. -/
def PCB_UEVENT_KNOCK : Nat := 1
/-- Pending one-shot event bit for CONNECTED. -/
def PCB_UEVENT_CONNECTED : Nat := 2
/-- Size of the local-port range reserved for one CPU. -/
def PORTS_PER_CPU : Nat := 65536 / 32
/-- Capacity of the CCB datastore. -/
def MAX_PCBS : Nat := 512 * 1024

/-- Modelled from the spec: return codes `OK=0, BADH, CLOSED, FAULT, NOMEM, CONNREFUSED`
of the absent ix/syscall.h. -/
def RET_OK : Int := 0
/-- Modelled from the spec: see `RET_OK`. -/
def RET_BADH : Int := 1
/-- Modelled from the spec: see `RET_OK`. -/
def RET_CLOSED : Int := 2
/-- Modelled from the spec: see `RET_OK`. -/
def RET_FAULT : Int := 3
/-- Modelled from the spec: see `RET_OK`. -/
def RET_NOMEM : Int := 4
/-- Modelled from the spec: see `RET_OK`. -/
def RET_CONNREFUSED : Int := 5

/-- Modelled from the spec: descriptor numbers `CONNECT=3 .. NOP=10` of the absent
ix/syscall.h (the order is also that of `ksys_names` in debug_desc.c). -/
def KSYS_TCP_CONNECT : Nat := 3
/-- Modelled from the spec: see `KSYS_TCP_CONNECT`. -/
def KSYS_TCP_ACCEPT : Nat := 4
/-- Modelled from the spec: see `KSYS_TCP_CONNECT`. -/
def KSYS_TCP_REJECT : Nat := 5
/-- Modelled from the spec: see `KSYS_TCP_CONNECT`. -/
def KSYS_TCP_SEND : Nat := 6
/-- Modelled from the spec: see `KSYS_TCP_CONNECT`. -/
def KSYS_TCP_SENDV : Nat := 7
/-- Modelled from the spec: see `KSYS_TCP_CONNECT`. -/
def KSYS_TCP_RECV_DONE : Nat := 8
/-- Modelled from the spec: see `KSYS_TCP_CONNECT`. -/
def KSYS_TCP_CLOSE : Nat := 9
/-- Modelled from the spec: see `KSYS_TCP_CONNECT`. -/
def KSYS_NOP : Nat := 10

/-- The ways a run of the C code can stop without a result. -/
inductive Fault where
  | assert_failed
  | null_deref
  | out_of_bounds
  | out_of_fuel
  | fatal
  deriving DecidableEq, Repr

/-- Results of the embedded C functions. -/
abbrev Exec (α : Type) : Type := Except Fault α

/-- Modelled from the spec: the lwIP error codes the callbacks compare against
(lwip/err.h is absent); every other code is `ERR_OTHER`. -/
inductive err_t where
  | ERR_OK
  | ERR_MEM
  | ERR_ABRT
  | ERR_RST
  | ERR_CLSD
  | ERR_OTHER
  deriving DecidableEq, Repr

/-- The value a C `int` holds after `v` is stored in it: `v` reduced to the 32-bit
two's complement range, as gcc converts (a value outside the range does not survive). -/
def int_wrap (v : Int) : Int := (v + 2147483648) % 4294967296 - 2147483648

/-- Write of one cell of a memory column. -/
def upd {α : Type} (f : Nat → α) (i : Nat) (v : α) : Nat → α :=
  fun j => if j = i then v else f j

/-! ## inc/ix/queue.h -/

/-- The head and tail pointers of `struct queue`. -/
structure queue where
  head : Option Nat
  tail : Option Nat
  deriving DecidableEq, Repr

/-- The queue after `init_queue`. -/
def init_queue : queue := { head := none, tail := none }

/-- The test `n->next || q->tail == n`. -/
def queue_contains (q : queue) (next : Nat → Option Nat) (n : Nat) : Bool :=
  (next n).isSome || decide (q.tail = some n)

/-- Link `n` at the tail unless `queue_contains` holds; `q->tail->next` is a
dereference of `q->tail`. -/
def queue_push_back (q : queue) (next : Nat → Option Nat) (n : Nat) :
    Exec (queue × (Nat → Option Nat)) :=
  if queue_contains q next n then .ok (q, next)
  else
    match q.head with
    | none => .ok ({ head := some n, tail := some n }, next)
    | some _ =>
      match q.tail with
      | none => .error Fault.null_deref
      | some t => .ok ({ head := q.head, tail := some n }, upd next t (some n))

/-- The first node, or `NULL`. -/
def queue_front (q : queue) : Option Nat := q.head

/-- Unlink and return the first node. -/
def queue_pop_front (q : queue) (next : Nat → Option Nat) :
    Option Nat × queue × (Nat → Option Nat) :=
  match queue_front q with
  | none => (none, q, next)
  | some n =>
    let head1 := next n
    (some n, { head := head1, tail := if head1.isNone then none else q.tail }, upd next n none)

/-- The loop `while (queue_pop_front(q));`, with a bound on its iterations. -/
def queue_clear : Nat → queue → (Nat → Option Nat) → Exec (queue × (Nat → Option Nat))
  | 0, _, _ => .error Fault.out_of_fuel
  | fuel + 1, q, next =>
    match queue_pop_front q next with
    | (none, q1, next1) => .ok (q1, next1)
    | (some _, q1, next1) => queue_clear fuel q1 next1

/-- The nodes met from `p` along `next`, at most `fuel` of them. -/
def queue_walk (next : Nat → Option Nat) : Nat → Option Nat → List Nat
  | 0, _ => []
  | _, none => []
  | fuel + 1, some n => n :: queue_walk next fuel (next n)

/-- The pointer `p` starts a `NULL`-terminated chain through exactly the nodes of the list. -/
def is_chain (next : Nat → Option Nat) : Option Nat → List Nat → Prop
  | p, [] => p = none
  | p, x :: xs => p = some x ∧ is_chain next (next x) xs

/-- A well-formed queue holding the nodes of the list in order. -/
def queue_repr (q : queue) (next : Nat → Option Nat) (l : List Nat) : Prop :=
  is_chain next q.head l ∧ q.tail = l.getLast?

/-! ## Handles -/

/-- The flow-group id in the top 16 bits of a handle. -/
def handle_to_fg_id (handle : Nat) : Nat := (handle >>> 48) &&& 0xffff

/-- The pool index in the low 48 bits of a handle (the mask in `__handle_to_tcpapi`). -/
def handle_to_idx (handle : Nat) : Nat := handle &&& 0xffffffffffff

/-- The handle of the CCB in slot `idx` bound to flow group `fg_id`, as a 64-bit value. -/
def tcpapi_to_handle (fg_id : Nat) (idx : Nat) : Nat :=
  (idx ||| ((fg_id <<< 48) % 2 ^ 64)) % 2 ^ 64

/-! ## Data model -/

/-- The connection identity record `struct ip_tuple`. -/
structure ip_tuple where
  src_ip : Nat
  dst_ip : Nat
  src_port : Nat
  dst_port : Nat
  deriving DecidableEq, Repr

/-- The fields of `struct pbuf` this file reads; the queue node `pbuf_for_usys` is
the column `State.pbuf_for_usys_next`. -/
structure pbuf where
  next : Option Nat
  payload : Nat
  len : Nat
  mbuf : Nat
  tcp_api_next : Option Nat
  deriving DecidableEq, Repr

/-- The memory of one slot of the CCB pool, `struct tcpapi_pcb`.  The word `alive`
overlaps the allocator header; the queue node `ready_queue` is the column
`State.ready_queue_next`; the nested `lasterr` is two fields.  The byte counters
`sent_len` and `len_xmited` are `int`s: what `on_sent` and `bsys_tcp_sendv` store in them
goes through `int_wrap`. -/
structure tcpapi_pcb where
  alive : Nat
  pcb : Option Nat
  cookie : Nat
  id : Option Nat
  handle : Nat
  recvd : Option Nat
  recvd_tail : Option Nat
  accepted : Bool
  sent_len : Int
  len_xmited : Int
  pbuf_for_usys : Zygos.queue
  active_usys_count : Int
  uevents : Nat
  flags : Nat
  lasterr_sysnr : Nat
  lasterr_err : Int
  queue : Int
  deriving DecidableEq, Repr

/-- Modelled from the spec: an entry of the per-CPU user event array.  The absent
helpers `usys_tcp_knock`, `usys_tcp_connected`, `usys_tcp_sendv_ret`, `usys_tcp_sent`,
`usys_tcp_recv`, `usys_tcp_dead` and `usys_ksys_ret` each append one entry; every TCP
event carries the handle first, and a synchronous return carries the descriptor
number, a signed code and the cookie. -/
inductive usys_event where
  | USYS_TCP_CONNECTED (handle cookie : Nat) (ret : Int)
  | USYS_TCP_KNOCK (handle id : Nat)
  | USYS_TCP_RECV (handle cookie addr len : Nat)
  | USYS_TCP_SENT (handle cookie : Nat) (len : Int)
  | USYS_TCP_DEAD (handle cookie : Nat)
  | USYS_TCP_SENDV_RET (handle cookie : Nat) (len : Int)
  | KSYS_RET (sysnr : Nat) (ret : Int) (cookie : Nat)
  deriving DecidableEq, Repr

/-- A request descriptor `struct bsys_desc`. -/
structure bsys_desc where
  sysnr : Nat
  arga : Nat
  argb : Nat
  argc : Nat
  argd : Nat
  deriving DecidableEq, Repr

/-- Calls into code outside this file (the TCP core, the buffer pool, the NIC), in
the order they are made. -/
inductive ext_call where
  | tcp_new (fg : Option Nat)
  | tcp_nagle_disable (pcb : Nat)
  | tcp_arg (pcb api : Nat)
  | tcp_bind (fg : Option Nat) (pcb addr port : Nat)
  | tcp_connect (fg : Option Nat) (pcb addr port : Nat)
  | tcp_write (pcb base len : Nat)
  | tcp_output (fg : Option Nat) (pcb : Nat)
  | tcp_recved (fg : Option Nat) (pcb len : Nat)
  | tcp_close_with_reset (fg : Option Nat) (pcb : Nat)
  | tcp_abort (fg : Option Nat) (pcb : Nat)
  | pbuf_free (p : Nat)
  | fdir_add_perfect_filter (t : ip_tuple)
  | fdir_remove_perfect_filter (t : ip_tuple)
  | bsys_dispatch_remote (cpu : Nat)
  | cpu_run_on_one (cpu api home : Nat)
  deriving DecidableEq, Repr

/-- Build-time constants, tables and pure helpers that the sources use but do not
define. -/
structure Config where
  /-- Number of flow groups of the devices. -/
  ETH_MAX_TOTAL_FG : Nat
  /-- Number of CPUs; `fgs` has `ETH_MAX_TOTAL_FG + NCPU` entries. -/
  NCPU : Nat
  /-- Bound on the scatter-gather entries of one SENDV. -/
  MAX_SG_ENTRIES : Nat
  /-- The field `fgs[fg]->cur_cpu`. -/
  fgs_cur_cpu : Nat → Nat
  /-- The flow group `outbound_fg()` of a CPU. -/
  outbound_fg : Nat → Nat
  /-- The word the allocator leaves in the first eight bytes of a free element. -/
  mempool_hdr : Nat
  /-- The CPU whose CCB pool a slot of the datastore belongs to. -/
  pool_cpu : Nat → Nat
  /-- The address `mbuf_to_iomap(pkt, payload)`. -/
  mbuf_to_iomap : Nat → Nat → Nat
  /-- The address `mempool_pagemem_to_iomap(&id_mempool, id)` on a CPU. -/
  mempool_pagemem_to_iomap : Nat → Option Nat → Nat
  /-- The value `eth_dev_count`. -/
  eth_dev_count : Nat
  /-- The value `dev->data->nb_rx_fgs`. -/
  nb_rx_fgs : Nat
  /-- The bytes of the RSS key. -/
  rss_key : Nat → Nat
  /-- The address `CFG.host_addr.addr`. -/
  host_addr : Nat
  /-- The list `CFG.cpu[0 .. CFG.num_cpus - 1]`. -/
  cpus : List Nat
  /-- The capacity `LOCKED_BSYS_MAX_LEN` of an array `ksys_remote`. -/
  LOCKED_BSYS_MAX_LEN : Nat

/-- The memory and the per-CPU variables the file works on. -/
structure State where
  /-- The CCB datastore, by pool index. -/
  pcbs : Nat → tcpapi_pcb
  /-- The field `ready_queue.next` of the CCB in each slot. -/
  ready_queue_next : Nat → Option Nat
  /-- The per-CPU `pcb_ready_queue.queue`. -/
  pcb_ready_queue : Nat → Zygos.queue
  /-- The free elements of the per-CPU `pcb_mempool`. -/
  pcb_mempool : Nat → List Nat
  /-- The free elements of the per-CPU `id_mempool`. -/
  id_mempool : Nat → List Nat
  /-- The identity records, by pool index. -/
  ids : Nat → ip_tuple
  /-- The payload buffers. -/
  pbufs : Nat → pbuf
  /-- The field `pbuf_for_usys.next` of each payload buffer. -/
  pbuf_for_usys_next : Nat → Option Nat
  /-- The field `len` of each mbuf. -/
  mbuf_len : Nat → Nat
  /-- The per-CPU user event array `usys_arr`. -/
  usys_arr : Nat → List usys_event
  /-- The per-CPU array `ksys_remote`. -/
  ksys_remote : Nat → List bsys_desc
  /-- The per-CPU 16-bit counter `local_port`. -/
  local_port : Nat → Nat
  /-- The per-CPU current flow group set by `eth_fg_set_current`. -/
  eth_fg_current : Nat → Option Nat
  /-- The calls made so far into code outside this file. -/
  calls : List ext_call

/-- Apply a change to the CCB in slot `api`. -/
def set_pcb (api : Nat) (f : tcpapi_pcb → tcpapi_pcb) (s : State) : State :=
  { s with pcbs := upd s.pcbs api (f (s.pcbs api)) }

/-- Append one entry to the user event array of a CPU. -/
def usys_emit (cpu : Nat) (e : usys_event) (s : State) : State :=
  { s with usys_arr := upd s.usys_arr cpu (s.usys_arr cpu ++ [e]) }

/-- Record a call into code outside this file. -/
def ext (c : ext_call) (s : State) : State :=
  { s with calls := s.calls ++ [c] }

/-- The call `eth_fg_set_current(fgs[fg])` on a CPU. -/
def eth_fg_set_current (cpu fg : Nat) (s : State) : State :=
  { s with eth_fg_current := upd s.eth_fg_current cpu (some fg) }

/-- The statement `assert(c)`. -/
def c_assert (c : Bool) : Exec Unit :=
  if c then .ok () else .error Fault.assert_failed

/-- The read `fgs[fg]->cur_cpu`; the table has `ETH_MAX_TOTAL_FG + NCPU` entries. -/
def fgs_read (cfg : Config) (fg : Nat) : Exec Nat :=
  if fg < cfg.ETH_MAX_TOTAL_FG + cfg.NCPU then .ok (cfg.fgs_cur_cpu fg)
  else .error Fault.out_of_bounds

/-- Modelled from the spec: `mempool_alloc` of the absent allocator takes a free
element of the pool and fails when the pool is empty. -/
def mempool_alloc (pool : List Nat) : Option Nat × List Nat :=
  match pool with
  | [] => (none, [])
  | i :: rest => (some i, rest)

/-- Modelled from the spec: `mempool_free(&percpu_get(pcb_mempool), api)` of the absent
allocator returns the slot to the pool of the CPU and writes the allocator header
over the first word of the element, the word `alive` ("this overlaps with
mempool_hdr so we can tell if this pcb is allocated or not"). -/
def pcb_mempool_free (cfg : Config) (cpu api : Nat) (s : State) : State :=
  { s with
    pcb_mempool := upd s.pcb_mempool cpu (api :: s.pcb_mempool cpu)
    pcbs := upd s.pcbs api { s.pcbs api with alive := cfg.mempool_hdr } }

/-- Modelled from the spec: `mempool_free(&percpu_get(id_mempool), id)` returns the
identity record to the pool of the CPU. -/
def id_mempool_free (cpu id : Nat) (s : State) : State :=
  { s with id_mempool := upd s.id_mempool cpu (id :: s.id_mempool cpu) }

/-! ## dp/net/tcp_api.c: handles, ready queue, event generation -/

/-- Decode a handle on a CPU: `NULL` for a flow-group id outside the table and for a
slot whose first word is greater than 1; sets the current flow group otherwise.  The
slot is found by the index alone, in the datastore that the pools of all CPUs share; the
macro `MEMPOOL_SANITY_ACCESS` is empty, as in a build without the sanity checks of the
allocator. -/
def handle_to_tcpapi (cfg : Config) (cpu handle : Nat) (s : State) : Option Nat × State :=
  if cfg.ETH_MAX_TOTAL_FG + cfg.NCPU ≤ handle_to_fg_id handle then (none, s)
  else if 1 < (s.pcbs (handle_to_idx handle)).alive then
    (none, eth_fg_set_current cpu (handle_to_fg_id handle) s)
  else (some (handle_to_idx handle), eth_fg_set_current cpu (handle_to_fg_id handle) s)

/-- Enqueue the CCB on the ready queue of the running CPU, or set `READY` while
acknowledgements are outstanding. -/
def pcb_ready_enqueue (cfg : Config) (cpu api : Nat) (s : State) : Exec State :=
  match fgs_read cfg (handle_to_fg_id (s.pcbs api).handle) with
  | .error e => .error e
  | .ok home =>
    if home ≠ cpu then .error Fault.assert_failed
    else if (s.pcbs api).active_usys_count ≠ 0 then
      .ok (set_pcb api (fun a => { a with flags := a.flags ||| PCB_FLAG_READY }) s)
    else
      match queue_push_back (s.pcb_ready_queue cpu) s.ready_queue_next api with
      | .error e => .error e
      | .ok (q, next) =>
        .ok { s with pcb_ready_queue := upd s.pcb_ready_queue cpu q, ready_queue_next := next }

/-- The statement `api->active_usys_count++`. -/
def inc_active (api : Nat) (s : State) : State :=
  set_pcb api (fun a => { a with active_usys_count := a.active_usys_count + 1 }) s

/-- The `do ... while (p)` walk of one receive chain in `__tcp_gen_usys`. -/
def gen_recv_chain (cfg : Config) (cpu api : Nat) : Nat → Nat → State → Exec State
  | 0, _, _ => .error Fault.out_of_fuel
  | fuel + 1, p, s =>
    let pb := s.pbufs p
    let s1 := { s with mbuf_len := upd s.mbuf_len pb.mbuf pb.len }
    let s2 := usys_emit cpu (.USYS_TCP_RECV (s1.pcbs api).handle (s1.pcbs api).cookie
      (cfg.mbuf_to_iomap pb.mbuf pb.payload) pb.len) s1
    let s3 := inc_active api s2
    match pb.next with
    | none => .ok s3
    | some p1 => gen_recv_chain cfg cpu api fuel p1 s3

/-- The loop `queue_for_each_entry(pbufs, &api->pbuf_for_usys, pbuf_for_usys)` of
`__tcp_gen_usys`. -/
def gen_recv_queue (cfg : Config) (cpu api chain_fuel : Nat) :
    Nat → Option Nat → State → Exec State
  | _, none, s => .ok s
  | 0, some _, _ => .error Fault.out_of_fuel
  | fuel + 1, some p, s =>
    match gen_recv_chain cfg cpu api chain_fuel p s with
    | .error e => .error e
    | .ok s1 => gen_recv_queue cfg cpu api chain_fuel fuel (s1.pbuf_for_usys_next p) s1

/-- The KNOCK branch of `__tcp_gen_usys`. -/
def gen_knock (cfg : Config) (cpu api : Nat) (s : State) : State :=
  if (s.pcbs api).uevents &&& PCB_UEVENT_KNOCK ≠ 0 then
    inc_active api (usys_emit cpu (.USYS_TCP_KNOCK (s.pcbs api).handle
      (cfg.mempool_pagemem_to_iomap cpu (s.pcbs api).id)) s)
  else s

/-- The CONNECTED branch of `__tcp_gen_usys`. -/
def gen_connected (cpu api : Nat) (s : State) : State :=
  if (s.pcbs api).uevents &&& PCB_UEVENT_CONNECTED ≠ 0 then
    inc_active api (usys_emit cpu (.USYS_TCP_CONNECTED (s.pcbs api).handle
      (s.pcbs api).cookie RET_OK) s)
  else s

/-- The SENDV_RET branch of `__tcp_gen_usys`. -/
def gen_sendv_ret (cpu api : Nat) (s : State) : State :=
  if (s.pcbs api).len_xmited ≠ 0 then
    inc_active api (set_pcb api (fun a => { a with len_xmited := 0 })
      (usys_emit cpu (.USYS_TCP_SENDV_RET (s.pcbs api).handle (s.pcbs api).cookie
        (s.pcbs api).len_xmited) s))
  else s

/-- The SENT branch of `__tcp_gen_usys`. -/
def gen_sent (cpu api : Nat) (s : State) : State :=
  if (s.pcbs api).sent_len ≠ 0 then
    inc_active api (set_pcb api (fun a => { a with sent_len := 0 })
      (usys_emit cpu (.USYS_TCP_SENT (s.pcbs api).handle (s.pcbs api).cookie
        (s.pcbs api).sent_len) s))
  else s

/-- The DEAD branch of `__tcp_gen_usys`. -/
def gen_dead (cpu api : Nat) (s : State) : State :=
  if (s.pcbs api).alive = 0 then
    inc_active api (usys_emit cpu (.USYS_TCP_DEAD (s.pcbs api).handle (s.pcbs api).cookie) s)
  else s

/-- The KSYS_RET branch of `__tcp_gen_usys`. -/
def gen_ksys_ret (cpu api : Nat) (s : State) : State :=
  if (s.pcbs api).lasterr_sysnr ≠ 0 then
    inc_active api (set_pcb api (fun a => { a with lasterr_sysnr := 0, lasterr_err := 0 })
      (usys_emit cpu (.KSYS_RET (s.pcbs api).lasterr_sysnr (s.pcbs api).lasterr_err
        (s.pcbs api).cookie) s))
  else s

/-- The first part of `__tcp_gen_usys`: KNOCK, CONNECTED, the reset of `uevents`,
SENDV_RET and SENT. -/
def gen_usys_first (cfg : Config) (cpu api : Nat) (s : State) : State :=
  gen_sent cpu api (gen_sendv_ret cpu api (set_pcb api (fun a => { a with uevents := 0 })
    (gen_connected cpu api (gen_knock cfg cpu api s))))

/-- The last part of `__tcp_gen_usys`: DEAD and KSYS_RET. -/
def gen_usys_last (cpu api : Nat) (s : State) : State :=
  gen_ksys_ret cpu api (gen_dead cpu api s)

/-- Emit the pending events of a CCB into the event array of the running CPU. -/
def __tcp_gen_usys (cfg : Config) (cpu api fuel : Nat) (s : State) : Exec State :=
  if (s.pcbs api).flags ≠ 0 then .error Fault.assert_failed
  else if (s.pcbs api).active_usys_count ≠ 0 then .error Fault.assert_failed
  else
    let s5 := gen_usys_first cfg cpu api s
    match gen_recv_queue cfg cpu api fuel fuel (s5.pcbs api).pbuf_for_usys.head s5 with
    | .error e => .error e
    | .ok s6 =>
      match queue_clear fuel (s6.pcbs api).pbuf_for_usys s6.pbuf_for_usys_next with
      | .error e => .error e
      | .ok (q, next) =>
        .ok (gen_usys_last cpu api
          { set_pcb api (fun a => { a with pbuf_for_usys := q }) s6 with
            pbuf_for_usys_next := next })

/-- The switch of `usys_is_tcp`. -/
def usys_is_tcp (e : usys_event) : Bool :=
  match e with
  | .USYS_TCP_CONNECTED _ _ _ => true
  | .USYS_TCP_KNOCK _ _ => true
  | .USYS_TCP_RECV _ _ _ _ => true
  | .USYS_TCP_SENT _ _ _ => true
  | .USYS_TCP_DEAD _ _ => true
  | .USYS_TCP_SENDV_RET _ _ _ => true
  | .KSYS_RET _ _ _ => false

/-- The field `arga` of an entry of the event array: the handle of a TCP event. -/
def usys_arga (e : usys_event) : Nat :=
  match e with
  | .USYS_TCP_CONNECTED h _ _ => h
  | .USYS_TCP_KNOCK h _ => h
  | .USYS_TCP_RECV h _ _ _ => h
  | .USYS_TCP_SENT h _ _ => h
  | .USYS_TCP_DEAD h _ => h
  | .USYS_TCP_SENDV_RET h _ _ => h
  | .KSYS_RET sysnr _ _ => sysnr

/-- The switch of `ksys_is_tcp`. -/
def ksys_is_tcp (desc : bsys_desc) : Bool :=
  desc.sysnr = KSYS_TCP_CONNECT || desc.sysnr = KSYS_TCP_ACCEPT || desc.sysnr = KSYS_TCP_REJECT
    || desc.sysnr = KSYS_TCP_SEND || desc.sysnr = KSYS_TCP_SENDV
    || desc.sysnr = KSYS_TCP_RECV_DONE || desc.sysnr = KSYS_TCP_CLOSE

/-- The home CPU `fgs[handle_to_fg_id(arga)]->cur_cpu` of a descriptor. -/
def bsys_tcp_home_id (cfg : Config) (arga : Nat) : Exec Nat :=
  fgs_read cfg (handle_to_fg_id arga)

/-- The loop of `tcp_route_ksys` on a CPU over the descriptors `d[i]`, `d[i+1]`, ...;
the result is this part of the array as the loop leaves it. -/
def tcp_route_ksys (cfg : Config) (cpu : Nat) : List bsys_desc → State →
    Exec (List bsys_desc × State)
  | [], s => .ok ([], s)
  | d :: ds, s =>
    if !ksys_is_tcp d then
      match tcp_route_ksys cfg cpu ds s with
      | .error e => .error e
      | .ok (ds1, s1) => .ok (d :: ds1, s1)
    else
      match bsys_tcp_home_id cfg d.arga with
      | .error e => .error e
      | .ok home =>
        if home = cpu then
          match tcp_route_ksys cfg cpu ds s with
          | .error e => .error e
          | .ok (ds1, s1) => .ok (d :: ds1, s1)
        else if cfg.LOCKED_BSYS_MAX_LEN ≤ (s.ksys_remote home).length then
          .error Fault.assert_failed
        else
          match tcp_route_ksys cfg cpu ds
              { s with ksys_remote := upd s.ksys_remote home (s.ksys_remote home ++ [d]) } with
          | .error e => .error e
          | .ok (ds1, s1) => .ok ({ d with sysnr := KSYS_NOP } :: ds1, s1)

/-- The locked part of `__tcp_finish_usys`, run on a CPU for the CCB in slot `api`,
after the call of `bsys_dispatch_remote` (whose handler runs are steps of their own). -/
def __tcp_finish_usys (cfg : Config) (cpu api : Nat) (s : State) : Exec State :=
  let s0 := ext (.bsys_dispatch_remote cpu) s
  let s1 := set_pcb api (fun a => { a with active_usys_count := a.active_usys_count - 1 }) s0
  if (s1.pcbs api).active_usys_count = 0 ∧ (s1.pcbs api).flags &&& PCB_FLAG_CLOSED ≠ 0 then
    .ok (pcb_mempool_free cfg cpu api s1)
  else if (s1.pcbs api).active_usys_count = 0 ∧ (s1.pcbs api).flags &&& PCB_FLAG_READY ≠ 0 then
    pcb_ready_enqueue cfg cpu api
      (set_pcb api (fun a => { a with flags := a.flags &&& (255 ^^^ PCB_FLAG_READY) }) s1)
  else .ok s1

/-- The loop of `tcp_finish_usys` over the entries of the event array; a call sent
to another CPU with `cpu_run_on_one` runs there at once. -/
def tcp_finish_usys_loop (cfg : Config) (cpu : Nat) : List usys_event → State → Exec State
  | [], s => .ok s
  | e :: es, s =>
    if usys_is_tcp e then
      match bsys_tcp_home_id cfg (usys_arga e) with
      | .error f => .error f
      | .ok home =>
        let api := handle_to_idx (usys_arga e)
        let s0 := if home = cpu then s else ext (.cpu_run_on_one cpu api home) s
        match __tcp_finish_usys cfg home api s0 with
        | .error f => .error f
        | .ok s1 => tcp_finish_usys_loop cfg cpu es s1
    else tcp_finish_usys_loop cfg cpu es s

/-- Acknowledge every TCP event of the event array of a CPU. -/
def tcp_finish_usys (cfg : Config) (cpu : Nat) (s : State) : Exec State :=
  tcp_finish_usys_loop cfg cpu (s.usys_arr cpu) s

/-- Pop one CCB from the ready queue of the running CPU and emit its events. -/
def tcp_generate_usys (cfg : Config) (cpu fuel : Nat) (s : State) : Exec State :=
  match queue_pop_front (s.pcb_ready_queue cpu) s.ready_queue_next with
  | (none, _, _) => .ok s
  | (some n, q, next) =>
    __tcp_gen_usys cfg cpu n fuel
      { s with pcb_ready_queue := upd s.pcb_ready_queue cpu q, ready_queue_next := next }

/-- What one round of `tcp_steal_idle_wait` reads outside this file. -/
structure steal_env where
  /-- Some receive queue of the running CPU is ready. -/
  rx_ready : Bool
  /-- The flag `in_kernel` of each CPU. -/
  in_kernel : Nat → Bool
  /-- The number drawn by `lrand48_r`. -/
  rnd : Nat
  /-- The result of `spin_try_lock`. -/
  try_lock : Bool

/-- One round of the loop of `tcp_steal_idle_wait`; the flag tells that the function
returned in this round. -/
def tcp_steal_idle_wait (cfg : Config) (cpu fuel : Nat) (env : steal_env) (s : State) :
    Exec (Bool × State) :=
  if (s.ksys_remote cpu).length ≠ 0 then .ok (true, s)
  else if env.rx_ready then .ok (true, s)
  else
    let cands := cfg.cpus.filter (fun c =>
      !env.in_kernel c && (queue_front (s.pcb_ready_queue c)).isSome)
    if cands.length ≠ 0 then
      let cpu_id := cands.getD (env.rnd % cands.length) 0
      if env.try_lock then
        match queue_front (s.pcb_ready_queue cpu_id) with
        | none => .ok (false, s)
        | some api =>
          if (s.pcbs api).flags ≠ 0 then .error Fault.assert_failed
          else
            match queue_pop_front (s.pcb_ready_queue cpu_id) s.ready_queue_next with
            | (_, q, next) =>
              match __tcp_gen_usys cfg cpu api fuel
                { s with pcb_ready_queue := upd s.pcb_ready_queue cpu_id q,
                         ready_queue_next := next } with
              | .error e => .error e
              | .ok s1 => .ok (true, s1)
      else .ok (false, s)
    else .ok (false, s)

/-! ## dp/net/tcp_api.c: descriptor handlers -/

/-- Queue one received buffer for emission and enqueue the CCB. -/
def recv_a_pbuf (cfg : Config) (cpu api p : Nat) (s : State) : Exec State :=
  match queue_push_back (s.pcbs api).pbuf_for_usys s.pbuf_for_usys_next p with
  | .error e => .error e
  | .ok (q, next) =>
    let s1 := { set_pcb api (fun a => { a with pbuf_for_usys := q }) s with
      pbuf_for_usys_next := next }
    if (s1.pcbs api).pbuf_for_usys.tail ≠ some p then .error Fault.assert_failed
    else pcb_ready_enqueue cfg cpu api s1

/-- The loop `while (tmp) { recv_a_pbuf(api, tmp); tmp = tmp->tcp_api_next; }`. -/
def accept_loop (cfg : Config) (cpu api : Nat) : Nat → Option Nat → State → Exec State
  | _, none, s => .ok s
  | 0, some _, _ => .error Fault.out_of_fuel
  | fuel + 1, some tmp, s =>
    match recv_a_pbuf cfg cpu api tmp s with
    | .error e => .error e
    | .ok s1 => accept_loop cfg cpu api fuel (s1.pbufs tmp).tcp_api_next s1

/-- The handler of ACCEPT. -/
def bsys_tcp_accept (cfg : Config) (cpu handle cookie fuel : Nat) (s : State) : Exec State :=
  match handle_to_tcpapi cfg cpu handle s with
  | (none, s0) => .ok (usys_emit cpu (.KSYS_RET KSYS_TCP_ACCEPT (-RET_BADH) 0) s0)
  | (some api, s0) =>
    let s1 :=
      match (s0.pcbs api).id with
      | some id => set_pcb api (fun a => { a with id := none }) (id_mempool_free cpu id s0)
      | none => s0
    let s2 := set_pcb api (fun a => { a with cookie := cookie, accepted := true }) s1
    accept_loop cfg cpu api fuel (s2.pcbs api).recvd s2

/-- The handler of REJECT, which stops the program. -/
def bsys_tcp_reject (_handle : Nat) (_s : State) : Exec State := .error Fault.fatal

/-- The handler of SEND, which stops the program. -/
def bsys_tcp_send (_handle _addr _len : Nat) (_s : State) : Exec State := .error Fault.fatal

/-- One scatter-gather entry `struct sg_entry`. -/
structure sg_entry where
  base : Nat
  len : Nat
  deriving DecidableEq, Repr

/-- What SENDV reads from user memory and from the TCP core: the checks of
`uaccess_okay`, the entries, and for the i-th round of the loop the value of
`api->pcb->snd_buf` and the result of `tcp_write`. -/
structure sendv_env where
  ents_okay : Bool
  ents : Nat → sg_entry
  buf_okay : Nat → Bool
  snd_buf : Nat → Nat
  tcp_write : Nat → err_t

/-- The loop of `bsys_tcp_sendv`: `n` rounds are left, `i` is the index of the round,
`acc` the local `len_xmited`. -/
def sendv_loop (env : sendv_env) (api : Nat) : Nat → Nat → Nat → State → Exec (Nat × State)
  | 0, _, acc, s => .ok (acc, s)
  | n + 1, i, acc, s =>
    match (s.pcbs api).pcb with
    | none => .error Fault.null_deref
    | some pcb =>
      let len := (env.ents i).len
      let lim := min (env.snd_buf i) 0xFFFF
      let buf_full := decide (lim < len)
      if !env.buf_okay i then .ok (acc, s)
      else
        let len1 := if buf_full then lim else len
        if len1 = 0 then .ok (acc, s)
        else
          let s1 := ext (.tcp_write pcb (env.ents i).base len1) s
          if env.tcp_write i ≠ err_t.ERR_OK then .ok (acc, s1)
          else if buf_full then .ok (acc + len1, s1)
          else sendv_loop env api n (i + 1) (acc + len1) s1

/-- The handler of SENDV.  The parameter `nrents` is an `unsigned int`: the handler gets
the low 32 bits of `nrents`; the local `len_xmited` is a `size_t` and the field
`api->len_xmited` an `int`. -/
def bsys_tcp_sendv (cfg : Config) (cpu handle nrents : Nat) (env : sendv_env) (s : State) :
    Exec State :=
  match handle_to_tcpapi cfg cpu handle s with
  | (none, s0) => .ok (usys_emit cpu (.KSYS_RET KSYS_TCP_SENDV (-RET_BADH) 0) s0)
  | (some api, s0) =>
    if (s0.pcbs api).alive = 0 then
      pcb_ready_enqueue cfg cpu api
        (set_pcb api (fun a => { a with lasterr_sysnr := KSYS_TCP_SENDV,
                                        lasterr_err := -RET_CLOSED }) s0)
    else if !env.ents_okay then
      pcb_ready_enqueue cfg cpu api
        (set_pcb api (fun a => { a with lasterr_sysnr := KSYS_TCP_SENDV,
                                        lasterr_err := -RET_FAULT }) s0)
    else
      match sendv_loop env api (min (nrents % 4294967296) cfg.MAX_SG_ENTRIES) 0 0 s0 with
      | .error e => .error e
      | .ok (len_xmited, s1) =>
        if len_xmited ≠ 0 then
          match (s1.pcbs api).pcb with
          | none => .error Fault.null_deref
          | some pcb =>
            let s2 := ext (.tcp_output (some (handle_to_fg_id handle)) pcb) s1
            pcb_ready_enqueue cfg cpu api
              (set_pcb api (fun a => { a with len_xmited := int_wrap (a.len_xmited + len_xmited) })
                s2)
        else .ok s1

/-- The loop of `bsys_tcp_recv_done` over the list `recvd`. -/
def recv_done_loop : Nat → Option Nat → Nat → State → Exec (Option Nat × State)
  | _, none, _, s => .ok (none, s)
  | 0, some _, _, _ => .error Fault.out_of_fuel
  | fuel + 1, some r, len, s =>
    if len < (s.pbufs r).len then .ok (some r, s)
    else recv_done_loop fuel (s.pbufs r).tcp_api_next (len - (s.pbufs r).len)
      (ext (.pbuf_free r) s)

/-- The handler of RECV_DONE. -/
def bsys_tcp_recv_done (cfg : Config) (cpu handle len fuel : Nat) (s : State) : Exec State :=
  match handle_to_tcpapi cfg cpu handle s with
  | (none, s0) => .ok (usys_emit cpu (.KSYS_RET KSYS_TCP_RECV_DONE (-RET_BADH) 0) s0)
  | (some api, s0) =>
    let s1 :=
      match (s0.pcbs api).pcb with
      | some pcb => ext (.tcp_recved (some (handle_to_fg_id handle)) pcb len) s0
      | none => s0
    match recv_done_loop fuel (s0.pcbs api).recvd len s1 with
    | .error e => .error e
    | .ok (recvd, s2) => .ok (set_pcb api (fun a => { a with recvd := recvd }) s2)

/-- The loop of `bsys_tcp_close` that frees the list `recvd`. -/
def close_loop : Nat → Option Nat → State → Exec State
  | _, none, s => .ok s
  | 0, some _, _ => .error Fault.out_of_fuel
  | fuel + 1, some r, s => close_loop fuel (s.pbufs r).tcp_api_next (ext (.pbuf_free r) s)

/-- The filter removal `remove_fdir_filter(id)`: the filter has the addresses and the
ports of the identity record with source and destination exchanged. -/
def remove_fdir_filter (id : Nat) (s : State) : State :=
  ext (.fdir_remove_perfect_filter
    (ip_tuple.mk (s.ids id).dst_ip (s.ids id).src_ip (s.ids id).dst_port (s.ids id).src_port)) s

/-- The reset-close of the TCP-core connection in `bsys_tcp_close`, if there is one. -/
def close_reset (handle api : Nat) (s : State) : State :=
  match (s.pcbs api).pcb with
  | some pcb => ext (.tcp_close_with_reset (some (handle_to_fg_id handle)) pcb) s
  | none => s

/-- The release of the identity record in `bsys_tcp_close`, if there is one. -/
def close_release_id (cpu api : Nat) (s : State) : State :=
  match (s.pcbs api).id with
  | some id => id_mempool_free cpu id (remove_fdir_filter id s)
  | none => s

/-- The end of `bsys_tcp_close`: set `CLOSED` while events are outstanding, else free. -/
def close_finish (cfg : Config) (cpu api : Nat) (s : State) : State :=
  if (s.pcbs api).active_usys_count ≠ 0 then
    set_pcb api (fun a => { a with flags := a.flags ||| PCB_FLAG_CLOSED }) s
  else pcb_mempool_free cfg cpu api s

/-- The handler of CLOSE. -/
def bsys_tcp_close (cfg : Config) (cpu handle fuel : Nat) (s : State) : Exec State :=
  match handle_to_tcpapi cfg cpu handle s with
  | (none, s0) => .ok (usys_emit cpu (.KSYS_RET KSYS_TCP_CLOSE (-RET_BADH) 0) s0)
  | (some api, s0) =>
    match close_loop fuel ((close_reset handle api s0).pcbs api).recvd
        (close_reset handle api s0) with
    | .error e => .error e
    | .ok s2 => .ok (close_finish cfg cpu api (close_release_id cpu api s2))

/-! ## dp/net/tcp_api.c: TCP-core callbacks -/

/-- Mark a connection dead; without a CCB the DEAD event goes out at once with handle 0. -/
def mark_dead (cfg : Config) (cpu : Nat) (api : Option Nat) (cookie : Nat) (s : State) :
    Exec State :=
  match api with
  | none => .ok (usys_emit cpu (.USYS_TCP_DEAD 0 cookie) s)
  | some a =>
    let s1 :=
      match (s.pcbs a).id with
      | some id => remove_fdir_filter id s
      | none => s
    pcb_ready_enqueue cfg cpu a (set_pcb a (fun x => { x with alive := 0 }) s1)

/-- The receive callback. -/
def on_recv (cfg : Config) (cpu arg : Nat) (p : Option Nat) (s : State) : Exec (err_t × State) :=
  match p with
  | none =>
    match mark_dead cfg cpu (some arg) (s.pcbs arg).cookie s with
    | .error e => .error e
    | .ok s1 => .ok (err_t.ERR_OK, s1)
  | some p =>
    let linked : Exec State :=
      match (s.pcbs arg).recvd with
      | none => .ok (set_pcb arg (fun a => { a with recvd := some p, recvd_tail := some p }) s)
      | some _ =>
        match (s.pcbs arg).recvd_tail with
        | none => .error Fault.null_deref
        | some t =>
          .ok (set_pcb arg (fun a => { a with recvd_tail := some p })
            { s with pbufs := upd s.pbufs t { s.pbufs t with tcp_api_next := some p } })
    match linked with
    | .error e => .error e
    | .ok s1 =>
      let s2 := { s1 with pbufs := upd s1.pbufs p { s1.pbufs p with tcp_api_next := none } }
      if !(s2.pcbs arg).accepted then .ok (err_t.ERR_OK, s2)
      else
        match recv_a_pbuf cfg cpu arg p s2 with
        | .error e => .error e
        | .ok s3 => .ok (err_t.ERR_OK, s3)

/-- The error callback. -/
def on_err (cfg : Config) (cpu : Nat) (arg : Option Nat) (err : err_t) (s : State) :
    Exec State :=
  match arg with
  | none => .ok s
  | some api =>
    let cookie := (s.pcbs api).cookie
    if err = err_t.ERR_ABRT ∨ err = err_t.ERR_RST ∨ err = err_t.ERR_CLSD then
      match mark_dead cfg cpu (some api) cookie s with
      | .error e => .error e
      | .ok s1 => .ok (set_pcb api (fun a => { a with pcb := none }) s1)
    else .ok s

/-- The sent callback.  The parameter `len` is a `u16_t`: the callback gets the low 16 bits
of `len`; the field `sent_len` is an `int`, and a sum past `INT_MAX` is stored as the
wrapped value. -/
def on_sent (cfg : Config) (cpu arg len : Nat) (s : State) : Exec (err_t × State) :=
  match pcb_ready_enqueue cfg cpu arg
      (set_pcb arg (fun a => { a with sent_len := int_wrap (a.sent_len + (len % 65536 : Nat)) })
        s) with
  | .error e => .error e
  | .ok s1 => .ok (err_t.ERR_OK, s1)

/-- The byte swap of a 32-bit word (`ntoh32`, `hton32`, `htonl` on this little-endian
machine). -/
def bswap32 (x : Nat) : Nat :=
  ((x &&& 0xff) <<< 24) ||| (((x >>> 8) &&& 0xff) <<< 16) |||
    (((x >>> 16) &&& 0xff) <<< 8) ||| ((x >>> 24) &&& 0xff)

/-- The byte swap of a 16-bit word (`htons`). -/
def bswap16 (x : Nat) : Nat := ((x &&& 0xff) <<< 8) ||| ((x >>> 8) &&& 0xff)

/-- The fields of the new `struct tcp_pcb` that `on_accept` reads. -/
structure tcp_pcb_info where
  pcb : Nat
  remote_ip : Nat
  remote_port : Nat
  local_port : Nat
  deriving DecidableEq, Repr

/-- The initialisation both `on_accept` and `bsys_tcp_connect` give a fresh CCB. -/
def init_pcb_fields (pcb cookie : Nat) (accepted : Bool) (a : tcpapi_pcb) : tcpapi_pcb :=
  { a with pcb := some pcb, alive := 1, cookie := cookie, recvd := none, recvd_tail := none,
           accepted := accepted, sent_len := 0, len_xmited := 0, pbuf_for_usys := init_queue,
           active_usys_count := 0, uevents := 0, flags := 0 }

/-- The statements of `on_accept` between the two allocations and the enqueue: the
initialisation of the CCB, the identity record, the handle and the KNOCK bit. -/
def accept_init (cfg : Config) (cur_fg : Nat) (t : tcp_pcb_info) (api id : Nat) (s : State) :
    State :=
  let s3 := { set_pcb api (init_pcb_fields t.pcb 0 false) s with
    ready_queue_next := upd s.ready_queue_next api none }
  let s4 := ext (.tcp_arg t.pcb api) (ext (.tcp_nagle_disable t.pcb) s3)
  let tuple := ip_tuple.mk (bswap32 t.remote_ip) cfg.host_addr t.remote_port t.local_port
  let s5 := { s4 with ids := upd s4.ids id tuple }
  let handle := tcpapi_to_handle cur_fg api
  let s6 := set_pcb api (fun a => { a with id := some id, handle := handle }) s5
  set_pcb api (fun a => { a with uevents := a.uevents ||| PCB_UEVENT_KNOCK }) s6

/-- The accept callback, run on a CPU for a connection of flow group `cur_fg`. -/
def on_accept (cfg : Config) (cpu cur_fg : Nat) (t : tcp_pcb_info) (s : State) :
    Exec (err_t × State) :=
  match mempool_alloc (s.pcb_mempool cpu) with
  | (none, _) => .ok (err_t.ERR_MEM, s)
  | (some api, pool1) =>
    let s1 := { s with pcb_mempool := upd s.pcb_mempool cpu pool1 }
    match mempool_alloc (s1.id_mempool cpu) with
    | (none, _) => .ok (err_t.ERR_MEM, pcb_mempool_free cfg cpu api s1)
    | (some id, idpool1) =>
      let s2 := { s1 with id_mempool := upd s1.id_mempool cpu idpool1 }
      match pcb_ready_enqueue cfg cpu api (accept_init cfg cur_fg t api id s2) with
      | .error e => .error e
      | .ok s8 => .ok (err_t.ERR_OK, s8)

/-- The connected callback. -/
def on_connected (cfg : Config) (cpu arg : Nat) (err : err_t) (s : State) :
    Exec (err_t × State) :=
  if err ≠ err_t.ERR_OK then
    .ok (err, usys_emit cpu (.USYS_TCP_CONNECTED (s.pcbs arg).handle (s.pcbs arg).cookie
      RET_CONNREFUSED) s)
  else
    match pcb_ready_enqueue cfg cpu arg
        (set_pcb arg (fun a => { a with uevents := a.uevents ||| PCB_UEVENT_CONNECTED }) s) with
    | .error e => .error e
    | .ok s1 => .ok (err_t.ERR_OK, s1)

/-! ## dp/net/tcp_api.c: outbound connections -/

/-- Byte `k` of a word as it lies in memory on this little-endian machine. -/
def le_byte (x k : Nat) : Nat := (x >>> (8 * k)) &&& 0xff

/-- The array `input[12]` after the four `memcpy` calls of `compute_toeplitz_hash`. -/
def toeplitz_input (src_addr dst_addr src_port dst_port i : Nat) : Nat :=
  if i < 4 then le_byte src_addr i
  else if i < 8 then le_byte dst_addr (i - 4)
  else if i < 10 then le_byte src_port (i - 8)
  else le_byte dst_port (i - 10)

/-- One round of the inner loop of `compute_toeplitz_hash` on `(result, key_part)`. -/
def toeplitz_bit (key input : Nat → Nat) (i j : Nat) (st : Nat × Nat) : Nat × Nat :=
  let result := if input i &&& j ≠ 0 then st.1 ^^^ st.2 else st.1
  let key_part := (st.2 <<< 1) % 2 ^ 32
  (result, if key (i + 4) &&& j ≠ 0 then key_part ||| 1 else key_part)

/-- The Toeplitz hash of the 12 input bytes under the key. -/
def compute_toeplitz_hash (key : Nat → Nat) (src_addr dst_addr src_port dst_port : Nat) : Nat :=
  let input := toeplitz_input src_addr dst_addr src_port dst_port
  let key_part0 := bswap32 (key 0 ||| (key 1 <<< 8) ||| (key 2 <<< 16) ||| (key 3 <<< 24))
  ((List.range 12).foldl (fun st i =>
    [128, 64, 32, 16, 8, 4, 2, 1].foldl (fun st j => toeplitz_bit key input i j st) st)
    (0, key_part0)).1

/-- What CONNECT reads from user memory, the NIC and the TCP core. -/
structure connect_env where
  /-- The tuple copied by `copy_from_user`, or nothing when the copy fails. -/
  user_id : Option ip_tuple
  /-- The call `fdir_add_perfect_filter` returned at least 0. -/
  fdir_ok : Bool
  /-- The call `rss_hash_conf_get` returned at least 0. -/
  rss_ok : Bool
  /-- The result of `tcp_new`. -/
  tcp_new : Option Nat
  /-- The result of `tcp_bind`. -/
  tcp_bind : err_t
  /-- The result of `tcp_connect`. -/
  tcp_connect : err_t

/-- The flow-director attempt `get_port_with_fdir`. -/
def get_port_with_fdir (cfg : Config) (cpu : Nat) (id : ip_tuple) (fdir_ok : Bool) (s : State) :
    Option Nat × State :=
  let s1 := ext (.fdir_add_perfect_filter
    (ip_tuple.mk id.dst_ip id.src_ip id.dst_port id.src_port)) s
  if !fdir_ok then (none, s1)
  else (some (cfg.outbound_fg cpu), eth_fg_set_current cpu (cfg.outbound_fg cpu) s1)

/-- The loop `while (1)` of `get_local_port_and_set_queue`.  With one device the flow
group `rx_fgs[k]` of the device is the flow group `fgs[k]`. -/
def port_search (cfg : Config) (cpu : Nat) : Nat → ip_tuple → State →
    Exec (Option Nat × ip_tuple × State)
  | 0, _, _ => .error Fault.out_of_fuel
  | fuel + 1, id, s =>
    let s1 :=
      if (cpu + 1) * PORTS_PER_CPU ≤ s.local_port cpu then
        { s with local_port := upd s.local_port cpu ((cpu * PORTS_PER_CPU + 1) % 65536) }
      else s
    let hash := compute_toeplitz_hash cfg.rss_key (bswap32 id.dst_ip) (bswap32 id.src_ip)
      (bswap16 id.dst_port) (bswap16 id.src_port)
    let fg_idx := hash &&& ((cfg.nb_rx_fgs + 2 ^ 32 - 1) % 2 ^ 32)
    if cfg.nb_rx_fgs ≤ fg_idx then .error Fault.out_of_bounds
    else
      match fgs_read cfg fg_idx with
      | .error e => .error e
      | .ok cur_cpu =>
        if cur_cpu = cpu then
          .ok (some fg_idx, id, eth_fg_set_current cpu fg_idx s1)
        else
          let port := (s1.local_port cpu + 1) % 65536
          port_search cfg cpu fuel { id with src_port := port }
            { s1 with local_port := upd s1.local_port cpu port }

/-- Choose the local port of an outbound connection and the flow group it binds to. -/
def get_local_port_and_set_queue (cfg : Config) (cpu fuel : Nat) (id : ip_tuple)
    (env : connect_env) (s : State) : Exec (Option Nat × ip_tuple × State) :=
  if 1 < cfg.eth_dev_count then .error Fault.fatal
  else
    let s1 :=
      if s.local_port cpu = 0 then
        { s with local_port := upd s.local_port cpu ((cpu * PORTS_PER_CPU) % 65536) }
      else s
    let port := (s1.local_port cpu + 1) % 65536
    let s2 := { s1 with local_port := upd s1.local_port cpu port }
    let id1 := { id with src_port := port }
    match get_port_with_fdir cfg cpu id1 env.fdir_ok s2 with
    | (some fg, s3) => .ok (some fg, id1, s3)
    | (none, s3) =>
      if !env.rss_ok then .ok (none, id1, s3)
      else port_search cfg cpu fuel id1 s3

/-- The two exits `connect_fail` and `pcb_fail` of `bsys_tcp_connect`. -/
def connect_fail (cpu : Nat) (abort : Option (Option Nat × Nat)) (s : State) : State :=
  let s1 :=
    match abort with
    | some (fg, pcb) => ext (.tcp_abort fg pcb) s
    | none => s
  usys_emit cpu (.KSYS_RET KSYS_TCP_CONNECT (-RET_NOMEM) 0) s1

/-- The statements of `bsys_tcp_connect` between the allocation and `tcp_bind`: the
initialisation of the CCB, `tcp_arg` and the handle. -/
def connect_init (cur_fg pcb cookie api : Nat) (s : State) : State :=
  let s5 := { set_pcb api (init_pcb_fields pcb cookie true) s with
    ready_queue_next := upd s.ready_queue_next api none }
  let s6 := ext (.tcp_arg pcb api) s5
  set_pcb api (fun a => { a with handle := tcpapi_to_handle cur_fg api }) s6

/-- The handler of CONNECT. -/
def bsys_tcp_connect (cfg : Config) (cpu cookie fuel : Nat) (env : connect_env) (s : State) :
    Exec State :=
  match env.user_id with
  | none => .ok (usys_emit cpu (.KSYS_RET KSYS_TCP_CONNECT (-RET_FAULT) 0) s)
  | some tmp0 =>
    match get_local_port_and_set_queue cfg cpu fuel { tmp0 with src_ip := cfg.host_addr }
        env s with
    | .error e => .error e
    | .ok (none, _, s1) => .ok (usys_emit cpu (.KSYS_RET KSYS_TCP_CONNECT (-RET_FAULT) 0) s1)
    | .ok (some cur_fg, tmp, s1) =>
      let s2 := ext (.tcp_new (some cur_fg)) s1
      match env.tcp_new with
      | none => .ok (connect_fail cpu none s2)
      | some pcb =>
        let s3 := ext (.tcp_nagle_disable pcb) s2
        match mempool_alloc (s3.pcb_mempool cpu) with
        | (none, _) => .ok (connect_fail cpu (some (some cur_fg, pcb)) s3)
        | (some api, pool1) =>
          let s4 := { s3 with pcb_mempool := upd s3.pcb_mempool cpu pool1 }
          let s7 := connect_init cur_fg pcb cookie api s4
          let s8 := ext (.tcp_bind (some cur_fg) pcb (bswap32 tmp.src_ip) tmp.src_port) s7
          if env.tcp_bind ≠ err_t.ERR_OK then
            .ok (connect_fail cpu (some (some cur_fg, pcb)) s8)
          else
            let s9 := ext (.tcp_connect (some cur_fg) pcb (bswap32 tmp.dst_ip) tmp.dst_port) s8
            if env.tcp_connect ≠ err_t.ERR_OK then
              .ok (connect_fail cpu (some (some cur_fg, pcb)) s9)
            else
              .ok (usys_emit cpu (.KSYS_RET KSYS_TCP_CONNECT ((s9.pcbs api).handle : Int)
                (s9.pcbs api).cookie) s9)

/-! ## The transition system of the entry points -/

/-- One entry into the file: a TCP-core callback, a descriptor handler, a drain, a
steal round or the acknowledgement of an event batch, with what it reads from outside. -/
inductive Action where
  | accept_cb (cpu cur_fg : Nat) (t : tcp_pcb_info)
  | recv_cb (cpu arg : Nat) (p : Option Nat) (fill : List (Nat × pbuf))
  | sent_cb (cpu arg len : Nat)
  | err_cb (cpu : Nat) (arg : Option Nat) (err : err_t)
  | connected_cb (cpu arg : Nat) (err : err_t)
  | connect (cpu cookie fuel : Nat) (env : connect_env)
  | accept (cpu handle cookie fuel : Nat)
  | sendv (cpu handle nrents : Nat) (env : sendv_env)
  | recv_done (cpu handle len fuel : Nat)
  | close (cpu handle fuel : Nat)
  | generate (cpu fuel : Nat)
  | steal (cpu fuel : Nat) (env : steal_env)
  | finish (cpu : Nat)

/-- The TCP core writes the buffers it is about to deliver. -/
def fill_pbufs (fill : List (Nat × pbuf)) (s : State) : State :=
  fill.foldl (fun st w => { st with pbufs := upd st.pbufs w.1 w.2 }) s

/-- Run one entry point.  After the acknowledgement of a batch the event array of
the CPU is empty again for the next batch. -/
def step (cfg : Config) (s : State) : Action → Exec State
  | .accept_cb cpu cur_fg t => (on_accept cfg cpu cur_fg t s).map Prod.snd
  | .recv_cb cpu arg p fill => (on_recv cfg cpu arg p (fill_pbufs fill s)).map Prod.snd
  | .sent_cb cpu arg len => (on_sent cfg cpu arg len s).map Prod.snd
  | .err_cb cpu arg err => on_err cfg cpu arg err s
  | .connected_cb cpu arg err => (on_connected cfg cpu arg err s).map Prod.snd
  | .connect cpu cookie fuel env => bsys_tcp_connect cfg cpu cookie fuel env s
  | .accept cpu handle cookie fuel => bsys_tcp_accept cfg cpu handle cookie fuel s
  | .sendv cpu handle nrents env => bsys_tcp_sendv cfg cpu handle nrents env s
  | .recv_done cpu handle len fuel => bsys_tcp_recv_done cfg cpu handle len fuel s
  | .close cpu handle fuel => bsys_tcp_close cfg cpu handle fuel s
  | .generate cpu fuel => tcp_generate_usys cfg cpu fuel s
  | .steal cpu fuel env => (tcp_steal_idle_wait cfg cpu fuel env s).map Prod.snd
  | .finish cpu =>
    (tcp_finish_usys cfg cpu s).map (fun s1 => { s1 with usys_arr := upd s1.usys_arr cpu [] })

/-- The CCB a callback is given is allocated: its first word is 0 or 1. -/
def cb_arg_ok (s : State) (arg : Nat) : Bool := decide ((s.pcbs arg).alive ≤ 1)

/-- An assumption about the application, which no handler checks: a descriptor is handled
on the home CPU of its handle (the routing of `tcp_route_ksys`), and a handle that names a
CCB names one whose own handle has this home CPU as well (the condition that
`pcb_ready_enqueue` asserts).  The handlers themselves test only the range of the
flow-group id and the first word of the slot. -/
def handle_ok (cfg : Config) (s : State) (cpu handle : Nat) : Bool :=
  (decide (cfg.ETH_MAX_TOTAL_FG + cfg.NCPU ≤ handle_to_fg_id handle)
    || decide (cfg.fgs_cur_cpu (handle_to_fg_id handle) = cpu))
  && (match (handle_to_tcpapi cfg cpu handle s).1 with
      | none => true
      | some api =>
        match fgs_read cfg (handle_to_fg_id (s.pcbs api).handle) with
        | .ok home => decide (home = cpu)
        | .error _ => false)

/-- What the surroundings guarantee when they enter the file: a callback is given an
allocated CCB, CONNECT runs on one of the `NCPU` CPUs, and the other descriptors are
routed by their handle. -/
def env_ok (cfg : Config) (s : State) : Action → Bool
  | .accept_cb _ _ _ => true
  | .recv_cb _ arg _ fill => cb_arg_ok (fill_pbufs fill s) arg
  | .sent_cb _ arg _ => cb_arg_ok s arg
  | .err_cb _ arg _ =>
    match arg with
    | none => true
    | some a => cb_arg_ok s a
  | .connected_cb _ arg _ => cb_arg_ok s arg
  | .connect cpu _ _ _ => decide (cpu < cfg.NCPU)
  | .accept cpu handle _ _ => handle_ok cfg s cpu handle
  | .sendv cpu handle _ _ => handle_ok cfg s cpu handle
  | .recv_done cpu handle _ _ => handle_ok cfg s cpu handle
  | .close cpu handle _ => handle_ok cfg s cpu handle
  | .generate _ _ => true
  | .steal _ _ _ => true
  | .finish _ => true

/-- The CCB memory before first use: a free element with every other field zero. -/
def blank_pcb (cfg : Config) : tcpapi_pcb :=
  { alive := cfg.mempool_hdr, pcb := none, cookie := 0, id := none, handle := 0, recvd := none,
    recvd_tail := none, accepted := false, sent_len := 0, len_xmited := 0,
    pbuf_for_usys := init_queue, active_usys_count := 0, uevents := 0, flags := 0,
    lasterr_sysnr := 0, lasterr_err := 0, queue := 0 }

/-- The state after `tcp_api_init_cpu` on every CPU: every slot is a free element of
the pool of its CPU and every queue is empty.  The pools `pcb_pool` and `id_pool` and
the buffer memory are given. -/
def init_state (cfg : Config) (pcb_pool id_pool : Nat → List Nat) (pbufs : Nat → pbuf) : State :=
  { pcbs := fun _ => blank_pcb cfg
    ready_queue_next := fun _ => none
    pcb_ready_queue := fun _ => init_queue
    pcb_mempool := pcb_pool
    id_mempool := id_pool
    ids := fun _ => ip_tuple.mk 0 0 0 0
    pbufs := pbufs
    pbuf_for_usys_next := fun _ => none
    mbuf_len := fun _ => 0
    usys_arr := fun _ => []
    ksys_remote := fun _ => []
    local_port := fun _ => 0
    eth_fg_current := fun _ => none
    calls := [] }

/-- Run a list of entry points, each under the guarantees of the surroundings. -/
def run (cfg : Config) : State → List Action → Exec State
  | s, [] => .ok s
  | s, a :: as =>
    if env_ok cfg s a then
      match step cfg s a with
      | .error e => .error e
      | .ok s1 => run cfg s1 as
    else .error Fault.fatal

/-- The assumptions on the constants: a free element reads as more than 1 in its first
word, flow-group ids fit the 16 bits of a handle, and the outbound flow group of a CPU
is owned by that CPU. -/
structure Config.wf (cfg : Config) : Prop where
  hdr : 1 < cfg.mempool_hdr
  fg_bits : cfg.ETH_MAX_TOTAL_FG + cfg.NCPU ≤ 2 ^ 16
  outbound_lt : ∀ c, c < cfg.NCPU → cfg.outbound_fg c < cfg.ETH_MAX_TOTAL_FG + cfg.NCPU
  outbound_home : ∀ c, c < cfg.NCPU → cfg.fgs_cur_cpu (cfg.outbound_fg c) = c

/-- The initial pools: each CPU holds slots of its own part of the datastore. -/
def pool_wf (cfg : Config) (pcb_pool : Nat → List Nat) : Prop :=
  ∀ c i, i ∈ pcb_pool c → cfg.pool_cpu i = c ∧ i < MAX_PCBS

/-- The states the entry points can bring about from an initial state. -/
inductive Reachable (cfg : Config) : State → Prop where
  | init (pcb_pool id_pool : Nat → List Nat) (pbufs : Nat → pbuf) :
      pool_wf cfg pcb_pool → Reachable cfg (init_state cfg pcb_pool id_pool pbufs)
  | step (s s1 : State) (a : Action) :
      Reachable cfg s → env_ok cfg s a = true → step cfg s a = .ok s1 → Reachable cfg s1

/-! ## Notions the statements use -/

/-- The RECV event of one link of a receive chain. -/
def recv_event (cfg : Config) (a : tcpapi_pcb) (pb : pbuf) : usys_event :=
  .USYS_TCP_RECV a.handle a.cookie (cfg.mbuf_to_iomap pb.mbuf pb.payload) pb.len

/-- The event sequence the ready pipeline is specified to emit for a CCB whose queued
buffers have the links `links`, chain by chain in queue order. -/
def gen_usys_events (cfg : Config) (cpu : Nat) (a : tcpapi_pcb) (links : List pbuf) :
    List usys_event :=
  (if a.uevents &&& PCB_UEVENT_KNOCK ≠ 0 then
      [.USYS_TCP_KNOCK a.handle (cfg.mempool_pagemem_to_iomap cpu a.id)] else []) ++
  (if a.uevents &&& PCB_UEVENT_CONNECTED ≠ 0 then
      [.USYS_TCP_CONNECTED a.handle a.cookie RET_OK] else []) ++
  (if a.len_xmited ≠ 0 then [.USYS_TCP_SENDV_RET a.handle a.cookie a.len_xmited] else []) ++
  (if a.sent_len ≠ 0 then [.USYS_TCP_SENT a.handle a.cookie a.sent_len] else []) ++
  links.map (recv_event cfg a) ++
  (if a.alive = 0 then [.USYS_TCP_DEAD a.handle a.cookie] else []) ++
  (if a.lasterr_sysnr ≠ 0 then [.KSYS_RET a.lasterr_sysnr a.lasterr_err a.cookie] else [])

/-- The events of the first part of the emission: KNOCK, CONNECTED, SENDV_RET, SENT. -/
def first_events (cfg : Config) (cpu : Nat) (a : tcpapi_pcb) : List usys_event :=
  (if a.uevents &&& PCB_UEVENT_KNOCK ≠ 0 then
      [.USYS_TCP_KNOCK a.handle (cfg.mempool_pagemem_to_iomap cpu a.id)] else []) ++
  (if a.uevents &&& PCB_UEVENT_CONNECTED ≠ 0 then
      [.USYS_TCP_CONNECTED a.handle a.cookie RET_OK] else []) ++
  (if a.len_xmited ≠ 0 then [.USYS_TCP_SENDV_RET a.handle a.cookie a.len_xmited] else []) ++
  (if a.sent_len ≠ 0 then [.USYS_TCP_SENT a.handle a.cookie a.sent_len] else [])

/-- The events of the last part of the emission: DEAD, KSYS_RET. -/
def last_events (a : tcpapi_pcb) : List usys_event :=
  (if a.alive = 0 then [.USYS_TCP_DEAD a.handle a.cookie] else []) ++
  (if a.lasterr_sysnr ≠ 0 then [.KSYS_RET a.lasterr_sysnr a.lasterr_err a.cookie] else [])

/-- The CCB with `n` more outstanding events. -/
def pcb_add_active (a : tcpapi_pcb) (n : Nat) : tcpapi_pcb :=
  { a with active_usys_count := a.active_usys_count + n }

/-- The CCB after the first part of the emission, with `n` events emitted. -/
def pcb_after_first (a : tcpapi_pcb) (n : Nat) : tcpapi_pcb :=
  { a with uevents := 0, len_xmited := 0, sent_len := 0,
           active_usys_count := a.active_usys_count + n }

/-- The state after the body of the walk of one link in `gen_recv_chain`. -/
def recv_link_step (cfg : Config) (cpu api p : Nat) (s : State) : State :=
  inc_active api (usys_emit cpu (recv_event cfg (s.pcbs api) (s.pbufs p))
    { s with mbuf_len := upd s.mbuf_len (s.pbufs p).mbuf (s.pbufs p).len })

/-- The state after `n` calls of `__tcp_finish_usys` on a CPU for the same CCB. -/
def finish_iter (cfg : Config) (cpu api : Nat) : Nat → State → Exec State
  | 0, s => .ok s
  | n + 1, s =>
    match __tcp_finish_usys cfg cpu api s with
    | .error e => .error e
    | .ok s1 => finish_iter cfg cpu api n s1

/-- The CCB in slot `i` is linked in the ready queue of CPU `c`. -/
def pcb_linked (s : State) (c i : Nat) : Prop :=
  ∃ fuel, i ∈ queue_walk s.ready_queue_next fuel (s.pcb_ready_queue c).head

/-- The slot is not a free element of any pool. -/
def pcb_allocated (s : State) (i : Nat) : Prop := ∀ c, i ∉ s.pcb_mempool c

/-- One of the six conditions under which a CCB is said to belong in the ready queue. -/
def pcb_pending (a : tcpapi_pcb) : Prop :=
  a.uevents ≠ 0 ∨ 0 < a.sent_len ∨ 0 < a.len_xmited ∨ a.pbuf_for_usys.head ≠ none ∨
    a.alive = 0 ∨ a.lasterr_sysnr ≠ 0

/-- The outcome of a handler on a handle that names no CCB: the handler returns, the
event array of the CPU gains exactly one synchronous return with `-RET_BADH` and cookie
0, and the CCBs, the ready queues and both pools are as before. -/
def badh_outcome (cpu sysnr : Nat) (s : State) (r : Exec State) : Prop :=
  ∃ s1, r = .ok s1 ∧
    s1.usys_arr = upd s.usys_arr cpu (s.usys_arr cpu ++ [.KSYS_RET sysnr (-RET_BADH) 0]) ∧
    s1.pcbs = s.pcbs ∧ s1.ready_queue_next = s.ready_queue_next ∧
    s1.pcb_ready_queue = s.pcb_ready_queue ∧ s1.pcb_mempool = s.pcb_mempool ∧
    s1.id_mempool = s.id_mempool ∧ s1.ids = s.ids

/-! ## Concrete configurations and runs -/

/-- Two CPUs; flow groups 0 and 1 of the device and the outbound flow groups 2 and 3. -/
def ex_cfg : Config :=
  { ETH_MAX_TOTAL_FG := 2, NCPU := 2, MAX_SG_ENTRIES := 8,
    fgs_cur_cpu := fun fg => fg % 2, outbound_fg := fun c => 2 + c % 2, mempool_hdr := 4096,
    pool_cpu := fun i => i % 2, mbuf_to_iomap := fun m p => m + p,
    mempool_pagemem_to_iomap := fun _ id => id.getD 0, eth_dev_count := 1, nb_rx_fgs := 2,
    rss_key := fun _ => 0, host_addr := 1, cpus := [0, 1],
    LOCKED_BSYS_MAX_LEN := 2 }

/-- CPU 0 holds the slots 0 and 2, CPU 1 the slots 1 and 3. -/
def ex_pool : Nat → List Nat := fun c => if c = 0 then [0, 2] else if c = 1 then [1, 3] else []

/-- Buffer 5 is a chain of two links (5, 6), buffer 7 a single link. -/
def ex_pbufs : Nat → pbuf := fun p =>
  { next := if p = 5 then some 6 else none, payload := 100 * p, len := p, mbuf := p,
    tcp_api_next := none }

/-- The initial state of the examples. -/
def ex_init : State := init_state ex_cfg ex_pool ex_pool ex_pbufs

/-- A CCB with every kind of event pending and the buffers 5 and 7 queued. -/
def ex_pending_pcb (flags : Nat) : tcpapi_pcb :=
  { alive := 0, pcb := some 9, cookie := 77, id := some 4, handle := tcpapi_to_handle 2 0,
    recvd := none, recvd_tail := none, accepted := true, sent_len := 11, len_xmited := 12,
    pbuf_for_usys := { head := some 5, tail := some 7 }, active_usys_count := 0, uevents := 3,
    flags := flags, lasterr_sysnr := KSYS_TCP_SENDV, lasterr_err := -RET_CLOSED, queue := 0 }

/-- A state whose slot 0 holds `ex_pending_pcb flags`. -/
def ex_pending_state (flags : Nat) : State :=
  { ex_init with
    pcbs := upd ex_init.pcbs 0 (ex_pending_pcb flags)
    pbuf_for_usys_next := upd ex_init.pbuf_for_usys_next 5 (some 7) }

/-- A successful outbound connection attempt through the flow director. -/
def ex_connect_env : connect_env :=
  { user_id := some (ip_tuple.mk 0 9 0 80), fdir_ok := true, rss_ok := true, tcp_new := some 7,
    tcp_bind := err_t.ERR_OK, tcp_connect := err_t.ERR_OK }

/-- The result of a run, or the start state when the run faults. -/
def run_state (cfg : Config) (s : State) (tr : List Action) : State :=
  match run cfg s tr with
  | .ok s1 => s1
  | .error _ => s

/-- The state after `on_accept` on CPU 0: the CCB in slot 0 is linked in the ready
queue of CPU 0 with KNOCK pending. -/
def ex_knock_state : State :=
  run_state ex_cfg ex_init [.accept_cb 0 0 (tcp_pcb_info.mk 7 1 2 3)]

/-- The state of `ex_knock_state` after a drain: one event of slot 0 is outstanding. -/
def ex_drained_state : State :=
  run_state ex_cfg ex_init [.accept_cb 0 0 (tcp_pcb_info.mk 7 1 2 3), .generate 0 4]

/-- CONNECT on CPU 0, then the connected callback reports a failure, then the
application acknowledges the event batch. -/
def ex_trace_refused : List Action :=
  [.connect 0 5 10 ex_connect_env, .connected_cb 0 0 err_t.ERR_OTHER, .finish 0]

/-- As `ex_trace_refused`, with a reset of the connection before the acknowledgement. -/
def ex_trace_refused_reset : List Action :=
  [.connect 0 5 10 ex_connect_env, .connected_cb 0 0 err_t.ERR_OTHER,
   .err_cb 0 (some 0) err_t.ERR_RST, .finish 0]

/-- The handle of the CCB in slot 1 of CPU 1 under flow group 1. -/
def ex_handle : Nat := tcpapi_to_handle 1 1

/-- An inbound connection on CPU 1 whose KNOCK is drained and acknowledged. -/
def ex_trace_open : List Action :=
  [.accept_cb 1 1 (tcp_pcb_info.mk 7 1 2 3), .generate 1 4, .finish 1]

/-- One scatter-gather entry of 10 bytes that the TCP core accepts. -/
def ex_sendv_env : sendv_env :=
  { ents_okay := true, ents := fun _ => sg_entry.mk 0 10, buf_okay := fun _ => true,
    snd_buf := fun _ => 100, tcp_write := fun _ => err_t.ERR_OK }

/-- After `ex_trace_open` the application accepts the connection and sends 10 bytes, the
SENDV_RET is drained and acknowledged, the TCP core reports the 10 bytes as sent, which
links the CCB, and the application closes the handle before the next drain. -/
def ex_trace_close_linked : List Action :=
  ex_trace_open ++ [.accept 1 ex_handle 9 4, .sendv 1 ex_handle 1 ex_sendv_env,
    .generate 1 4, .finish 1, .sent_cb 1 1 10, .close 1 ex_handle 4]

/-- After `ex_trace_open` the peer closes and the DEAD event is drained. -/
def ex_trace_dead : List Action :=
  ex_trace_open ++ [.recv_cb 1 1 none [], .generate 1 4]

/-- After `ex_trace_dead`: the batch is acknowledged, the application sends on the dead
connection, and the next drain runs. -/
def ex_trace_dead_again : List Action :=
  [.finish 1, .sendv 1 ex_handle 1 ex_sendv_env, .generate 1 4]

/-- The descriptor is a TCP descriptor whose home CPU `c` is not the CPU `cpu`. -/
def routed_to (cfg : Config) (cpu c : Nat) (d : bsys_desc) : Bool :=
  ksys_is_tcp d && decide (cfg.fgs_cur_cpu (handle_to_fg_id d.arga) = c) && decide (c ≠ cpu)

/-- A batch on CPU 0: SENDV for a handle of CPU 1, a descriptor that is not a TCP
descriptor, CLOSE for a handle of CPU 0. -/
def ex_batch : List bsys_desc :=
  [bsys_desc.mk KSYS_TCP_SENDV ex_handle 4096 1 0, bsys_desc.mk 1 ex_handle 2 3 4,
   bsys_desc.mk KSYS_TCP_CLOSE (tcpapi_to_handle 0 2) 0 0 0]

/-- A batch on CPU 0 with three descriptors for a handle of CPU 1. -/
def ex_batch_full : List bsys_desc :=
  [bsys_desc.mk KSYS_TCP_SENDV ex_handle 4096 1 0, bsys_desc.mk KSYS_TCP_RECV_DONE ex_handle 8 0 0,
   bsys_desc.mk KSYS_TCP_CLOSE ex_handle 0 0 0]

/-- CONNECT with the user address 0x7000 of the tuple and the cookie 5. -/
def ex_connect_desc : bsys_desc := bsys_desc.mk KSYS_TCP_CONNECT 0x7000 5 0 0

/-- SENDV for a handle whose flow-group id 0xffff is outside the table. -/
def ex_stale_desc : bsys_desc := bsys_desc.mk KSYS_TCP_SENDV (tcpapi_to_handle 0xffff 1) 4096 1 0

/-- Reference definition in the words of the spec: bit `n` of a byte string, the most
significant bit of each byte first. -/
def msb_bit (bytes : Nat → Nat) (n : Nat) : Bool := (bytes (n / 8)).testBit (7 - n % 8)

/-- Reference definition in the words of the spec: the number formed by the bits
`start .. start + len - 1` of a byte string, read most significant bit first. -/
def key_bits (key : Nat → Nat) (start len : Nat) : Nat :=
  (List.range len).foldl (fun acc k => 2 * acc + (msb_bit key (start + k)).toNat) 0

/-- Reference definition in the words of the spec: the Toeplitz hash of the first `nbits`
input bits, the XOR over every `i` whose input bit is 1 of the 32-bit word formed by the
key bits `i .. i + 31`. -/
def toeplitz_reference (key input : Nat → Nat) (nbits : Nat) : Nat :=
  (List.range nbits).foldl
    (fun acc i => if msb_bit input i then acc ^^^ key_bits key i 32 else acc) 0

/-- The first 16 bytes of the RSS key of the Microsoft verification suite. -/
def ex_rss_key : Nat → Nat := fun k =>
  [0x6d, 0x5a, 0x56, 0xda, 0x25, 0x5b, 0x0e, 0xc2, 0x41, 0x67, 0x25, 0x3d, 0x43, 0xa3, 0x8f,
   0xb0].getD k 0

/-- The flow-group index `hash & (nb_rx_fgs - 1)` that the search loop of
`get_local_port_and_set_queue` computes for a tuple. -/
def port_fg_idx (cfg : Config) (id : ip_tuple) : Nat :=
  compute_toeplitz_hash cfg.rss_key (bswap32 id.dst_ip) (bswap32 id.src_ip)
    (bswap16 id.dst_port) (bswap16 id.src_port) &&& ((cfg.nb_rx_fgs + 2 ^ 32 - 1) % 2 ^ 32)

/-- The port the search loop tries after the port `p`: the wrap check at the head of the
next round and the increment at the end of this one. -/
def next_port (cpu p : Nat) : Nat :=
  ((if (cpu + 1) * PORTS_PER_CPU ≤ p then (cpu * PORTS_PER_CPU + 1) % 65536 else p) + 1) % 65536

/-- The first port a call of `get_local_port_and_set_queue` tries. -/
def first_port (cpu : Nat) (s : State) : Nat :=
  ((if s.local_port cpu = 0 then (cpu * PORTS_PER_CPU) % 65536 else s.local_port cpu) + 1) % 65536

/-- The tuple with the `n`-th port of the scan of a call that starts in state `s`. -/
def port_cand (cpu : Nat) (id : ip_tuple) (s : State) (n : Nat) : ip_tuple :=
  { id with src_port := Nat.iterate (next_port cpu) n (first_port cpu s) }

/-- Calls of `get_local_port_and_set_queue` on a CPU, one after the other. -/
def port_calls (cfg : Config) (cpu fuel : Nat) (id : ip_tuple) (env : connect_env) :
    Nat → State → Exec State
  | 0, s => .ok s
  | n + 1, s =>
    match get_local_port_and_set_queue cfg cpu fuel id env s with
    | .error e => .error e
    | .ok r => port_calls cfg cpu fuel id env n r.2.2

/-- The tuple of an outbound connection to 10.0.0.9:80. -/
def ex_tuple : ip_tuple := ip_tuple.mk 1 9 0 80

/-- A connection attempt for which the flow-director insert fails. -/
def ex_connect_env_rss : connect_env := { ex_connect_env with fdir_ok := false }

/-- The example configuration with the RSS key `ex_rss_key`. -/
def ex_cfg_rss : Config := { ex_cfg with rss_key := ex_rss_key }

/-- The length the loop of `bsys_tcp_sendv` passes to `tcp_write` in round `i`: the
length of the entry, or the clamp when `buf_full` holds. -/
def sendv_len (env : sendv_env) (i : Nat) : Nat :=
  if min (env.snd_buf i) 0xFFFF < (env.ents i).len then min (env.snd_buf i) 0xFFFF
  else (env.ents i).len

/-- The calls of `tcp_write` of the rounds `0 .. k - 1` of a SENDV. -/
def sendv_writes (env : sendv_env) (pcb k : Nat) : List ext_call :=
  (List.range k).map (fun i => ext_call.tcp_write pcb (env.ents i).base (sendv_len env i))

/-- The sum of the lengths of those calls of `tcp_write` of the rounds `0 .. k - 1` that
returned `ERR_OK`. -/
def sendv_ok_bytes (env : sendv_env) (k : Nat) : Nat :=
  ((List.range k).map (fun i =>
    if env.tcp_write i = err_t.ERR_OK then sendv_len env i else 0)).sum

/-- The two environments agree on the rounds `0 .. n - 1`. -/
def sendv_env_agree (env env1 : sendv_env) (n : Nat) : Prop :=
  env1.ents_okay = env.ents_okay ∧
    ∀ i, i < n → env1.ents i = env.ents i ∧ env1.buf_okay i = env.buf_okay i ∧
      env1.snd_buf i = env.snd_buf i ∧ env1.tcp_write i = env.tcp_write i

/-- Three entries of 10, 300 and 20 bytes; the send buffer holds 100 bytes, so the second
entry is clamped. -/
def ex_sendv_env3 : sendv_env :=
  { ents_okay := true, ents := fun i => sg_entry.mk (1000 * i) (if i = 1 then 300 else 10 + 10 * i),
    buf_okay := fun _ => true, snd_buf := fun _ => 100, tcp_write := fun _ => err_t.ERR_OK }

/-- The state after `ex_trace_open`: the CCB in slot 1 of CPU 1 is live, not linked and
has no event outstanding. -/
def ex_open_state : State := run_state ex_cfg ex_init ex_trace_open

/-- The bytes an entry hands to the TCP core for the CCB in slot `i`: the local
`len_xmited` of a SENDV that reaches its loop on this CCB. -/
def step_handed (cfg : Config) (s : State) (i : Nat) : Action → Nat
  | .sendv cpu handle nrents env =>
    match handle_to_tcpapi cfg cpu handle s with
    | (some api, s0) =>
      if api = i ∧ (s0.pcbs api).alive ≠ 0 ∧ env.ents_okay = true then
        match sendv_loop env api (min (nrents % 4294967296) cfg.MAX_SG_ENTRIES) 0 0 s0 with
        | .ok (n, _) => n
        | .error _ => 0
      else 0
    | (none, _) => 0
  | _ => 0

/-- The entry neither drains the CCB in slot `i` (no drain of a queue with `i` at its
head, no steal while `i` is at the head of a queue) nor allocates the slot. -/
def step_quiet (cfg : Config) (s : State) (i : Nat) : Action → Bool
  | .generate cpu _ => decide (queue_front (s.pcb_ready_queue cpu) ≠ some i)
  | .steal _ _ _ => cfg.cpus.all (fun c => decide (queue_front (s.pcb_ready_queue c) ≠ some i))
  | .accept_cb cpu _ _ => decide ((mempool_alloc (s.pcb_mempool cpu)).1 ≠ some i)
  | .connect cpu _ _ _ => decide ((mempool_alloc (s.pcb_mempool cpu)).1 ≠ some i)
  | _ => true

/-- The bytes the entries of a run hand to the TCP core for the CCB in slot `i`. -/
def run_handed (cfg : Config) (i : Nat) : State → List Action → Nat
  | _, [] => 0
  | s, a :: as =>
    step_handed cfg s i a +
      (match step cfg s a with
       | .ok s1 => run_handed cfg i s1 as
       | .error _ => 0)

/-- No entry of the run drains the CCB in slot `i` or allocates the slot. -/
def run_quiet (cfg : Config) (i : Nat) : State → List Action → Bool
  | _, [] => true
  | s, a :: as =>
    step_quiet cfg s i a &&
      (match step cfg s a with
       | .ok s1 => run_quiet cfg i s1 as
       | .error _ => true)

/-- After `ex_trace_open`: two SENDV on the connection with a sent callback between
them. -/
def ex_trace_sendv : List Action :=
  [.sendv 1 ex_handle 3 ex_sendv_env3, .sent_cb 1 1 10, .sendv 1 ex_handle 1 ex_sendv_env]

/-! ## Invariants of the reachable states -/

/-- The flow group of the handle is in the table and its home CPU is the CPU whose pool
holds the slot the handle names. -/
def handle_home (cfg : Config) (h : Nat) : Prop :=
  handle_to_fg_id h < cfg.ETH_MAX_TOTAL_FG + cfg.NCPU ∧
    cfg.fgs_cur_cpu (handle_to_fg_id h) = cfg.pool_cpu (handle_to_idx h)

/-- The handle stored in slot `i` names the slot and a flow group owned by the CPU of
the slot. -/
def pcb_valid (cfg : Config) (s : State) (i : Nat) : Prop :=
  handle_to_idx (s.pcbs i).handle = i ∧ handle_home cfg (s.pcbs i).handle

/-- The slot reads as free, has no flag set and no queue refers to it. -/
def pcb_unused (s : State) (i : Nat) : Prop :=
  1 < (s.pcbs i).alive ∧ (s.pcbs i).flags = 0 ∧
    (∀ c, (s.pcb_ready_queue c).head ≠ some i ∧ (s.pcb_ready_queue c).tail ≠ some i) ∧
    (∀ j, s.ready_queue_next j ≠ some i)

/-- The invariant of the ready queues: the `next` fields are acyclic, the nodes of the
queue of a CPU and the free elements of its pool are slots of that CPU, every slot in use
stores a handle that names it, and every TCP event names a slot by a handle of the CPU of
the slot. -/
structure Inv (cfg : Config) (s : State) : Prop where
  acyclic : ∀ i, ∃ l, is_chain s.ready_queue_next (some i) l
  head_cpu : ∀ c i, (s.pcb_ready_queue c).head = some i → cfg.pool_cpu i = c
  tail_cpu : ∀ c i, (s.pcb_ready_queue c).tail = some i → cfg.pool_cpu i = c
  next_cpu : ∀ i j, s.ready_queue_next i = some j → cfg.pool_cpu i = cfg.pool_cpu j
  pool : ∀ c i, i ∈ s.pcb_mempool c → cfg.pool_cpu i = c ∧ i < 2 ^ 48
  valid : ∀ i, pcb_valid cfg s i ∨ pcb_unused s i
  events : ∀ c e, e ∈ s.usys_arr c → usys_is_tcp e = true → handle_home cfg (usys_arga e)

/-- The step from `s` to `s1` leaves the ready queues, the pools and the words `alive`,
`flags` and `handle` of every slot as they are, and every TCP event it adds carries the
handle `hd`. -/
def frame (hd : Option Nat) (s s1 : State) : Prop :=
  s1.ready_queue_next = s.ready_queue_next ∧ s1.pcb_ready_queue = s.pcb_ready_queue ∧
    s1.pcb_mempool = s.pcb_mempool ∧
    (∀ i, (s1.pcbs i).alive = (s.pcbs i).alive ∧ (s1.pcbs i).flags = (s.pcbs i).flags ∧
      (s1.pcbs i).handle = (s.pcbs i).handle) ∧
    (∀ c e, e ∈ s1.usys_arr c → usys_is_tcp e = true →
      e ∈ s.usys_arr c ∨ some (usys_arga e) = hd)

/-- A step keeps the invariant and the validity of every slot. -/
def keeps (cfg : Config) (s s1 : State) : Prop :=
  Inv cfg s → Inv cfg s1 ∧ ∀ i, pcb_valid cfg s i → pcb_valid cfg s1 i

/-- What a search for a local port leaves unchanged, and the flow group it finds. -/
def port_frame (cfg : Config) (cpu : Nat) (s : State) (r : Option Nat × ip_tuple × State) :
    Prop :=
  r.2.2.ready_queue_next = s.ready_queue_next ∧ r.2.2.pcb_ready_queue = s.pcb_ready_queue ∧
    r.2.2.pcb_mempool = s.pcb_mempool ∧ r.2.2.pcbs = s.pcbs ∧ r.2.2.usys_arr = s.usys_arr ∧
    ∀ fg, r.1 = some fg →
      fg < cfg.ETH_MAX_TOTAL_FG + cfg.NCPU ∧ cfg.fgs_cur_cpu fg = cpu

/-- The fields of a CCB that the ready-queue discipline reads agree. -/
def pcb_core_eq (a b : tcpapi_pcb) : Prop :=
  a.alive = b.alive ∧ a.flags = b.flags ∧ a.handle = b.handle ∧
    a.active_usys_count = b.active_usys_count ∧ a.uevents = b.uevents ∧
    a.sent_len = b.sent_len ∧ a.len_xmited = b.len_xmited ∧
    a.pbuf_for_usys = b.pbuf_for_usys ∧ a.lasterr_sysnr = b.lasterr_sysnr

/-- A stage of the emission that changes, of the CCBs, at most the count and the last
error of the CCB `api`. -/
def gen_stage (api : Nat) (s s1 : State) : Prop :=
  (∀ i, i ≠ api → s1.pcbs i = s.pcbs i) ∧
    (s1.pcbs api).uevents = (s.pcbs api).uevents ∧
    (s1.pcbs api).sent_len = (s.pcbs api).sent_len ∧
    (s1.pcbs api).len_xmited = (s.pcbs api).len_xmited ∧
    (s1.pcbs api).pbuf_for_usys = (s.pcbs api).pbuf_for_usys

/-- The two states have the same ready queues, pools and CCB cores. -/
def same_core (s s1 : State) : Prop :=
  s1.ready_queue_next = s.ready_queue_next ∧ s1.pcb_ready_queue = s.pcb_ready_queue ∧
    s1.pcb_mempool = s.pcb_mempool ∧ ∀ i, pcb_core_eq (s1.pcbs i) (s.pcbs i)

/-- The field `len_xmited` of every CCB is the same in both states. -/
def same_xmited (s s1 : State) : Prop :=
  ∀ i, (s1.pcbs i).len_xmited = (s.pcbs i).len_xmited

/-! ## Notions of the statements on queues, acknowledgements and runs -/

/-- Calls of `queue_push_back` for the nodes of a list, one after the other. -/
def queue_push_list : List Nat → queue → (Nat → Option Nat) →
    Exec (queue × (Nat → Option Nat))
  | [], q, next => .ok (q, next)
  | n :: ns, q, next =>
    match queue_push_back q next n with
    | .error e => .error e
    | .ok (q1, next1) => queue_push_list ns q1 next1

/-- The results of `k` calls of `queue_pop_front`, in the order of the calls, and the
queue they leave. -/
def queue_pop_list : Nat → queue → (Nat → Option Nat) →
    List (Option Nat) × queue × (Nat → Option Nat)
  | 0, q, next => ([], q, next)
  | k + 1, q, next =>
    match queue_pop_front q next with
    | (r, q1, next1) =>
      ((r :: (queue_pop_list k q1 next1).1), (queue_pop_list k q1 next1).2)

/-- The field `tcp_api_next` of each payload buffer, the link of the list `recvd`. -/
def recvd_next (s : State) (p : Nat) : Option Nat := (s.pbufs p).tcp_api_next

/-- The number of buffers at the head of a list of buffers with these lengths whose
lengths an acknowledgement of `len` bytes covers one after the other. -/
def acked_count : List Nat → Nat → Nat
  | [], _ => 0
  | x :: xs, len => if len < x then 0 else acked_count xs (len - x) + 1

/-- After `ex_trace_open`: the application accepts, the TCP core delivers the buffers 5
and 7 of 10 bytes each, and the two RECV events are drained and acknowledged. -/
def ex_trace_recv : List Action :=
  ex_trace_open ++ [.accept 1 ex_handle 9 4,
    .recv_cb 1 1 (some 5) [(5, pbuf.mk none 500 10 5 none)],
    .recv_cb 1 1 (some 7) [(7, pbuf.mk none 700 10 7 none)], .generate 1 4, .finish 1]

/-- The state after `ex_trace_recv`: the list `recvd` of the CCB in slot 1 holds the
buffers 5 and 7. -/
def ex_recv_state : State := run_state ex_cfg ex_init ex_trace_recv

/-- A connection attempt for which `tcp_bind` fails. -/
def ex_connect_env_bind : connect_env := { ex_connect_env with tcp_bind := err_t.ERR_OTHER }

/-- A connection attempt for which `tcp_connect` fails. -/
def ex_connect_env_conn : connect_env := { ex_connect_env with tcp_connect := err_t.ERR_OTHER }

/-- An RSS key with the single bit 115 set: under it the low 12 bits of the hash are the
low 12 bits of the local port in reverse order. -/
def ex_rss_key_rev : Nat → Nat := fun k => if k = 14 then 0x10 else 0

/-- One device with 4096 flow groups, of which CPU 0 owns flow group 2048 only and CPU 1
the others. -/
def ex_cfg_search : Config :=
  { ex_cfg with ETH_MAX_TOTAL_FG := 4096, nb_rx_fgs := 4096, rss_key := ex_rss_key_rev,
                fgs_cur_cpu := fun fg => if fg = 2048 then 0 else 1,
                outbound_fg := fun c => 4096 + c % 2 }

/-- The initial state of the examples under `ex_cfg_search`. -/
def ex_init_search : State := init_state ex_cfg_search ex_pool ex_pool ex_pbufs

/-- The state after the first search for a local port on CPU 0 under `ex_cfg_search`: the
search returned port 1 and the counter `local_port` of CPU 0 is 1. -/
def ex_search_state : State :=
  match get_local_port_and_set_queue ex_cfg_search 0 1 ex_tuple ex_connect_env_rss
      ex_init_search with
  | .ok r => r.2.2
  | .error _ => ex_init_search

/-- The CCB after `__tcp_gen_usys` has emitted `n` events and left the queue `q`. -/
def pcb_after_gen (a : tcpapi_pcb) (q : queue) (n : Nat) : tcpapi_pcb :=
  { a with uevents := 0, len_xmited := 0, sent_len := 0, pbuf_for_usys := q,
           active_usys_count := a.active_usys_count + n, lasterr_sysnr := 0,
           lasterr_err := if a.lasterr_sysnr ≠ 0 then 0 else a.lasterr_err }

/-- The parts of the state that an emission leaves as they are. -/
def gen_frame (s s1 : State) : Prop :=
  s1.pbufs = s.pbufs ∧ s1.ready_queue_next = s.ready_queue_next ∧
    s1.pcb_ready_queue = s.pcb_ready_queue ∧ s1.pcb_mempool = s.pcb_mempool ∧
    s1.id_mempool = s.id_mempool ∧ s1.calls = s.calls

/-- The entry is a RECV event. -/
def usys_is_recv (e : usys_event) : Bool :=
  match e with
  | .USYS_TCP_RECV _ _ _ _ => true
  | _ => false

/-- The bytes that the SENT events of a list report for a handle. -/
def sent_bytes (handle : Nat) (evs : List usys_event) : Int :=
  (evs.map (fun e =>
    match e with
    | .USYS_TCP_SENT h _ n => if h = handle then n else 0
    | _ => 0)).sum

/-- The state `ex_pending_state 0` after the emission of the CCB in slot 0. -/
def ex_emitted_state : State :=
  match __tcp_gen_usys ex_cfg 0 0 4 (ex_pending_state 0) with
  | .ok s1 => s1
  | .error _ => ex_pending_state 0

/-- The state after `k` acknowledgements of events of the CCB `api` on a CPU that do
nothing but count: the count of the CCB is `k` less, the calls of `bsys_dispatch_remote`
are recorded, and everything else is as it was. -/
def acked_state (cpu api k : Nat) (s : State) : State :=
  set_pcb api (fun a => { a with active_usys_count := a.active_usys_count - (k : Int) })
    { s with calls := s.calls ++ List.replicate k (ext_call.bsys_dispatch_remote cpu) }

/-- The entry is a SENT event. -/
def usys_is_sent (e : usys_event) : Bool :=
  match e with
  | .USYS_TCP_SENT _ _ _ => true
  | _ => false

/-- The step from `s` to `s1` leaves `handle` and `sent_len` of every CCB other than `x` as
they are and appends to each event array only events that report no sent bytes. -/
def sent_frame (x : Option Nat) (s s1 : State) : Prop :=
  (∀ i, some i ≠ x → (s1.pcbs i).handle = (s.pcbs i).handle ∧
      (s1.pcbs i).sent_len = (s.pcbs i).sent_len) ∧
    ∀ c, ∃ evs, s1.usys_arr c = s.usys_arr c ++ evs ∧ ∀ h, sent_bytes h evs = 0

/-- The CPU an entry runs on. -/
def Action.cpu : Action → Nat
  | .accept_cb cpu _ _ => cpu
  | .recv_cb cpu _ _ _ => cpu
  | .sent_cb cpu _ _ => cpu
  | .err_cb cpu _ _ => cpu
  | .connected_cb cpu _ _ => cpu
  | .connect cpu _ _ _ => cpu
  | .accept cpu _ _ _ => cpu
  | .sendv cpu _ _ _ => cpu
  | .recv_done cpu _ _ _ => cpu
  | .close cpu _ _ => cpu
  | .generate cpu _ => cpu
  | .steal cpu _ _ => cpu
  | .finish cpu => cpu

/-- The events an entry appends to the event array of its CPU; the acknowledgement of a
batch appends none. -/
def step_emitted (cfg : Config) (s : State) (a : Action) : List usys_event :=
  match a with
  | .finish _ => []
  | _ =>
    match step cfg s a with
    | .ok s1 => (s1.usys_arr a.cpu).drop (s.usys_arr a.cpu).length
    | .error _ => []

/-- The events the entries of a run append to the event arrays, in the order of the run. -/
def run_emitted (cfg : Config) : State → List Action → List usys_event
  | _, [] => []
  | s, a :: as =>
    step_emitted cfg s a ++
      (match step cfg s a with
       | .ok s1 => run_emitted cfg s1 as
       | .error _ => [])

/-- The sum of the `len` arguments of the sent callbacks of a trace for the CCB in slot
`i`; the argument of a callback is a `u16_t`. -/
def trace_sent (i : Nat) : List Action → Int
  | [] => 0
  | .sent_cb _ arg len :: as =>
    (if arg = i then ((len % 65536 : Nat) : Int) else 0) + trace_sent i as
  | _ :: as => trace_sent i as

/-- A sent callback for the CCB in slot `i` leaves `sent_len` plus its `len` in the range
of `int`. -/
def step_sent_fits (s : State) (i : Nat) : Action → Bool
  | .sent_cb _ arg len =>
    decide (arg ≠ i) ||
      (decide (-2147483648 ≤ (s.pcbs i).sent_len + ((len % 65536 : Nat) : Int)) &&
        decide ((s.pcbs i).sent_len + ((len % 65536 : Nat) : Int) < 2147483648))
  | _ => true

/-- No sent callback of the run takes `sent_len` of the CCB in slot `i` out of the range
of `int`. -/
def run_sent_fits (cfg : Config) (i : Nat) : State → List Action → Bool
  | _, [] => true
  | s, a :: as =>
    step_sent_fits s i a &&
      (match step cfg s a with
       | .ok s1 => run_sent_fits cfg i s1 as
       | .error _ => true)

/-- The entry does not allocate the slot `i`. -/
def step_keeps_slot (s : State) (i : Nat) : Action → Bool
  | .accept_cb cpu _ _ => decide ((mempool_alloc (s.pcb_mempool cpu)).1 ≠ some i)
  | .connect cpu _ _ _ => decide ((mempool_alloc (s.pcb_mempool cpu)).1 ≠ some i)
  | _ => true

/-- No entry of the run allocates the slot `i`. -/
def run_keeps_slot (cfg : Config) (i : Nat) : State → List Action → Bool
  | _, [] => true
  | s, a :: as =>
    step_keeps_slot s i a &&
      (match step cfg s a with
       | .ok s1 => run_keeps_slot cfg i s1 as
       | .error _ => true)

/-- After `ex_trace_open`: the application accepts and sends 10 bytes, the SENDV_RET is
drained and acknowledged, the TCP core reports 4 and 6 bytes as sent, the SENT event is
drained and acknowledged, and the TCP core reports 3 more bytes. -/
def ex_trace_sent : List Action :=
  [.accept 1 ex_handle 9 4, .sendv 1 ex_handle 1 ex_sendv_env, .generate 1 4, .finish 1,
   .sent_cb 1 1 4, .sent_cb 1 1 6, .generate 1 4, .finish 1, .sent_cb 1 1 3]

/-- The RECV events of the links of the buffers `bufs`, buffer by buffer in the order of
the list; `links p` lists the links of the chain that starts at the buffer `p`. -/
def recv_events (cfg : Config) (a : tcpapi_pcb) (pbufs : Nat → pbuf) (links : Nat → List Nat)
    (bufs : List Nat) : List usys_event :=
  ((bufs.map links).flatten).map (fun q => recv_event cfg a (pbufs q))

/-- The buffers the receive callbacks of a trace hand to the CCB in slot `i`, in the order
of the trace. -/
def trace_delivered (i : Nat) : List Action → List Nat
  | [] => []
  | .recv_cb _ arg (some p) _ :: as =>
    if arg = i then p :: trace_delivered i as else trace_delivered i as
  | _ :: as => trace_delivered i as

/-- The number of ACCEPT descriptors in a trace. -/
def trace_accepts : List Action → Nat
  | [] => 0
  | .accept _ _ _ _ :: as => trace_accepts as + 1
  | _ :: as => trace_accepts as

/-- The entries of one inbound connection on its home CPU: the receive callback hands a
buffer to the CCB in slot `i`, the application accepts the handle, the CPU drains its ready
queue and acknowledges its event array. -/
def recv_script (cpu i handle : Nat) : List Action → Bool
  | [] => true
  | .recv_cb c arg (some _) fill :: as =>
    decide (c = cpu) && decide (arg = i) && fill.isEmpty && recv_script cpu i handle as
  | .accept c h _ _ :: as => decide (c = cpu) && decide (h = handle) && recv_script cpu i handle as
  | .generate c _ :: as => decide (c = cpu) && recv_script cpu i handle as
  | .finish c :: as => decide (c = cpu) && recv_script cpu i handle as
  | _ :: _ => false

/-- The handle names the slot `i` and a flow group of the table whose home is `cpu`. -/
def recv_handle (cfg : Config) (cpu i handle : Nat) : Prop :=
  handle_to_idx handle = i ∧ handle_to_fg_id handle < cfg.ETH_MAX_TOTAL_FG + cfg.NCPU ∧
    cfg.fgs_cur_cpu (handle_to_fg_id handle) = cpu

/-- The ready queue of the CPU is empty or holds the CCB `i` alone. -/
def queue_own (cpu i : Nat) (s : State) : Prop :=
  (s.pcb_ready_queue cpu).head = none ∨
    ((s.pcb_ready_queue cpu).head = some i ∧ (s.pcb_ready_queue cpu).tail = some i ∧
      s.ready_queue_next i = none)

/-- The fields of a buffer that the TCP core has written agree: all but `tcp_api_next`. -/
def pbuf_data_eq (a b : pbuf) : Prop :=
  a.next = b.next ∧ a.payload = b.payload ∧ a.len = b.len ∧ a.mbuf = b.mbuf

/-- The connection in slot `i` before the application has seen any of its data: the CCB is
allocated under the handle and not accepted, no buffer is delivered or queued, the CCB is
not closed, and the ready queue and the event array of the CPU hold nothing of another
CCB. -/
structure recv_start (cfg : Config) (cpu i handle : Nat) (s : State) : Prop where
  handle_ok : recv_handle cfg cpu i handle
  handle_eq : (s.pcbs i).handle = handle
  alive : (s.pcbs i).alive ≤ 1
  queue : queue_own cpu i s
  events : ∀ e, e ∈ s.usys_arr cpu → usys_is_tcp e = true → usys_arga e = handle
  not_closed : (s.pcbs i).flags &&& PCB_FLAG_CLOSED = 0
  not_accepted : (s.pcbs i).accepted = false
  recvd : (s.pcbs i).recvd = none
  pbuf_queue : (s.pcbs i).pbuf_for_usys = init_queue

/-- The state of the connection in slot `i` after the buffers `D` were delivered and the
RECV events `E` emitted: until ACCEPT the buffers wait in the list `recvd` and no RECV
event is emitted; after ACCEPT the RECV events emitted and those of the buffers still
queued for emission are together the RECV events of the delivered buffers. -/
structure recv_inv (cfg : Config) (cpu i handle : Nat) (pbufs0 : Nat → pbuf)
    (links : Nat → List Nat) (s : State) (D : List Nat) (E : List usys_event) : Prop where
  handle_eq : (s.pcbs i).handle = handle
  alive : (s.pcbs i).alive ≤ 1
  queue : queue_own cpu i s
  events : ∀ e, e ∈ s.usys_arr cpu → usys_is_tcp e = true → usys_arga e = handle
  not_closed : (s.pcbs i).flags &&& PCB_FLAG_CLOSED = 0
  data : ∀ q, pbuf_data_eq (s.pbufs q) (pbufs0 q)
  before : (s.pcbs i).accepted = false →
    is_chain (recvd_next s) (s.pcbs i).recvd D ∧
      (∀ t, D.getLast? = some t → (s.pcbs i).recvd_tail = some t) ∧
      queue_repr (s.pcbs i).pbuf_for_usys s.pbuf_for_usys_next [] ∧ E = []
  after : (s.pcbs i).accepted = true →
    ∃ P, queue_repr (s.pcbs i).pbuf_for_usys s.pbuf_for_usys_next P ∧ (∀ x, x ∈ P → x ∈ D) ∧
      E ++ recv_events cfg (s.pcbs i) pbufs0 links P = recv_events cfg (s.pcbs i) pbufs0 links D

/-- The receive side of the CCB `i`, the buffers and the event arrays are the same in both
states, and so is the flag `CLOSED` of the CCB. -/
def recv_same (i : Nat) (s s1 : State) : Prop :=
  s1.pbufs = s.pbufs ∧ s1.pbuf_for_usys_next = s.pbuf_for_usys_next ∧
    s1.usys_arr = s.usys_arr ∧ (s1.pcbs i).handle = (s.pcbs i).handle ∧
    (s1.pcbs i).cookie = (s.pcbs i).cookie ∧ (s1.pcbs i).alive = (s.pcbs i).alive ∧
    (s1.pcbs i).accepted = (s.pcbs i).accepted ∧ (s1.pcbs i).recvd = (s.pcbs i).recvd ∧
    (s1.pcbs i).recvd_tail = (s.pcbs i).recvd_tail ∧
    (s1.pcbs i).pbuf_for_usys = (s.pcbs i).pbuf_for_usys ∧
    (s1.pcbs i).flags &&& PCB_FLAG_CLOSED = (s.pcbs i).flags &&& PCB_FLAG_CLOSED

/-- The receive list of the CCB `i`, the buffers and the event arrays are the same in both
states, and so is the flag `CLOSED` of the CCB. -/
def recv_keep (i : Nat) (s s1 : State) : Prop :=
  s1.pbufs = s.pbufs ∧ s1.usys_arr = s.usys_arr ∧ (s1.pcbs i).handle = (s.pcbs i).handle ∧
    (s1.pcbs i).cookie = (s.pcbs i).cookie ∧ (s1.pcbs i).alive = (s.pcbs i).alive ∧
    (s1.pcbs i).accepted = (s.pcbs i).accepted ∧ (s1.pcbs i).recvd = (s.pcbs i).recvd ∧
    (s1.pcbs i).recvd_tail = (s.pcbs i).recvd_tail ∧
    (s1.pcbs i).flags &&& PCB_FLAG_CLOSED = (s.pcbs i).flags &&& PCB_FLAG_CLOSED

/-- The first part of `on_recv` for a buffer `p`: the buffer is appended to the list `recvd`
of the CCB and its own link is cleared. -/
def recv_append (arg p : Nat) (s : State) : Exec State :=
  let linked : Exec State :=
    match (s.pcbs arg).recvd with
    | none => .ok (set_pcb arg (fun a => { a with recvd := some p, recvd_tail := some p }) s)
    | some _ =>
      match (s.pcbs arg).recvd_tail with
      | none => .error Fault.null_deref
      | some t =>
        .ok (set_pcb arg (fun a => { a with recvd_tail := some p })
          { s with pbufs := upd s.pbufs t { s.pbufs t with tcp_api_next := some p } })
  match linked with
  | .error e => .error e
  | .ok s1 => .ok { s1 with pbufs := upd s1.pbufs p { s1.pbufs p with tcp_api_next := none } }

/-- The buffer 5 arrives before ACCEPT and the buffer 7 after it; the CPU then drains its
ready queue and acknowledges the events. -/
def ex_trace_order : List Action :=
  [.recv_cb 1 1 (some 5) [], .generate 1 4, .accept 1 ex_handle 9 4, .recv_cb 1 1 (some 7) [],
   .generate 1 4, .finish 1]

/-- The links of the buffers of `ex_pbufs`. -/
def ex_links (p : Nat) : List Nat := if p = 5 then [5, 6] else [p]

/-- A CCB whose `alive` is true has a TCP-core connection: `pcb` is not `NULL`. -/
def pcb_present (a : tcpapi_pcb) : Prop := a.alive = 1 → a.pcb ≠ none

/-- Every CCB that satisfies `pcb_present` in `s` satisfies it in `s1`. -/
def keeps_pcb (s s1 : State) : Prop :=
  ∀ i, pcb_present (s.pcbs i) → pcb_present (s1.pcbs i)

/-- The entries of a list one after the other from `s`, without the assumption `env_ok`
about the callers that `run` makes. -/
def run_unchecked (cfg : Config) : State → List Action → Exec State
  | s, [] => .ok s
  | s, a :: as =>
    match step cfg s a with
    | .error e => .error e
    | .ok s1 => run_unchecked cfg s1 as

/-- A handle that no event carried: the index of the slot 1, which belongs to CPU 1,
under the flow group 0, whose home is CPU 0. -/
def ex_forged_handle : Nat := tcpapi_to_handle 0 1

/-- An inbound connection on CPU 1 takes the slot 1 and is linked in the ready queue of
CPU 1; the application closes `ex_forged_handle`, which is routed to CPU 0; an inbound
connection arrives on CPU 0. -/
def ex_trace_forged : List Action :=
  [.accept_cb 1 1 (tcp_pcb_info.mk 7 1 2 3), .close 0 ex_forged_handle 4,
   .accept_cb 0 0 (tcp_pcb_info.mk 8 1 2 4)]

/-- The state after `ex_trace_forged`. -/
def ex_forged_state : State :=
  match run_unchecked ex_cfg ex_init ex_trace_forged with
  | .ok s => s
  | .error _ => ex_init

/-- The CCB in slot `i` is a live CCB of the CPU `cpu`: its handle names the slot and a
flow group whose home is `cpu`, and the ready queue of the CPU has a tail when it has a
head. -/
structure slot_live (cfg : Config) (cpu i : Nat) (s : State) : Prop where
  fg : handle_to_fg_id (s.pcbs i).handle < cfg.ETH_MAX_TOTAL_FG + cfg.NCPU
  home : cfg.fgs_cur_cpu (handle_to_fg_id (s.pcbs i).handle) = cpu
  idx : handle_to_idx (s.pcbs i).handle = i
  alive : (s.pcbs i).alive = 1
  queue : (s.pcb_ready_queue cpu).head ≠ none → (s.pcb_ready_queue cpu).tail ≠ none

/-- The step from `s` to `s1` changes, of the CCBs, at most the two byte counters and the
flags, leaves the pools as they are, and leaves the ready queue of `cpu` as it is when the
CCB in slot `i` is its tail. -/
structure ccb_kept (cpu i : Nat) (s s1 : State) : Prop where
  pcbs : ∀ j, s1.pcbs j = { s.pcbs j with sent_len := (s1.pcbs j).sent_len,
                                          len_xmited := (s1.pcbs j).len_xmited,
                                          flags := (s1.pcbs j).flags }
  pool : s1.pcb_mempool = s.pcb_mempool
  queue : (s.pcb_ready_queue cpu).tail = some i → s1.pcb_ready_queue cpu = s.pcb_ready_queue cpu

/-- One scatter-gather entry of 65535 bytes that the TCP core accepts. -/
def ex_sendv_env_max : sendv_env :=
  { ents_okay := true, ents := fun _ => sg_entry.mk 0 65535, buf_okay := fun _ => true,
    snd_buf := fun _ => 65535, tcp_write := fun _ => err_t.ERR_OK }

/-- A SENDV of 65535 bytes on the connection of `ex_open_state`. -/
def ex_sendv_max : Action := .sendv 1 ex_handle 1 ex_sendv_env_max

/-- A sent callback for 65535 bytes on the connection of `ex_open_state`. -/
def ex_sent_max : Action := .sent_cb 1 1 65535

/-- The sent callback `ex_sent_max` 32769 times, for 2147516415 bytes. -/
def ex_trace_sent_wrap : List Action := List.replicate 32769 ex_sent_max

/-- The SENDV `ex_sendv_max` 32768 times, for 2147450880 bytes. -/
def ex_trace_sendv_full : List Action := List.replicate 32768 ex_sendv_max

/-! ## The `int` counters -/

theorem int_wrap_eq (v : Int) (h1 : -2147483648 ≤ v) (h2 : v < 2147483648) :
    int_wrap v = v := by
  unfold int_wrap
  omega

theorem int_wrap_add (a b : Int) : int_wrap (int_wrap a + b) = int_wrap (a + b) := by
  unfold int_wrap
  omega

theorem int_wrap_range (v : Int) : -2147483648 ≤ int_wrap v ∧ int_wrap v < 2147483648 := by
  unfold int_wrap
  omega

/-! ## Memory columns -/

@[simp] theorem upd_same {α : Type} (f : Nat → α) (i : Nat) (v : α) : upd f i v i = v := by
  simp [upd]

theorem upd_other {α : Type} (f : Nat → α) (i j : Nat) (v : α) (h : j ≠ i) :
    upd f i v j = f j := by
  simp [upd, h]

@[simp] theorem upd_upd {α : Type} (f : Nat → α) (i : Nat) (v w : α) :
    upd (upd f i v) i w = upd f i w := by
  funext j; by_cases h : j = i <;> simp [upd, h]

@[simp] theorem upd_self {α : Type} (f : Nat → α) (i : Nat) : upd f i (f i) = f := by
  funext j; by_cases h : j = i <;> simp [upd, h]

/-! ## Chains -/

theorem is_chain_unique (next : Nat → Option Nat) :
    ∀ (l1 l2 : List Nat) (p : Option Nat), is_chain next p l1 → is_chain next p l2 → l1 = l2
  | [], [], _, _, _ => rfl
  | [], _ :: _, p, h1, h2 => by
    simp only [is_chain] at h1 h2
    rw [h1] at h2; exact absurd h2.1 (by simp)
  | _ :: _, [], p, h1, h2 => by
    simp only [is_chain] at h1 h2
    rw [h2] at h1; exact absurd h1.1 (by simp)
  | x :: xs, y :: ys, p, h1, h2 => by
    simp only [is_chain] at h1 h2
    have hxy : x = y := by
      have := h1.1.symm.trans h2.1
      simpa using this
    subst hxy
    rw [is_chain_unique next xs ys _ h1.2 h2.2]

theorem is_chain_suffix (next : Nat → Option Nat) (x : Nat) :
    ∀ (l : List Nat) (p : Option Nat), is_chain next p l → x ∈ l →
      ∃ ys, is_chain next (some x) (x :: ys) ∧ ys.length < l.length
  | [], _, _, hx => by simp at hx
  | y :: ys, p, h, hx => by
    simp only [is_chain] at h
    by_cases hxy : x = y
    · subst hxy
      exact ⟨ys, ⟨rfl, h.2⟩, by simp⟩
    · have hx1 : x ∈ ys := by
        rcases List.mem_cons.mp hx with h1 | h1
        · exact absurd h1 hxy
        · exact h1
      obtain ⟨zs, hz, hlen⟩ := is_chain_suffix next x ys _ h.2 hx1
      exact ⟨zs, hz, by simp; omega⟩

theorem is_chain_head_not_mem (next : Nat → Option Nat) (x : Nat) (xs : List Nat)
    (h : is_chain next (some x) (x :: xs)) : x ∉ xs := by
  intro hx
  have h2 := h
  simp only [is_chain] at h2
  obtain ⟨ys, hy, hlen⟩ := is_chain_suffix next x xs _ h2.2 hx
  have := is_chain_unique next _ _ _ h hy
  simp at this
  subst this
  omega

theorem is_chain_nodup (next : Nat → Option Nat) :
    ∀ (l : List Nat) (p : Option Nat), is_chain next p l → l.Nodup
  | [], _, _ => List.nodup_nil
  | x :: xs, p, h => by
    have h2 := h
    simp only [is_chain] at h2
    have hp : p = some x := h2.1
    subst hp
    exact List.nodup_cons.mpr ⟨is_chain_head_not_mem next x xs h, is_chain_nodup next xs _ h2.2⟩

theorem is_chain_upd (next : Nat → Option Nat) (n : Nat) (v : Option Nat) :
    ∀ (l : List Nat) (p : Option Nat), n ∉ l → is_chain next p l → is_chain (upd next n v) p l
  | [], _, _, h => h
  | x :: xs, p, hn, h => by
    simp only [is_chain] at h ⊢
    have hx : x ≠ n := fun e => hn (by simp [e])
    refine ⟨h.1, ?_⟩
    rw [upd_other _ _ _ _ hx]
    exact is_chain_upd next n v xs _ (fun hm => hn (List.mem_cons_of_mem _ hm)) h.2

theorem queue_clear_ok :
    ∀ (l : List Nat) (fuel : Nat) (q : queue) (next : Nat → Option Nat),
      is_chain next q.head l → l.length < fuel →
      ∃ q1 next1, queue_clear fuel q next = .ok (q1, next1) ∧ q1.head = none ∧
        (l ≠ [] ∨ q.tail = none → q1.tail = none) ∧
        (∀ j, j ∉ l → next1 j = next j) ∧ (∀ j, j ∈ l → next1 j = none)
  | [], fuel, q, next, h, hf => by
    obtain ⟨f, rfl⟩ : ∃ f, fuel = f + 1 := ⟨fuel - 1, by simp at hf; omega⟩
    simp only [is_chain] at h
    refine ⟨q, next, ?_, h, ?_, fun _ _ => rfl, fun j hj => by simp at hj⟩
    · simp [queue_clear, queue_pop_front, queue_front, h]
    · intro ht
      rcases ht with ht | ht
      · exact absurd rfl ht
      · exact ht
  | x :: xs, fuel, q, next, h, hf => by
    obtain ⟨f, rfl⟩ : ∃ f, fuel = f + 1 := ⟨fuel - 1, by simp at hf; omega⟩
    have h2 := h
    simp only [is_chain] at h2
    have hnd := is_chain_head_not_mem next x xs (h2.1 ▸ h)
    have hrest := is_chain_upd next x none xs _ hnd h2.2
    obtain ⟨q1, next1, hc, hh, ht, hout, hin⟩ := queue_clear_ok xs f
      { head := next x, tail := if (next x).isNone then none else q.tail } (upd next x none)
      hrest (by simp at hf; omega)
    refine ⟨q1, next1, ?_, hh, ?_, ?_, ?_⟩
    · simp only [queue_clear, queue_pop_front, queue_front, h2.1]
      exact hc
    · intro _
      apply ht
      cases xs with
      | nil =>
        right
        simp only [is_chain] at h2
        simp [h2.2]
      | cons y ys => left; simp
    · intro j hj
      have hjx : j ≠ x := fun e => hj (by simp [e])
      rw [hout j (fun hm => hj (List.mem_cons_of_mem _ hm)), upd_other _ _ _ _ hjx]
    · intro j hj
      rcases List.mem_cons.mp hj with h1 | h1
      · subst h1
        by_cases hm : j ∈ xs
        · exact hin j hm
        · rw [hout j hm]; simp
      · exact hin j h1


/-! ## Handles -/

theorem lor_shiftLeft_48 (idx fg : Nat) (h : idx < 2 ^ 48) :
    idx ||| (fg <<< 48) = idx + fg * 2 ^ 48 := by
  rw [Nat.lor_comm, Nat.shiftLeft_eq, Nat.mul_comm, ← Nat.mul_add_lt_is_or h]; omega

theorem land_ffff (x : Nat) : x &&& 0xffff = x % 2 ^ 16 := by
  have := Nat.and_pow_two_sub_one_eq_mod x 16
  simpa using this

theorem land_48 (x : Nat) : x &&& 0xffffffffffff = x % 2 ^ 48 := by
  have := Nat.and_pow_two_sub_one_eq_mod x 48
  simpa using this

theorem handle_fields (fg idx : Nat) (hfg : fg < 2 ^ 16) (hidx : idx < 2 ^ 48) :
    handle_to_fg_id (tcpapi_to_handle fg idx) = fg ∧
      handle_to_idx (tcpapi_to_handle fg idx) = idx := by
  unfold handle_to_fg_id handle_to_idx tcpapi_to_handle
  have h1 : (fg <<< 48) % 2 ^ 64 = fg <<< 48 := by
    rw [Nat.shiftLeft_eq]; apply Nat.mod_eq_of_lt; omega
  rw [h1, lor_shiftLeft_48 idx fg hidx, land_ffff, land_48, Nat.shiftRight_eq_div_pow]
  omega

theorem handle_rebuild (h : Nat) (hh : h < 2 ^ 64) :
    tcpapi_to_handle (handle_to_fg_id h) (handle_to_idx h) = h := by
  unfold handle_to_fg_id handle_to_idx tcpapi_to_handle
  rw [land_ffff, land_48, Nat.shiftRight_eq_div_pow]
  have h1 : ((h / 2 ^ 48 % 2 ^ 16) <<< 48) % 2 ^ 64 = (h / 2 ^ 48 % 2 ^ 16) <<< 48 := by
    rw [Nat.shiftLeft_eq]; apply Nat.mod_eq_of_lt; omega
  rw [h1, lor_shiftLeft_48 _ _ (by omega)]
  omega

theorem handle_to_fg_id_lt (h : Nat) : handle_to_fg_id h < 2 ^ 16 := by
  unfold handle_to_fg_id
  rw [land_ffff]; omega

theorem handle_to_idx_lt (h : Nat) : handle_to_idx h < 2 ^ 48 := by
  unfold handle_to_idx
  rw [land_48]; omega

/-- C2: a handle built from a flow-group id below 2^16 and a pool index below 2^48
decodes to the same pair, and re-encoding the decoded pair of a 64-bit handle gives the
handle back. -/
theorem handle_packing_roundtrip (fg idx h : Nat) (hfg : fg < 2 ^ 16) (hidx : idx < 2 ^ 48)
    (hh : h < 2 ^ 64) :
    handle_to_fg_id (tcpapi_to_handle fg idx) = fg ∧
      handle_to_idx (tcpapi_to_handle fg idx) = idx ∧
      tcpapi_to_handle (handle_to_fg_id h) (handle_to_idx h) = h :=
  ⟨(handle_fields fg idx hfg hidx).1, (handle_fields fg idx hfg hidx).2, handle_rebuild h hh⟩

theorem handle_packing_roundtrip_witness :
    (3 < 2 ^ 16 ∧ 5 < 2 ^ 48 ∧ 2 ^ 63 + 9 < 2 ^ 64) ∧
      handle_to_fg_id (tcpapi_to_handle 3 5) = 3 ∧
      handle_to_idx (tcpapi_to_handle 3 5) = 5 ∧
      tcpapi_to_handle (handle_to_fg_id (2 ^ 63 + 9)) (handle_to_idx (2 ^ 63 + 9)) = 2 ^ 63 + 9 :=
  ⟨by decide, handle_packing_roundtrip 3 5 (2 ^ 63 + 9) (by decide) (by decide) (by decide)⟩

/-! ## Projections of the primitive state changes -/

@[simp] theorem set_pcb_pcbs_same (api : Nat) (f : tcpapi_pcb → tcpapi_pcb) (s : State) :
    (set_pcb api f s).pcbs api = f (s.pcbs api) := by simp [set_pcb]

theorem set_pcb_pcbs_other (api j : Nat) (f : tcpapi_pcb → tcpapi_pcb) (s : State) (h : j ≠ api) :
    (set_pcb api f s).pcbs j = s.pcbs j := by simp [set_pcb, upd, h]

@[simp] theorem set_pcb_usys_arr (api : Nat) (f : tcpapi_pcb → tcpapi_pcb) (s : State) :
    (set_pcb api f s).usys_arr = s.usys_arr := rfl
@[simp] theorem set_pcb_pbufs (api : Nat) (f : tcpapi_pcb → tcpapi_pcb) (s : State) :
    (set_pcb api f s).pbufs = s.pbufs := rfl
@[simp] theorem set_pcb_pbuf_next (api : Nat) (f : tcpapi_pcb → tcpapi_pcb) (s : State) :
    (set_pcb api f s).pbuf_for_usys_next = s.pbuf_for_usys_next := rfl
@[simp] theorem set_pcb_ready_next (api : Nat) (f : tcpapi_pcb → tcpapi_pcb) (s : State) :
    (set_pcb api f s).ready_queue_next = s.ready_queue_next := rfl
@[simp] theorem set_pcb_ready_queue (api : Nat) (f : tcpapi_pcb → tcpapi_pcb) (s : State) :
    (set_pcb api f s).pcb_ready_queue = s.pcb_ready_queue := rfl
@[simp] theorem set_pcb_pcb_mempool (api : Nat) (f : tcpapi_pcb → tcpapi_pcb) (s : State) :
    (set_pcb api f s).pcb_mempool = s.pcb_mempool := rfl
@[simp] theorem set_pcb_id_mempool (api : Nat) (f : tcpapi_pcb → tcpapi_pcb) (s : State) :
    (set_pcb api f s).id_mempool = s.id_mempool := rfl
@[simp] theorem set_pcb_calls (api : Nat) (f : tcpapi_pcb → tcpapi_pcb) (s : State) :
    (set_pcb api f s).calls = s.calls := rfl

@[simp] theorem usys_emit_pcbs (cpu : Nat) (e : usys_event) (s : State) :
    (usys_emit cpu e s).pcbs = s.pcbs := rfl
@[simp] theorem usys_emit_usys_arr (cpu : Nat) (e : usys_event) (s : State) :
    (usys_emit cpu e s).usys_arr = upd s.usys_arr cpu (s.usys_arr cpu ++ [e]) := rfl
@[simp] theorem usys_emit_pbufs (cpu : Nat) (e : usys_event) (s : State) :
    (usys_emit cpu e s).pbufs = s.pbufs := rfl
@[simp] theorem usys_emit_pbuf_next (cpu : Nat) (e : usys_event) (s : State) :
    (usys_emit cpu e s).pbuf_for_usys_next = s.pbuf_for_usys_next := rfl
@[simp] theorem usys_emit_ready_next (cpu : Nat) (e : usys_event) (s : State) :
    (usys_emit cpu e s).ready_queue_next = s.ready_queue_next := rfl
@[simp] theorem usys_emit_ready_queue (cpu : Nat) (e : usys_event) (s : State) :
    (usys_emit cpu e s).pcb_ready_queue = s.pcb_ready_queue := rfl
@[simp] theorem usys_emit_pcb_mempool (cpu : Nat) (e : usys_event) (s : State) :
    (usys_emit cpu e s).pcb_mempool = s.pcb_mempool := rfl

theorem pcb_add_active_add (a : tcpapi_pcb) (m n : Nat) :
    pcb_add_active (pcb_add_active a m) n = pcb_add_active a (m + n) := by
  cases a; simp [pcb_add_active]; omega

@[simp] theorem pcb_add_active_zero (a : tcpapi_pcb) : pcb_add_active a 0 = a := by
  cases a; simp [pcb_add_active]

@[simp] theorem inc_active_pcbs_same (api : Nat) (s : State) :
    (inc_active api s).pcbs api = pcb_add_active (s.pcbs api) 1 := by
  simp [inc_active, pcb_add_active]
@[simp] theorem inc_active_usys_arr (api : Nat) (s : State) :
    (inc_active api s).usys_arr = s.usys_arr := rfl
@[simp] theorem inc_active_pbufs (api : Nat) (s : State) :
    (inc_active api s).pbufs = s.pbufs := rfl
@[simp] theorem inc_active_pbuf_next (api : Nat) (s : State) :
    (inc_active api s).pbuf_for_usys_next = s.pbuf_for_usys_next := rfl

/-! ## Event generation -/

theorem gen_usys_first_spec (cfg : Config) (cpu api : Nat) (s : State) :
    (gen_usys_first cfg cpu api s).usys_arr =
        upd s.usys_arr cpu (s.usys_arr cpu ++ first_events cfg cpu (s.pcbs api)) ∧
      (gen_usys_first cfg cpu api s).pbufs = s.pbufs ∧
      (gen_usys_first cfg cpu api s).pbuf_for_usys_next = s.pbuf_for_usys_next ∧
      (gen_usys_first cfg cpu api s).pcbs api =
        pcb_after_first (s.pcbs api) (first_events cfg cpu (s.pcbs api)).length := by
  unfold gen_usys_first gen_sent gen_sendv_ret gen_connected gen_knock first_events pcb_after_first
  by_cases h1 : (s.pcbs api).uevents &&& PCB_UEVENT_KNOCK = 0 <;>
  by_cases h2 : (s.pcbs api).uevents &&& PCB_UEVENT_CONNECTED = 0 <;>
  by_cases h3 : (s.pcbs api).len_xmited = 0 <;>
  by_cases h4 : (s.pcbs api).sent_len = 0 <;>
  simp [h1, h2, h3, h4, add_assoc, pcb_add_active]


theorem gen_recv_chain_succ (cfg : Config) (cpu api fuel p : Nat) (s : State) :
    gen_recv_chain cfg cpu api (fuel + 1) p s =
      match (s.pbufs p).next with
      | none => .ok (recv_link_step cfg cpu api p s)
      | some p1 => gen_recv_chain cfg cpu api fuel p1 (recv_link_step cfg cpu api p s) := rfl

theorem recv_link_step_spec (cfg : Config) (cpu api p : Nat) (s : State) :
    (recv_link_step cfg cpu api p s).usys_arr =
        upd s.usys_arr cpu (s.usys_arr cpu ++ [recv_event cfg (s.pcbs api) (s.pbufs p)]) ∧
      (recv_link_step cfg cpu api p s).pbufs = s.pbufs ∧
      (recv_link_step cfg cpu api p s).pbuf_for_usys_next = s.pbuf_for_usys_next ∧
      (recv_link_step cfg cpu api p s).pcbs api = pcb_add_active (s.pcbs api) 1 := by
  simp [recv_link_step]

theorem recv_event_add_active (cfg : Config) (a : tcpapi_pcb) (n : Nat) (pb : pbuf) :
    recv_event cfg (pcb_add_active a n) pb = recv_event cfg a pb := rfl

theorem gen_recv_chain_spec (cfg : Config) (cpu api : Nat) :
    ∀ (c : List Nat) (fuel p : Nat) (s : State),
      is_chain (fun i => (s.pbufs i).next) (some p) c → c.length ≤ fuel →
      ∃ s1, gen_recv_chain cfg cpu api fuel p s = .ok s1 ∧
        s1.usys_arr = upd s.usys_arr cpu
          (s.usys_arr cpu ++ c.map (fun i => recv_event cfg (s.pcbs api) (s.pbufs i))) ∧
        s1.pbufs = s.pbufs ∧ s1.pbuf_for_usys_next = s.pbuf_for_usys_next ∧
        s1.pcbs api = pcb_add_active (s.pcbs api) c.length
  | [], _, _, _, h, _ => by simp [is_chain] at h
  | x :: xs, fuel, p, s, h, hf => by
    obtain ⟨f, rfl⟩ : ∃ f, fuel = f + 1 := ⟨fuel - 1, by simp at hf; omega⟩
    simp only [is_chain] at h
    obtain ⟨hp, hrest⟩ := h
    have hp : p = x := by simpa using hp
    subst hp
    obtain ⟨e1, e2, e3, e4⟩ := recv_link_step_spec cfg cpu api p s
    cases xs with
    | nil =>
      simp only [is_chain] at hrest
      refine ⟨recv_link_step cfg cpu api p s, ?_, ?_, e2, e3, ?_⟩
      · rw [gen_recv_chain_succ, hrest]
      · rw [e1]; simp
      · rw [e4]; simp
    | cons y ys =>
      have hn : (s.pbufs p).next = some y := by
        simp only [is_chain] at hrest; exact hrest.1
      obtain ⟨s1, hr, ha, hb, hc, hd⟩ := gen_recv_chain_spec cfg cpu api (y :: ys) f y
        (recv_link_step cfg cpu api p s)
        (by rw [e2]; rw [hn] at hrest; exact hrest) (by simp at hf ⊢; omega)
      refine ⟨s1, ?_, ?_, ?_, ?_, ?_⟩
      · rw [gen_recv_chain_succ, hn]; exact hr
      · rw [ha, e1, e2, e4]; simp [recv_event_add_active]
      · rw [hb, e2]
      · rw [hc, e3]
      · rw [hd, e4, pcb_add_active_add]; congr 1; simp; omega

theorem gen_recv_queue_spec (cfg : Config) (cpu api cf : Nat) :
    ∀ (l : List Nat) (chains : List (List Nat)) (fuel : Nat) (pos : Option Nat) (s : State),
      is_chain s.pbuf_for_usys_next pos l →
      List.Forall₂ (fun p c => is_chain (fun i => (s.pbufs i).next) (some p) c) l chains →
      l.length ≤ fuel → (∀ c ∈ chains, c.length ≤ cf) →
      ∃ s1, gen_recv_queue cfg cpu api cf fuel pos s = .ok s1 ∧
        s1.usys_arr = upd s.usys_arr cpu
          (s.usys_arr cpu ++ chains.flatten.map (fun i => recv_event cfg (s.pcbs api) (s.pbufs i))) ∧
        s1.pbufs = s.pbufs ∧ s1.pbuf_for_usys_next = s.pbuf_for_usys_next ∧
        s1.pcbs api = pcb_add_active (s.pcbs api) chains.flatten.length
  | [], chains, fuel, pos, s, h, hc, _, _ => by
    simp only [is_chain] at h
    cases hc
    subst h
    refine ⟨s, by cases fuel <;> simp [gen_recv_queue], ?_, rfl, rfl, ?_⟩ <;> simp
  | x :: xs, chains, fuel, pos, s, h, hc, hf, hcf => by
    obtain ⟨f, rfl⟩ : ∃ f, fuel = f + 1 := ⟨fuel - 1, by simp at hf; omega⟩
    simp only [is_chain] at h
    obtain ⟨hp, hrest⟩ := h
    subst hp
    cases hc with
    | cons hx hxs =>
      rename_i c cs
      obtain ⟨s1, hr, ha, hb, hn, hd⟩ := gen_recv_chain_spec cfg cpu api c cf x s hx
        (hcf c (by simp))
      obtain ⟨s2, hr2, ha2, hb2, hn2, hd2⟩ := gen_recv_queue_spec cfg cpu api cf xs cs f
        (s1.pbuf_for_usys_next x) s1 (by rw [hn]; exact hrest) (by rw [hb]; exact hxs)
        (by simp at hf; omega) (fun c1 h1 => hcf c1 (by simp [h1]))
      refine ⟨s2, by simp only [gen_recv_queue, hr]; exact hr2, ?_, ?_, ?_, ?_⟩
      · rw [ha2, ha, hb, hd]; simp [recv_event_add_active]
      · rw [hb2, hb]
      · rw [hn2, hn]
      · rw [hd2, hd, pcb_add_active_add]; simp

theorem gen_usys_last_spec (cpu api : Nat) (s : State) :
    (gen_usys_last cpu api s).usys_arr =
      upd s.usys_arr cpu (s.usys_arr cpu ++ last_events (s.pcbs api)) := by
  unfold gen_usys_last gen_ksys_ret gen_dead last_events
  by_cases h1 : (s.pcbs api).alive = 0 <;>
  by_cases h2 : (s.pcbs api).lasterr_sysnr = 0 <;>
  simp [h1, h2, pcb_add_active]

theorem gen_usys_events_split (cfg : Config) (cpu : Nat) (a : tcpapi_pcb) (links : List pbuf) :
    gen_usys_events cfg cpu a links =
      first_events cfg cpu a ++ links.map (recv_event cfg a) ++ last_events a := by
  simp [gen_usys_events, first_events, last_events, List.append_assoc]

/-- C1 (amended): for a CCB that meets the two assertions at the head of
`__tcp_gen_usys` and whose `pbuf_for_usys` queue is a chain of buffers, each a chain of
links, the function returns and appends to the event array of the running CPU exactly
KNOCK, CONNECTED, SENDV_RET, SENT, one RECV per link, DEAD, KSYS_RET, each under its
condition and in this order, and no other event array changes. -/
theorem gen_usys_event_sequence (cfg : Config) (cpu api fuel : Nat) (s : State)
    (l : List Nat) (chains : List (List Nat))
    (hflags : (s.pcbs api).flags = 0) (hcount : (s.pcbs api).active_usys_count = 0)
    (hq : is_chain s.pbuf_for_usys_next (s.pcbs api).pbuf_for_usys.head l)
    (hch : List.Forall₂ (fun p c => is_chain (fun i => (s.pbufs i).next) (some p) c) l chains)
    (hfuel : l.length < fuel ∧ ∀ c ∈ chains, c.length ≤ fuel) :
    ∃ s1, __tcp_gen_usys cfg cpu api fuel s = .ok s1 ∧
      s1.usys_arr = upd s.usys_arr cpu
        (s.usys_arr cpu ++ gen_usys_events cfg cpu (s.pcbs api) (chains.flatten.map s.pbufs)) := by
  obtain ⟨f1, f2, f3, f4⟩ := gen_usys_first_spec cfg cpu api s
  obtain ⟨s6, hr, ha, hb, hn, hd⟩ := gen_recv_queue_spec cfg cpu api fuel l chains fuel
    ((gen_usys_first cfg cpu api s).pcbs api).pbuf_for_usys.head (gen_usys_first cfg cpu api s)
    (by rw [f3, f4]; exact hq) (by rw [f2]; exact hch) (by omega) hfuel.2
  obtain ⟨q, next, hc, _, _, _, _⟩ := queue_clear_ok l fuel (s6.pcbs api).pbuf_for_usys
    s6.pbuf_for_usys_next (by rw [hn, f3, hd, f4]; exact hq) hfuel.1
  have hrun : __tcp_gen_usys cfg cpu api fuel s = .ok (gen_usys_last cpu api
      { set_pcb api (fun a => { a with pbuf_for_usys := q }) s6 with
        pbuf_for_usys_next := next }) := by
    simp only [__tcp_gen_usys, hflags, hcount, hr, hc]
    simp
  refine ⟨_, hrun, ?_⟩
  · rw [gen_usys_last_spec]
    simp only [set_pcb_usys_arr, set_pcb_pcbs_same, ha, hd, f1, f2, f4, upd_same, upd_upd,
      gen_usys_events_split, List.append_assoc, List.map_map]
    rfl

theorem gen_usys_event_sequence_witness :
    ((ex_pending_state 0).pcbs 0).flags = 0 ∧
      ∃ s1, __tcp_gen_usys ex_cfg 0 0 4 (ex_pending_state 0) = .ok s1 ∧
        s1.usys_arr = upd (ex_pending_state 0).usys_arr 0
          ((ex_pending_state 0).usys_arr 0 ++ gen_usys_events ex_cfg 0
            ((ex_pending_state 0).pcbs 0) ([[5, 6], [7]].flatten.map (ex_pending_state 0).pbufs)) :=
  ⟨rfl, gen_usys_event_sequence ex_cfg 0 0 4 (ex_pending_state 0) [5, 7] [[5, 6], [7]] rfl rfl
    ⟨rfl, rfl, rfl⟩
    (List.Forall₂.cons ⟨rfl, rfl, rfl⟩ (List.Forall₂.cons ⟨rfl, rfl⟩ List.Forall₂.nil))
    ⟨by decide, by decide⟩⟩

/-- C1 as stated fails: a CCB with KNOCK pending and `flags` not zero is a CCB state for
which the function stops at its first assertion and emits nothing, where the claimed
sequence starts with KNOCK. -/
theorem gen_usys_event_sequence_counterexample :
    ((ex_pending_state 1).pcbs 0).uevents &&& PCB_UEVENT_KNOCK ≠ 0 ∧
      __tcp_gen_usys ex_cfg 0 0 4 (ex_pending_state 1) = .error Fault.assert_failed ∧
      ¬ ∃ s1, __tcp_gen_usys ex_cfg 0 0 4 (ex_pending_state 1) = .ok s1 ∧
        s1.usys_arr = upd (ex_pending_state 1).usys_arr 0
          ((ex_pending_state 1).usys_arr 0 ++ gen_usys_events ex_cfg 0
            ((ex_pending_state 1).pcbs 0) ([[5, 6], [7]].flatten.map (ex_pending_state 1).pbufs)) := by
  have h : __tcp_gen_usys ex_cfg 0 0 4 (ex_pending_state 1) = .error Fault.assert_failed := rfl
  refine ⟨by decide, h, ?_⟩
  rintro ⟨s1, h1, _⟩
  rw [h] at h1
  cases h1

theorem lor_land_self (f b : Nat) : (f ||| b) &&& b = b := by
  apply Nat.eq_of_testBit_eq
  intro i
  simp only [Nat.testBit_and, Nat.testBit_or]
  cases f.testBit i <;> cases b.testBit i <;> rfl

theorem lor_lor_self (f b : Nat) : (f ||| b) ||| b = f ||| b := by
  apply Nat.eq_of_testBit_eq
  intro i
  simp only [Nat.testBit_or]
  cases f.testBit i <;> cases b.testBit i <;> rfl

theorem flag_closed_set (f : Nat) : (f ||| PCB_FLAG_CLOSED) &&& PCB_FLAG_CLOSED ≠ 0 := by
  rw [lor_land_self]; decide

@[simp] theorem eth_fg_set_current_pcbs (cpu fg : Nat) (s : State) :
    (eth_fg_set_current cpu fg s).pcbs = s.pcbs := rfl
@[simp] theorem eth_fg_set_current_usys_arr (cpu fg : Nat) (s : State) :
    (eth_fg_set_current cpu fg s).usys_arr = s.usys_arr := rfl
@[simp] theorem eth_fg_set_current_ready_next (cpu fg : Nat) (s : State) :
    (eth_fg_set_current cpu fg s).ready_queue_next = s.ready_queue_next := rfl
@[simp] theorem eth_fg_set_current_ready_queue (cpu fg : Nat) (s : State) :
    (eth_fg_set_current cpu fg s).pcb_ready_queue = s.pcb_ready_queue := rfl
@[simp] theorem eth_fg_set_current_pcb_mempool (cpu fg : Nat) (s : State) :
    (eth_fg_set_current cpu fg s).pcb_mempool = s.pcb_mempool := rfl
@[simp] theorem eth_fg_set_current_id_mempool (cpu fg : Nat) (s : State) :
    (eth_fg_set_current cpu fg s).id_mempool = s.id_mempool := rfl
@[simp] theorem eth_fg_set_current_ids (cpu fg : Nat) (s : State) :
    (eth_fg_set_current cpu fg s).ids = s.ids := rfl
@[simp] theorem eth_fg_set_current_pbufs (cpu fg : Nat) (s : State) :
    (eth_fg_set_current cpu fg s).pbufs = s.pbufs := rfl
@[simp] theorem eth_fg_set_current_calls (cpu fg : Nat) (s : State) :
    (eth_fg_set_current cpu fg s).calls = s.calls := rfl

/-! ## C3 -/

/-- C3: `handle_to_tcpapi` returns no CCB for a flow-group id outside the table, for a
slot that `mempool_free` has returned to a pool (whatever its word `alive` was before,
0 included) and for a slot that was never allocated, and returns the CCB at the index
of the handle when the flow-group id is in range and the slot holds an allocated CCB,
alive (1) or dead (0). -/
theorem handle_to_tcpapi_lookup (cfg : Config) (cpu handle : Nat) (s : State)
    (hhdr : 1 < cfg.mempool_hdr) :
    (cfg.ETH_MAX_TOTAL_FG + cfg.NCPU ≤ handle_to_fg_id handle →
        (handle_to_tcpapi cfg cpu handle s).1 = none) ∧
      (∀ c, (handle_to_tcpapi cfg cpu handle
        (pcb_mempool_free cfg c (handle_to_idx handle) s)).1 = none) ∧
      (∀ pcb_pool id_pool pbufs,
        (handle_to_tcpapi cfg cpu handle (init_state cfg pcb_pool id_pool pbufs)).1 = none) ∧
      (handle_to_fg_id handle < cfg.ETH_MAX_TOTAL_FG + cfg.NCPU →
        (s.pcbs (handle_to_idx handle)).alive ≤ 1 →
        (handle_to_tcpapi cfg cpu handle s).1 = some (handle_to_idx handle)) := by
  refine ⟨?_, ?_, ?_, ?_⟩
  · intro h
    simp [handle_to_tcpapi, h]
  · intro c
    unfold handle_to_tcpapi
    split_ifs with h1 h2
    · rfl
    · rfl
    · exfalso; apply h2; simp [pcb_mempool_free, hhdr]
  · intro pp ip pb
    unfold handle_to_tcpapi
    split_ifs with h1 h2
    · rfl
    · rfl
    · exfalso; apply h2; simp [init_state, blank_pcb, hhdr]
  · intro h1 h2
    unfold handle_to_tcpapi
    rw [if_neg (by omega), if_neg (by omega)]

theorem handle_to_tcpapi_lookup_witness :
    1 < ex_cfg.mempool_hdr ∧
      (∀ c, (handle_to_tcpapi ex_cfg 0 (tcpapi_to_handle 2 0)
        (pcb_mempool_free ex_cfg c (handle_to_idx (tcpapi_to_handle 2 0))
          (ex_pending_state 0))).1 = none) :=
  ⟨by decide, (handle_to_tcpapi_lookup ex_cfg 0 (tcpapi_to_handle 2 0) (ex_pending_state 0)
    (by decide)).2.1⟩

/-! ## C4 -/

theorem handle_to_tcpapi_none (cfg : Config) (cpu handle : Nat) (s : State)
    (h : (handle_to_tcpapi cfg cpu handle s).1 = none) :
    handle_to_tcpapi cfg cpu handle s = (none, s) ∨
      handle_to_tcpapi cfg cpu handle s =
        (none, eth_fg_set_current cpu (handle_to_fg_id handle) s) := by
  unfold handle_to_tcpapi at h ⊢
  split_ifs at h ⊢ with h1 h2
  · left; rfl
  · right; rfl

theorem badh_outcome_of (cpu sysnr : Nat) (s s0 : State)
    (h : s0 = s ∨ ∃ fg, s0 = eth_fg_set_current cpu fg s) :
    badh_outcome cpu sysnr s (.ok (usys_emit cpu (.KSYS_RET sysnr (-RET_BADH) 0) s0)) := by
  rcases h with h | ⟨fg, h⟩ <;> subst h <;>
    exact ⟨_, rfl, by simp [usys_emit], rfl, rfl, rfl, rfl, rfl, rfl⟩

/-- C4: when the lookup of the handle fails, each of the handlers of ACCEPT, SENDV,
RECV_DONE and CLOSE returns after emitting exactly one synchronous return carrying its
own descriptor number, `-RET_BADH` and cookie 0, and leaves the CCBs, the ready queues
and both pools unchanged. -/
theorem bad_handle_ksys_ret (cfg : Config) (cpu handle cookie fuel nrents len : Nat)
    (env : sendv_env) (s : State) (h : (handle_to_tcpapi cfg cpu handle s).1 = none) :
    badh_outcome cpu KSYS_TCP_ACCEPT s (bsys_tcp_accept cfg cpu handle cookie fuel s) ∧
      badh_outcome cpu KSYS_TCP_SENDV s (bsys_tcp_sendv cfg cpu handle nrents env s) ∧
      badh_outcome cpu KSYS_TCP_RECV_DONE s (bsys_tcp_recv_done cfg cpu handle len fuel s) ∧
      badh_outcome cpu KSYS_TCP_CLOSE s (bsys_tcp_close cfg cpu handle fuel s) := by
  rcases handle_to_tcpapi_none cfg cpu handle s h with e | e
  · refine ⟨?_, ?_, ?_, ?_⟩
    · simp only [bsys_tcp_accept, e]; exact badh_outcome_of _ _ _ _ (Or.inl rfl)
    · simp only [bsys_tcp_sendv, e]; exact badh_outcome_of _ _ _ _ (Or.inl rfl)
    · simp only [bsys_tcp_recv_done, e]; exact badh_outcome_of _ _ _ _ (Or.inl rfl)
    · simp only [bsys_tcp_close, e]; exact badh_outcome_of _ _ _ _ (Or.inl rfl)
  · refine ⟨?_, ?_, ?_, ?_⟩
    · simp only [bsys_tcp_accept, e]; exact badh_outcome_of _ _ _ _ (Or.inr ⟨_, rfl⟩)
    · simp only [bsys_tcp_sendv, e]; exact badh_outcome_of _ _ _ _ (Or.inr ⟨_, rfl⟩)
    · simp only [bsys_tcp_recv_done, e]; exact badh_outcome_of _ _ _ _ (Or.inr ⟨_, rfl⟩)
    · simp only [bsys_tcp_close, e]; exact badh_outcome_of _ _ _ _ (Or.inr ⟨_, rfl⟩)

theorem bad_handle_ksys_ret_witness :
    (handle_to_tcpapi ex_cfg 0 (tcpapi_to_handle 2 2) ex_init).1 = none ∧
      badh_outcome 0 KSYS_TCP_CLOSE ex_init
        (bsys_tcp_close ex_cfg 0 (tcpapi_to_handle 2 2) 4 ex_init) :=
  ⟨by decide, (bad_handle_ksys_ret ex_cfg 0 (tcpapi_to_handle 2 2) 0 4 0 0
    ⟨true, fun _ => ⟨0, 0⟩, fun _ => true, fun _ => 0, fun _ => err_t.ERR_OK⟩ ex_init
    (by decide)).2.2.2⟩

/-! ## The intrusive queue on well-formed queues -/

theorem is_chain_mem_next_or_last (next : Nat → Option Nat) (n : Nat) :
    ∀ (l : List Nat) (p : Option Nat), is_chain next p l → n ∈ l →
      (next n).isSome = true ∨ l.getLast? = some n
  | [], _, _, h => by simp at h
  | x :: xs, p, hc, hn => by
    simp only [is_chain] at hc
    cases xs with
    | nil =>
      have : n = x := by simpa using hn
      subst this
      right; simp
    | cons y ys =>
      rcases List.mem_cons.mp hn with h1 | h1
      · subst h1
        left
        have := hc.2
        simp only [is_chain] at this
        simp [this.1]
      · rcases is_chain_mem_next_or_last next n (y :: ys) _ hc.2 h1 with h2 | h2
        · left; exact h2
        · right; simpa [List.getLast?_cons_cons] using h2

theorem queue_contains_of_mem (q : queue) (next : Nat → Option Nat) (l : List Nat) (n : Nat)
    (hq : queue_repr q next l) (hn : n ∈ l) : queue_contains q next n = true := by
  rcases is_chain_mem_next_or_last next n l _ hq.1 hn with h | h
  · simp [queue_contains, h]
  · simp [queue_contains, hq.2, h]

theorem is_chain_append (next : Nat → Option Nat) (n t : Nat) (hn : next n = none) :
    ∀ (l : List Nat) (p : Option Nat), is_chain next p l → l.getLast? = some t → n ∉ l →
      is_chain (upd next t (some n)) p (l ++ [n])
  | [], _, _, h, _ => by simp at h
  | x :: xs, p, hc, ht, hnl => by
    simp only [is_chain] at hc
    have hxn : n ≠ x := fun e => hnl (by simp [e])
    cases xs with
    | nil =>
      have htx : t = x := by simpa using ht.symm
      subst htx
      simp only [is_chain] at hc
      simp only [List.nil_append, List.cons_append, is_chain, upd_same, true_and]
      exact ⟨hc.1, by rw [upd_other _ _ _ _ hxn]; exact hn⟩
    | cons y ys =>
      have hnd := is_chain_head_not_mem next x (y :: ys) (show is_chain next (some x) (x :: y :: ys) from ⟨rfl, hc.2⟩)
      have htl : (y :: ys).getLast? = some t := by simpa [List.getLast?_cons_cons] using ht
      have htm : t ∈ y :: ys := List.mem_of_getLast?_eq_some htl
      have hxt : x ≠ t := fun e => hnd (e ▸ htm)
      have ih := is_chain_append next n t hn (y :: ys) _ hc.2 htl
        (fun hm => hnl (List.mem_cons_of_mem _ hm))
      simp only [List.cons_append, is_chain] at ih ⊢
      refine ⟨hc.1, ?_⟩
      rw [upd_other _ _ _ _ hxt]
      exact ih

theorem queue_push_back_detached (q : queue) (next : Nat → Option Nat) (l : List Nat) (n : Nat)
    (hq : queue_repr q next l) (hnl : n ∉ l) (hn : next n = none) :
    ∃ q1 next1, queue_push_back q next n = .ok (q1, next1) ∧ queue_repr q1 next1 (l ++ [n]) ∧
      q1.tail = some n := by
  have hc : queue_contains q next n = false := by
    simp only [queue_contains, hn, Option.isSome_none, Bool.false_or, decide_eq_false_iff_not]
    rw [hq.2]
    intro h
    exact hnl (List.mem_of_getLast?_eq_some h)
  cases l with
  | nil =>
    have hh : q.head = none := hq.1
    refine ⟨{ head := some n, tail := some n }, next,
      by simp [queue_push_back, hc, hh], ?_, rfl⟩
    exact ⟨by simp [is_chain, hn], by simp⟩
  | cons x xs =>
    have hh : q.head = some x := hq.1.1
    obtain ⟨t, ht⟩ : ∃ t, (x :: xs).getLast? = some t := by
      cases h : (x :: xs).getLast? with
      | none => simp at h
      | some t => exact ⟨t, rfl⟩
    have htl : q.tail = some t := by rw [hq.2, ht]
    refine ⟨{ head := q.head, tail := some n }, upd next t (some n),
      by simp [queue_push_back, hc, hh, htl], ?_, rfl⟩
    refine ⟨?_, ?_⟩
    swap
    · show some n = ((x :: xs) ++ [n]).getLast?
      rw [List.getLast?_append]; simp
    exact is_chain_append next n t hn (x :: xs) _ hq.1 ht hnl

/-! ## C9 -/

theorem set_pcb_set_pcb (api : Nat) (f g : tcpapi_pcb → tcpapi_pcb) (s : State) :
    set_pcb api g (set_pcb api f s) = set_pcb api (fun a => g (f a)) s := by
  simp [set_pcb]

theorem pcb_ready_enqueue_twice (cfg : Config) (cpu api : Nat) (s s1 : State)
    (h : pcb_ready_enqueue cfg cpu api s = .ok s1) :
    pcb_ready_enqueue cfg cpu api s1 = .ok s1 := by
  unfold pcb_ready_enqueue at h
  cases hf : fgs_read cfg (handle_to_fg_id (s.pcbs api).handle) with
  | error e => rw [hf] at h; cases h
  | ok home =>
    rw [hf] at h
    simp only at h
    by_cases hh : home = cpu
    · subst hh
      simp only [ne_eq, not_true_eq_false, if_false] at h
      by_cases hc : (s.pcbs api).active_usys_count = 0
      · simp only [hc, not_true_eq_false, if_false] at h
        cases hp : queue_push_back (s.pcb_ready_queue home) s.ready_queue_next api with
        | error e => rw [hp] at h; cases h
        | ok r =>
          obtain ⟨q, next⟩ := r
          rw [hp] at h
          simp only [Except.ok.injEq] at h
          subst h
          have hcont : queue_contains q next api = true := by
            unfold queue_push_back at hp
            by_cases hcn : queue_contains (s.pcb_ready_queue home) s.ready_queue_next api = true
            · simp only [hcn, if_true, Except.ok.injEq, Prod.mk.injEq] at hp
              rw [← hp.1, ← hp.2]; exact hcn
            · simp only [hcn] at hp
              cases hhd : (s.pcb_ready_queue home).head with
              | none =>
                simp only [hhd, Bool.false_eq_true, if_false, Except.ok.injEq, Prod.mk.injEq] at hp
                rw [← hp.1]; simp [queue_contains]
              | some x =>
                cases htl : (s.pcb_ready_queue home).tail with
                | none => simp [hhd, htl] at hp
                | some t =>
                  simp only [hhd, htl, Bool.false_eq_true, if_false, Except.ok.injEq,
                    Prod.mk.injEq] at hp
                  rw [← hp.1]; simp [queue_contains]
          simp [pcb_ready_enqueue, hf, hc, queue_push_back, hcont]
      · simp only [hc, not_false_eq_true, if_true, Except.ok.injEq] at h
        subst h
        simp only [pcb_ready_enqueue, set_pcb_pcbs_same, hf, hc, ne_eq, not_true_eq_false,
          if_false, not_false_eq_true, if_true, set_pcb_set_pcb, lor_lor_self]
    · simp [hh] at h

/-- C9: for a well-formed ready queue and a CCB with `active_usys_count = 0` whose node is
linked in that queue or detached, a second `pcb_ready_enqueue` changes nothing after the
first (also when the first one faults); when the queue is that of the home CPU of the CCB
the call returns; an already linked CCB leaves the state as it is, and a detached one is
linked at the tail. -/
theorem pcb_ready_enqueue_idempotent (cfg : Config) (cpu api : Nat) (s : State) (l : List Nat)
    (hq : queue_repr (s.pcb_ready_queue cpu) s.ready_queue_next l)
    (hcount : (s.pcbs api).active_usys_count = 0)
    (hnode : api ∈ l ∨ s.ready_queue_next api = none) :
    (pcb_ready_enqueue cfg cpu api s >>= pcb_ready_enqueue cfg cpu api) =
        pcb_ready_enqueue cfg cpu api s ∧
      (api ∈ l → ∀ s1, pcb_ready_enqueue cfg cpu api s = .ok s1 → s1 = s) ∧
      (fgs_read cfg (handle_to_fg_id (s.pcbs api).handle) = .ok cpu →
        ∃ s1, pcb_ready_enqueue cfg cpu api s = .ok s1 ∧
          (api ∈ l → s1 = s) ∧
          (api ∉ l → queue_repr (s1.pcb_ready_queue cpu) s1.ready_queue_next (l ++ [api]))) := by
  have hlinked : api ∈ l → ∀ s1, pcb_ready_enqueue cfg cpu api s = .ok s1 → s1 = s := by
    intro hm s1 h
    have hcn := queue_contains_of_mem _ _ l api hq hm
    unfold pcb_ready_enqueue at h
    cases hf : fgs_read cfg (handle_to_fg_id (s.pcbs api).handle) with
    | error e => rw [hf] at h; cases h
    | ok home =>
      rw [hf] at h
      by_cases hh : home = cpu
      · subst hh
        simp [hcount, queue_push_back, hcn] at h
        rw [← h]
      · simp [hh] at h
  refine ⟨?_, hlinked, ?_⟩
  · cases h : pcb_ready_enqueue cfg cpu api s with
    | error e => rfl
    | ok s1 => exact pcb_ready_enqueue_twice cfg cpu api s s1 h
  · intro hhome
    by_cases hm : api ∈ l
    · have hcn := queue_contains_of_mem _ _ l api hq hm
      refine ⟨s, ?_, fun _ => rfl, fun h => absurd hm h⟩
      simp [pcb_ready_enqueue, hhome, hcount, queue_push_back, hcn]
    · have hn : s.ready_queue_next api = none := by
        rcases hnode with h | h
        · exact absurd h hm
        · exact h
      obtain ⟨q1, next1, hp, hr, _⟩ := queue_push_back_detached _ _ l api hq hm hn
      refine ⟨_, by simp only [pcb_ready_enqueue, hhome, hcount, hp]; simp; rfl,
        fun h => absurd h hm, fun _ => ?_⟩
      simpa using hr

/-! ## C10 -/

@[simp] theorem ext_pcbs (c : ext_call) (s : State) : (ext c s).pcbs = s.pcbs := rfl
@[simp] theorem ext_pcb_mempool (c : ext_call) (s : State) :
    (ext c s).pcb_mempool = s.pcb_mempool := rfl
@[simp] theorem ext_pbufs (c : ext_call) (s : State) : (ext c s).pbufs = s.pbufs := rfl
@[simp] theorem ext_usys_arr (c : ext_call) (s : State) : (ext c s).usys_arr = s.usys_arr := rfl
@[simp] theorem ext_ready_next (c : ext_call) (s : State) :
    (ext c s).ready_queue_next = s.ready_queue_next := rfl
@[simp] theorem ext_ready_queue (c : ext_call) (s : State) :
    (ext c s).pcb_ready_queue = s.pcb_ready_queue := rfl
@[simp] theorem ext_ids (c : ext_call) (s : State) : (ext c s).ids = s.ids := rfl
@[simp] theorem ext_id_mempool (c : ext_call) (s : State) :
    (ext c s).id_mempool = s.id_mempool := rfl

theorem close_loop_spec :
    ∀ (l : List Nat) (fuel : Nat) (p : Option Nat) (s : State),
      is_chain (fun i => (s.pbufs i).tcp_api_next) p l → l.length ≤ fuel →
      ∃ s1, close_loop fuel p s = .ok s1 ∧ s1.pcbs = s.pcbs ∧ s1.pcb_mempool = s.pcb_mempool ∧
        s1.id_mempool = s.id_mempool ∧ s1.ids = s.ids ∧
        s1.calls = s.calls ++ l.map ext_call.pbuf_free
  | [], fuel, p, s, h, _ => by
    simp only [is_chain] at h
    subst h
    exact ⟨s, by cases fuel <;> simp [close_loop], rfl, rfl, rfl, rfl, by simp⟩
  | x :: xs, fuel, p, s, h, hf => by
    obtain ⟨f, rfl⟩ : ∃ f, fuel = f + 1 := ⟨fuel - 1, by simp at hf; omega⟩
    simp only [is_chain] at h
    obtain ⟨hp, hrest⟩ := h
    subst hp
    obtain ⟨s1, hr, h1, h2, h3, h4, h5⟩ := close_loop_spec xs f (s.pbufs x).tcp_api_next
      (ext (.pbuf_free x) s) hrest (by simp at hf; omega)
    refine ⟨s1, by simp only [close_loop]; exact hr, h1, h2, h3, h4, ?_⟩
    rw [h5]; simp [ext]

theorem finish_step_nonzero (cfg : Config) (cpu api : Nat) (s : State)
    (h : (s.pcbs api).active_usys_count - 1 ≠ 0) :
    ∃ s1, __tcp_finish_usys cfg cpu api s = .ok s1 ∧ s1.pcb_mempool = s.pcb_mempool ∧
      (s1.pcbs api).active_usys_count = (s.pcbs api).active_usys_count - 1 ∧
      (s1.pcbs api).flags = (s.pcbs api).flags := by
  refine ⟨_, by simp [__tcp_finish_usys, h]; rfl, ?_, ?_, ?_⟩ <;> simp

theorem finish_step_free (cfg : Config) (cpu api : Nat) (s : State)
    (h : (s.pcbs api).active_usys_count = 1)
    (hf : (s.pcbs api).flags &&& PCB_FLAG_CLOSED ≠ 0) :
    ∃ s1, __tcp_finish_usys cfg cpu api s = .ok s1 ∧
      s1.pcb_mempool = upd s.pcb_mempool cpu (api :: s.pcb_mempool cpu) ∧
      (s1.pcbs api).active_usys_count = 0 := by
  refine ⟨_, by simp [__tcp_finish_usys, h, hf]; rfl, ?_, ?_⟩ <;> simp [pcb_mempool_free, h]

theorem finish_iter_nonzero (cfg : Config) (cpu api : Nat) :
    ∀ (k : Nat) (s : State),
      (∀ j : Nat, 1 ≤ j → j ≤ k → (s.pcbs api).active_usys_count - j ≠ 0) →
      ∃ s1, finish_iter cfg cpu api k s = .ok s1 ∧ s1.pcb_mempool = s.pcb_mempool ∧
        (s1.pcbs api).active_usys_count = (s.pcbs api).active_usys_count - k ∧
        (s1.pcbs api).flags = (s.pcbs api).flags
  | 0, s, _ => ⟨s, rfl, rfl, by simp, rfl⟩
  | k + 1, s, h => by
    obtain ⟨s1, hr, h1, h2, h3⟩ := finish_step_nonzero cfg cpu api s
      (by have := h 1 (by omega) (by omega); simpa using this)
    obtain ⟨s2, hr2, h4, h5, h6⟩ := finish_iter_nonzero cfg cpu api k s1 (by
      intro j hj1 hj2
      rw [h2]
      have := h (j + 1) (by omega) (by omega)
      push_cast at this
      omega)
    refine ⟨s2, by simp only [finish_iter, hr]; exact hr2, by rw [h4, h1], ?_, by rw [h6, h3]⟩
    rw [h5, h2]; push_cast; omega

theorem finish_iter_add (cfg : Config) (cpu api : Nat) :
    ∀ (m k : Nat) (s s1 : State), finish_iter cfg cpu api m s = .ok s1 →
      finish_iter cfg cpu api (m + k) s = finish_iter cfg cpu api k s1
  | 0, k, s, s1, h => by
    simp only [finish_iter, Except.ok.injEq] at h
    subst h; simp
  | m + 1, k, s, s1, h => by
    have e : m + 1 + k = (m + k) + 1 := by omega
    rw [e]
    simp only [finish_iter] at h ⊢
    cases hs : __tcp_finish_usys cfg cpu api s with
    | error e => rw [hs] at h; cases h
    | ok s2 =>
      rw [hs] at h
      exact finish_iter_add cfg cpu api m k s2 s1 h

theorem finish_iter_close (cfg : Config) (cpu api : Nat) (n : Nat) (s : State) (hn : 0 < n)
    (hc : (s.pcbs api).active_usys_count = n)
    (hf : (s.pcbs api).flags &&& PCB_FLAG_CLOSED ≠ 0) :
    (∀ k, k < n → ∃ sk, finish_iter cfg cpu api k s = .ok sk ∧ sk.pcb_mempool = s.pcb_mempool) ∧
      (∀ k, n ≤ k → ∃ sk, finish_iter cfg cpu api k s = .ok sk ∧
        sk.pcb_mempool = upd s.pcb_mempool cpu (api :: s.pcb_mempool cpu)) := by
  have hbefore : ∀ k, k < n → ∃ sk, finish_iter cfg cpu api k s = .ok sk ∧
      sk.pcb_mempool = s.pcb_mempool ∧ (sk.pcbs api).active_usys_count = n - k ∧
      (sk.pcbs api).flags = (s.pcbs api).flags := by
    intro k hk
    obtain ⟨sk, h1, h2, h3, h4⟩ := finish_iter_nonzero cfg cpu api k s (by
      intro j _ hj2; rw [hc]; omega)
    exact ⟨sk, h1, h2, by rw [h3, hc], h4⟩
  refine ⟨fun k hk => ?_, fun k hk => ?_⟩
  · obtain ⟨sk, h1, h2, _, _⟩ := hbefore k hk
    exact ⟨sk, h1, h2⟩
  · obtain ⟨s1, h1, h2, h3, h4⟩ := hbefore (n - 1) (by omega)
    obtain ⟨s2, h5, h6, h7⟩ := finish_step_free cfg cpu api s1 (by rw [h3]; omega)
      (by rw [h4]; exact hf)
    obtain ⟨s3, h8, h9, _, _⟩ := finish_iter_nonzero cfg cpu api (k - n) s2 (by
      intro j hj1 _; rw [h7]; omega)
    refine ⟨s3, ?_, by rw [h9, h6, h2]⟩
    have e1 : finish_iter cfg cpu api (n - 1 + 1) s = .ok s2 := by
      rw [finish_iter_add cfg cpu api (n - 1) 1 s s1 h1]
      simp [finish_iter, h5]
    have e2 : k = (n - 1 + 1) + (k - n) := by omega
    rw [e2, finish_iter_add cfg cpu api (n - 1 + 1) (k - n) s s2 e1]
    exact h8

theorem handle_to_tcpapi_some (cfg : Config) (cpu handle api : Nat) (s : State)
    (h : (handle_to_tcpapi cfg cpu handle s).1 = some api) :
    handle_to_tcpapi cfg cpu handle s =
      (some api, eth_fg_set_current cpu (handle_to_fg_id handle) s) ∧
      api = handle_to_idx handle ∧ (s.pcbs api).alive ≤ 1 ∧
      handle_to_fg_id handle < cfg.ETH_MAX_TOTAL_FG + cfg.NCPU := by
  unfold handle_to_tcpapi at h ⊢
  split_ifs at h ⊢ with h1 h2
  simp only [Option.some.injEq] at h
  subst h
  exact ⟨rfl, rfl, by omega, by omega⟩

theorem close_reset_frame (handle api : Nat) (s : State) :
    (close_reset handle api s).pcbs = s.pcbs ∧ (close_reset handle api s).pbufs = s.pbufs ∧
      (close_reset handle api s).pcb_mempool = s.pcb_mempool := by
  unfold close_reset
  cases (s.pcbs api).pcb <;> exact ⟨rfl, rfl, rfl⟩

theorem close_release_id_frame (cpu api : Nat) (s : State) :
    (close_release_id cpu api s).pcbs = s.pcbs ∧
      (close_release_id cpu api s).pcb_mempool = s.pcb_mempool := by
  unfold close_release_id
  cases (s.pcbs api).id <;> exact ⟨rfl, rfl⟩

theorem close_spec (cfg : Config) (cpu handle fuel api : Nat) (s : State) (l : List Nat)
    (hlook : (handle_to_tcpapi cfg cpu handle s).1 = some api)
    (hrecvd : is_chain (fun i => (s.pbufs i).tcp_api_next) (s.pcbs api).recvd l)
    (hfuel : l.length ≤ fuel) :
    ∃ s3, s3.pcbs = s.pcbs ∧ s3.pcb_mempool = s.pcb_mempool ∧
      bsys_tcp_close cfg cpu handle fuel s = .ok (close_finish cfg cpu api s3) := by
  obtain ⟨e, _, _, _⟩ := handle_to_tcpapi_some cfg cpu handle api s hlook
  obtain ⟨r1, r2, r3⟩ := close_reset_frame handle api
    (eth_fg_set_current cpu (handle_to_fg_id handle) s)
  obtain ⟨s2, hr, h1, h2, _, _, _⟩ := close_loop_spec l fuel
    ((close_reset handle api (eth_fg_set_current cpu (handle_to_fg_id handle) s)).pcbs api).recvd
    (close_reset handle api (eth_fg_set_current cpu (handle_to_fg_id handle) s))
    (by rw [r1, r2]; exact hrecvd) hfuel
  obtain ⟨i1, i2⟩ := close_release_id_frame cpu api s2
  refine ⟨close_release_id cpu api s2, by rw [i1, h1, r1]; rfl, by rw [i2, h2, r3]; rfl, ?_⟩
  simp only [bsys_tcp_close, e, hr]

/-- C10: CLOSE of a CCB with `active_usys_count = 0` frees it at once; with
`active_usys_count = n > 0` it leaves the CCB allocated and sets `CLOSED`, after which
the first `n - 1` calls of `__tcp_finish_usys` free nothing, the `n`-th returns the slot
to the pool, and no later call frees it again. -/
theorem close_frees_on_last_ack (cfg : Config) (cpu handle fuel api : Nat) (s : State)
    (l : List Nat) (hlook : (handle_to_tcpapi cfg cpu handle s).1 = some api)
    (hrecvd : is_chain (fun i => (s.pbufs i).tcp_api_next) (s.pcbs api).recvd l)
    (hfuel : l.length ≤ fuel) :
    ∃ s1, bsys_tcp_close cfg cpu handle fuel s = .ok s1 ∧
      ((s.pcbs api).active_usys_count = 0 →
        s1.pcb_mempool = upd s.pcb_mempool cpu (api :: s.pcb_mempool cpu)) ∧
      (∀ n : Nat, 0 < n → (s.pcbs api).active_usys_count = n →
        s1.pcb_mempool = s.pcb_mempool ∧ (s1.pcbs api).flags &&& PCB_FLAG_CLOSED ≠ 0 ∧
        (∀ k, k < n → ∃ sk, finish_iter cfg cpu api k s1 = .ok sk ∧
          sk.pcb_mempool = s.pcb_mempool) ∧
        (∀ k, n ≤ k → ∃ sk, finish_iter cfg cpu api k s1 = .ok sk ∧
          sk.pcb_mempool = upd s.pcb_mempool cpu (api :: s.pcb_mempool cpu))) := by
  obtain ⟨s3, h1, h2, hr⟩ := close_spec cfg cpu handle fuel api s l hlook hrecvd hfuel
  by_cases hc : (s.pcbs api).active_usys_count = 0
  · refine ⟨pcb_mempool_free cfg cpu api s3, by rw [hr]; simp [close_finish, h1, hc], ?_, ?_⟩
    · intro _; simp [pcb_mempool_free, h2]
    · intro n hn hcn; rw [hc] at hcn; omega
  · refine ⟨set_pcb api (fun a => { a with flags := a.flags ||| PCB_FLAG_CLOSED }) s3,
      by rw [hr]; simp [close_finish, h1, hc], fun h => absurd h hc, ?_⟩
    intro n hn hcn
    have hfl : ((set_pcb api (fun a => { a with flags := a.flags ||| PCB_FLAG_CLOSED }) s3).pcbs
        api).flags &&& PCB_FLAG_CLOSED ≠ 0 := by
      simp only [set_pcb_pcbs_same]; exact flag_closed_set _
    obtain ⟨ha, hb⟩ := finish_iter_close cfg cpu api n
      (set_pcb api (fun a => { a with flags := a.flags ||| PCB_FLAG_CLOSED }) s3) hn
      (by simp [h1, hcn]) hfl
    refine ⟨by simp [h2], hfl, ?_, ?_⟩
    · intro k hk
      obtain ⟨sk, e1, e2⟩ := ha k hk
      exact ⟨sk, e1, by rw [e2]; simp [h2]⟩
    · intro k hk
      obtain ⟨sk, e1, e2⟩ := hb k hk
      exact ⟨sk, e1, by rw [e2]; simp [h2]⟩

theorem close_frees_on_last_ack_witness :
    ((handle_to_tcpapi ex_cfg 0 0 ex_drained_state).1 = some 0 ∧
        (ex_drained_state.pcbs 0).active_usys_count = 1) ∧
      ∃ s1, bsys_tcp_close ex_cfg 0 0 4 ex_drained_state = .ok s1 ∧
        ((ex_drained_state.pcbs 0).active_usys_count = 0 →
          s1.pcb_mempool = upd ex_drained_state.pcb_mempool 0
            (0 :: ex_drained_state.pcb_mempool 0)) ∧
        (∀ n : Nat, 0 < n → (ex_drained_state.pcbs 0).active_usys_count = n →
          s1.pcb_mempool = ex_drained_state.pcb_mempool ∧
          (s1.pcbs 0).flags &&& PCB_FLAG_CLOSED ≠ 0 ∧
          (∀ k, k < n → ∃ sk, finish_iter ex_cfg 0 0 k s1 = .ok sk ∧
            sk.pcb_mempool = ex_drained_state.pcb_mempool) ∧
          (∀ k, n ≤ k → ∃ sk, finish_iter ex_cfg 0 0 k s1 = .ok sk ∧
            sk.pcb_mempool = upd ex_drained_state.pcb_mempool 0
              (0 :: ex_drained_state.pcb_mempool 0))) :=
  ⟨⟨by decide, by decide⟩,
    close_frees_on_last_ack ex_cfg 0 0 4 0 ex_drained_state [] (by decide) rfl (by decide)⟩

theorem pcb_ready_enqueue_idempotent_witness :
    (queue_repr (ex_knock_state.pcb_ready_queue 0) ex_knock_state.ready_queue_next [0] ∧
        (ex_knock_state.pcbs 0).active_usys_count = 0) ∧
      (pcb_ready_enqueue ex_cfg 0 0 ex_knock_state >>= pcb_ready_enqueue ex_cfg 0 0) =
        pcb_ready_enqueue ex_cfg 0 0 ex_knock_state ∧
      (0 ∈ [0] → ∀ s1, pcb_ready_enqueue ex_cfg 0 0 ex_knock_state = .ok s1 →
        s1 = ex_knock_state) ∧
      (fgs_read ex_cfg (handle_to_fg_id (ex_knock_state.pcbs 0).handle) = .ok 0 →
        ∃ s1, pcb_ready_enqueue ex_cfg 0 0 ex_knock_state = .ok s1 ∧
          (0 ∈ [0] → s1 = ex_knock_state) ∧
          (0 ∉ [0] → queue_repr (s1.pcb_ready_queue 0) s1.ready_queue_next ([0] ++ [0]))) :=
  ⟨⟨⟨⟨rfl, rfl⟩, rfl⟩, by decide⟩,
    pcb_ready_enqueue_idempotent ex_cfg 0 0 ex_knock_state [0] ⟨⟨rfl, rfl⟩, rfl⟩ (by decide)
      (Or.inl (by simp))⟩

/-! ## Runs -/

theorem run_reachable (cfg : Config) :
    ∀ (tr : List Action) (s s1 : State), Reachable cfg s → run cfg s tr = .ok s1 →
      Reachable cfg s1
  | [], s, s1, hs, h => by
    simp only [run, Except.ok.injEq] at h
    subst h; exact hs
  | a :: as, s, s1, hs, h => by
    simp only [run] at h
    by_cases he : env_ok cfg s a = true
    · rw [if_pos he] at h
      cases hst : step cfg s a with
      | error e => rw [hst] at h; cases h
      | ok s2 =>
        rw [hst] at h
        exact run_reachable cfg as s2 s1 (Reachable.step s s2 a hs he hst) h
    · rw [if_neg he] at h; cases h

theorem ex_pool_wf : pool_wf ex_cfg ex_pool := by
  intro c i hi
  unfold ex_pool at hi
  by_cases h0 : c = 0
  · subst h0
    simp at hi
    rcases hi with h | h <;> subst h <;> decide
  · by_cases h1 : c = 1
    · subst h1
      simp at hi
      rcases hi with h | h <;> subst h <;> decide
    · simp [h0, h1] at hi

theorem ex_init_reachable : Reachable ex_cfg ex_init :=
  Reachable.init ex_pool ex_pool ex_pbufs ex_pool_wf

theorem queue_walk_none (next : Nat → Option Nat) (fuel : Nat) :
    queue_walk next fuel none = [] := by
  cases fuel <;> rfl

theorem ex_refused_pool :
    (run_state ex_cfg ex_init ex_trace_refused).pcb_mempool = upd ex_pool 0 [2] := rfl

/-- C5: the claim fails on the code.  After CONNECT, a connected callback that reports a
failure emits a CONNECTED event for the handle without counting it; when the application
acknowledges the batch, `active_usys_count` of the CCB, which was 0 with one event for the
handle outstanding, becomes -1. -/
theorem on_connected_error_count_negative :
    Reachable ex_cfg (run_state ex_cfg ex_init (ex_trace_refused.take 2)) ∧
      ((run_state ex_cfg ex_init (ex_trace_refused.take 2)).pcbs 0).active_usys_count = 0 ∧
      usys_event.USYS_TCP_CONNECTED
          ((run_state ex_cfg ex_init (ex_trace_refused.take 2)).pcbs 0).handle 5 RET_CONNREFUSED
        ∈ (run_state ex_cfg ex_init (ex_trace_refused.take 2)).usys_arr 0 ∧
      Reachable ex_cfg (run_state ex_cfg ex_init ex_trace_refused) ∧
      pcb_allocated (run_state ex_cfg ex_init ex_trace_refused) 0 ∧
      ((run_state ex_cfg ex_init ex_trace_refused).pcbs 0).active_usys_count = -1 := by
  refine ⟨run_reachable ex_cfg (ex_trace_refused.take 2) ex_init _ ex_init_reachable rfl,
    by decide, by decide,
    run_reachable ex_cfg ex_trace_refused ex_init _ ex_init_reachable rfl, ?_, by decide⟩
  intro c
  rw [ex_refused_pool]
  unfold upd ex_pool
  by_cases h0 : c = 0
  · simp [h0]
  · by_cases h1 : c = 1 <;> simp [h0, h1]

theorem ex_refused_reset_reachable :
    Reachable ex_cfg (run_state ex_cfg ex_init ex_trace_refused_reset) :=
  run_reachable ex_cfg ex_trace_refused_reset ex_init _ ex_init_reachable rfl

/-- C7: the claim fails on the code.  In a reachable state the CCB of a refused outbound
connection is linked in the ready queue of its CPU with `flags = 0` and
`active_usys_count = -1` (the acknowledgement of the CONNECTED event that
`on_connected` emitted without counting it); the next drain pops it and stops at the
assertion `!api->active_usys_count`. -/
theorem drain_assert_fails_after_refused_connect :
    Reachable ex_cfg (run_state ex_cfg ex_init ex_trace_refused_reset) ∧
      pcb_linked (run_state ex_cfg ex_init ex_trace_refused_reset) 0 0 ∧
      ((run_state ex_cfg ex_init ex_trace_refused_reset).pcbs 0).flags = 0 ∧
      ((run_state ex_cfg ex_init ex_trace_refused_reset).pcbs 0).active_usys_count = -1 ∧
      ∀ fuel, tcp_generate_usys ex_cfg 0 fuel (run_state ex_cfg ex_init ex_trace_refused_reset)
        = .error Fault.assert_failed :=
  ⟨ex_refused_reset_reachable, ⟨1, by decide⟩, by decide, by decide, fun _ => rfl⟩

theorem frame_refl (hd : Option Nat) (s : State) : frame hd s s :=
  ⟨rfl, rfl, rfl, fun _ => ⟨rfl, rfl, rfl⟩, fun _ _ h _ => Or.inl h⟩

theorem frame_trans (hd : Option Nat) (s s1 s2 : State) (h1 : frame hd s s1)
    (h2 : frame hd s1 s2) : frame hd s s2 := by
  obtain ⟨a1, b1, c1, d1, e1⟩ := h1
  obtain ⟨a2, b2, c2, d2, e2⟩ := h2
  refine ⟨a2.trans a1, b2.trans b1, c2.trans c1, fun i => ?_, fun c e he ht => ?_⟩
  · exact ⟨(d2 i).1.trans (d1 i).1, (d2 i).2.1.trans (d1 i).2.1, (d2 i).2.2.trans (d1 i).2.2⟩
  · rcases e2 c e he ht with h | h
    · exact e1 c e h ht
    · exact Or.inr h

theorem frame_none (hd : Option Nat) (s s1 : State) (h : frame none s s1) : frame hd s s1 := by
  obtain ⟨a, b, c, d, e⟩ := h
  refine ⟨a, b, c, d, fun c0 e0 he ht => ?_⟩
  rcases e c0 e0 he ht with h | h
  · exact Or.inl h
  · cases h

theorem pcb_valid_frame (cfg : Config) (hd : Option Nat) (s s1 : State) (i : Nat)
    (hf : frame hd s s1) : pcb_valid cfg s1 i ↔ pcb_valid cfg s i := by
  unfold pcb_valid
  rw [(hf.2.2.2.1 i).2.2]

theorem pcb_unused_frame (hd : Option Nat) (s s1 : State) (i : Nat)
    (hf : frame hd s s1) : pcb_unused s1 i ↔ pcb_unused s i := by
  unfold pcb_unused
  rw [(hf.2.2.2.1 i).1, (hf.2.2.2.1 i).2.1, hf.1, hf.2.1]

theorem Inv_frame (cfg : Config) (hd : Option Nat) (s s1 : State) (hi : Inv cfg s)
    (hf : frame hd s s1) (hh : ∀ h, hd = some h → handle_home cfg h) : Inv cfg s1 := by
  have hf0 := hf
  obtain ⟨a, b, c, d, e⟩ := hf
  refine ⟨?_, ?_, ?_, ?_, ?_, ?_, ?_⟩
  · rw [a]; exact hi.acyclic
  · rw [b]; exact hi.head_cpu
  · rw [b]; exact hi.tail_cpu
  · rw [a]; exact hi.next_cpu
  · rw [c]; exact hi.pool
  · intro i
    rw [pcb_valid_frame cfg hd s s1 i hf0, pcb_unused_frame hd s s1 i hf0]
    exact hi.valid i
  · intro c0 e0 he ht
    rcases e c0 e0 he ht with h | h
    · exact hi.events c0 e0 h ht
    · exact hh _ h.symm

/-- A change of a CCB that keeps `alive`, `flags` and `handle`. -/
theorem frame_set_pcb (hd : Option Nat) (api : Nat) (f : tcpapi_pcb → tcpapi_pcb) (s : State)
    (hf : ∀ a, (f a).alive = a.alive ∧ (f a).flags = a.flags ∧ (f a).handle = a.handle) :
    frame hd s (set_pcb api f s) := by
  refine ⟨rfl, rfl, rfl, fun i => ?_, fun _ _ h _ => Or.inl h⟩
  by_cases h : i = api
  · subst h; simp only [set_pcb_pcbs_same]; exact hf _
  · rw [set_pcb_pcbs_other _ _ _ _ h]; exact ⟨rfl, rfl, rfl⟩

theorem frame_ext (hd : Option Nat) (c : ext_call) (s : State) : frame hd s (ext c s) :=
  ⟨rfl, rfl, rfl, fun _ => ⟨rfl, rfl, rfl⟩, fun _ _ h _ => Or.inl h⟩

theorem frame_eth_fg (hd : Option Nat) (cpu fg : Nat) (s : State) :
    frame hd s (eth_fg_set_current cpu fg s) :=
  ⟨rfl, rfl, rfl, fun _ => ⟨rfl, rfl, rfl⟩, fun _ _ h _ => Or.inl h⟩

theorem mem_upd_append {α : Type} (f : Nat → List α) (cpu c : Nat) (e x : α)
    (h : e ∈ upd f cpu (f cpu ++ [x]) c) : e ∈ f c ∨ e = x := by
  unfold upd at h
  by_cases hc : c = cpu
  · subst hc
    simp only [if_true, List.mem_append, List.mem_singleton] at h
    exact h
  · simp only [hc, if_false] at h
    exact Or.inl h

theorem frame_emit (hd : Option Nat) (cpu : Nat) (e : usys_event) (s : State)
    (h : usys_is_tcp e = true → some (usys_arga e) = hd) : frame hd s (usys_emit cpu e s) := by
  refine ⟨rfl, rfl, rfl, fun _ => ⟨rfl, rfl, rfl⟩, fun c e0 he ht => ?_⟩
  rcases mem_upd_append s.usys_arr cpu c e0 e he with h1 | h1
  · exact Or.inl h1
  · subst h1; exact Or.inr (h ht)

theorem frame_inc_active (hd : Option Nat) (api : Nat) (s : State) :
    frame hd s (inc_active api s) :=
  frame_set_pcb hd api _ s (fun _ => ⟨rfl, rfl, rfl⟩)

theorem frame_of_eq (hd : Option Nat) (s s1 : State)
    (h1 : s1.ready_queue_next = s.ready_queue_next) (h2 : s1.pcb_ready_queue = s.pcb_ready_queue)
    (h3 : s1.pcb_mempool = s.pcb_mempool) (h4 : s1.pcbs = s.pcbs)
    (h5 : s1.usys_arr = s.usys_arr) : frame hd s s1 :=
  ⟨h1, h2, h3, fun i => by rw [h4]; exact ⟨rfl, rfl, rfl⟩, fun c e he _ => by
    rw [h5] at he; exact Or.inl he⟩

theorem frame_handle (hd : Option Nat) (s s1 : State) (i : Nat) (h : frame hd s s1) :
    (s1.pcbs i).handle = (s.pcbs i).handle := (h.2.2.2.1 i).2.2

/-! ## Event generation keeps the frame -/

theorem frame_emit_inc (hd : Option Nat) (cpu api : Nat) (e : usys_event) (s : State)
    (h : usys_is_tcp e = true → some (usys_arga e) = hd) :
    frame hd s (inc_active api (usys_emit cpu e s)) :=
  frame_trans _ _ _ _ (frame_emit hd cpu e s h) (frame_inc_active hd api _)

theorem frame_emit_set_inc (hd : Option Nat) (cpu api : Nat) (e : usys_event)
    (f : tcpapi_pcb → tcpapi_pcb) (s : State)
    (hf : ∀ a, (f a).alive = a.alive ∧ (f a).flags = a.flags ∧ (f a).handle = a.handle)
    (h : usys_is_tcp e = true → some (usys_arga e) = hd) :
    frame hd s (inc_active api (set_pcb api f (usys_emit cpu e s))) :=
  frame_trans _ _ _ _ (frame_emit hd cpu e s h)
    (frame_trans _ _ _ _ (frame_set_pcb hd api f _ hf) (frame_inc_active hd api _))

theorem frame_gen_knock (cfg : Config) (cpu api : Nat) (s : State) :
    frame (some (s.pcbs api).handle) s (gen_knock cfg cpu api s) := by
  unfold gen_knock
  split_ifs
  · exact frame_emit_inc _ _ _ _ _ (fun _ => rfl)
  · exact frame_refl _ _

theorem frame_gen_connected (cpu api : Nat) (s : State) :
    frame (some (s.pcbs api).handle) s (gen_connected cpu api s) := by
  unfold gen_connected
  split_ifs
  · exact frame_emit_inc _ _ _ _ _ (fun _ => rfl)
  · exact frame_refl _ _

theorem frame_gen_sendv_ret (cpu api : Nat) (s : State) :
    frame (some (s.pcbs api).handle) s (gen_sendv_ret cpu api s) := by
  unfold gen_sendv_ret
  split_ifs
  · exact frame_emit_set_inc _ _ _ _ _ _ (fun _ => ⟨rfl, rfl, rfl⟩) (fun _ => rfl)
  · exact frame_refl _ _

theorem frame_gen_sent (cpu api : Nat) (s : State) :
    frame (some (s.pcbs api).handle) s (gen_sent cpu api s) := by
  unfold gen_sent
  split_ifs
  · exact frame_emit_set_inc _ _ _ _ _ _ (fun _ => ⟨rfl, rfl, rfl⟩) (fun _ => rfl)
  · exact frame_refl _ _

theorem frame_gen_dead (cpu api : Nat) (s : State) :
    frame (some (s.pcbs api).handle) s (gen_dead cpu api s) := by
  unfold gen_dead
  split_ifs
  · exact frame_emit_inc _ _ _ _ _ (fun _ => rfl)
  · exact frame_refl _ _

theorem frame_gen_ksys_ret (hd : Option Nat) (cpu api : Nat) (s : State) :
    frame hd s (gen_ksys_ret cpu api s) := by
  unfold gen_ksys_ret
  split_ifs
  · exact frame_emit_set_inc _ _ _ _ _ _ (fun _ => ⟨rfl, rfl, rfl⟩)
      (fun h => by simp [usys_is_tcp] at h)
  · exact frame_refl _ _

/-- Chaining of frames whose handle is that of the same slot. -/
theorem frame_step (api : Nat) (s s1 s2 : State) (h1 : frame (some (s.pcbs api).handle) s s1)
    (h2 : frame (some (s1.pcbs api).handle) s1 s2) : frame (some (s.pcbs api).handle) s s2 := by
  rw [frame_handle _ _ _ api h1] at h2
  exact frame_trans _ _ _ _ h1 h2

theorem frame_gen_usys_first (cfg : Config) (cpu api : Nat) (s : State) :
    frame (some (s.pcbs api).handle) s (gen_usys_first cfg cpu api s) := by
  unfold gen_usys_first
  have h1 := frame_gen_knock cfg cpu api s
  have h2 := frame_step api _ _ _ h1 (frame_gen_connected cpu api _)
  have h3 := frame_step api _ _ _ h2
    (frame_set_pcb _ api (fun a => { a with uevents := 0 }) _ (fun _ => ⟨rfl, rfl, rfl⟩))
  have h4 := frame_step api _ _ _ h3 (frame_gen_sendv_ret cpu api _)
  exact frame_step api _ _ _ h4 (frame_gen_sent cpu api _)

theorem frame_gen_usys_last (cpu api : Nat) (s : State) :
    frame (some (s.pcbs api).handle) s (gen_usys_last cpu api s) := by
  unfold gen_usys_last
  exact frame_step api _ _ _ (frame_gen_dead cpu api s) (frame_gen_ksys_ret _ cpu api _)

theorem frame_recv_link_step (cfg : Config) (cpu api p : Nat) (s : State) :
    frame (some (s.pcbs api).handle) s (recv_link_step cfg cpu api p s) := by
  unfold recv_link_step
  exact frame_trans _ _ _ _
    (frame_of_eq _ s { s with mbuf_len := upd s.mbuf_len (s.pbufs p).mbuf (s.pbufs p).len }
      rfl rfl rfl rfl rfl)
    (frame_emit_inc _ cpu api _ _ (fun _ => rfl))

theorem frame_gen_recv_chain (cfg : Config) (cpu api : Nat) :
    ∀ (fuel p : Nat) (s s1 : State), gen_recv_chain cfg cpu api fuel p s = .ok s1 →
      frame (some (s.pcbs api).handle) s s1
  | 0, _, _, _, h => by simp [gen_recv_chain] at h
  | fuel + 1, p, s, s1, h => by
    rw [gen_recv_chain_succ] at h
    have hs := frame_recv_link_step cfg cpu api p s
    cases hn : (s.pbufs p).next with
    | none =>
      rw [hn] at h
      simp only [Except.ok.injEq] at h
      subst h; exact hs
    | some p1 =>
      rw [hn] at h
      exact frame_step api _ _ _ hs (frame_gen_recv_chain cfg cpu api fuel p1 _ s1 h)

theorem frame_gen_recv_queue (cfg : Config) (cpu api cf : Nat) :
    ∀ (fuel : Nat) (pos : Option Nat) (s s1 : State),
      gen_recv_queue cfg cpu api cf fuel pos s = .ok s1 →
      frame (some (s.pcbs api).handle) s s1
  | fuel, none, s, s1, h => by
    cases fuel <;> simp only [gen_recv_queue, Except.ok.injEq] at h <;> subst h <;>
      exact frame_refl _ _
  | 0, some p, s, s1, h => by simp [gen_recv_queue] at h
  | fuel + 1, some p, s, s1, h => by
    simp only [gen_recv_queue] at h
    cases hc : gen_recv_chain cfg cpu api cf p s with
    | error e => rw [hc] at h; cases h
    | ok s2 =>
      rw [hc] at h
      exact frame_step api _ _ _ (frame_gen_recv_chain cfg cpu api cf p s s2 hc)
        (frame_gen_recv_queue cfg cpu api cf fuel _ s2 s1 h)

theorem frame_tcp_gen_usys (cfg : Config) (cpu api fuel : Nat) (s s1 : State)
    (h : __tcp_gen_usys cfg cpu api fuel s = .ok s1) :
    frame (some (s.pcbs api).handle) s s1 := by
  unfold __tcp_gen_usys at h
  split_ifs at h
  simp only at h
  cases hq : gen_recv_queue cfg cpu api fuel fuel
      ((gen_usys_first cfg cpu api s).pcbs api).pbuf_for_usys.head
      (gen_usys_first cfg cpu api s) with
  | error e => rw [hq] at h; cases h
  | ok s6 =>
    rw [hq] at h
    simp only at h
    cases hc : queue_clear fuel (s6.pcbs api).pbuf_for_usys s6.pbuf_for_usys_next with
    | error e => rw [hc] at h; cases h
    | ok r =>
      obtain ⟨q, next⟩ := r
      rw [hc] at h
      simp only [Except.ok.injEq] at h
      subst h
      have h1 := frame_step api _ _ _ (frame_gen_usys_first cfg cpu api s)
        (frame_gen_recv_queue cfg cpu api fuel fuel _ _ s6 hq)
      have h2 : frame (some (s6.pcbs api).handle) s6
          { set_pcb api (fun a => { a with pbuf_for_usys := q }) s6 with
            pbuf_for_usys_next := next } :=
        frame_trans _ _ _ _
          (frame_set_pcb _ api (fun a => { a with pbuf_for_usys := q }) s6
            (fun _ => ⟨rfl, rfl, rfl⟩))
          (frame_of_eq _ (set_pcb api (fun a => { a with pbuf_for_usys := q }) s6) _
            rfl rfl rfl rfl rfl)
      exact frame_step api _ _ _ (frame_step api _ _ _ h1 h2) (frame_gen_usys_last cpu api _)

/-! ## The invariant under the queue operations -/

theorem is_chain_redirect (next : Nat → Option Nat) (t : Nat) (v : Option Nat) (l2 : List Nat)
    (h2 : is_chain (upd next t v) v l2) :
    ∀ (l : List Nat) (p : Option Nat), is_chain next p l → ∃ l1, is_chain (upd next t v) p l1
  | [], p, h => ⟨[], h⟩
  | x :: xs, p, h => by
    simp only [is_chain] at h
    obtain ⟨hp, hr⟩ := h
    subst hp
    by_cases hx : x = t
    · subst hx
      exact ⟨x :: l2, rfl, by rw [upd_same]; exact h2⟩
    · obtain ⟨l1, h1⟩ := is_chain_redirect next t v l2 h2 xs _ hr
      exact ⟨x :: l1, rfl, by rw [upd_other _ _ _ _ hx]; exact h1⟩

theorem acyclic_upd_none (next : Nat → Option Nat) (n : Nat)
    (h : ∀ i, ∃ l, is_chain next (some i) l) :
    ∀ i, ∃ l, is_chain (upd next n none) (some i) l := by
  intro i
  obtain ⟨l, hl⟩ := h i
  exact is_chain_redirect next n none [] rfl l _ hl

theorem acyclic_upd_some (next : Nat → Option Nat) (t n : Nat) (hn : next n = none)
    (hnt : n ≠ t) (h : ∀ i, ∃ l, is_chain next (some i) l) :
    ∀ i, ∃ l, is_chain (upd next t (some n)) (some i) l := by
  intro i
  obtain ⟨l, hl⟩ := h i
  refine is_chain_redirect next t (some n) [n] ?_ l _ hl
  exact ⟨rfl, by rw [upd_other _ _ _ _ hnt]; exact hn⟩

/-- A change of the CCB in a valid slot that keeps its handle. -/
theorem Inv_set_pcb (cfg : Config) (s : State) (api : Nat) (f : tcpapi_pcb → tcpapi_pcb)
    (hi : Inv cfg s) (hv : pcb_valid cfg s api) (hf : ∀ a, (f a).handle = a.handle) :
    Inv cfg (set_pcb api f s) := by
  refine ⟨hi.acyclic, hi.head_cpu, hi.tail_cpu, hi.next_cpu, hi.pool, fun i => ?_, hi.events⟩
  by_cases h : i = api
  · subst h
    left
    unfold pcb_valid at hv ⊢
    simp only [set_pcb_pcbs_same, hf]
    exact hv
  · rcases hi.valid i with hv1 | hu
    · left
      unfold pcb_valid at hv1 ⊢
      rw [set_pcb_pcbs_other _ _ _ _ h]; exact hv1
    · right
      unfold pcb_unused at hu ⊢
      rw [set_pcb_pcbs_other _ _ _ _ h]; exact hu

theorem pcb_valid_of_not_unused (cfg : Config) (s : State) (i : Nat) (hi : Inv cfg s)
    (h : ¬ pcb_unused s i) : pcb_valid cfg s i := by
  rcases hi.valid i with h1 | h1
  · exact h1
  · exact absurd h1 h

theorem pcb_valid_of_alive (cfg : Config) (s : State) (i : Nat) (hi : Inv cfg s)
    (h : (s.pcbs i).alive ≤ 1) : pcb_valid cfg s i :=
  pcb_valid_of_not_unused cfg s i hi (fun hu => by have := hu.1; omega)

theorem pcb_valid_of_flags (cfg : Config) (s : State) (i : Nat) (hi : Inv cfg s)
    (h : (s.pcbs i).flags ≠ 0) : pcb_valid cfg s i :=
  pcb_valid_of_not_unused cfg s i hi (fun hu => h hu.2.1)

theorem pcb_valid_of_head (cfg : Config) (s : State) (c i : Nat) (hi : Inv cfg s)
    (h : (s.pcb_ready_queue c).head = some i) : pcb_valid cfg s i :=
  pcb_valid_of_not_unused cfg s i hi (fun hu => (hu.2.2.1 c).1 h)

theorem fgs_read_ok (cfg : Config) (fg cpu : Nat) (h : fgs_read cfg fg = .ok cpu) :
    fg < cfg.ETH_MAX_TOTAL_FG + cfg.NCPU ∧ cfg.fgs_cur_cpu fg = cpu := by
  unfold fgs_read at h
  split_ifs at h with h1
  simp only [Except.ok.injEq] at h
  exact ⟨h1, h⟩

theorem pcb_ready_enqueue_home (cfg : Config) (cpu api : Nat) (s s1 : State)
    (h : pcb_ready_enqueue cfg cpu api s = .ok s1) :
    fgs_read cfg (handle_to_fg_id (s.pcbs api).handle) = .ok cpu := by
  unfold pcb_ready_enqueue at h
  cases hf : fgs_read cfg (handle_to_fg_id (s.pcbs api).handle) with
  | error e => rw [hf] at h; cases h
  | ok home =>
    rw [hf] at h
    simp only at h
    by_cases hh : home = cpu
    · rw [hh]
    · simp [hh] at h

/-- Linking a slot of the CPU at the tail of the ready queue of the CPU. -/
theorem Inv_push (cfg : Config) (s : State) (cpu api : Nat) (q : queue)
    (next : Nat → Option Nat) (hi : Inv cfg s) (hv : pcb_valid cfg s api)
    (hc : cfg.pool_cpu api = cpu)
    (hp : queue_push_back (s.pcb_ready_queue cpu) s.ready_queue_next api = .ok (q, next)) :
    Inv cfg { s with pcb_ready_queue := upd s.pcb_ready_queue cpu q, ready_queue_next := next } := by
  unfold queue_push_back at hp
  by_cases hcn : queue_contains (s.pcb_ready_queue cpu) s.ready_queue_next api = true
  · simp only [hcn, if_true, Except.ok.injEq, Prod.mk.injEq] at hp
    obtain ⟨h1, h2⟩ := hp
    subst h1; subst h2
    simp only [upd_self]
    exact hi
  · simp only [hcn, Bool.false_eq_true, if_false] at hp
    have hcn2 : s.ready_queue_next api = none ∧ (s.pcb_ready_queue cpu).tail ≠ some api := by
      unfold queue_contains at hcn
      simp only [Bool.or_eq_true, decide_eq_true_eq, not_or, Option.isSome_iff_exists,
        not_exists] at hcn
      refine ⟨?_, hcn.2⟩
      cases hx : s.ready_queue_next api with
      | none => rfl
      | some y => exact absurd hx (hcn.1 y)
    have href : ∀ (i : Nat) (q1 : queue) (next1 : Nat → Option Nat),
        (∀ j, (q1.head = some j ∨ q1.tail = some j) → j = api ∨
          (s.pcb_ready_queue cpu).head = some j ∨ (s.pcb_ready_queue cpu).tail = some j) →
        (∀ j k, next1 j = some k → k = api ∨ s.ready_queue_next j = some k) →
        (pcb_valid cfg s i ∨ pcb_unused s i) →
        pcb_valid cfg { s with pcb_ready_queue := upd s.pcb_ready_queue cpu q1,
                               ready_queue_next := next1 } i ∨
        pcb_unused { s with pcb_ready_queue := upd s.pcb_ready_queue cpu q1,
                            ready_queue_next := next1 } i := by
      intro i q1 next1 hq1 hn1 hvu
      by_cases hia : i = api
      · subst hia; left; exact hv
      · rcases hvu with h | h
        · left; exact h
        · right
          obtain ⟨u1, u2, u3, u4⟩ := h
          refine ⟨u1, u2, fun c => ?_, fun j hj => ?_⟩
          · show (upd s.pcb_ready_queue cpu q1 c).head ≠ some i ∧
              (upd s.pcb_ready_queue cpu q1 c).tail ≠ some i
            by_cases hcc : c = cpu
            · subst hcc
              rw [upd_same]
              constructor
              · intro hh
                rcases hq1 i (Or.inl hh) with e | e | e
                · exact hia e
                · exact (u3 c).1 e
                · exact (u3 c).2 e
              · intro hh
                rcases hq1 i (Or.inr hh) with e | e | e
                · exact hia e
                · exact (u3 c).1 e
                · exact (u3 c).2 e
            · rw [upd_other _ _ _ _ hcc]; exact u3 c
          · rcases hn1 j i hj with e | e
            · exact hia e
            · exact u4 j e
    cases hhd : (s.pcb_ready_queue cpu).head with
    | none =>
      simp only [hhd, Except.ok.injEq, Prod.mk.injEq] at hp
      obtain ⟨h1, h2⟩ := hp
      subst h1; subst h2
      refine ⟨hi.acyclic, ?_, ?_, hi.next_cpu, hi.pool, fun i => ?_, hi.events⟩
      · intro c i h
        show cfg.pool_cpu i = c
        have h' : (upd s.pcb_ready_queue cpu { head := some api, tail := some api } c).head
            = some i := h
        by_cases hcc : c = cpu
        · subst hcc
          rw [upd_same] at h'
          simp only [Option.some.injEq] at h'
          subst h'; exact hc
        · rw [upd_other _ _ _ _ hcc] at h'; exact hi.head_cpu c i h'
      · intro c i h
        show cfg.pool_cpu i = c
        have h' : (upd s.pcb_ready_queue cpu { head := some api, tail := some api } c).tail
            = some i := h
        by_cases hcc : c = cpu
        · subst hcc
          rw [upd_same] at h'
          simp only [Option.some.injEq] at h'
          subst h'; exact hc
        · rw [upd_other _ _ _ _ hcc] at h'; exact hi.tail_cpu c i h'
      · refine href i _ _ (fun j hj => ?_) (fun j k hjk => Or.inr hjk) (hi.valid i)
        left
        rcases hj with e | e <;> simp only [Option.some.injEq] at e <;> exact e.symm
    | some x =>
      cases htl : (s.pcb_ready_queue cpu).tail with
      | none => simp [hhd, htl] at hp
      | some t =>
        simp only [hhd, htl, Except.ok.injEq, Prod.mk.injEq] at hp
        obtain ⟨h1, h2⟩ := hp
        subst h1; subst h2
        have hat : api ≠ t := fun e => hcn2.2 (by rw [htl, e])
        refine ⟨acyclic_upd_some _ t api hcn2.1 hat hi.acyclic, ?_, ?_, ?_, hi.pool,
          fun i => ?_, hi.events⟩
        · intro c i h
          show cfg.pool_cpu i = c
          have h' : (upd s.pcb_ready_queue cpu { head := some x, tail := some api } c).head
              = some i := h
          by_cases hcc : c = cpu
          · subst hcc
            rw [upd_same] at h'
            exact hi.head_cpu c i (by rw [hhd]; exact h')
          · rw [upd_other _ _ _ _ hcc] at h'; exact hi.head_cpu c i h'
        · intro c i h
          show cfg.pool_cpu i = c
          have h' : (upd s.pcb_ready_queue cpu { head := some x, tail := some api } c).tail
              = some i := h
          by_cases hcc : c = cpu
          · subst hcc
            rw [upd_same] at h'
            simp only [Option.some.injEq] at h'
            subst h'; exact hc
          · rw [upd_other _ _ _ _ hcc] at h'; exact hi.tail_cpu c i h'
        · intro i j h
          show cfg.pool_cpu i = cfg.pool_cpu j
          have h' : upd s.ready_queue_next t (some api) i = some j := h
          by_cases hit : i = t
          · subst hit
            rw [upd_same] at h'
            simp only [Option.some.injEq] at h'
            subst h'
            rw [hc]; exact hi.tail_cpu cpu i htl
          · rw [upd_other _ _ _ _ hit] at h'; exact hi.next_cpu i j h'
        · refine href i _ _ (fun j hj => ?_) (fun j k hjk => ?_) (hi.valid i)
          · rcases hj with e | e
            · right; left; rw [hhd]; exact e
            · left; simp only [Option.some.injEq] at e; exact e.symm
          · by_cases hjt : j = t
            · subst hjt
              rw [upd_same] at hjk
              simp only [Option.some.injEq] at hjk
              left; exact hjk.symm
            · rw [upd_other _ _ _ _ hjt] at hjk; right; exact hjk


theorem keeps_refl (cfg : Config) (s : State) : keeps cfg s s := fun hi => ⟨hi, fun _ h => h⟩

theorem keeps_trans (cfg : Config) (s s1 s2 : State) (h1 : keeps cfg s s1)
    (h2 : keeps cfg s1 s2) : keeps cfg s s2 := fun hi =>
  ⟨(h2 (h1 hi).1).1, fun i h => (h2 (h1 hi).1).2 i ((h1 hi).2 i h)⟩

theorem keeps_frame (cfg : Config) (hd : Option Nat) (s s1 : State) (hf : frame hd s s1)
    (hh : ∀ h, hd = some h → handle_home cfg h) : keeps cfg s s1 := fun hi =>
  ⟨Inv_frame cfg hd s s1 hi hf hh, fun i h => (pcb_valid_frame cfg hd s s1 i hf).mpr h⟩

theorem pcb_valid_set_pcb (cfg : Config) (s : State) (api i : Nat) (f : tcpapi_pcb → tcpapi_pcb)
    (hf : ∀ a, (f a).handle = a.handle) (h : pcb_valid cfg s i) :
    pcb_valid cfg (set_pcb api f s) i := by
  unfold pcb_valid at h ⊢
  by_cases hia : i = api
  · subst hia; simp only [set_pcb_pcbs_same, hf]; exact h
  · rw [set_pcb_pcbs_other _ _ _ _ hia]; exact h

theorem keeps_set_pcb (cfg : Config) (s : State) (api : Nat) (f : tcpapi_pcb → tcpapi_pcb)
    (hv : pcb_valid cfg s api) (hf : ∀ a, (f a).handle = a.handle) :
    keeps cfg s (set_pcb api f s) := fun hi =>
  ⟨Inv_set_pcb cfg s api f hi hv hf, fun i h => pcb_valid_set_pcb cfg s api i f hf h⟩

theorem pcb_valid_home (cfg : Config) (s : State) (api cpu : Nat) (hv : pcb_valid cfg s api)
    (h : fgs_read cfg (handle_to_fg_id (s.pcbs api).handle) = .ok cpu) :
    cfg.pool_cpu api = cpu := by
  obtain ⟨h1, _, h3⟩ := hv
  rw [h1] at h3
  rw [← h3]; exact (fgs_read_ok cfg _ _ h).2

theorem keeps_enqueue (cfg : Config) (cpu api : Nat) (s s1 : State)
    (hv : pcb_valid cfg s api) (h : pcb_ready_enqueue cfg cpu api s = .ok s1) :
    keeps cfg s s1 := by
  intro hi
  have hf := pcb_ready_enqueue_home cfg cpu api s s1 h
  have hc := pcb_valid_home cfg s api cpu hv hf
  unfold pcb_ready_enqueue at h
  rw [hf] at h
  simp only [ne_eq, not_true_eq_false, if_false] at h
  by_cases hcnt : (s.pcbs api).active_usys_count = 0
  · simp only [hcnt, not_true_eq_false, if_false] at h
    cases hq : queue_push_back (s.pcb_ready_queue cpu) s.ready_queue_next api with
    | error e => rw [hq] at h; cases h
    | ok r =>
      obtain ⟨q, next⟩ := r
      rw [hq] at h
      simp only [Except.ok.injEq] at h
      subst h
      exact ⟨Inv_push cfg s cpu api q next hi hv hc hq, fun i h => h⟩
  · simp only [hcnt, not_false_eq_true, if_true, Except.ok.injEq] at h
    subst h
    exact keeps_set_pcb cfg s api (fun a => { a with flags := a.flags ||| PCB_FLAG_READY }) hv
      (fun _ => rfl) hi

theorem handle_to_idx_to_handle (fg idx : Nat) (hidx : idx < 2 ^ 48) :
    handle_to_idx (tcpapi_to_handle fg idx) = idx := by
  have h : tcpapi_to_handle fg idx = tcpapi_to_handle (fg % 2 ^ 16) idx := by
    unfold tcpapi_to_handle
    have : (fg <<< 48) % 2 ^ 64 = ((fg % 2 ^ 16) <<< 48) % 2 ^ 64 := by
      rw [Nat.shiftLeft_eq, Nat.shiftLeft_eq]; omega
    rw [this]
  rw [h]
  exact (handle_fields (fg % 2 ^ 16) idx (Nat.mod_lt _ (by norm_num)) hidx).2

theorem mempool_alloc_some (pool pool1 : List Nat) (api : Nat)
    (h : mempool_alloc pool = (some api, pool1)) : pool = api :: pool1 := by
  cases pool with
  | nil => simp [mempool_alloc] at h
  | cons i rest =>
    simp only [mempool_alloc, Prod.mk.injEq, Option.some.injEq] at h
    rw [h.1, h.2]

theorem mempool_alloc_none (pool pool1 : List Nat)
    (h : mempool_alloc pool = (none, pool1)) : pool = [] := by
  cases pool with
  | nil => rfl
  | cons i rest => simp [mempool_alloc] at h

/-- Unlinking the first node `n` of the ready queue of a CPU. -/
theorem Inv_pop_node (cfg : Config) (s : State) (c n : Nat) (q : queue) (hi : Inv cfg s)
    (hhd : (s.pcb_ready_queue c).head = some n) (hqh : q.head = s.ready_queue_next n)
    (hqt : q.tail = none ∨ q.tail = (s.pcb_ready_queue c).tail) :
    Inv cfg { s with pcb_ready_queue := upd s.pcb_ready_queue c q,
                     ready_queue_next := upd s.ready_queue_next n none } := by
  have hn : cfg.pool_cpu n = c := hi.head_cpu c n hhd
  refine ⟨acyclic_upd_none _ n hi.acyclic, ?_, ?_, ?_, hi.pool, fun i => ?_, hi.events⟩
  · intro c1 i h
    show cfg.pool_cpu i = c1
    have h1 : (upd s.pcb_ready_queue c q c1).head = some i := h
    by_cases hcc : c1 = c
    · subst hcc
      rw [upd_same, hqh] at h1
      rw [← hi.next_cpu n i h1]; exact hn
    · rw [upd_other _ _ _ _ hcc] at h1; exact hi.head_cpu c1 i h1
  · intro c1 i h
    show cfg.pool_cpu i = c1
    have h1 : (upd s.pcb_ready_queue c q c1).tail = some i := h
    by_cases hcc : c1 = c
    · subst hcc
      rw [upd_same] at h1
      rcases hqt with e | e
      · rw [e] at h1; cases h1
      · rw [e] at h1; exact hi.tail_cpu c1 i h1
    · rw [upd_other _ _ _ _ hcc] at h1; exact hi.tail_cpu c1 i h1
  · intro i j h
    show cfg.pool_cpu i = cfg.pool_cpu j
    have h1 : upd s.ready_queue_next n none i = some j := h
    by_cases hin : i = n
    · subst hin; rw [upd_same] at h1; cases h1
    · rw [upd_other _ _ _ _ hin] at h1; exact hi.next_cpu i j h1
  · rcases hi.valid i with h | h
    · left; exact h
    · right
      obtain ⟨u1, u2, u3, u4⟩ := h
      refine ⟨u1, u2, fun c1 => ?_, fun j hj => ?_⟩
      · show (upd s.pcb_ready_queue c q c1).head ≠ some i ∧
          (upd s.pcb_ready_queue c q c1).tail ≠ some i
        by_cases hcc : c1 = c
        · subst hcc
          rw [upd_same, hqh]
          refine ⟨u4 n, ?_⟩
          rcases hqt with e | e
          · rw [e]; simp
          · rw [e]; exact (u3 c1).2
        · rw [upd_other _ _ _ _ hcc]; exact u3 c1
      · have h1 : upd s.ready_queue_next n none j = some i := hj
        by_cases hjn : j = n
        · subst hjn; rw [upd_same] at h1; cases h1
        · rw [upd_other _ _ _ _ hjn] at h1; exact u4 j h1

theorem Inv_pop (cfg : Config) (s : State) (c : Nat) (r : Option Nat) (q : queue)
    (next : Nat → Option Nat) (hi : Inv cfg s)
    (hq : queue_pop_front (s.pcb_ready_queue c) s.ready_queue_next = (r, q, next)) :
    Inv cfg { s with pcb_ready_queue := upd s.pcb_ready_queue c q, ready_queue_next := next } := by
  unfold queue_pop_front queue_front at hq
  cases hhd : (s.pcb_ready_queue c).head with
  | none =>
    rw [hhd] at hq
    simp only [Prod.mk.injEq] at hq
    obtain ⟨_, h1, h2⟩ := hq
    subst h1; subst h2
    simp only [upd_self]
    exact hi
  | some n =>
    rw [hhd] at hq
    simp only [Prod.mk.injEq] at hq
    obtain ⟨_, h1, h2⟩ := hq
    subst h2
    refine Inv_pop_node cfg s c n q hi hhd (by rw [← h1]) ?_
    rw [← h1]
    simp only
    split_ifs
    · left; rfl
    · right; rfl

theorem keeps_pop (cfg : Config) (s : State) (c : Nat) (r : Option Nat) (q : queue)
    (next : Nat → Option Nat)
    (hq : queue_pop_front (s.pcb_ready_queue c) s.ready_queue_next = (r, q, next)) :
    keeps cfg s
      { s with pcb_ready_queue := upd s.pcb_ready_queue c q, ready_queue_next := next } :=
  fun hi => ⟨Inv_pop cfg s c r q next hi hq, fun _ h => h⟩

/-- Returning a slot of the CPU to the pool of the CPU. -/
theorem keeps_free (cfg : Config) (s : State) (cpu api : Nat) (hh : 1 < cfg.mempool_hdr)
    (hc : cfg.pool_cpu api = cpu) (hlt : api < 2 ^ 48) :
    keeps cfg s (pcb_mempool_free cfg cpu api s) := by
  intro hi
  have hv : ∀ i, pcb_valid cfg s i → pcb_valid cfg (pcb_mempool_free cfg cpu api s) i := by
    intro i h
    unfold pcb_valid at h ⊢
    by_cases hia : i = api
    · subst hia
      simp only [pcb_mempool_free, upd_same]; exact h
    · simp only [pcb_mempool_free, upd_other _ _ _ _ hia]; exact h
  refine ⟨⟨hi.acyclic, hi.head_cpu, hi.tail_cpu, hi.next_cpu, ?_, fun i => ?_, hi.events⟩, hv⟩
  · intro c i h
    have h1 : i ∈ upd s.pcb_mempool cpu (api :: s.pcb_mempool cpu) c := h
    by_cases hcc : c = cpu
    · subst hcc
      rw [upd_same] at h1
      rcases List.mem_cons.mp h1 with e | e
      · subst e; exact ⟨hc, hlt⟩
      · exact hi.pool c i e
    · rw [upd_other _ _ _ _ hcc] at h1; exact hi.pool c i h1
  · rcases hi.valid i with h | h
    · left; exact hv i h
    · right
      obtain ⟨u1, u2, u3, u4⟩ := h
      by_cases hia : i = api
      · subst hia
        refine ⟨?_, ?_, u3, u4⟩
        · simp only [pcb_mempool_free, upd_same]; exact hh
        · simp only [pcb_mempool_free, upd_same]; exact u2
      · refine ⟨?_, ?_, u3, u4⟩
        · simp only [pcb_mempool_free, upd_other _ _ _ _ hia]; exact u1
        · simp only [pcb_mempool_free, upd_other _ _ _ _ hia]; exact u2

/-- Taking a slot from the pool of a CPU and giving it a handle of a flow group of
that CPU. -/
theorem keeps_alloc (cfg : Config) (s s1 : State) (cpu api : Nat) (pool1 : List Nat)
    (hpool : s.pcb_mempool cpu = api :: pool1)
    (h1 : s1.pcb_mempool = upd s.pcb_mempool cpu pool1)
    (h2 : s1.ready_queue_next = upd s.ready_queue_next api none)
    (h3 : s1.pcb_ready_queue = s.pcb_ready_queue)
    (h4 : ∀ i, i ≠ api → s1.pcbs i = s.pcbs i)
    (h5 : handle_to_fg_id (s1.pcbs api).handle < cfg.ETH_MAX_TOTAL_FG + cfg.NCPU)
    (h6 : cfg.fgs_cur_cpu (handle_to_fg_id (s1.pcbs api).handle) = cpu)
    (h7 : handle_to_idx (s1.pcbs api).handle = api)
    (h8 : s1.usys_arr = s.usys_arr) : keeps cfg s s1 := by
  intro hi
  have hapi : cfg.pool_cpu api = cpu ∧ api < 2 ^ 48 :=
    hi.pool cpu api (by rw [hpool]; exact List.mem_cons_self _ _)
  have hva : pcb_valid cfg s1 api := by
    refine ⟨h7, h5, ?_⟩
    rw [h6, h7]; exact hapi.1.symm
  have hv : ∀ i, pcb_valid cfg s i → pcb_valid cfg s1 i := by
    intro i h
    by_cases hia : i = api
    · subst hia; exact hva
    · unfold pcb_valid at h ⊢
      rw [h4 i hia]; exact h
  refine ⟨⟨?_, ?_, ?_, ?_, ?_, fun i => ?_, ?_⟩, hv⟩
  · rw [h2]; exact acyclic_upd_none _ api hi.acyclic
  · rw [h3]; exact hi.head_cpu
  · rw [h3]; exact hi.tail_cpu
  · intro i j h
    rw [h2] at h
    by_cases hin : i = api
    · subst hin; rw [upd_same] at h; cases h
    · rw [upd_other _ _ _ _ hin] at h; exact hi.next_cpu i j h
  · intro c i h
    rw [h1] at h
    by_cases hcc : c = cpu
    · subst hcc
      rw [upd_same] at h
      exact hi.pool c i (by rw [hpool]; exact List.mem_cons_of_mem _ h)
    · rw [upd_other _ _ _ _ hcc] at h; exact hi.pool c i h
  · by_cases hia : i = api
    · subst hia; left; exact hva
    · rcases hi.valid i with h | h
      · left; exact hv i h
      · right
        obtain ⟨u1, u2, u3, u4⟩ := h
        unfold pcb_unused
        rw [h4 i hia, h3, h2]
        refine ⟨u1, u2, u3, fun j hj => ?_⟩
        by_cases hjn : j = api
        · subst hjn; rw [upd_same] at hj; cases hj
        · rw [upd_other _ _ _ _ hjn] at hj; exact u4 j hj
  · rw [h8]; exact hi.events

/-! ## The invariant under the callbacks -/

theorem keeps_fields (cfg : Config) (s s1 : State)
    (h1 : s1.ready_queue_next = s.ready_queue_next) (h2 : s1.pcb_ready_queue = s.pcb_ready_queue)
    (h3 : s1.pcb_mempool = s.pcb_mempool) (h4 : s1.pcbs = s.pcbs)
    (h5 : s1.usys_arr = s.usys_arr) : keeps cfg s s1 :=
  keeps_frame cfg none s s1 (frame_of_eq none s s1 h1 h2 h3 h4 h5) (fun _ h => by cases h)

theorem keeps_valid (cfg : Config) (s s1 : State) (i : Nat) (hk : keeps cfg s s1)
    (hi : Inv cfg s) (hv : pcb_valid cfg s i) : pcb_valid cfg s1 i := (hk hi).2 i hv

theorem keeps_pcb_fields (cfg : Config) (s : State) (api : Nat) (f : tcpapi_pcb → tcpapi_pcb)
    (hf : ∀ a, (f a).alive = a.alive ∧ (f a).flags = a.flags ∧ (f a).handle = a.handle) :
    keeps cfg s (set_pcb api f s) :=
  keeps_frame cfg none s _ (frame_set_pcb none api f s hf) (fun _ h => by cases h)

theorem keeps_emit (cfg : Config) (s : State) (cpu : Nat) (e : usys_event)
    (h : usys_is_tcp e = true → handle_home cfg (usys_arga e)) :
    keeps cfg s (usys_emit cpu e s) := by
  by_cases ht : usys_is_tcp e = true
  · exact keeps_frame cfg (some (usys_arga e)) s _ (frame_emit _ cpu e s (fun _ => rfl))
      (fun x hx => by
        simp only [Option.some.injEq] at hx
        subst hx; exact h ht)
  · exact keeps_frame cfg none s _ (frame_emit none cpu e s (fun h1 => absurd h1 ht))
      (fun _ h => by cases h)

theorem keeps_mark_dead (cfg : Config) (cpu a cookie : Nat) (s s1 : State)
    (hv : pcb_valid cfg s a) (h : mark_dead cfg cpu (some a) cookie s = .ok s1) :
    keeps cfg s s1 := by
  unfold mark_dead at h
  simp only at h
  have hk0 : keeps cfg s (match (s.pcbs a).id with
      | some id => remove_fdir_filter id s
      | none => s) := by
    cases (s.pcbs a).id with
    | none => exact keeps_refl cfg s
    | some id => exact keeps_fields cfg s _ rfl rfl rfl rfl rfl
  intro hi
  have hv0 := keeps_valid cfg _ _ a hk0 hi hv
  have hk1 := keeps_set_pcb cfg _ a (fun x => { x with alive := 0 }) hv0 (fun _ => rfl)
  have hv1 := keeps_valid cfg _ _ a hk1 (hk0 hi).1 hv0
  exact keeps_trans cfg _ _ _ hk0 (keeps_trans cfg _ _ _ hk1
    (keeps_enqueue cfg cpu a _ s1 hv1 h)) hi

theorem keeps_recv_a_pbuf (cfg : Config) (cpu api p : Nat) (s s1 : State)
    (hv : pcb_valid cfg s api) (h : recv_a_pbuf cfg cpu api p s = .ok s1) :
    keeps cfg s s1 := by
  unfold recv_a_pbuf at h
  cases hq : queue_push_back (s.pcbs api).pbuf_for_usys s.pbuf_for_usys_next p with
  | error e => rw [hq] at h; cases h
  | ok r =>
    obtain ⟨q, next⟩ := r
    rw [hq] at h
    simp only at h
    split_ifs at h with ht
    have hk0 : keeps cfg s (set_pcb api (fun a => { a with pbuf_for_usys := q }) s) :=
      keeps_pcb_fields cfg s api (fun a => { a with pbuf_for_usys := q })
        (fun _ => ⟨rfl, rfl, rfl⟩)
    have hk1 : keeps cfg (set_pcb api (fun a => { a with pbuf_for_usys := q }) s)
        { set_pcb api (fun a => { a with pbuf_for_usys := q }) s with
          pbuf_for_usys_next := next } := keeps_fields cfg _ _ rfl rfl rfl rfl rfl
    intro hi
    have hv1 := keeps_valid cfg _ _ api (keeps_trans cfg _ _ _ hk0 hk1) hi hv
    exact keeps_trans cfg _ _ _ (keeps_trans cfg _ _ _ hk0 hk1)
      (keeps_enqueue cfg cpu api _ s1 hv1 h) hi

theorem keeps_accept_loop (cfg : Config) (cpu api : Nat) :
    ∀ (fuel : Nat) (p : Option Nat) (s s1 : State), pcb_valid cfg s api →
      accept_loop cfg cpu api fuel p s = .ok s1 → keeps cfg s s1
  | fuel, none, s, s1, _, h => by
    cases fuel <;>
    · simp only [accept_loop, Except.ok.injEq] at h
      subst h; exact keeps_refl cfg s
  | 0, some _, _, _, _, h => by simp [accept_loop] at h
  | fuel + 1, some tmp, s, s1, hv, h => by
    simp only [accept_loop] at h
    cases hr : recv_a_pbuf cfg cpu api tmp s with
    | error e => rw [hr] at h; cases h
    | ok s2 =>
      rw [hr] at h
      simp only at h
      have hk := keeps_recv_a_pbuf cfg cpu api tmp s s2 hv hr
      intro hi
      exact keeps_trans cfg _ _ _ hk
        (keeps_accept_loop cfg cpu api fuel _ s2 s1 (keeps_valid cfg _ _ api hk hi hv) h) hi

theorem keeps_fill_pbufs (cfg : Config) :
    ∀ (fill : List (Nat × pbuf)) (s : State), keeps cfg s (fill_pbufs fill s) ∧
      (fill_pbufs fill s).pcbs = s.pcbs
  | [], s => ⟨keeps_refl cfg s, rfl⟩
  | w :: ws, s => by
    have h := keeps_fill_pbufs cfg ws { s with pbufs := upd s.pbufs w.1 w.2 }
    have e : fill_pbufs (w :: ws) s = fill_pbufs ws { s with pbufs := upd s.pbufs w.1 w.2 } :=
      rfl
    rw [e]
    exact ⟨keeps_trans cfg _ _ _ (keeps_fields cfg s { s with pbufs := upd s.pbufs w.1 w.2 }
      rfl rfl rfl rfl rfl) h.1, h.2⟩

theorem keeps_on_sent (cfg : Config) (cpu arg len : Nat) (s s1 : State) (r : err_t)
    (hv : pcb_valid cfg s arg) (h : on_sent cfg cpu arg len s = .ok (r, s1)) :
    keeps cfg s s1 := by
  unfold on_sent at h
  cases he : pcb_ready_enqueue cfg cpu arg
      (set_pcb arg (fun a => { a with sent_len := int_wrap (a.sent_len + (len % 65536 : Nat)) }) s) with
  | error e => rw [he] at h; cases h
  | ok s2 =>
    rw [he] at h
    simp only [Except.ok.injEq, Prod.mk.injEq] at h
    obtain ⟨_, h2⟩ := h
    subst h2
    have hk0 := keeps_pcb_fields cfg s arg (fun a => { a with sent_len := int_wrap (a.sent_len + (len % 65536 : Nat)) })
      (fun _ => ⟨rfl, rfl, rfl⟩)
    intro hi
    exact keeps_trans cfg _ _ _ hk0
      (keeps_enqueue cfg cpu arg _ _ (keeps_valid cfg _ _ arg hk0 hi hv) he) hi

theorem keeps_on_err (cfg : Config) (cpu : Nat) (arg : Option Nat) (err : err_t) (s s1 : State)
    (hv : ∀ a, arg = some a → pcb_valid cfg s a) (h : on_err cfg cpu arg err s = .ok s1) :
    keeps cfg s s1 := by
  unfold on_err at h
  cases arg with
  | none =>
    simp only [Except.ok.injEq] at h
    subst h; exact keeps_refl cfg s
  | some api =>
    simp only at h
    split_ifs at h with hc
    · cases hm : mark_dead cfg cpu (some api) (s.pcbs api).cookie s with
      | error e => rw [hm] at h; cases h
      | ok s2 =>
        rw [hm] at h
        simp only [Except.ok.injEq] at h
        subst h
        have hk0 := keeps_mark_dead cfg cpu api _ s s2 (hv api rfl) hm
        exact keeps_trans cfg _ _ _ hk0 (keeps_pcb_fields cfg s2 api
          (fun a => { a with pcb := none }) (fun _ => ⟨rfl, rfl, rfl⟩))
    · simp only [Except.ok.injEq] at h
      subst h; exact keeps_refl cfg s

theorem keeps_on_connected (cfg : Config) (cpu arg : Nat) (err r : err_t) (s s1 : State)
    (hv : pcb_valid cfg s arg) (h : on_connected cfg cpu arg err s = .ok (r, s1)) :
    keeps cfg s s1 := by
  unfold on_connected at h
  split_ifs at h with hc
  · simp only [Except.ok.injEq, Prod.mk.injEq] at h
    obtain ⟨_, h2⟩ := h
    subst h2
    exact keeps_emit cfg s cpu _ (fun _ => hv.2)
  · cases he : pcb_ready_enqueue cfg cpu arg
        (set_pcb arg (fun a => { a with uevents := a.uevents ||| PCB_UEVENT_CONNECTED }) s) with
    | error e => rw [he] at h; cases h
    | ok s2 =>
      rw [he] at h
      simp only [Except.ok.injEq, Prod.mk.injEq] at h
      obtain ⟨_, h2⟩ := h
      subst h2
      have hk0 := keeps_pcb_fields cfg s arg
        (fun a => { a with uevents := a.uevents ||| PCB_UEVENT_CONNECTED })
        (fun _ => ⟨rfl, rfl, rfl⟩)
      intro hi
      exact keeps_trans cfg _ _ _ hk0
        (keeps_enqueue cfg cpu arg _ _ (keeps_valid cfg _ _ arg hk0 hi hv) he) hi

theorem keeps_on_recv_deliver (cfg : Config) (cpu arg p : Nat) (r : err_t) (s2 s1 : State)
    (hv : pcb_valid cfg s2 arg)
    (h : (if (!(s2.pcbs arg).accepted) = true then
        (.ok (err_t.ERR_OK,
          { s2 with pbufs := upd s2.pbufs p { s2.pbufs p with tcp_api_next := none } }) :
          Exec (err_t × State))
      else
        match recv_a_pbuf cfg cpu arg p
            { s2 with pbufs := upd s2.pbufs p { s2.pbufs p with tcp_api_next := none } } with
        | .error e => .error e
        | .ok s3 => .ok (err_t.ERR_OK, s3)) = .ok (r, s1)) :
    keeps cfg s2 s1 := by
  have hk1 : keeps cfg s2
      { s2 with pbufs := upd s2.pbufs p { s2.pbufs p with tcp_api_next := none } } :=
    keeps_fields cfg _ _ rfl rfl rfl rfl rfl
  split_ifs at h with hacc
  · simp only [Except.ok.injEq, Prod.mk.injEq] at h
    obtain ⟨_, h2⟩ := h
    subst h2
    exact hk1
  · cases hr : recv_a_pbuf cfg cpu arg p
        { s2 with pbufs := upd s2.pbufs p { s2.pbufs p with tcp_api_next := none } } with
    | error e => rw [hr] at h; cases h
    | ok s3 =>
      rw [hr] at h
      simp only [Except.ok.injEq, Prod.mk.injEq] at h
      obtain ⟨_, h2⟩ := h
      subst h2
      intro hi
      exact keeps_trans cfg _ _ _ hk1
        (keeps_recv_a_pbuf cfg cpu arg p _ _ (keeps_valid cfg _ _ arg hk1 hi hv) hr) hi

theorem keeps_on_recv (cfg : Config) (cpu arg : Nat) (p : Option Nat) (r : err_t)
    (s s1 : State) (hv : pcb_valid cfg s arg) (h : on_recv cfg cpu arg p s = .ok (r, s1)) :
    keeps cfg s s1 := by
  unfold on_recv at h
  cases p with
  | none =>
    simp only at h
    cases hm : mark_dead cfg cpu (some arg) (s.pcbs arg).cookie s with
    | error e => rw [hm] at h; cases h
    | ok s2 =>
      rw [hm] at h
      simp only [Except.ok.injEq, Prod.mk.injEq] at h
      obtain ⟨_, h2⟩ := h
      subst h2
      exact keeps_mark_dead cfg cpu arg _ s s2 hv hm
  | some p =>
    simp only at h
    cases hr : (s.pcbs arg).recvd with
    | none =>
      simp only [hr] at h
      have hk0 : keeps cfg s
          (set_pcb arg (fun a => { a with recvd := some p, recvd_tail := some p }) s) :=
        keeps_pcb_fields cfg s arg _ (fun _ => ⟨rfl, rfl, rfl⟩)
      intro hi
      exact keeps_trans cfg _ _ _ hk0
        (keeps_on_recv_deliver cfg cpu arg p r _ s1 (keeps_valid cfg _ _ arg hk0 hi hv) h) hi
    | some x =>
      simp only [hr] at h
      cases ht : (s.pcbs arg).recvd_tail with
      | none => simp only [ht] at h; cases h
      | some t =>
        simp only [ht] at h
        have hk0 : keeps cfg s (set_pcb arg (fun a => { a with recvd_tail := some p })
            { s with pbufs := upd s.pbufs t { s.pbufs t with tcp_api_next := some p } }) :=
          keeps_trans cfg _ _ _ (keeps_fields cfg s
            { s with pbufs := upd s.pbufs t { s.pbufs t with tcp_api_next := some p } }
            rfl rfl rfl rfl rfl)
            (keeps_pcb_fields cfg _ arg (fun a => { a with recvd_tail := some p })
              (fun _ => ⟨rfl, rfl, rfl⟩))
        intro hi
        exact keeps_trans cfg _ _ _ hk0
          (keeps_on_recv_deliver cfg cpu arg p r _ s1 (keeps_valid cfg _ _ arg hk0 hi hv) h) hi

/-! ## The invariant under allocation -/

theorem Inv_pool_shrink (cfg : Config) (s : State) (cpu api : Nat) (pool1 : List Nat)
    (hi : Inv cfg s) (hpool : s.pcb_mempool cpu = api :: pool1) :
    Inv cfg { s with pcb_mempool := upd s.pcb_mempool cpu pool1 } := by
  refine ⟨hi.acyclic, hi.head_cpu, hi.tail_cpu, hi.next_cpu, ?_, hi.valid, hi.events⟩
  intro c i hm
  have hm1 : i ∈ upd s.pcb_mempool cpu pool1 c := hm
  by_cases hcc : c = cpu
  · subst hcc
    rw [upd_same] at hm1
    exact hi.pool c i (by rw [hpool]; exact List.mem_cons_of_mem _ hm1)
  · rw [upd_other _ _ _ _ hcc] at hm1; exact hi.pool c i hm1

theorem accept_init_handle (cfg : Config) (cur_fg : Nat) (t : tcp_pcb_info) (api id : Nat)
    (s : State) : ((accept_init cfg cur_fg t api id s).pcbs api).handle
      = tcpapi_to_handle cur_fg api := by
  simp [accept_init]

theorem accept_init_other (cfg : Config) (cur_fg : Nat) (t : tcp_pcb_info) (api id : Nat)
    (s : State) (i : Nat) (h : i ≠ api) : (accept_init cfg cur_fg t api id s).pcbs i = s.pcbs i := by
  simp only [accept_init, set_pcb, ext, upd_other _ _ _ _ h]

theorem keeps_on_accept (cfg : Config) (cpu cur_fg : Nat) (t : tcp_pcb_info) (r : err_t)
    (s s1 : State) (hw : cfg.wf) (h : on_accept cfg cpu cur_fg t s = .ok (r, s1)) :
    keeps cfg s s1 := by
  intro hi
  unfold on_accept at h
  cases ha : mempool_alloc (s.pcb_mempool cpu) with
  | mk oa pool1 =>
    rw [ha] at h
    cases oa with
    | none =>
      simp only [Except.ok.injEq, Prod.mk.injEq] at h
      obtain ⟨_, h2⟩ := h
      subst h2; exact keeps_refl cfg s hi
    | some api =>
      have hpool := mempool_alloc_some _ _ _ ha
      have hapi : cfg.pool_cpu api = cpu ∧ api < 2 ^ 48 :=
        hi.pool cpu api (by rw [hpool]; exact List.mem_cons_self _ _)
      simp only at h
      cases hb : mempool_alloc (s.id_mempool cpu) with
      | mk ob idpool1 =>
        rw [hb] at h
        cases ob with
        | none =>
          simp only [Except.ok.injEq, Prod.mk.injEq] at h
          obtain ⟨_, h2⟩ := h
          subst h2
          have hk := keeps_free cfg { s with pcb_mempool := upd s.pcb_mempool cpu pool1 } cpu api
            hw.hdr hapi.1 hapi.2
          have hi1 := Inv_pool_shrink cfg s cpu api pool1 hi hpool
          exact ⟨(hk hi1).1, fun i hv => (hk hi1).2 i hv⟩
        | some id =>
          simp only at h
          cases he : pcb_ready_enqueue cfg cpu api (accept_init cfg cur_fg t api id
              { s with pcb_mempool := upd s.pcb_mempool cpu pool1,
                       id_mempool := upd s.id_mempool cpu idpool1 }) with
          | error e => rw [he] at h; cases h
          | ok s8 =>
            rw [he] at h
            simp only [Except.ok.injEq, Prod.mk.injEq] at h
            obtain ⟨_, h2⟩ := h
            subst h2
            have hf := fgs_read_ok cfg _ _ (pcb_ready_enqueue_home cfg cpu api _ _ he)
            rw [accept_init_handle] at hf
            have hidx := handle_to_idx_to_handle cur_fg api hapi.2
            have hk0 : keeps cfg s (accept_init cfg cur_fg t api id
                { s with pcb_mempool := upd s.pcb_mempool cpu pool1,
                         id_mempool := upd s.id_mempool cpu idpool1 }) :=
              keeps_alloc cfg s _ cpu api pool1 hpool rfl rfl rfl
                (fun i hia => accept_init_other cfg cur_fg t api id _ i hia)
                (by rw [accept_init_handle]; exact hf.1)
                (by rw [accept_init_handle]; exact hf.2)
                (by rw [accept_init_handle]; exact hidx) rfl
            have hv : pcb_valid cfg (accept_init cfg cur_fg t api id
                { s with pcb_mempool := upd s.pcb_mempool cpu pool1,
                         id_mempool := upd s.id_mempool cpu idpool1 }) api := by
              unfold pcb_valid handle_home
              rw [accept_init_handle, hidx]
              exact ⟨rfl, hf.1, by rw [hf.2]; exact hapi.1.symm⟩
            exact keeps_trans cfg _ _ _ hk0 (keeps_enqueue cfg cpu api _ _ hv he) hi

/-! ## The invariant under CONNECT -/

theorem keeps_ksys_ret (cfg : Config) (s : State) (cpu sysnr : Nat) (err : Int) (cookie : Nat) :
    keeps cfg s (usys_emit cpu (.KSYS_RET sysnr err cookie) s) :=
  keeps_emit cfg s cpu _ (fun h => by simp [usys_is_tcp] at h)

theorem keeps_then_ext (cfg : Config) (s0 s : State) (c : ext_call) (h : keeps cfg s0 s) :
    keeps cfg s0 (ext c s) :=
  keeps_trans cfg _ _ _ h (keeps_fields cfg s (ext c s) rfl rfl rfl rfl rfl)

theorem keeps_then_eth_fg (cfg : Config) (s0 s : State) (cpu fg : Nat) (h : keeps cfg s0 s) :
    keeps cfg s0 (eth_fg_set_current cpu fg s) :=
  keeps_trans cfg _ _ _ h (keeps_fields cfg s (eth_fg_set_current cpu fg s) rfl rfl rfl rfl rfl)

theorem keeps_then_ksys_ret (cfg : Config) (s0 s : State) (cpu sysnr : Nat) (err : Int)
    (cookie : Nat) (h : keeps cfg s0 s) :
    keeps cfg s0 (usys_emit cpu (.KSYS_RET sysnr err cookie) s) :=
  keeps_trans cfg _ _ _ h (keeps_ksys_ret cfg s cpu sysnr err cookie)

theorem keeps_then_connect_fail (cfg : Config) (s0 s : State) (cpu : Nat)
    (abort : Option (Option Nat × Nat)) (h : keeps cfg s0 s) :
    keeps cfg s0 (connect_fail cpu abort s) := by
  unfold connect_fail
  cases abort with
  | none => exact keeps_then_ksys_ret cfg s0 s cpu _ _ _ h
  | some a => exact keeps_then_ksys_ret cfg s0 _ cpu _ _ _ (keeps_then_ext cfg s0 s _ h)

theorem port_search_frame (cfg : Config) (cpu : Nat) :
    ∀ (fuel : Nat) (id : ip_tuple) (s : State) (r : Option Nat × ip_tuple × State),
      port_search cfg cpu fuel id s = .ok r → port_frame cfg cpu s r
  | 0, _, _, _, h => by simp [port_search] at h
  | fuel + 1, id, s, r, h => by
    simp only [port_search] at h
    split_ifs at h with h1 h2
    all_goals
      cases hf : fgs_read cfg (compute_toeplitz_hash cfg.rss_key (bswap32 id.dst_ip)
          (bswap32 id.src_ip) (bswap16 id.dst_port) (bswap16 id.src_port) &&&
          ((cfg.nb_rx_fgs + 2 ^ 32 - 1) % 2 ^ 32)) with
      | error e => rw [hf] at h; cases h
      | ok cur_cpu =>
        rw [hf] at h
        simp only at h
        have hfg := fgs_read_ok cfg _ _ hf
        split_ifs at h with h3
        · simp only [Except.ok.injEq] at h
          subst h
          refine ⟨rfl, rfl, rfl, rfl, rfl, fun fg hfg1 => ?_⟩
          simp only [Option.some.injEq] at hfg1
          subst hfg1
          exact ⟨hfg.1, by rw [hfg.2, h3]⟩
        · obtain ⟨a, b, c, d, e, f⟩ := port_search_frame cfg cpu fuel _ _ r h
          exact ⟨a, b, c, d, e, f⟩

theorem get_port_then_search_frame (cfg : Config) (cpu fuel : Nat) (id1 : ip_tuple)
    (env : connect_env) (s2 : State) (r : Option Nat × ip_tuple × State) (hw : cfg.wf)
    (hcpu : cpu < cfg.NCPU)
    (h : (match get_port_with_fdir cfg cpu id1 env.fdir_ok s2 with
      | (some fg, s3) => (.ok (some fg, id1, s3) : Exec (Option Nat × ip_tuple × State))
      | (none, s3) =>
        if !env.rss_ok then .ok (none, id1, s3)
        else port_search cfg cpu fuel id1 s3) = .ok r) :
    port_frame cfg cpu s2 r := by
  unfold get_port_with_fdir at h
  by_cases hf : env.fdir_ok = true
  · simp only [hf, Bool.not_true, Bool.false_eq_true, if_false, Except.ok.injEq] at h
    subst h
    refine ⟨rfl, rfl, rfl, rfl, rfl, fun fg hfg => ?_⟩
    simp only [Option.some.injEq] at hfg
    subst hfg
    exact ⟨hw.outbound_lt cpu hcpu, hw.outbound_home cpu hcpu⟩
  · simp only [Bool.not_eq_true] at hf
    simp only [hf, Bool.not_false, if_true] at h
    by_cases hr : env.rss_ok = true
    · simp only [hr, Bool.not_true, Bool.false_eq_true, if_false] at h
      obtain ⟨a, b, c, d, e, f⟩ := port_search_frame cfg cpu fuel _ _ r h
      exact ⟨a, b, c, d, e, f⟩
    · simp only [Bool.not_eq_true] at hr
      simp only [hr, Bool.not_false, if_true, Except.ok.injEq] at h
      subst h
      exact ⟨rfl, rfl, rfl, rfl, rfl, fun fg hfg => by cases hfg⟩

theorem get_local_port_frame (cfg : Config) (cpu fuel : Nat) (id : ip_tuple) (env : connect_env)
    (s : State) (r : Option Nat × ip_tuple × State) (hw : cfg.wf) (hcpu : cpu < cfg.NCPU)
    (h : get_local_port_and_set_queue cfg cpu fuel id env s = .ok r) :
    port_frame cfg cpu s r := by
  unfold get_local_port_and_set_queue at h
  by_cases h1 : 1 < cfg.eth_dev_count
  · rw [if_pos h1] at h; cases h
  · rw [if_neg h1] at h
    obtain ⟨a, b, c, d, e, f⟩ := get_port_then_search_frame cfg cpu fuel _ env _ r hw hcpu h
    refine ⟨?_, ?_, ?_, ?_, ?_, f⟩
    · rw [a]; split_ifs <;> rfl
    · rw [b]; split_ifs <;> rfl
    · rw [c]; split_ifs <;> rfl
    · rw [d]; split_ifs <;> rfl
    · rw [e]; split_ifs <;> rfl

theorem connect_init_handle (cur_fg pcb cookie api : Nat) (s : State) :
    ((connect_init cur_fg pcb cookie api s).pcbs api).handle = tcpapi_to_handle cur_fg api := by
  simp [connect_init]

theorem connect_init_other (cur_fg pcb cookie api : Nat) (s : State) (i : Nat) (h : i ≠ api) :
    (connect_init cur_fg pcb cookie api s).pcbs i = s.pcbs i := by
  simp only [connect_init, set_pcb, ext, upd_other _ _ _ _ h]

theorem keeps_connect_init (cfg : Config) (cpu cur_fg pcb cookie api : Nat) (pool1 : List Nat)
    (s : State) (hw : cfg.wf) (hpool : s.pcb_mempool cpu = api :: pool1)
    (hfg : cur_fg < cfg.ETH_MAX_TOTAL_FG + cfg.NCPU ∧ cfg.fgs_cur_cpu cur_fg = cpu) :
    keeps cfg s (connect_init cur_fg pcb cookie api
      { s with pcb_mempool := upd s.pcb_mempool cpu pool1 }) := by
  intro hi
  have hapi : cfg.pool_cpu api = cpu ∧ api < 2 ^ 48 :=
    hi.pool cpu api (by rw [hpool]; exact List.mem_cons_self _ _)
  have hflds := handle_fields cur_fg api (by have := hw.fg_bits; omega) hapi.2
  exact keeps_alloc cfg s (connect_init cur_fg pcb cookie api
      { s with pcb_mempool := upd s.pcb_mempool cpu pool1 }) cpu api pool1 hpool rfl rfl rfl
    (fun i hia => connect_init_other cur_fg pcb cookie api _ i hia)
    (by rw [connect_init_handle, hflds.1]; exact hfg.1)
    (by rw [connect_init_handle, hflds.1]; exact hfg.2)
    (by rw [connect_init_handle]; exact hflds.2) rfl hi

theorem keeps_connect (cfg : Config) (cpu cookie fuel : Nat) (env : connect_env)
    (s s1 : State) (hw : cfg.wf) (hcpu : cpu < cfg.NCPU)
    (h : bsys_tcp_connect cfg cpu cookie fuel env s = .ok s1) : keeps cfg s s1 := by
  unfold bsys_tcp_connect at h
  cases hu : env.user_id with
  | none =>
    simp only [hu, Except.ok.injEq] at h
    subst h; exact keeps_ksys_ret cfg s cpu _ _ _
  | some tmp0 =>
    simp only [hu] at h
    cases hg : get_local_port_and_set_queue cfg cpu fuel { tmp0 with src_ip := cfg.host_addr }
        env s with
    | error e => rw [hg] at h; cases h
    | ok r =>
      obtain ⟨ofg, tmp, s2⟩ := r
      rw [hg] at h
      obtain ⟨a, b, c, d, e, f⟩ := get_local_port_frame cfg cpu fuel _ env s _ hw hcpu hg
      have hk0 : keeps cfg s s2 := keeps_fields cfg s s2 a b c d e
      cases ofg with
      | none =>
        simp only [Except.ok.injEq] at h
        subst h
        exact keeps_then_ksys_ret cfg s s2 cpu _ _ _ hk0
      | some cur_fg =>
        have hfg := f cur_fg rfl
        simp only at h
        have hk1 : keeps cfg s (ext (.tcp_new (some cur_fg)) s2) := keeps_then_ext cfg s s2 _ hk0
        cases hn : env.tcp_new with
        | none =>
          simp only [hn, Except.ok.injEq] at h
          subst h
          exact keeps_then_connect_fail cfg s _ cpu none hk1
        | some pcb =>
          simp only [hn] at h
          have hk2 : keeps cfg s (ext (.tcp_nagle_disable pcb) (ext (.tcp_new (some cur_fg)) s2)) :=
            keeps_then_ext cfg s _ _ hk1
          cases ha : mempool_alloc (s2.pcb_mempool cpu) with
          | mk oa pool1 =>
            have ha1 : mempool_alloc ((ext (.tcp_nagle_disable pcb)
                (ext (.tcp_new (some cur_fg)) s2)).pcb_mempool cpu) = (oa, pool1) := ha
            rw [ha1] at h
            cases oa with
            | none =>
              simp only [Except.ok.injEq] at h
              subst h
              exact keeps_then_connect_fail cfg s _ cpu _ hk2
            | some api =>
              simp only at h
              have hpool := mempool_alloc_some _ _ _ ha
              have hk3 := keeps_connect_init cfg cpu cur_fg pcb cookie api pool1
                (ext (.tcp_nagle_disable pcb) (ext (.tcp_new (some cur_fg)) s2)) hw hpool hfg
              have hk03 := keeps_trans cfg _ _ _ hk2 hk3
              split_ifs at h with hb hc
              · simp only [Except.ok.injEq] at h
                subst h
                apply keeps_then_connect_fail
                apply keeps_then_ext
                exact hk03
              · simp only [Except.ok.injEq] at h
                subst h
                apply keeps_then_connect_fail
                apply keeps_then_ext
                apply keeps_then_ext
                exact hk03
              · simp only [Except.ok.injEq] at h
                subst h
                apply keeps_then_ksys_ret
                apply keeps_then_ext
                apply keeps_then_ext
                exact hk03

/-! ## The invariant under the descriptor handlers -/

theorem keeps_handle_to_tcpapi (cfg : Config) (cpu handle : Nat) (s : State) :
    keeps cfg s (handle_to_tcpapi cfg cpu handle s).2 ∧
      (handle_to_tcpapi cfg cpu handle s).2.pcbs = s.pcbs := by
  unfold handle_to_tcpapi
  split_ifs
  · exact ⟨keeps_refl cfg s, rfl⟩
  · exact ⟨keeps_then_eth_fg cfg s s _ _ (keeps_refl cfg s), rfl⟩
  · exact ⟨keeps_then_eth_fg cfg s s _ _ (keeps_refl cfg s), rfl⟩

theorem handle_ok_home (cfg : Config) (s : State) (cpu handle api : Nat)
    (hok : handle_ok cfg s cpu handle = true)
    (hl : (handle_to_tcpapi cfg cpu handle s).1 = some api) :
    fgs_read cfg (handle_to_fg_id (s.pcbs api).handle) = .ok cpu := by
  unfold handle_ok at hok
  rw [hl] at hok
  simp only [Bool.and_eq_true] at hok
  obtain ⟨_, h2⟩ := hok
  cases hf : fgs_read cfg (handle_to_fg_id (s.pcbs api).handle) with
  | error e => rw [hf] at h2; simp at h2
  | ok home =>
    rw [hf] at h2
    simp only [decide_eq_true_eq] at h2
    rw [h2]

theorem keeps_bsys_tcp_accept (cfg : Config) (cpu handle cookie fuel : Nat) (s s1 : State)
    (h : bsys_tcp_accept cfg cpu handle cookie fuel s = .ok s1) : keeps cfg s s1 := by
  unfold bsys_tcp_accept at h
  obtain ⟨hk0, hp0⟩ := keeps_handle_to_tcpapi cfg cpu handle s
  cases hh : handle_to_tcpapi cfg cpu handle s with
  | mk o s0 =>
    rw [hh] at h hk0 hp0
    cases o with
    | none =>
      simp only [Except.ok.injEq] at h
      subst h
      exact keeps_then_ksys_ret cfg s s0 cpu _ _ _ hk0
    | some api =>
      simp only at h hk0 hp0
      obtain ⟨_, _, halive, _⟩ := handle_to_tcpapi_some cfg cpu handle api s (by rw [hh])
      intro hi
      have hv := pcb_valid_of_alive cfg s api hi halive
      have hk1 : keeps cfg s (match (s0.pcbs api).id with
          | some id => set_pcb api (fun a => { a with id := none }) (id_mempool_free cpu id s0)
          | none => s0) := by
        cases (s0.pcbs api).id with
        | none => exact hk0
        | some id =>
          exact keeps_trans cfg _ _ _ (keeps_trans cfg _ _ _ hk0
            (keeps_fields cfg s0 (id_mempool_free cpu id s0) rfl rfl rfl rfl rfl))
            (keeps_pcb_fields cfg _ api (fun a => { a with id := none })
              (fun _ => ⟨rfl, rfl, rfl⟩))
      have hk2 := keeps_trans cfg _ _ _ hk1 (keeps_pcb_fields cfg _ api
        (fun a => { a with cookie := cookie, accepted := true }) (fun _ => ⟨rfl, rfl, rfl⟩))
      exact keeps_trans cfg _ _ _ hk2
        (keeps_accept_loop cfg cpu api fuel _ _ s1 (keeps_valid cfg _ _ api hk2 hi hv) h) hi

theorem keeps_sendv_loop (cfg : Config) (env : sendv_env) (api : Nat) :
    ∀ (n i acc : Nat) (s : State) (r : Nat × State),
      sendv_loop env api n i acc s = .ok r → keeps cfg s r.2
  | 0, _, _, s, r, h => by
    simp only [sendv_loop, Except.ok.injEq] at h
    subst h; exact keeps_refl cfg s
  | n + 1, i, acc, s, r, h => by
    simp only [sendv_loop] at h
    cases hp : (s.pcbs api).pcb with
    | none => rw [hp] at h; cases h
    | some pcb =>
      rw [hp] at h
      simp only at h
      split_ifs at h
      all_goals first
        | (simp only [Except.ok.injEq] at h
           subst h
           first
             | exact keeps_refl cfg s
             | exact keeps_then_ext cfg s s _ (keeps_refl cfg s))
        | exact keeps_trans cfg _ _ _ (keeps_then_ext cfg s s _ (keeps_refl cfg s))
            (keeps_sendv_loop cfg env api n _ _ _ r h)

theorem keeps_enqueue_after (cfg : Config) (cpu api : Nat) (s0 s s1 : State)
    (h : pcb_ready_enqueue cfg cpu api s = .ok s1) (hv : Inv cfg s0 → pcb_valid cfg s0 api)
    (hk : keeps cfg s0 s) : keeps cfg s0 s1 := fun hi =>
  keeps_trans cfg _ _ _ hk (keeps_enqueue cfg cpu api s s1 (keeps_valid cfg _ _ api hk hi (hv hi)) h)
    hi

theorem keeps_then_pcb_fields (cfg : Config) (s0 s : State) (api : Nat)
    (f : tcpapi_pcb → tcpapi_pcb) (h : keeps cfg s0 s)
    (hf : ∀ a, (f a).alive = a.alive ∧ (f a).flags = a.flags ∧ (f a).handle = a.handle) :
    keeps cfg s0 (set_pcb api f s) :=
  keeps_trans cfg _ _ _ h (keeps_pcb_fields cfg s api f hf)

theorem keeps_bsys_tcp_sendv (cfg : Config) (cpu handle nrents : Nat) (env : sendv_env)
    (s s1 : State) (h : bsys_tcp_sendv cfg cpu handle nrents env s = .ok s1) :
    keeps cfg s s1 := by
  unfold bsys_tcp_sendv at h
  obtain ⟨hk0, hp0⟩ := keeps_handle_to_tcpapi cfg cpu handle s
  cases hh : handle_to_tcpapi cfg cpu handle s with
  | mk o s0 =>
    rw [hh] at h hk0 hp0
    cases o with
    | none =>
      simp only [Except.ok.injEq] at h
      subst h
      exact keeps_then_ksys_ret cfg s s0 cpu _ _ _ hk0
    | some api =>
      simp only at h hk0 hp0
      obtain ⟨_, _, halive, _⟩ := handle_to_tcpapi_some cfg cpu handle api s (by rw [hh])
      have hv : Inv cfg s → pcb_valid cfg s api := fun hi => pcb_valid_of_alive cfg s api hi halive
      split_ifs at h with h1 h2
      · refine keeps_enqueue_after cfg cpu api s _ s1 h hv ?_
        apply keeps_then_pcb_fields cfg s s0 api _ hk0
        exact fun _ => ⟨rfl, rfl, rfl⟩
      · refine keeps_enqueue_after cfg cpu api s _ s1 h hv ?_
        apply keeps_then_pcb_fields cfg s s0 api _ hk0
        exact fun _ => ⟨rfl, rfl, rfl⟩
      · cases hl : sendv_loop env api (min (nrents % 4294967296) cfg.MAX_SG_ENTRIES) 0 0 s0 with
        | error e => rw [hl] at h; cases h
        | ok r =>
          obtain ⟨len_xmited, s2⟩ := r
          rw [hl] at h
          simp only at h
          have hk1 : keeps cfg s s2 :=
            keeps_trans cfg _ _ _ hk0 (keeps_sendv_loop cfg env api _ _ _ s0 _ hl)
          split_ifs at h with h3
          · cases hp : (s2.pcbs api).pcb with
            | none => rw [hp] at h; cases h
            | some pcb =>
              rw [hp] at h
              simp only at h
              refine keeps_enqueue_after cfg cpu api s _ s1 h hv ?_
              apply keeps_then_pcb_fields cfg s _ api _ (keeps_then_ext cfg s s2 _ hk1)
              exact fun _ => ⟨rfl, rfl, rfl⟩
          · simp only [Except.ok.injEq] at h
            subst h; exact hk1

theorem keeps_recv_done_loop (cfg : Config) :
    ∀ (fuel : Nat) (p : Option Nat) (len : Nat) (s : State) (r : Option Nat × State),
      recv_done_loop fuel p len s = .ok r → keeps cfg s r.2
  | fuel, none, _, s, r, h => by
    cases fuel <;>
    · simp only [recv_done_loop, Except.ok.injEq] at h
      subst h; exact keeps_refl cfg s
  | 0, some _, _, _, _, h => by simp [recv_done_loop] at h
  | fuel + 1, some p, len, s, r, h => by
    simp only [recv_done_loop] at h
    split_ifs at h
    · simp only [Except.ok.injEq] at h
      subst h; exact keeps_refl cfg s
    · exact keeps_trans cfg _ _ _ (keeps_then_ext cfg s s _ (keeps_refl cfg s))
        (keeps_recv_done_loop cfg fuel _ _ _ r h)

theorem keeps_bsys_tcp_recv_done (cfg : Config) (cpu handle len fuel : Nat) (s s1 : State)
    (h : bsys_tcp_recv_done cfg cpu handle len fuel s = .ok s1) : keeps cfg s s1 := by
  unfold bsys_tcp_recv_done at h
  obtain ⟨hk0, hp0⟩ := keeps_handle_to_tcpapi cfg cpu handle s
  cases hh : handle_to_tcpapi cfg cpu handle s with
  | mk o s0 =>
    rw [hh] at h hk0 hp0
    cases o with
    | none =>
      simp only [Except.ok.injEq] at h
      subst h
      exact keeps_then_ksys_ret cfg s s0 cpu _ _ _ hk0
    | some api =>
      simp only at h hk0 hp0
      have hk1 : keeps cfg s (match (s0.pcbs api).pcb with
          | some pcb => ext (.tcp_recved (some (handle_to_fg_id handle)) pcb len) s0
          | none => s0) := by
        cases (s0.pcbs api).pcb with
        | none => exact hk0
        | some pcb => exact keeps_then_ext cfg s s0 _ hk0
      split at h
      · cases h
      · rename_i recvd s2 hl
        simp only [Except.ok.injEq] at h
        subst h
        have hk2 := keeps_recv_done_loop cfg fuel _ _ _ _ hl
        exact keeps_then_pcb_fields cfg s s2 api (fun a => { a with recvd := recvd })
          (keeps_trans cfg _ _ _ hk1 hk2) (fun _ => ⟨rfl, rfl, rfl⟩)

theorem keeps_close_loop (cfg : Config) :
    ∀ (fuel : Nat) (p : Option Nat) (s s1 : State), close_loop fuel p s = .ok s1 → keeps cfg s s1
  | fuel, none, s, s1, h => by
    cases fuel <;>
    · simp only [close_loop, Except.ok.injEq] at h
      subst h; exact keeps_refl cfg s
  | 0, some _, _, _, h => by simp [close_loop] at h
  | fuel + 1, some p, s, s1, h => by
    simp only [close_loop] at h
    exact keeps_trans cfg _ _ _ (keeps_then_ext cfg s s _ (keeps_refl cfg s))
      (keeps_close_loop cfg fuel _ _ s1 h)

theorem keeps_bsys_tcp_close (cfg : Config) (cpu handle fuel : Nat) (s s1 : State)
    (hw : cfg.wf) (hok : handle_ok cfg s cpu handle = true)
    (h : bsys_tcp_close cfg cpu handle fuel s = .ok s1) : keeps cfg s s1 := by
  unfold bsys_tcp_close at h
  obtain ⟨hk0, hp0⟩ := keeps_handle_to_tcpapi cfg cpu handle s
  cases hh : handle_to_tcpapi cfg cpu handle s with
  | mk o s0 =>
    rw [hh] at h hk0 hp0
    cases o with
    | none =>
      simp only [Except.ok.injEq] at h
      subst h
      exact keeps_then_ksys_ret cfg s s0 cpu _ _ _ hk0
    | some api =>
      simp only at h hk0 hp0
      obtain ⟨_, hidx, halive, _⟩ := handle_to_tcpapi_some cfg cpu handle api s (by rw [hh])
      have hhome := handle_ok_home cfg s cpu handle api hok (by rw [hh])
      have hk1 : keeps cfg s (close_reset handle api s0) := by
        unfold close_reset
        cases (s0.pcbs api).pcb with
        | none => exact hk0
        | some pcb => exact keeps_then_ext cfg s s0 _ hk0
      cases hl : close_loop fuel ((close_reset handle api s0).pcbs api).recvd
          (close_reset handle api s0) with
      | error e => rw [hl] at h; cases h
      | ok s2 =>
        rw [hl] at h
        simp only [Except.ok.injEq] at h
        subst h
        have hk2 : keeps cfg s s2 := keeps_trans cfg _ _ _ hk1 (keeps_close_loop cfg fuel _ _ s2 hl)
        have hk3 : keeps cfg s (close_release_id cpu api s2) := by
          unfold close_release_id
          cases (s2.pcbs api).id with
          | none => exact hk2
          | some id =>
            exact keeps_trans cfg s (remove_fdir_filter id s2) _
              (keeps_then_ext cfg s s2 _ hk2)
              (keeps_fields cfg (remove_fdir_filter id s2)
                (id_mempool_free cpu id (remove_fdir_filter id s2)) rfl rfl rfl rfl rfl)
        intro hi
        have hv := pcb_valid_of_alive cfg s api hi halive
        have hc := pcb_valid_home cfg s api cpu hv hhome
        have hlt : api < 2 ^ 48 := by rw [hidx]; exact handle_to_idx_lt handle
        unfold close_finish
        split_ifs with hcnt
        · exact keeps_trans cfg _ _ _ hk3 (keeps_set_pcb cfg _ api
            (fun a => { a with flags := a.flags ||| PCB_FLAG_CLOSED })
            (keeps_valid cfg _ _ api hk3 hi hv) (fun _ => rfl)) hi
        · exact keeps_trans cfg _ _ _ hk3 (keeps_free cfg _ cpu api hw.hdr hc hlt) hi

/-! ## The invariant under the drain, the steal and the acknowledgement -/

theorem queue_pop_front_some (q q1 : queue) (next next1 : Nat → Option Nat) (n : Nat)
    (h : queue_pop_front q next = (some n, q1, next1)) : q.head = some n := by
  unfold queue_pop_front queue_front at h
  cases hq : q.head with
  | none => rw [hq] at h; simp at h
  | some m =>
    rw [hq] at h
    simp only [Prod.mk.injEq, Option.some.injEq] at h
    rw [h.1]

theorem keeps_gen_after_pop (cfg : Config) (cpu c api fuel : Nat) (r : Option Nat) (q : queue)
    (next : Nat → Option Nat) (s s1 : State)
    (hq : queue_pop_front (s.pcb_ready_queue c) s.ready_queue_next = (r, q, next))
    (hhd : (s.pcb_ready_queue c).head = some api)
    (h : __tcp_gen_usys cfg cpu api fuel
      { s with pcb_ready_queue := upd s.pcb_ready_queue c q, ready_queue_next := next } = .ok s1) :
    keeps cfg s s1 := by
  intro hi
  have hv := pcb_valid_of_head cfg s c api hi hhd
  have hf := frame_tcp_gen_usys cfg cpu api fuel _ s1 h
  exact keeps_trans cfg _ _ _ (keeps_pop cfg s c r q next hq)
    (keeps_frame cfg _ _ s1 hf (fun x hx => by
      simp only [Option.some.injEq] at hx
      subst hx
      exact hv.2)) hi

theorem keeps_tcp_generate_usys (cfg : Config) (cpu fuel : Nat) (s s1 : State)
    (h : tcp_generate_usys cfg cpu fuel s = .ok s1) : keeps cfg s s1 := by
  unfold tcp_generate_usys at h
  cases hq : queue_pop_front (s.pcb_ready_queue cpu) s.ready_queue_next with
  | mk r qn =>
    obtain ⟨q, next⟩ := qn
    rw [hq] at h
    cases r with
    | none =>
      simp only [Except.ok.injEq] at h
      subst h; exact keeps_refl cfg s
    | some n =>
      simp only at h
      exact keeps_gen_after_pop cfg cpu cpu n fuel _ q next s s1 hq
        (queue_pop_front_some _ _ _ _ _ hq) h

theorem keeps_tcp_steal_idle_wait (cfg : Config) (cpu fuel : Nat) (env : steal_env)
    (s : State) (r : Bool × State) (h : tcp_steal_idle_wait cfg cpu fuel env s = .ok r) :
    keeps cfg s r.2 := by
  unfold tcp_steal_idle_wait at h
  simp only at h
  split_ifs at h with h1 h2 h3 h4
  · simp only [Except.ok.injEq] at h
    subst h; exact keeps_refl cfg s
  · simp only [Except.ok.injEq] at h
    subst h; exact keeps_refl cfg s
  · split at h
    · simp only [Except.ok.injEq] at h
      subst h; exact keeps_refl cfg s
    · rename_i api hfront
      split_ifs at h with h5
      split at h
      · cases h
      · rename_i s2 hg
        simp only [Except.ok.injEq] at h
        subst h
        exact keeps_gen_after_pop cfg cpu _ api fuel _ _ _ s s2 rfl hfront hg
  · simp only [Except.ok.injEq] at h
    subst h; exact keeps_refl cfg s
  · simp only [Except.ok.injEq] at h
    subst h; exact keeps_refl cfg s

theorem keeps_tcp_finish_usys_one (cfg : Config) (home api : Nat) (s s1 : State) (hw : cfg.wf)
    (hc : cfg.pool_cpu api = home) (hlt : api < 2 ^ 48)
    (h : __tcp_finish_usys cfg home api s = .ok s1) : keeps cfg s s1 := by
  unfold __tcp_finish_usys at h
  simp only at h
  have hk1 : keeps cfg s (set_pcb api
      (fun a => { a with active_usys_count := a.active_usys_count - 1 })
      (ext (.bsys_dispatch_remote home) s)) :=
    keeps_then_pcb_fields cfg s _ api _ (keeps_then_ext cfg s s _ (keeps_refl cfg s))
      (fun _ => ⟨rfl, rfl, rfl⟩)
  split_ifs at h with h1 h2
  · simp only [Except.ok.injEq] at h
    subst h
    exact keeps_trans cfg _ _ _ hk1 (keeps_free cfg _ home api hw.hdr hc hlt)
  · intro hi
    have hfl : (s.pcbs api).flags ≠ 0 := by
      intro h0
      apply h2.2
      simp only [set_pcb_pcbs_same]
      have : ((ext (.bsys_dispatch_remote home) s).pcbs api).flags = 0 := h0
      rw [this]; simp
    have hv := pcb_valid_of_flags cfg s api hi hfl
    have hv1 := keeps_valid cfg _ _ api hk1 hi hv
    have hk2 := keeps_trans cfg _ _ _ hk1 (keeps_set_pcb cfg _ api
      (fun a => { a with flags := a.flags &&& (255 ^^^ PCB_FLAG_READY) }) hv1 (fun _ => rfl))
    exact keeps_enqueue_after cfg home api s _ s1 h (fun _ => hv) hk2 hi
  · simp only [Except.ok.injEq] at h
    subst h; exact hk1

theorem keeps_tcp_finish_usys_loop (cfg : Config) (cpu : Nat) (hw : cfg.wf) :
    ∀ (es : List usys_event) (s s1 : State),
      (∀ e, e ∈ es → usys_is_tcp e = true → handle_home cfg (usys_arga e)) →
      tcp_finish_usys_loop cfg cpu es s = .ok s1 → keeps cfg s s1
  | [], s, s1, _, h => by
    simp only [tcp_finish_usys_loop, Except.ok.injEq] at h
    subst h; exact keeps_refl cfg s
  | e :: es, s, s1, hes, h => by
    simp only [tcp_finish_usys_loop] at h
    have hes1 : ∀ e1, e1 ∈ es → usys_is_tcp e1 = true → handle_home cfg (usys_arga e1) :=
      fun e1 he1 => hes e1 (List.mem_cons_of_mem _ he1)
    split_ifs at h with ht
    · obtain ⟨hlt, hhome⟩ := hes e (List.mem_cons_self _ _) ht
      split at h
      · cases h
      · rename_i home hb
        have hhm : cfg.fgs_cur_cpu (handle_to_fg_id (usys_arga e)) = home :=
          (fgs_read_ok cfg _ _ hb).2
        split at h
        · cases h
        · rename_i s2 hf
          have hk0 : keeps cfg s
              (if home = cpu then s
                else ext (.cpu_run_on_one cpu (handle_to_idx (usys_arga e)) home) s) := by
            split_ifs
            · exact keeps_refl cfg s
            · exact keeps_then_ext cfg s s _ (keeps_refl cfg s)
          have hk1 := keeps_tcp_finish_usys_one cfg home (handle_to_idx (usys_arga e)) _ s2 hw
            (by rw [← hhome, hhm]) (handle_to_idx_lt _) hf
          exact keeps_trans cfg _ _ _ (keeps_trans cfg _ _ _ hk0 hk1)
            (keeps_tcp_finish_usys_loop cfg cpu hw es s2 s1 hes1 h)
    · exact keeps_tcp_finish_usys_loop cfg cpu hw es s s1 hes1 h

theorem keeps_clear_usys_arr (cfg : Config) (cpu : Nat) (s : State) :
    keeps cfg s { s with usys_arr := upd s.usys_arr cpu [] } := by
  refine keeps_frame cfg none s _ ⟨rfl, rfl, rfl, fun _ => ⟨rfl, rfl, rfl⟩, fun c e he _ => ?_⟩
    (fun _ h => by cases h)
  have he1 : e ∈ upd s.usys_arr cpu [] c := he
  by_cases hc : c = cpu
  · subst hc; rw [upd_same] at he1; cases he1
  · rw [upd_other _ _ _ _ hc] at he1; exact Or.inl he1

theorem keeps_tcp_finish_usys (cfg : Config) (cpu : Nat) (s s1 : State) (hw : cfg.wf)
    (h : tcp_finish_usys cfg cpu s = .ok s1) : keeps cfg s s1 := fun hi =>
  keeps_tcp_finish_usys_loop cfg cpu hw (s.usys_arr cpu) s s1 (fun e he ht => hi.events cpu e he ht)
    h hi

/-! ## The invariant holds in every reachable state -/

theorem Inv_init (cfg : Config) (pcb_pool id_pool : Nat → List Nat) (pbufs : Nat → pbuf)
    (hw : cfg.wf) (hp : pool_wf cfg pcb_pool) :
    Inv cfg (init_state cfg pcb_pool id_pool pbufs) := by
  refine ⟨fun i => ⟨[i], rfl, rfl⟩, ?_, ?_, ?_, ?_, fun i => Or.inr ⟨hw.hdr, rfl, ?_, ?_⟩, ?_⟩
  · intro c i h; cases h
  · intro c i h; cases h
  · intro i j h; cases h
  · intro c i h
    obtain ⟨h1, h2⟩ := hp c i h
    refine ⟨h1, lt_trans h2 ?_⟩
    unfold MAX_PCBS; norm_num
  · intro c; exact ⟨fun h => (by cases h), fun h => (by cases h)⟩
  · intro j h; cases h
  · intro c e h; cases h

theorem map_snd_ok {α : Type} (x : Exec (α × State)) (s1 : State)
    (h : x.map Prod.snd = .ok s1) : ∃ r, x = .ok (r, s1) := by
  cases x with
  | error e => cases h
  | ok p =>
    obtain ⟨r, s2⟩ := p
    have h1 : (Except.ok s2 : Exec State) = .ok s1 := h
    simp only [Except.ok.injEq] at h1
    subst h1
    exact ⟨r, rfl⟩

theorem keeps_step (cfg : Config) (hw : cfg.wf) (s s1 : State) (a : Action)
    (he : env_ok cfg s a = true) (h : step cfg s a = .ok s1) : keeps cfg s s1 := by
  cases a with
  | accept_cb cpu cur_fg t =>
    obtain ⟨r, hr⟩ := map_snd_ok _ s1 h
    exact keeps_on_accept cfg cpu cur_fg t r s s1 hw hr
  | recv_cb cpu arg p fill =>
    obtain ⟨r, hr⟩ := map_snd_ok _ s1 h
    obtain ⟨hk0, hp0⟩ := keeps_fill_pbufs cfg fill s
    intro hi
    have halive : ((fill_pbufs fill s).pcbs arg).alive ≤ 1 := by
      simpa [env_ok, cb_arg_ok] using he
    have hv := pcb_valid_of_alive cfg _ arg (hk0 hi).1 halive
    exact keeps_trans cfg _ _ _ hk0 (keeps_on_recv cfg cpu arg p r _ s1 hv hr) hi
  | sent_cb cpu arg len =>
    obtain ⟨r, hr⟩ := map_snd_ok _ s1 h
    intro hi
    have halive : (s.pcbs arg).alive ≤ 1 := by simpa [env_ok, cb_arg_ok] using he
    exact keeps_on_sent cfg cpu arg len s s1 r (pcb_valid_of_alive cfg s arg hi halive) hr hi
  | err_cb cpu arg err =>
    intro hi
    refine keeps_on_err cfg cpu arg err s s1 (fun a ha => ?_) h hi
    subst ha
    have halive : (s.pcbs a).alive ≤ 1 := by simpa [env_ok, cb_arg_ok] using he
    exact pcb_valid_of_alive cfg s a hi halive
  | connected_cb cpu arg err =>
    obtain ⟨r, hr⟩ := map_snd_ok _ s1 h
    intro hi
    have halive : (s.pcbs arg).alive ≤ 1 := by simpa [env_ok, cb_arg_ok] using he
    exact keeps_on_connected cfg cpu arg err r s s1 (pcb_valid_of_alive cfg s arg hi halive) hr hi
  | connect cpu cookie fuel env =>
    exact keeps_connect cfg cpu cookie fuel env s s1 hw (by simpa [env_ok] using he) h
  | accept cpu handle cookie fuel => exact keeps_bsys_tcp_accept cfg cpu handle cookie fuel s s1 h
  | sendv cpu handle nrents env => exact keeps_bsys_tcp_sendv cfg cpu handle nrents env s s1 h
  | recv_done cpu handle len fuel => exact keeps_bsys_tcp_recv_done cfg cpu handle len fuel s s1 h
  | close cpu handle fuel => exact keeps_bsys_tcp_close cfg cpu handle fuel s s1 hw he h
  | generate cpu fuel => exact keeps_tcp_generate_usys cfg cpu fuel s s1 h
  | steal cpu fuel env =>
    obtain ⟨r, hr⟩ := map_snd_ok _ s1 h
    exact keeps_tcp_steal_idle_wait cfg cpu fuel env s (r, s1) hr
  | finish cpu =>
    cases hf : tcp_finish_usys cfg cpu s with
    | error e =>
      have h1 : (tcp_finish_usys cfg cpu s).map
          (fun s1 => { s1 with usys_arr := upd s1.usys_arr cpu [] }) = .ok s1 := h
      rw [hf] at h1; cases h1
    | ok s2 =>
      have h1 : (tcp_finish_usys cfg cpu s).map
          (fun s1 => { s1 with usys_arr := upd s1.usys_arr cpu [] }) = .ok s1 := h
      rw [hf] at h1
      have h2 : (Except.ok { s2 with usys_arr := upd s2.usys_arr cpu [] } : Exec State)
          = .ok s1 := h1
      simp only [Except.ok.injEq] at h2
      subst h2
      exact keeps_trans cfg _ _ _ (keeps_tcp_finish_usys cfg cpu s s2 hw hf)
        (keeps_clear_usys_arr cfg cpu s2)

theorem Inv_reachable (cfg : Config) (hw : cfg.wf) (s : State) (hr : Reachable cfg s) :
    Inv cfg s := by
  induction hr with
  | init pcb_pool id_pool pbufs hp => exact Inv_init cfg pcb_pool id_pool pbufs hw hp
  | step s s1 a _ he hs ih => exact (keeps_step cfg hw s s1 a he hs ih).1

/-! ## Walks of a ready queue -/

theorem queue_walk_take (next : Nat → Option Nat) :
    ∀ (l : List Nat) (fuel : Nat) (p : Option Nat), is_chain next p l →
      queue_walk next fuel p = l.take fuel
  | _, 0, _, _ => by simp [queue_walk]
  | [], fuel + 1, p, h => by
    simp only [is_chain] at h
    subst h; rfl
  | x :: xs, fuel + 1, p, h => by
    simp only [is_chain] at h
    obtain ⟨h1, h2⟩ := h
    subst h1
    simp only [queue_walk, List.take_succ_cons, List.cons.injEq, true_and]
    exact queue_walk_take next xs fuel _ h2

theorem queue_walk_nodup (next : Nat → Option Nat) (fuel : Nat) (p : Option Nat)
    (h : ∀ i, ∃ l, is_chain next (some i) l) : (queue_walk next fuel p).Nodup := by
  cases p with
  | none => rw [queue_walk_none]; exact List.nodup_nil
  | some i =>
    obtain ⟨l, hl⟩ := h i
    rw [queue_walk_take next l fuel _ hl]
    exact (is_chain_nodup next l _ hl).sublist (List.take_sublist _ _)

theorem queue_walk_cpu (cfg : Config) (next : Nat → Option Nat) (c : Nat)
    (hn : ∀ i j, next i = some j → cfg.pool_cpu i = cfg.pool_cpu j) :
    ∀ (fuel : Nat) (p : Option Nat), (∀ j, p = some j → cfg.pool_cpu j = c) →
      ∀ i, i ∈ queue_walk next fuel p → cfg.pool_cpu i = c
  | 0, _, _, i, h => by simp [queue_walk] at h
  | fuel + 1, none, _, i, h => by simp [queue_walk] at h
  | fuel + 1, some n, hp, i, h => by
    simp only [queue_walk, List.mem_cons] at h
    rcases h with h | h
    · subst h; exact hp i rfl
    · refine queue_walk_cpu cfg next c hn fuel (next n) (fun j hj => ?_) i h
      rw [← hn n j hj]; exact hp n rfl

theorem ex_cfg_wf : ex_cfg.wf := by
  refine ⟨by decide, by decide, fun c hc => ?_, fun c hc => ?_⟩
  · show 2 + c % 2 < 2 + 2
    omega
  · have hc2 : c < 2 := hc
    show (2 + c % 2) % 2 = c
    omega

/-- When every caller is as `env_ok` assumes (a descriptor names a CCB of the CPU it runs
on), each CCB is linked at most once across the per-CPU ready queues in every reachable
state.  The walk of a ready queue from its head along the `next` pointers, of any
length, meets no CCB twice, and a CCB met in the walk of the queue of one CPU is not
met in the walk of the queue of another CPU. -/
theorem ready_queue_linked_at_most_once (cfg : Config) (s : State) (hw : cfg.wf)
    (hr : Reachable cfg s) :
    (∀ fuel c, (queue_walk s.ready_queue_next fuel (s.pcb_ready_queue c).head).Nodup) ∧
      ∀ f1 f2 c1 c2 i, c1 ≠ c2 →
        i ∈ queue_walk s.ready_queue_next f1 (s.pcb_ready_queue c1).head →
        i ∉ queue_walk s.ready_queue_next f2 (s.pcb_ready_queue c2).head := by
  have hi := Inv_reachable cfg hw s hr
  refine ⟨fun fuel c => queue_walk_nodup _ fuel _ hi.acyclic, ?_⟩
  intro f1 f2 c1 c2 i hne h1 h2
  have e1 := queue_walk_cpu cfg _ c1 hi.next_cpu f1 _ (fun j hj => hi.head_cpu c1 j hj) i h1
  have e2 := queue_walk_cpu cfg _ c2 hi.next_cpu f2 _ (fun j hj => hi.head_cpu c2 j hj) i h2
  exact hne (e1.symm.trans e2)

theorem ex_knock_reachable : Reachable ex_cfg ex_knock_state :=
  run_reachable ex_cfg [.accept_cb 0 0 (tcp_pcb_info.mk 7 1 2 3)] ex_init _ ex_init_reachable rfl

theorem ready_queue_linked_at_most_once_witness :
    (ex_cfg.wf ∧ Reachable ex_cfg ex_knock_state ∧
      queue_walk ex_knock_state.ready_queue_next 3 (ex_knock_state.pcb_ready_queue 0).head = [0]) ∧
    ((∀ fuel c, (queue_walk ex_knock_state.ready_queue_next fuel
        (ex_knock_state.pcb_ready_queue c).head).Nodup) ∧
      ∀ f1 f2 c1 c2 i, c1 ≠ c2 →
        i ∈ queue_walk ex_knock_state.ready_queue_next f1 (ex_knock_state.pcb_ready_queue c1).head →
        i ∉ queue_walk ex_knock_state.ready_queue_next f2
          (ex_knock_state.pcb_ready_queue c2).head) :=
  ⟨⟨ex_cfg_wf, ex_knock_reachable, by decide⟩,
    ready_queue_linked_at_most_once ex_cfg ex_knock_state ex_cfg_wf ex_knock_reachable⟩

/-! ## The ready-queue discipline: changes of one CCB and the enqueue -/

theorem pcb_core_eq_refl (a : tcpapi_pcb) : pcb_core_eq a a :=
  ⟨rfl, rfl, rfl, rfl, rfl, rfl, rfl, rfl, rfl⟩

theorem flag_ready_set (f : Nat) : (f ||| PCB_FLAG_READY) &&& PCB_FLAG_READY ≠ 0 := by
  rw [lor_land_self]; decide

theorem pcb_pending_flags (a : tcpapi_pcb) (fl : Nat) :
    pcb_pending { a with flags := fl } ↔ pcb_pending a := Iff.rfl

theorem gen_stage_refl (api : Nat) (s : State) : gen_stage api s s :=
  ⟨fun _ _ => rfl, rfl, rfl, rfl, rfl⟩

theorem gen_stage_trans (api : Nat) (s s1 s2 : State) (h1 : gen_stage api s s1)
    (h2 : gen_stage api s1 s2) : gen_stage api s s2 := by
  obtain ⟨a1, b1, c1, d1, e1⟩ := h1
  obtain ⟨a2, b2, c2, d2, e2⟩ := h2
  exact ⟨fun i hi => (a2 i hi).trans (a1 i hi), b2.trans b1, c2.trans c1, d2.trans d1,
    e2.trans e1⟩

theorem gen_stage_of_eq (api : Nat) (s s1 : State) (h : s1.pcbs = s.pcbs) :
    gen_stage api s s1 := by
  refine ⟨fun i _ => by rw [h], ?_, ?_, ?_, ?_⟩ <;> rw [h]

theorem gen_stage_set (api : Nat) (s : State) (f : tcpapi_pcb → tcpapi_pcb)
    (hf : ∀ a, (f a).uevents = a.uevents ∧ (f a).sent_len = a.sent_len ∧
      (f a).len_xmited = a.len_xmited ∧ (f a).pbuf_for_usys = a.pbuf_for_usys) :
    gen_stage api s (set_pcb api f s) := by
  refine ⟨fun i hi => set_pcb_pcbs_other _ _ _ _ hi, ?_, ?_, ?_, ?_⟩ <;>
    rw [set_pcb_pcbs_same]
  · exact (hf _).1
  · exact (hf _).2.1
  · exact (hf _).2.2.1
  · exact (hf _).2.2.2

theorem gen_stage_emit_inc (api cpu : Nat) (e : usys_event) (s : State) :
    gen_stage api s (inc_active api (usys_emit cpu e s)) :=
  gen_stage_trans api _ _ _ (gen_stage_of_eq api s (usys_emit cpu e s) rfl)
    (gen_stage_set api _ (fun a => { a with active_usys_count := a.active_usys_count + 1 })
      (fun _ => ⟨rfl, rfl, rfl, rfl⟩))

theorem gen_stage_recv_chain (cfg : Config) (cpu api : Nat) :
    ∀ (fuel p : Nat) (s s1 : State), gen_recv_chain cfg cpu api fuel p s = .ok s1 →
      gen_stage api s s1
  | 0, _, _, _, h => by simp [gen_recv_chain] at h
  | fuel + 1, p, s, s1, h => by
    rw [gen_recv_chain_succ] at h
    have hs : gen_stage api s (recv_link_step cfg cpu api p s) := by
      unfold recv_link_step
      exact gen_stage_trans api _ _ _
        (gen_stage_of_eq api s
          { s with mbuf_len := upd s.mbuf_len (s.pbufs p).mbuf (s.pbufs p).len } rfl)
        (gen_stage_emit_inc api cpu _ _)
    cases hn : (s.pbufs p).next with
    | none =>
      rw [hn] at h
      simp only [Except.ok.injEq] at h
      subst h; exact hs
    | some p1 =>
      rw [hn] at h
      exact gen_stage_trans api _ _ _ hs (gen_stage_recv_chain cfg cpu api fuel p1 _ s1 h)

theorem gen_stage_recv_queue (cfg : Config) (cpu api cf : Nat) :
    ∀ (fuel : Nat) (pos : Option Nat) (s s1 : State),
      gen_recv_queue cfg cpu api cf fuel pos s = .ok s1 → gen_stage api s s1
  | fuel, none, s, s1, h => by
    cases fuel <;> simp only [gen_recv_queue, Except.ok.injEq] at h <;> subst h <;>
      exact gen_stage_refl _ _
  | 0, some p, s, s1, h => by simp [gen_recv_queue] at h
  | fuel + 1, some p, s, s1, h => by
    simp only [gen_recv_queue] at h
    cases hc : gen_recv_chain cfg cpu api cf p s with
    | error e => rw [hc] at h; cases h
    | ok s2 =>
      rw [hc] at h
      exact gen_stage_trans api _ _ _ (gen_stage_recv_chain cfg cpu api cf p s s2 hc)
        (gen_stage_recv_queue cfg cpu api cf fuel _ s2 s1 h)

theorem gen_stage_last (cpu api : Nat) (s : State) : gen_stage api s (gen_usys_last cpu api s) := by
  unfold gen_usys_last
  have h1 : gen_stage api s (gen_dead cpu api s) := by
    unfold gen_dead
    split_ifs
    · exact gen_stage_emit_inc api cpu _ _
    · exact gen_stage_refl _ _
  refine gen_stage_trans api _ _ _ h1 ?_
  unfold gen_ksys_ret
  split_ifs
  · exact gen_stage_trans api _ _ _
      (gen_stage_trans api _ _ _
        (gen_stage_of_eq api _ (usys_emit cpu (.KSYS_RET
          ((gen_dead cpu api s).pcbs api).lasterr_sysnr
          ((gen_dead cpu api s).pcbs api).lasterr_err
          ((gen_dead cpu api s).pcbs api).cookie) (gen_dead cpu api s)) rfl)
        (gen_stage_set api _ (fun a => { a with lasterr_sysnr := 0, lasterr_err := 0 })
          (fun _ => ⟨rfl, rfl, rfl, rfl⟩)))
      (gen_stage_set api _ (fun a => { a with active_usys_count := a.active_usys_count + 1 })
        (fun _ => ⟨rfl, rfl, rfl, rfl⟩))
  · exact gen_stage_refl _ _

theorem gen_usys_first_other (cfg : Config) (cpu api i : Nat) (s : State) (hi : i ≠ api) :
    (gen_usys_first cfg cpu api s).pcbs i = s.pcbs i := by
  unfold gen_usys_first gen_sent gen_sendv_ret gen_connected gen_knock
  by_cases h1 : (s.pcbs api).uevents &&& PCB_UEVENT_KNOCK = 0 <;>
  by_cases h2 : (s.pcbs api).uevents &&& PCB_UEVENT_CONNECTED = 0 <;>
  by_cases h3 : (s.pcbs api).len_xmited = 0 <;>
  by_cases h4 : (s.pcbs api).sent_len = 0 <;>
  simp [h1, h2, h3, h4, inc_active, set_pcb, usys_emit, upd, hi]

theorem queue_clear_empty :
    ∀ (fuel : Nat) (q : queue) (next : Nat → Option Nat) (q1 : queue)
      (next1 : Nat → Option Nat), queue_clear fuel q next = .ok (q1, next1) →
      (q.head = none → q.tail = none) → q1.head = none ∧ q1.tail = none
  | 0, _, _, _, _, h, _ => by simp [queue_clear] at h
  | fuel + 1, q, next, q1, next1, h, hq => by
    simp only [queue_clear, queue_pop_front, queue_front] at h
    cases hh : q.head with
    | none =>
      rw [hh] at h
      simp only [Except.ok.injEq, Prod.mk.injEq] at h
      rw [← h.1]
      exact ⟨hh, hq hh⟩
    | some n =>
      rw [hh] at h
      simp only at h
      refine queue_clear_empty fuel _ _ q1 next1 h ?_
      intro hn
      simp only at hn
      simp [hn]

theorem flag_ready_cleared (f : Nat) :
    (f &&& (255 ^^^ PCB_FLAG_READY)) &&& PCB_FLAG_READY = 0 := by
  unfold PCB_FLAG_READY
  rw [Nat.and_assoc]
  simp

theorem same_core_refl (s : State) : same_core s s :=
  ⟨rfl, rfl, rfl, fun _ => pcb_core_eq_refl _⟩

theorem pcb_core_eq_trans (a b c : tcpapi_pcb) (h1 : pcb_core_eq a b) (h2 : pcb_core_eq b c) :
    pcb_core_eq a c := by
  obtain ⟨a1, a2, a3, a4, a5, a6, a7, a8, a9⟩ := h1
  obtain ⟨b1, b2, b3, b4, b5, b6, b7, b8, b9⟩ := h2
  exact ⟨a1.trans b1, a2.trans b2, a3.trans b3, a4.trans b4, a5.trans b5, a6.trans b6,
    a7.trans b7, a8.trans b8, a9.trans b9⟩

theorem same_core_trans (s s1 s2 : State) (h1 : same_core s s1) (h2 : same_core s1 s2) :
    same_core s s2 :=
  ⟨h2.1.trans h1.1, h2.2.1.trans h1.2.1, h2.2.2.1.trans h1.2.2.1,
    fun i => pcb_core_eq_trans _ _ _ (h2.2.2.2 i) (h1.2.2.2 i)⟩

theorem same_core_of_eq (s s1 : State) (h1 : s1.ready_queue_next = s.ready_queue_next)
    (h2 : s1.pcb_ready_queue = s.pcb_ready_queue) (h3 : s1.pcb_mempool = s.pcb_mempool)
    (h4 : s1.pcbs = s.pcbs) : same_core s s1 :=
  ⟨h1, h2, h3, fun i => by rw [h4]; exact pcb_core_eq_refl _⟩

theorem same_core_then_ext (s0 s : State) (c : ext_call) (h : same_core s0 s) :
    same_core s0 (ext c s) :=
  same_core_trans _ _ _ h (same_core_of_eq s (ext c s) rfl rfl rfl rfl)

theorem pcb_ready_enqueue_alive (cfg : Config) (cpu api : Nat) (s s1 : State)
    (h : pcb_ready_enqueue cfg cpu api s = .ok s1) (i : Nat) :
    (s1.pcbs i).alive = (s.pcbs i).alive := by
  unfold pcb_ready_enqueue at h
  cases hf : fgs_read cfg (handle_to_fg_id (s.pcbs api).handle) with
  | error e => rw [hf] at h; cases h
  | ok home =>
    rw [hf] at h
    simp only at h
    split_ifs at h with h1 h2
    · simp only [Except.ok.injEq] at h
      subst h
      by_cases hi : i = api
      · subst hi; rw [set_pcb_pcbs_same]
      · rw [set_pcb_pcbs_other _ _ _ _ hi]
    · cases hq : queue_push_back (s.pcb_ready_queue cpu) s.ready_queue_next api with
      | error e => rw [hq] at h; cases h
      | ok r =>
        rw [hq] at h
        simp only [Except.ok.injEq] at h
        subst h; rfl

theorem mark_dead_alive (cfg : Config) (cpu a cookie : Nat) (s s1 : State)
    (h : mark_dead cfg cpu (some a) cookie s = .ok s1) : (s1.pcbs a).alive = 0 := by
  unfold mark_dead at h
  simp only at h
  rw [pcb_ready_enqueue_alive cfg cpu a _ s1 h a, set_pcb_pcbs_same]

theorem same_core_sendv_loop (env : sendv_env) (api : Nat) :
    ∀ (n i acc : Nat) (s : State) (r : Nat × State),
      sendv_loop env api n i acc s = .ok r → same_core s r.2 ∧ (acc ≤ r.1) ∧
        (r.1 = 0 → acc = 0)
  | 0, _, _, s, r, h => by
    simp only [sendv_loop, Except.ok.injEq] at h
    subst h; exact ⟨same_core_refl s, le_refl _, fun e => e⟩
  | n + 1, i, acc, s, r, h => by
    simp only [sendv_loop] at h
    cases hp : (s.pcbs api).pcb with
    | none => rw [hp] at h; cases h
    | some pcb =>
      rw [hp] at h
      simp only at h
      split_ifs at h
      all_goals first
        | (simp only [Except.ok.injEq] at h
           subst h
           first
             | exact ⟨same_core_refl s, le_refl _, fun e => e⟩
             | exact ⟨same_core_then_ext s s _ (same_core_refl s), le_refl _, fun e => e⟩
             | exact ⟨same_core_then_ext s s _ (same_core_refl s), Nat.le_add_right _ _,
                 fun e => by
                  simp only at e
                  omega⟩)
        | (obtain ⟨a, b, c⟩ := same_core_sendv_loop env api n _ _ _ r h
           exact ⟨same_core_trans _ _ _ (same_core_then_ext s s _ (same_core_refl s)) a,
             by omega, fun e => by have := c e; omega⟩)

theorem same_core_recv_done_loop :
    ∀ (fuel : Nat) (p : Option Nat) (len : Nat) (s : State) (r : Option Nat × State),
      recv_done_loop fuel p len s = .ok r → same_core s r.2
  | fuel, none, _, s, r, h => by
    cases fuel <;>
    · simp only [recv_done_loop, Except.ok.injEq] at h
      subst h; exact same_core_refl s
  | 0, some _, _, _, _, h => by simp [recv_done_loop] at h
  | fuel + 1, some p, len, s, r, h => by
    simp only [recv_done_loop] at h
    split_ifs at h
    · simp only [Except.ok.injEq] at h
      subst h; exact same_core_refl s
    · exact same_core_trans _ _ _ (same_core_then_ext s s _ (same_core_refl s))
        (same_core_recv_done_loop fuel _ _ _ r h)

theorem same_core_close_loop :
    ∀ (fuel : Nat) (p : Option Nat) (s s1 : State), close_loop fuel p s = .ok s1 →
      same_core s s1
  | fuel, none, s, s1, h => by
    cases fuel <;>
    · simp only [close_loop, Except.ok.injEq] at h
      subst h; exact same_core_refl s
  | 0, some _, _, _, h => by simp [close_loop] at h
  | fuel + 1, some p, s, s1, h => by
    simp only [close_loop] at h
    exact same_core_trans _ _ _ (same_core_then_ext s s _ (same_core_refl s))
      (same_core_close_loop fuel _ _ s1 h)

theorem same_core_close_reset (handle api : Nat) (s : State) :
    same_core s (close_reset handle api s) := by
  unfold close_reset
  cases (s.pcbs api).pcb with
  | none => exact same_core_refl s
  | some pcb => exact same_core_then_ext s s _ (same_core_refl s)

theorem same_core_close_release_id (cpu api : Nat) (s : State) :
    same_core s (close_release_id cpu api s) := by
  unfold close_release_id
  cases (s.pcbs api).id with
  | none => exact same_core_refl s
  | some id => exact same_core_of_eq s _ rfl rfl rfl rfl

/-- Why the sent callback for zero bytes is left out: it links a CCB for which none of
the six conditions holds. -/
theorem sent_zero_links_idle :
    ∃ s, run ex_cfg ex_init [.accept_cb 0 0 (tcp_pcb_info.mk 7 1 2 3), .generate 0 4,
        .finish 0, .sent_cb 0 0 0] = .ok s ∧
      pcb_allocated s 0 ∧ (s.pcbs 0).active_usys_count = 0 ∧ pcb_linked s 0 0 ∧
      ¬ pcb_pending (s.pcbs 0) := by
  refine ⟨_, rfl, ?_, by decide, ⟨1, by decide⟩, by unfold pcb_pending; decide⟩
  intro c
  show 0 ∉ upd ex_pool 0 [2] c
  unfold upd ex_pool
  by_cases h0 : c = 0
  · simp [h0]
  · by_cases h1 : c = 1 <;> simp [h0, h1]

/-- Why CLOSE of a linked CCB without outstanding events is left out: the slot goes
back to the pool while its node is still linked in the ready queue. -/
theorem close_while_linked_frees :
    ∃ s, run ex_cfg ex_init [.accept_cb 0 0 (tcp_pcb_info.mk 7 1 2 3), .generate 0 4,
        .finish 0, .err_cb 0 (some 0) err_t.ERR_RST, .close 0 0 4] = .ok s ∧
      0 ∈ s.pcb_mempool 0 ∧ pcb_linked s 0 0 := by
  exact ⟨_, rfl, by decide, ⟨1, by decide⟩⟩

/-! ## C11, C12 -/

/-- C11 fails on the code: CLOSE of a CCB that is linked in the ready queue with pending
work and `active_usys_count = 0` is processed (the slot is back in the pool, the count
is 0, the handle is no longer found), and the next drain of the CPU emits an event that
carries the closed handle. -/
theorem close_linked_drain_emits_closed_handle :
    Reachable ex_cfg (run_state ex_cfg ex_init ex_trace_close_linked) ∧
      run ex_cfg ex_init ex_trace_close_linked
        = .ok (run_state ex_cfg ex_init ex_trace_close_linked) ∧
      ((run_state ex_cfg ex_init ex_trace_close_linked).pcbs 1).active_usys_count = 0 ∧
      1 ∈ (run_state ex_cfg ex_init ex_trace_close_linked).pcb_mempool 1 ∧
      (handle_to_tcpapi ex_cfg 1 ex_handle
        (run_state ex_cfg ex_init ex_trace_close_linked)).1 = none ∧
      (run_state ex_cfg ex_init ex_trace_close_linked).usys_arr 1 = [] ∧
      ∃ s1, tcp_generate_usys ex_cfg 1 4 (run_state ex_cfg ex_init ex_trace_close_linked)
          = .ok s1 ∧
        s1.usys_arr 1 = [.USYS_TCP_SENT ex_handle 9 10] := by
  refine ⟨run_reachable ex_cfg ex_trace_close_linked ex_init _ ex_init_reachable rfl, rfl,
    by decide, by decide, by decide, by decide, _, rfl, by decide⟩

/-- C12 fails on the code: the DEAD event of a connection is drained once, and after a
SENDV on the dead connection the next drain emits DEAD for the same handle again,
without any CLOSE in between. -/
theorem dead_emitted_twice :
    Reachable ex_cfg (run_state ex_cfg ex_init ex_trace_dead) ∧
      run ex_cfg ex_init ex_trace_dead = .ok (run_state ex_cfg ex_init ex_trace_dead) ∧
      (run_state ex_cfg ex_init ex_trace_dead).usys_arr 1 = [.USYS_TCP_DEAD ex_handle 0] ∧
      ∃ s1, run ex_cfg (run_state ex_cfg ex_init ex_trace_dead) ex_trace_dead_again = .ok s1 ∧
        s1.usys_arr 1 = [.USYS_TCP_DEAD ex_handle 0, .KSYS_RET KSYS_TCP_SENDV (-RET_CLOSED) 0] := by
  refine ⟨run_reachable ex_cfg ex_trace_dead ex_init _ ex_init_reachable rfl, rfl,
    by decide, _, rfl, by decide⟩

/-! ## C13, C14, C15: routing of descriptors -/

theorem routed_to_home_ne (cfg : Config) (cpu c : Nat) (d : bsys_desc)
    (h : cfg.fgs_cur_cpu (handle_to_fg_id d.arga) ≠ c) : routed_to cfg cpu c d = false := by
  simp [routed_to, h]

theorem routed_to_not_tcp (cfg : Config) (cpu c : Nat) (d : bsys_desc)
    (h : ksys_is_tcp d = false) : routed_to cfg cpu c d = false := by
  simp [routed_to, h]

theorem routed_to_local (cfg : Config) (cpu c : Nat) (d : bsys_desc)
    (h : cfg.fgs_cur_cpu (handle_to_fg_id d.arga) = cpu) : routed_to cfg cpu c d = false := by
  unfold routed_to
  by_cases hc : c = cpu
  · simp [hc]
  · have : cfg.fgs_cur_cpu (handle_to_fg_id d.arga) ≠ c := fun e => hc (e.symm.trans h)
    simp [this]

theorem routed_to_home (cfg : Config) (cpu : Nat) (d : bsys_desc) (ht : ksys_is_tcp d = true)
    (h : cfg.fgs_cur_cpu (handle_to_fg_id d.arga) ≠ cpu) :
    routed_to cfg cpu (cfg.fgs_cur_cpu (handle_to_fg_id d.arga)) d = true := by
  simp [routed_to, ht, h]

theorem tcp_route_ksys_keep (cfg : Config) (cpu : Nat) (d : bsys_desc) (ds : List bsys_desc)
    (s : State)
    (h : ksys_is_tcp d = false ∨ bsys_tcp_home_id cfg d.arga = .ok cpu) :
    tcp_route_ksys cfg cpu (d :: ds) s =
      (tcp_route_ksys cfg cpu ds s).map (fun r => (d :: r.1, r.2)) := by
  by_cases ht : ksys_is_tcp d = true
  · rcases h with h | h
    · rw [h] at ht; cases ht
    · simp only [tcp_route_ksys, ht, h, Bool.not_true, Bool.false_eq_true, if_false, if_true]
      cases tcp_route_ksys cfg cpu ds s <;> rfl
  · have htf : ksys_is_tcp d = false := by simpa using ht
    simp only [tcp_route_ksys, htf, Bool.not_false, if_true]
    cases tcp_route_ksys cfg cpu ds s <;> rfl

theorem tcp_route_ksys_move (cfg : Config) (cpu home : Nat) (d : bsys_desc)
    (ds : List bsys_desc) (s : State) (ht : ksys_is_tcp d = true)
    (hr : bsys_tcp_home_id cfg d.arga = .ok home) (hh : home ≠ cpu)
    (hroom : (s.ksys_remote home).length < cfg.LOCKED_BSYS_MAX_LEN) :
    tcp_route_ksys cfg cpu (d :: ds) s =
      (tcp_route_ksys cfg cpu ds
          { s with ksys_remote := upd s.ksys_remote home (s.ksys_remote home ++ [d]) }).map
        (fun r => ({ d with sysnr := KSYS_NOP } :: r.1, r.2)) := by
  have hnot : ¬ cfg.LOCKED_BSYS_MAX_LEN ≤ (s.ksys_remote home).length := by omega
  simp only [tcp_route_ksys, ht, hr, hh, hnot, Bool.not_true, Bool.false_eq_true, if_false]
  cases tcp_route_ksys cfg cpu ds
    { s with ksys_remote := upd s.ksys_remote home (s.ksys_remote home ++ [d]) } <;> rfl

theorem tcp_route_ksys_spec (cfg : Config) (cpu : Nat) :
    ∀ (batch : List bsys_desc) (s : State),
      (∀ d ∈ batch, ksys_is_tcp d = true →
        handle_to_fg_id d.arga < cfg.ETH_MAX_TOTAL_FG + cfg.NCPU) →
      (∀ c, batch.filter (routed_to cfg cpu c) ≠ [] →
        (s.ksys_remote c).length + (batch.filter (routed_to cfg cpu c)).length
          ≤ cfg.LOCKED_BSYS_MAX_LEN) →
      tcp_route_ksys cfg cpu batch s =
        .ok (batch.map (fun d =>
              if ksys_is_tcp d = true ∧ cfg.fgs_cur_cpu (handle_to_fg_id d.arga) ≠ cpu then
                { d with sysnr := KSYS_NOP }
              else d),
            { s with ksys_remote := fun c =>
                s.ksys_remote c ++ batch.filter (routed_to cfg cpu c) })
  | [], s, _, _ => by simp [tcp_route_ksys]
  | d :: ds, s, hfg, hroom => by
    have hfg1 : ∀ d1 ∈ ds, ksys_is_tcp d1 = true →
        handle_to_fg_id d1.arga < cfg.ETH_MAX_TOTAL_FG + cfg.NCPU :=
      fun d1 h1 => hfg d1 (List.mem_cons_of_mem _ h1)
    by_cases ht : ksys_is_tcp d = true
    · have hr : bsys_tcp_home_id cfg d.arga = .ok (cfg.fgs_cur_cpu (handle_to_fg_id d.arga)) := by
        simp [bsys_tcp_home_id, fgs_read, hfg d (List.mem_cons_self _ _) ht]
      generalize hhome : cfg.fgs_cur_cpu (handle_to_fg_id d.arga) = home at hr
      by_cases hh : home = cpu
      · have hfil : ∀ c, (d :: ds).filter (routed_to cfg cpu c) = ds.filter (routed_to cfg cpu c) :=
          fun c => by
            rw [List.filter_cons, routed_to_local cfg cpu c d (hhome.trans hh)]; rfl
        have ih := tcp_route_ksys_spec cfg cpu ds s hfg1
          (fun c hc => by have := hroom c (by rw [hfil]; exact hc); rwa [hfil] at this)
        rw [tcp_route_ksys_keep cfg cpu d ds s (Or.inr (hh ▸ hr)), ih]
        simp only [Except.map, List.map_cons, hfil, hhome, hh, ne_eq, not_true_eq_false, and_false,
          if_false]
      · have hmem : routed_to cfg cpu home d = true := by
          have := routed_to_home cfg cpu d ht (by rw [hhome]; exact hh)
          rwa [hhome] at this
        have hfilh : (d :: ds).filter (routed_to cfg cpu home)
            = d :: ds.filter (routed_to cfg cpu home) := by
          rw [List.filter_cons, hmem]; rfl
        have hfilo : ∀ c, home ≠ c →
            (d :: ds).filter (routed_to cfg cpu c) = ds.filter (routed_to cfg cpu c) :=
          fun c hc => by
            rw [List.filter_cons, routed_to_home_ne cfg cpu c d (by rw [hhome]; exact hc)]; rfl
        have hlen := hroom home (by rw [hfilh]; exact List.cons_ne_nil _ _)
        rw [hfilh, List.length_cons] at hlen
        have ih := tcp_route_ksys_spec cfg cpu ds
          { s with ksys_remote := upd s.ksys_remote home (s.ksys_remote home ++ [d]) } hfg1
          (fun c hc => by
            by_cases e : home = c
            · subst e
              simp only [upd, if_true, List.length_append, List.length_singleton]
              omega
            · have := hroom c (by rw [hfilo c e]; exact hc)
              rw [hfilo c e] at this
              simpa [upd, Ne.symm e] using this)
        rw [tcp_route_ksys_move cfg cpu home d ds s ht hr hh (by omega), ih]
        simp only [Except.map, List.map_cons, ht, hhome, hh, ne_eq, not_false_eq_true, and_self,
          if_true, Except.ok.injEq, Prod.mk.injEq, true_and]
        congr 1
        funext c
        by_cases e : home = c
        · subst e
          rw [hfilh]
          simp [upd]
        · rw [hfilo c e]
          simp [upd, Ne.symm e]
    · have htf : ksys_is_tcp d = false := by simpa using ht
      have hfil : ∀ c, (d :: ds).filter (routed_to cfg cpu c) = ds.filter (routed_to cfg cpu c) :=
        fun c => by rw [List.filter_cons, routed_to_not_tcp cfg cpu c d htf]; rfl
      have ih := tcp_route_ksys_spec cfg cpu ds s hfg1
        (fun c hc => by have := hroom c (by rw [hfil]; exact hc); rwa [hfil] at this)
      rw [tcp_route_ksys_keep cfg cpu d ds s (Or.inl htf), ih]
      simp only [Except.map, List.map_cons, hfil, htf, Bool.false_eq_true, false_and, if_false]

/-- C13 fails on the code: CONNECT is a TCP descriptor for `ksys_is_tcp` and
`bsys_tcp_home_id` reads its first argument, the user address of the tuple, as a handle.
On CPU 1 a CONNECT whose address has flow-group bits 0 is replaced by NOP and appended to
the `ksys_remote` array of CPU 0, the owner of flow group 0. -/
theorem connect_routed_to_remote_cpu :
    ex_cfg.fgs_cur_cpu (handle_to_fg_id ex_connect_desc.arga) = 0 ∧
      ∃ s1, tcp_route_ksys ex_cfg 1 [ex_connect_desc] ex_init
          = .ok ([{ ex_connect_desc with sysnr := KSYS_NOP }], s1) ∧
        s1.ksys_remote 0 = [ex_connect_desc] ∧ ex_init.ksys_remote 0 = [] := by
  exact ⟨by decide, _, rfl, by decide, by decide⟩

/-- C14 (amended): for every batch in which the flow-group id of each TCP descriptor is
inside the flow-group table, each CONNECT is at home on the current CPU, and each
`ksys_remote` array that receives a copy has room for the copies it receives,
`tcp_route_ksys` returns; each descriptor that is not a TCP descriptor and each TCP
descriptor whose home CPU is the current CPU is unchanged; each TCP descriptor whose home
is another CPU has only its `sysnr` replaced by NOP; the `ksys_remote` array of every CPU
is extended by the original descriptors of the batch with that home, in batch order, and
nothing else changes. -/
theorem tcp_route_ksys_routes (cfg : Config) (cpu : Nat) (batch : List bsys_desc) (s : State)
    (hfg : ∀ d ∈ batch, ksys_is_tcp d = true →
      handle_to_fg_id d.arga < cfg.ETH_MAX_TOTAL_FG + cfg.NCPU)
    (hconn : ∀ d ∈ batch, d.sysnr = KSYS_TCP_CONNECT →
      cfg.fgs_cur_cpu (handle_to_fg_id d.arga) = cpu)
    (hroom : ∀ c, batch.filter (routed_to cfg cpu c) ≠ [] →
      (s.ksys_remote c).length + (batch.filter (routed_to cfg cpu c)).length
        ≤ cfg.LOCKED_BSYS_MAX_LEN) :
    tcp_route_ksys cfg cpu batch s =
      .ok (batch.map (fun d =>
            if ksys_is_tcp d = true ∧ cfg.fgs_cur_cpu (handle_to_fg_id d.arga) ≠ cpu then
              { d with sysnr := KSYS_NOP }
            else d),
          { s with ksys_remote := fun c =>
              s.ksys_remote c ++ batch.filter (routed_to cfg cpu c) }) := by
  have _ := hconn
  exact tcp_route_ksys_spec cfg cpu batch s hfg hroom

theorem ex_batch_room : ∀ c, ex_batch.filter (routed_to ex_cfg 0 c) ≠ [] →
    (ex_init.ksys_remote c).length + (ex_batch.filter (routed_to ex_cfg 0 c)).length
      ≤ ex_cfg.LOCKED_BSYS_MAX_LEN := by
  intro c _
  by_cases h1 : c = 1
  · subst h1; decide
  · have h : ex_batch.filter (routed_to ex_cfg 0 c) = [] := by
      by_cases h0 : c = 0
      · subst h0; decide
      · have e1 : ex_cfg.fgs_cur_cpu (handle_to_fg_id ex_handle) = 1 := by decide
        have e2 : ex_cfg.fgs_cur_cpu (handle_to_fg_id (tcpapi_to_handle 0 2)) = 0 := by decide
        simp [ex_batch, List.filter, routed_to, e1, e2, Ne.symm h1, Ne.symm h0]
    rw [h]
    show 0 + 0 ≤ 2
    omega

theorem tcp_route_ksys_routes_witness :
    ((∀ d ∈ ex_batch, ksys_is_tcp d = true →
        handle_to_fg_id d.arga < ex_cfg.ETH_MAX_TOTAL_FG + ex_cfg.NCPU) ∧
      (∀ d ∈ ex_batch, d.sysnr = KSYS_TCP_CONNECT →
        ex_cfg.fgs_cur_cpu (handle_to_fg_id d.arga) = 0)) ∧
    tcp_route_ksys ex_cfg 0 ex_batch ex_init =
      .ok (ex_batch.map (fun d =>
            if ksys_is_tcp d = true ∧ ex_cfg.fgs_cur_cpu (handle_to_fg_id d.arga) ≠ 0 then
              { d with sysnr := KSYS_NOP }
            else d),
          { ex_init with ksys_remote := fun c =>
              ex_init.ksys_remote c ++ ex_batch.filter (routed_to ex_cfg 0 c) }) :=
  ⟨⟨by decide, by decide⟩,
    tcp_route_ksys_routes ex_cfg 0 ex_batch ex_init (by decide) (by decide) ex_batch_room⟩

/-- C14 as stated fails: on CPU 0 a batch of three descriptors for a handle of CPU 1,
with every `ksys_remote` array empty and `LOCKED_BSYS_MAX_LEN = 2`, stops at the
assertion `remote->len < LOCKED_BSYS_MAX_LEN`. -/
theorem tcp_route_ksys_full_counterexample :
    (∀ d ∈ ex_batch_full, ksys_is_tcp d = true ∧
        handle_to_fg_id d.arga < ex_cfg.ETH_MAX_TOTAL_FG + ex_cfg.NCPU ∧
        ex_cfg.fgs_cur_cpu (handle_to_fg_id d.arga) = 1) ∧
      ex_init.ksys_remote 1 = [] ∧
      tcp_route_ksys ex_cfg 0 ex_batch_full ex_init = .error Fault.assert_failed := by
  exact ⟨by decide, by decide, rfl⟩

/-- C15 fails on the code: `bsys_tcp_home_id` indexes `fgs` with the flow-group id of the
handle without the range check of `handle_to_tcpapi`.  For a SENDV whose handle carries
the id 0xffff the routing step reads outside the table, where the handler would answer
the same handle with BADH. -/
theorem route_stale_handle_out_of_bounds :
    ksys_is_tcp ex_stale_desc = true ∧
      ex_cfg.ETH_MAX_TOTAL_FG + ex_cfg.NCPU ≤ handle_to_fg_id ex_stale_desc.arga ∧
      tcp_route_ksys ex_cfg 0 [ex_stale_desc] ex_init = .error Fault.out_of_bounds ∧
      badh_outcome 0 KSYS_TCP_SENDV ex_init
        (bsys_tcp_sendv ex_cfg 0 ex_stale_desc.arga 1 ex_sendv_env ex_init) := by
  refine ⟨by decide, by decide, rfl, _, rfl, rfl, rfl, rfl, rfl, rfl, rfl, rfl⟩

/-! ## C16: the Toeplitz hash -/

theorem toNat_testBit (x i : Nat) : (x.testBit i).toNat = x / 2 ^ i % 2 := by
  rw [Nat.testBit_to_div_mod]
  rcases Nat.mod_two_eq_zero_or_one (x / 2 ^ i) with h | h <;> simp [h]

theorem land_two_pow_ne_zero (x k : Nat) : x &&& 2 ^ k ≠ 0 ↔ x.testBit k = true := by
  rw [Nat.and_two_pow]
  cases x.testBit k <;> simp

theorem key_bits_zero (key : Nat → Nat) (s : Nat) : key_bits key s 0 = 0 := rfl

theorem key_bits_succ (key : Nat → Nat) (s len : Nat) :
    key_bits key s (len + 1) = 2 * key_bits key s len + (msb_bit key (s + len)).toNat := by
  unfold key_bits
  rw [List.range_succ, List.foldl_append]
  rfl

theorem key_bits_lt (key : Nat → Nat) (s : Nat) : ∀ len, key_bits key s len < 2 ^ len
  | 0 => by simp [key_bits_zero]
  | len + 1 => by
    rw [key_bits_succ, Nat.pow_succ]
    have := key_bits_lt key s len
    have hb : (msb_bit key (s + len)).toNat ≤ 1 := Bool.toNat_le _
    omega

theorem key_bits_add (key : Nat → Nat) (s a : Nat) :
    ∀ b, key_bits key s (a + b) = key_bits key s a * 2 ^ b + key_bits key (s + a) b
  | 0 => by simp [key_bits_zero]
  | b + 1 => by
    rw [← Nat.add_assoc, key_bits_succ, key_bits_add key s a b, key_bits_succ, Nat.pow_succ,
      Nat.add_assoc s a b]
    ring

theorem key_bits_shift (key : Nat → Nat) (n : Nat) :
    (key_bits key n 32 <<< 1) % 2 ^ 32 + (msb_bit key (n + 32)).toNat
      = key_bits key (n + 1) 32 := by
  have h1 := key_bits_add key n 1 31
  have h2 := key_bits_succ key (n + 1) 31
  have h3 := key_bits_lt key (n + 1) 31
  have h4 := key_bits_lt key n 1
  have e : n + 1 + 31 = n + 32 := by omega
  rw [e] at h2
  rw [show (1 : Nat) + 31 = 32 from rfl] at h1
  rw [Nat.shiftLeft_eq, h1, h2]
  norm_num at h3 h4 ⊢
  omega

theorem even_lor_one (v : Nat) (h : v % 2 = 0) : v ||| 1 = v + 1 := by
  obtain ⟨w, rfl⟩ : ∃ w, v = 2 ^ 1 * w := ⟨v / 2, by omega⟩
  rw [← Nat.mul_add_lt_is_or (by norm_num) w]

theorem msb_bit_at (bytes : Nat → Nat) (m k : Nat) (hk : k < 8) :
    msb_bit bytes (8 * m + k) = (bytes m).testBit (7 - k) := by
  unfold msb_bit
  have h1 : (8 * m + k) / 8 = m := by omega
  have h2 : (8 * m + k) % 8 = k := by omega
  rw [h1, h2]

theorem key_bits_byte (key : Nat → Nat) (m : Nat) (h : key m < 256) :
    key_bits key (8 * m) 8 = key m := by
  have e : ∀ k, k < 8 → (msb_bit key (8 * m + k)).toNat = key m / 2 ^ (7 - k) % 2 :=
    fun k hk => by rw [msb_bit_at key m k hk, toNat_testBit]
  simp only [key_bits_succ, key_bits_zero, e 0 (by omega), e 1 (by omega), e 2 (by omega),
    e 3 (by omega), e 4 (by omega), e 5 (by omega), e 6 (by omega), e 7 (by omega)]
  norm_num
  omega

theorem land_ff (x : Nat) : x &&& 0xff = x % 2 ^ 8 := by
  have := Nat.and_pow_two_sub_one_eq_mod x 8
  simpa using this

theorem bswap32_bytes (k0 k1 k2 k3 : Nat) (h0 : k0 < 256) (h1 : k1 < 256) (h2 : k2 < 256)
    (h3 : k3 < 256) :
    bswap32 (k0 ||| (k1 <<< 8) ||| (k2 <<< 16) ||| (k3 <<< 24))
      = ((k0 * 2 ^ 8 + k1) * 2 ^ 8 + k2) * 2 ^ 8 + k3 := by
  have x1 : k0 ||| (k1 <<< 8) = k0 + 2 ^ 8 * k1 := by
    rw [Nat.lor_comm, Nat.shiftLeft_eq, Nat.mul_comm, ← Nat.mul_add_lt_is_or (by omega)]; omega
  have x2 : k0 + 2 ^ 8 * k1 ||| (k2 <<< 16) = k0 + 2 ^ 8 * k1 + 2 ^ 16 * k2 := by
    rw [Nat.lor_comm, Nat.shiftLeft_eq, Nat.mul_comm, ← Nat.mul_add_lt_is_or (by omega)]; omega
  have x3 : k0 + 2 ^ 8 * k1 + 2 ^ 16 * k2 ||| (k3 <<< 24)
      = k0 + 2 ^ 8 * k1 + 2 ^ 16 * k2 + 2 ^ 24 * k3 := by
    rw [Nat.lor_comm, Nat.shiftLeft_eq, Nat.mul_comm, ← Nat.mul_add_lt_is_or (by omega)]; omega
  rw [x1, x2, x3]
  unfold bswap32
  simp only [land_ff, Nat.shiftRight_eq_div_pow, Nat.shiftLeft_eq]
  have y0 : (k0 + 2 ^ 8 * k1 + 2 ^ 16 * k2 + 2 ^ 24 * k3) % 2 ^ 8 = k0 := by omega
  have y1 : (k0 + 2 ^ 8 * k1 + 2 ^ 16 * k2 + 2 ^ 24 * k3) / 2 ^ 8 % 2 ^ 8 = k1 := by omega
  have y2 : (k0 + 2 ^ 8 * k1 + 2 ^ 16 * k2 + 2 ^ 24 * k3) / 2 ^ 16 % 2 ^ 8 = k2 := by omega
  have y3 : (k0 + 2 ^ 8 * k1 + 2 ^ 16 * k2 + 2 ^ 24 * k3) / 2 ^ 24 % 2 ^ 8 = k3 := by omega
  rw [y0, y1, y2, y3]
  have z1 : k0 * 2 ^ 24 ||| k1 * 2 ^ 16 = 2 ^ 16 * (k0 * 2 ^ 8 + k1) := by
    rw [Nat.mul_comm k0, ← Nat.mul_add_lt_is_or (by omega)]; omega
  have z2 : 2 ^ 16 * (k0 * 2 ^ 8 + k1) ||| k2 * 2 ^ 8
      = 2 ^ 8 * ((k0 * 2 ^ 8 + k1) * 2 ^ 8 + k2) := by
    rw [← Nat.mul_add_lt_is_or (by omega)]; omega
  have z3 : 2 ^ 8 * ((k0 * 2 ^ 8 + k1) * 2 ^ 8 + k2) ||| k3
      = ((k0 * 2 ^ 8 + k1) * 2 ^ 8 + k2) * 2 ^ 8 + k3 := by
    rw [← Nat.mul_add_lt_is_or (by omega)]; omega
  rw [z1, z2, z3]

theorem key_part0_eq (key : Nat → Nat) (h : ∀ k, k < 16 → key k < 256) :
    bswap32 (key 0 ||| (key 1 <<< 8) ||| (key 2 <<< 16) ||| (key 3 <<< 24))
      = key_bits key 0 32 := by
  rw [bswap32_bytes _ _ _ _ (h 0 (by omega)) (h 1 (by omega)) (h 2 (by omega)) (h 3 (by omega))]
  have b0 := key_bits_byte key 0 (h 0 (by omega))
  have b1 := key_bits_byte key 1 (h 1 (by omega))
  have b2 := key_bits_byte key 2 (h 2 (by omega))
  have b3 := key_bits_byte key 3 (h 3 (by omega))
  have a1 := key_bits_add key 0 8 8
  have a2 := key_bits_add key 0 16 8
  have a3 := key_bits_add key 0 24 8
  norm_num at b0 b1 b2 b3 a1 a2 a3
  rw [a3, a2, a1, b0, b1, b2, b3]
  norm_num

theorem toeplitz_reference_succ (key input : Nat → Nat) (n : Nat) :
    toeplitz_reference key input (n + 1) =
      if msb_bit input n then toeplitz_reference key input n ^^^ key_bits key n 32
      else toeplitz_reference key input n := by
  unfold toeplitz_reference
  rw [List.range_succ, List.foldl_append]
  rfl

theorem toeplitz_bit_step (key input : Nat → Nat) (i jj j n m : Nat) (hjj : jj < 8)
    (hj : j = 2 ^ (7 - jj)) (hn : n = 8 * i + jj) (hm : m = n + 1) :
    toeplitz_bit key input i j (toeplitz_reference key input n, key_bits key n 32)
      = (toeplitz_reference key input m, key_bits key m 32) := by
  subst hj hm
  have hin : (input i &&& 2 ^ (7 - jj) ≠ 0) ↔ msb_bit input n = true := by
    rw [hn, msb_bit_at input i jj hjj]; exact land_two_pow_ne_zero _ _
  have hk : (key (i + 4) &&& 2 ^ (7 - jj) ≠ 0) ↔ msb_bit key (n + 32) = true := by
    have e : n + 32 = 8 * (i + 4) + jj := by omega
    rw [e, msb_bit_at key (i + 4) jj hjj]; exact land_two_pow_ne_zero _ _
  have hs := key_bits_shift key n
  unfold toeplitz_bit
  simp only [hin, hk, toeplitz_reference_succ]
  refine Prod.ext rfl ?_
  show (if msb_bit key (n + 32) = true then (key_bits key n 32 <<< 1) % 2 ^ 32 ||| 1
    else (key_bits key n 32 <<< 1) % 2 ^ 32) = key_bits key (n + 1) 32
  cases hb : msb_bit key (n + 32)
  · rw [hb] at hs
    simpa using hs
  · rw [hb] at hs
    rw [if_pos rfl, even_lor_one _ (by rw [Nat.shiftLeft_eq]; omega)]
    simpa using hs

theorem toeplitz_byte (key input : Nat → Nat) (i : Nat) :
    [128, 64, 32, 16, 8, 4, 2, 1].foldl (fun st j => toeplitz_bit key input i j st)
        (toeplitz_reference key input (8 * i), key_bits key (8 * i) 32)
      = (toeplitz_reference key input (8 * (i + 1)), key_bits key (8 * (i + 1)) 32) := by
  simp only [List.foldl]
  rw [toeplitz_bit_step key input i 0 128 (8 * i) (8 * i + 1) (by omega) rfl rfl rfl,
    toeplitz_bit_step key input i 1 64 (8 * i + 1) (8 * i + 2) (by omega) rfl rfl rfl,
    toeplitz_bit_step key input i 2 32 (8 * i + 2) (8 * i + 3) (by omega) rfl rfl rfl,
    toeplitz_bit_step key input i 3 16 (8 * i + 3) (8 * i + 4) (by omega) rfl rfl rfl,
    toeplitz_bit_step key input i 4 8 (8 * i + 4) (8 * i + 5) (by omega) rfl rfl rfl,
    toeplitz_bit_step key input i 5 4 (8 * i + 5) (8 * i + 6) (by omega) rfl rfl rfl,
    toeplitz_bit_step key input i 6 2 (8 * i + 6) (8 * i + 7) (by omega) rfl rfl rfl,
    toeplitz_bit_step key input i 7 1 (8 * i + 7) (8 * (i + 1)) (by omega) rfl rfl
      (by omega)]

theorem toeplitz_bytes (key input : Nat → Nat) (k0 : Nat) (h0 : k0 = key_bits key 0 32) :
    ∀ m, (List.range m).foldl (fun st i =>
        [128, 64, 32, 16, 8, 4, 2, 1].foldl (fun st j => toeplitz_bit key input i j st) st)
        (0, k0)
      = (toeplitz_reference key input (8 * m), key_bits key (8 * m) 32)
  | 0 => by subst h0; rfl
  | m + 1 => by
    rw [List.range_succ, List.foldl_append, toeplitz_bytes key input k0 h0 m]
    exact toeplitz_byte key input m

/-- C16: for every key whose first 16 bytes are bytes and every input,
`compute_toeplitz_hash` is the reference Toeplitz hash of the 12 input bytes (the two
addresses and the two ports as they lie in memory): the XOR, over every `i` in 0..95
whose input bit `i` (most significant bit first) is 1, of the 32-bit word formed by the
key bits `i .. i + 31` read most significant bit first. -/
theorem compute_toeplitz_hash_reference (key : Nat → Nat)
    (src_addr dst_addr src_port dst_port : Nat) (hkey : ∀ k, k < 16 → key k < 256) :
    compute_toeplitz_hash key src_addr dst_addr src_port dst_port
      = toeplitz_reference key (toeplitz_input src_addr dst_addr src_port dst_port) 96 := by
  unfold compute_toeplitz_hash
  simp only []
  rw [toeplitz_bytes key _ _ (key_part0_eq key hkey) 12]

theorem compute_toeplitz_hash_reference_witness :
    (∀ k, k < 16 → ex_rss_key k < 256) ∧
      compute_toeplitz_hash ex_rss_key 0xbb950942 0x50648ea1 0xea0a 0xe606
        = toeplitz_reference ex_rss_key
            (toeplitz_input 0xbb950942 0x50648ea1 0xea0a 0xe606) 96 :=
  ⟨by decide, compute_toeplitz_hash_reference ex_rss_key 0xbb950942 0x50648ea1 0xea0a 0xe606
    (by decide)⟩

/-- The published test vector: 66.9.149.187:2794 to 161.142.100.80:1766 hashes to
0x51ccc178. -/
theorem compute_toeplitz_hash_test_vector :
    compute_toeplitz_hash ex_rss_key 0xbb950942 0x50648ea1 0xea0a 0xe606 = 0x51ccc178 := by
  decide

/-! ## C17, C18: the local port of an outbound connection -/

theorem get_local_port_fdir (cfg : Config) (cpu fuel : Nat) (id : ip_tuple) (env : connect_env)
    (s : State) (hdev : cfg.eth_dev_count ≤ 1) (hf : env.fdir_ok = true) :
    ∃ s1, get_local_port_and_set_queue cfg cpu fuel id env s
        = .ok (some (cfg.outbound_fg cpu), { id with src_port := first_port cpu s }, s1) ∧
      s1.local_port cpu = first_port cpu s := by
  have hd : ¬ 1 < cfg.eth_dev_count := by omega
  unfold get_local_port_and_set_queue get_port_with_fdir first_port
  simp only [hd, if_false, hf, Bool.not_true, Bool.false_eq_true]
  by_cases h0 : s.local_port cpu = 0
  · simp [h0, upd, ext, eth_fg_set_current]
  · simp [h0, upd, ext, eth_fg_set_current]

theorem port_calls_fdir (cfg : Config) (cpu fuel : Nat) (id : ip_tuple) (env : connect_env)
    (hdev : cfg.eth_dev_count ≤ 1) (hf : env.fdir_ok = true) :
    ∀ (n : Nat) (s : State), 0 < s.local_port cpu → s.local_port cpu + n < 65536 →
      ∃ s1, port_calls cfg cpu fuel id env n s = .ok s1 ∧
        s1.local_port cpu = s.local_port cpu + n
  | 0, s, _, _ => ⟨s, rfl, rfl⟩
  | n + 1, s, h0, hn => by
    obtain ⟨s1, h1, h2⟩ := get_local_port_fdir cfg cpu fuel id env s hdev hf
    have hp : first_port cpu s = s.local_port cpu + 1 := by
      unfold first_port
      rw [if_neg (by omega)]
      exact Nat.mod_eq_of_lt (by omega)
    obtain ⟨s2, h3, h4⟩ := port_calls_fdir cfg cpu fuel id env hdev hf n s1
      (by rw [h2, hp]; omega) (by rw [h2, hp]; omega)
    refine ⟨s2, ?_, by rw [h4, h2, hp]; omega⟩
    simp only [port_calls, h1]
    exact h3

theorem port_calls_succ (cfg : Config) (cpu fuel : Nat) (id : ip_tuple) (env : connect_env)
    (n : Nat) (s : State) :
    port_calls cfg cpu fuel id env (n + 1) s =
      match get_local_port_and_set_queue cfg cpu fuel id env s with
      | .error e => .error e
      | .ok r => port_calls cfg cpu fuel id env n r.2.2 := rfl

theorem port_search_hit (cfg : Config) (cpu fuel : Nat) (id : ip_tuple) (s : State)
    (hnb : port_fg_idx cfg id < cfg.nb_rx_fgs)
    (htab : port_fg_idx cfg id < cfg.ETH_MAX_TOTAL_FG + cfg.NCPU)
    (hown : cfg.fgs_cur_cpu (port_fg_idx cfg id) = cpu) :
    ∃ s1, port_search cfg cpu (fuel + 1) id s = .ok (some (port_fg_idx cfg id), id, s1) ∧
      s1.local_port cpu = if (cpu + 1) * PORTS_PER_CPU ≤ s.local_port cpu then
        (cpu * PORTS_PER_CPU + 1) % 65536 else s.local_port cpu := by
  have hnb1 : ¬ cfg.nb_rx_fgs ≤ port_fg_idx cfg id := by omega
  unfold port_fg_idx at hnb1 htab hown
  unfold port_search port_fg_idx
  simp only [hnb1, if_false, fgs_read, htab, if_true, hown]
  refine ⟨_, rfl, ?_⟩
  by_cases hw : (cpu + 1) * PORTS_PER_CPU ≤ s.local_port cpu
  · simp [hw, eth_fg_set_current, upd]
  · simp [hw, eth_fg_set_current]

theorem port_search_miss (cfg : Config) (cpu fuel : Nat) (id : ip_tuple) (s : State)
    (hnb : port_fg_idx cfg id < cfg.nb_rx_fgs)
    (htab : port_fg_idx cfg id < cfg.ETH_MAX_TOTAL_FG + cfg.NCPU)
    (hown : cfg.fgs_cur_cpu (port_fg_idx cfg id) ≠ cpu) :
    ∃ s1, s1.local_port cpu = next_port cpu (s.local_port cpu) ∧
      port_search cfg cpu (fuel + 1) id s =
        port_search cfg cpu fuel { id with src_port := next_port cpu (s.local_port cpu) } s1 := by
  have hnb1 : ¬ cfg.nb_rx_fgs ≤ port_fg_idx cfg id := by omega
  unfold port_fg_idx at hnb1 htab hown
  rw [port_search]
  simp only [hnb1, if_false, fgs_read, htab, if_true, hown]
  by_cases hw : (cpu + 1) * PORTS_PER_CPU ≤ s.local_port cpu
  · simp only [hw, if_true, next_port, upd]
    exact ⟨_, by simp [upd], rfl⟩
  · simp only [hw, if_false, next_port]
    exact ⟨_, by simp [upd], rfl⟩

theorem port_cand_zero (cpu : Nat) (id : ip_tuple) (s : State) :
    port_cand cpu id s 0 = { id with src_port := first_port cpu s } := rfl

/-- The search path of `get_local_port_and_set_queue` enters the loop with the first port
in the tuple and in the counter. -/
theorem get_local_port_search (cfg : Config) (cpu fuel : Nat) (id : ip_tuple)
    (env : connect_env) (s : State) (hdev : cfg.eth_dev_count ≤ 1) (hf : env.fdir_ok = false)
    (hr : env.rss_ok = true) :
    ∃ s3, s3.local_port cpu = first_port cpu s ∧
      get_local_port_and_set_queue cfg cpu fuel id env s
        = port_search cfg cpu fuel (port_cand cpu id s 0) s3 := by
  have hd : ¬ 1 < cfg.eth_dev_count := by omega
  unfold get_local_port_and_set_queue get_port_with_fdir
  simp only [hd, if_false, hf, hr, Bool.not_false, Bool.not_true, if_true, Bool.false_eq_true,
    port_cand_zero, first_port]
  by_cases h0 : s.local_port cpu = 0
  · simp only [h0, if_true, upd]
    exact ⟨_, by simp [ext, upd], rfl⟩
  · simp only [h0, if_false]
    exact ⟨_, by simp [ext, upd], rfl⟩

theorem get_local_port_search_hit (cfg : Config) (cpu fuel : Nat) (id : ip_tuple)
    (env : connect_env) (s : State) (hdev : cfg.eth_dev_count ≤ 1) (hf : env.fdir_ok = false)
    (hr : env.rss_ok = true)
    (hnb : port_fg_idx cfg (port_cand cpu id s 0) < cfg.nb_rx_fgs)
    (htab : port_fg_idx cfg (port_cand cpu id s 0) < cfg.ETH_MAX_TOTAL_FG + cfg.NCPU)
    (hown : cfg.fgs_cur_cpu (port_fg_idx cfg (port_cand cpu id s 0)) = cpu) :
    ∃ s1, get_local_port_and_set_queue cfg cpu (fuel + 1) id env s
        = .ok (some (port_fg_idx cfg (port_cand cpu id s 0)), port_cand cpu id s 0, s1) ∧
      s1.local_port cpu = if (cpu + 1) * PORTS_PER_CPU ≤ first_port cpu s then
        (cpu * PORTS_PER_CPU + 1) % 65536 else first_port cpu s := by
  obtain ⟨s3, h3, e⟩ := get_local_port_search cfg cpu (fuel + 1) id env s hdev hf hr
  obtain ⟨s1, h1, h2⟩ := port_search_hit cfg cpu fuel (port_cand cpu id s 0) s3 hnb htab hown
  rw [h3] at h2
  exact ⟨s1, e.trans h1, h2⟩

/-- C17 fails on the code: on CPU 0, whose reserved range is [0, 2048), the counter 2047
is left by 2047 calls that the flow director accepts.  The next call stores the port 2048
when the flow director accepts it (this path never wraps the counter), and also when the
search loop runs (the loop wraps the counter to 1 and leaves the port 2048 in the
tuple). -/
theorem local_port_leaves_reserved_range :
    ∃ s, port_calls ex_cfg 0 4 ex_tuple ex_connect_env 2047 ex_init = .ok s ∧
      s.local_port 0 = 2047 ∧
      (∃ s1, get_local_port_and_set_queue ex_cfg 0 4 ex_tuple ex_connect_env s
          = .ok (some 2, { ex_tuple with src_port := 2048 }, s1) ∧ s1.local_port 0 = 2048) ∧
      (∃ s1, get_local_port_and_set_queue ex_cfg 0 4 ex_tuple ex_connect_env_rss s
          = .ok (some 0, { ex_tuple with src_port := 2048 }, s1) ∧ s1.local_port 0 = 1) ∧
      ¬ (0 * PORTS_PER_CPU ≤ 2048 ∧ 2048 < (0 + 1) * PORTS_PER_CPU) := by
  obtain ⟨s0, h0, hp0⟩ := get_local_port_fdir ex_cfg 0 4 ex_tuple ex_connect_env ex_init
    (by decide) rfl
  have hf0 : first_port 0 ex_init = 1 := by decide
  rw [hf0] at hp0
  obtain ⟨s, hs, hp⟩ := port_calls_fdir ex_cfg 0 4 ex_tuple ex_connect_env (by decide) rfl 2046 s0
    (by omega) (by omega)
  rw [hp0] at hp
  have hfp : first_port 0 s = 2048 := by
    unfold first_port
    rw [hp]
    decide
  refine ⟨s, ?_, hp, ?_, ?_, by decide⟩
  · have e := port_calls_succ ex_cfg 0 4 ex_tuple ex_connect_env 2046 ex_init
    rw [h0] at e
    exact e.trans hs
  · obtain ⟨s1, h1, h2⟩ := get_local_port_fdir ex_cfg 0 4 ex_tuple ex_connect_env s
      (by decide) rfl
    rw [hfp] at h1 h2
    exact ⟨s1, h1, h2⟩
  · have hown : ex_cfg.fgs_cur_cpu (port_fg_idx ex_cfg { ex_tuple with src_port := 2048 }) = 0 := by
      decide
    have hidx : port_fg_idx ex_cfg { ex_tuple with src_port := 2048 } = 0 := by decide
    obtain ⟨s1, h1, h2⟩ := get_local_port_search_hit ex_cfg 0 3 ex_tuple ex_connect_env_rss s
      (by decide) rfl rfl (by rw [port_cand_zero, hfp, hidx]; decide)
      (by rw [port_cand_zero, hfp, hidx]; decide) (by rw [port_cand_zero, hfp]; exact hown)
    rw [port_cand_zero, hfp] at h1
    rw [hfp] at h2
    rw [hidx] at h1
    refine ⟨s1, h1, ?_⟩
    rw [h2]
    decide

theorem port_fg_idx_lt (cfg : Config) (id : ip_tuple) (h0 : 0 < cfg.nb_rx_fgs)
    (h1 : cfg.nb_rx_fgs ≤ 2 ^ 32) : port_fg_idx cfg id < cfg.nb_rx_fgs := by
  unfold port_fg_idx
  have e : (cfg.nb_rx_fgs + 2 ^ 32 - 1) % 2 ^ 32 = cfg.nb_rx_fgs - 1 := by omega
  rw [e]
  have := @Nat.and_le_right (compute_toeplitz_hash cfg.rss_key (bswap32 id.dst_ip)
    (bswap32 id.src_ip) (bswap16 id.dst_port) (bswap16 id.src_port)) (cfg.nb_rx_fgs - 1)
  omega

theorem port_search_cases (cfg : Config) (cpu fuel : Nat) (id : ip_tuple) (s : State)
    (r : Option Nat × ip_tuple × State) (h : port_search cfg cpu (fuel + 1) id s = .ok r) :
    (cfg.fgs_cur_cpu (port_fg_idx cfg id) = cpu ∧ r.1 = some (port_fg_idx cfg id) ∧ r.2.1 = id) ∨
      (cfg.fgs_cur_cpu (port_fg_idx cfg id) ≠ cpu ∧
        ∃ s1, s1.local_port cpu = next_port cpu (s.local_port cpu) ∧
          port_search cfg cpu fuel { id with src_port := next_port cpu (s.local_port cpu) } s1
            = .ok r) := by
  by_cases hnb : cfg.nb_rx_fgs ≤ port_fg_idx cfg id
  · unfold port_fg_idx at hnb
    rw [port_search] at h
    simp only [hnb, if_true] at h
    cases h
  · by_cases htab : port_fg_idx cfg id < cfg.ETH_MAX_TOTAL_FG + cfg.NCPU
    · by_cases hown : cfg.fgs_cur_cpu (port_fg_idx cfg id) = cpu
      · obtain ⟨s1, h1, _⟩ := port_search_hit cfg cpu fuel id s (by omega) htab hown
        rw [h1] at h
        cases h
        exact Or.inl ⟨hown, rfl, rfl⟩
      · obtain ⟨s1, h1, h2⟩ := port_search_miss cfg cpu fuel id s (by omega) htab hown
        rw [h2] at h
        exact Or.inr ⟨hown, s1, h1, h⟩
    · unfold port_fg_idx at hnb htab
      rw [port_search] at h
      simp only [hnb, if_false, fgs_read, htab] at h
      cases h

theorem port_search_sound (cfg : Config) (cpu : Nat) (id : ip_tuple) :
    ∀ (fuel p : Nat) (s : State) (r : Option Nat × ip_tuple × State),
      s.local_port cpu = p → port_search cfg cpu fuel { id with src_port := p } s = .ok r →
      ∃ n, n < fuel ∧ r.2.1 = { id with src_port := Nat.iterate (next_port cpu) n p } ∧
        r.1 = some (port_fg_idx cfg r.2.1) ∧ cfg.fgs_cur_cpu (port_fg_idx cfg r.2.1) = cpu ∧
        ∀ m, m < n → cfg.fgs_cur_cpu
          (port_fg_idx cfg { id with src_port := Nat.iterate (next_port cpu) m p }) ≠ cpu
  | 0, _, _, _, _, h => by simp [port_search] at h
  | fuel + 1, p, s, r, hp, h => by
    rcases port_search_cases cfg cpu fuel _ s r h with ⟨h1, h2, h3⟩ | ⟨h1, s1, h2, h3⟩
    · refine ⟨0, by omega, h3, by rw [h3]; exact h2, by rw [h3]; exact h1, ?_⟩
      intro m hm
      omega
    · rw [hp] at h2 h3
      obtain ⟨n, hn, e1, e2, e3, e4⟩ := port_search_sound cfg cpu id fuel (next_port cpu p) s1 r
        h2 h3
      refine ⟨n + 1, by omega, e1, e2, e3, ?_⟩
      intro m hm
      cases m with
      | zero => exact h1
      | succ m => exact e4 m (by omega)

theorem port_search_complete (cfg : Config) (cpu : Nat) (id : ip_tuple)
    (h0 : 0 < cfg.nb_rx_fgs) (h1 : cfg.nb_rx_fgs ≤ 2 ^ 32)
    (htab : cfg.nb_rx_fgs ≤ cfg.ETH_MAX_TOTAL_FG + cfg.NCPU) :
    ∀ (n fuel p : Nat) (s : State), s.local_port cpu = p → n < fuel →
      cfg.fgs_cur_cpu
        (port_fg_idx cfg { id with src_port := Nat.iterate (next_port cpu) n p }) = cpu →
      (∀ m, m < n → cfg.fgs_cur_cpu
        (port_fg_idx cfg { id with src_port := Nat.iterate (next_port cpu) m p }) ≠ cpu) →
      ∃ s1, port_search cfg cpu fuel { id with src_port := p } s
        = .ok (some (port_fg_idx cfg { id with src_port := Nat.iterate (next_port cpu) n p }),
            { id with src_port := Nat.iterate (next_port cpu) n p }, s1)
  | _, 0, _, _, _, hf, _, _ => by omega
  | 0, fuel + 1, p, s, _, _, hown, _ => by
    have hl := port_fg_idx_lt cfg { id with src_port := p } h0 h1
    obtain ⟨s1, e, _⟩ := port_search_hit cfg cpu fuel { id with src_port := p } s hl
      (by omega) hown
    exact ⟨s1, e⟩
  | n + 1, fuel + 1, p, s, hp, hf, hown, hmiss => by
    have hl := port_fg_idx_lt cfg { id with src_port := p } h0 h1
    obtain ⟨s1, e1, e2⟩ := port_search_miss cfg cpu fuel { id with src_port := p } s hl
      (by omega) (hmiss 0 (by omega))
    rw [hp] at e1 e2
    obtain ⟨s2, e3⟩ := port_search_complete cfg cpu id h0 h1 htab n fuel (next_port cpu p) s1 e1
      (by omega) hown (fun m hm => hmiss (m + 1) (by omega))
    exact ⟨s2, e2.trans e3⟩

/-- C18: when the flow-director insert fails and the search runs, a returned flow group
is the one at index (Toeplitz hash of the reverse tuple with the port left in the tuple)
`& (nb_rx_fgs - 1)`, its `cur_cpu` is the current CPU, and the port left in the tuple is
the first port in scan order with this property; and when some port in scan order has this
property, the search returns with the first such port, given fuel for the rounds. -/
theorem port_search_first_owned (cfg : Config) (cpu : Nat) (id : ip_tuple) (env : connect_env)
    (s : State) (hdev : cfg.eth_dev_count ≤ 1) (hf : env.fdir_ok = false)
    (hr : env.rss_ok = true) (h0 : 0 < cfg.nb_rx_fgs) (h1 : cfg.nb_rx_fgs ≤ 2 ^ 32)
    (htab : cfg.nb_rx_fgs ≤ cfg.ETH_MAX_TOTAL_FG + cfg.NCPU) :
    (∀ fuel fg id1 s1,
      get_local_port_and_set_queue cfg cpu fuel id env s = .ok (some fg, id1, s1) →
        fg = port_fg_idx cfg id1 ∧ cfg.fgs_cur_cpu fg = cpu ∧
          ∃ n, n < fuel ∧ id1 = port_cand cpu id s n ∧
            ∀ m, m < n → cfg.fgs_cur_cpu (port_fg_idx cfg (port_cand cpu id s m)) ≠ cpu) ∧
      ∀ n, cfg.fgs_cur_cpu (port_fg_idx cfg (port_cand cpu id s n)) = cpu →
        (∀ m, m < n → cfg.fgs_cur_cpu (port_fg_idx cfg (port_cand cpu id s m)) ≠ cpu) →
        ∀ fuel, n < fuel →
          ∃ s1, get_local_port_and_set_queue cfg cpu fuel id env s
            = .ok (some (port_fg_idx cfg (port_cand cpu id s n)), port_cand cpu id s n, s1) := by
  constructor
  · intro fuel fg id1 s1 h
    obtain ⟨s3, h3, e⟩ := get_local_port_search cfg cpu fuel id env s hdev hf hr
    rw [e] at h
    obtain ⟨n, hn, e1, e2, e3, e4⟩ := port_search_sound cfg cpu id fuel (first_port cpu s) s3 _
      h3 h
    have e2a : fg = port_fg_idx cfg id1 := Option.some.inj e2
    exact ⟨e2a, by rw [e2a]; exact e3, n, hn, e1, e4⟩
  · intro n hown hmiss fuel hfu
    obtain ⟨s3, h3, e⟩ := get_local_port_search cfg cpu fuel id env s hdev hf hr
    obtain ⟨s1, e1⟩ := port_search_complete cfg cpu id h0 h1 htab n fuel (first_port cpu s) s3 h3
      hfu hown hmiss
    exact ⟨s1, e.trans e1⟩

theorem port_search_first_owned_witness :
    (ex_cfg_rss.eth_dev_count ≤ 1 ∧ ex_connect_env_rss.fdir_ok = false ∧
      ex_connect_env_rss.rss_ok = true ∧ 0 < ex_cfg_rss.nb_rx_fgs ∧
      ex_cfg_rss.nb_rx_fgs ≤ 2 ^ 32 ∧
      ex_cfg_rss.nb_rx_fgs ≤ ex_cfg_rss.ETH_MAX_TOTAL_FG + ex_cfg_rss.NCPU) ∧
    ((∀ fuel fg id1 s1,
      get_local_port_and_set_queue ex_cfg_rss 0 fuel ex_tuple ex_connect_env_rss ex_init
          = .ok (some fg, id1, s1) →
        fg = port_fg_idx ex_cfg_rss id1 ∧ ex_cfg_rss.fgs_cur_cpu fg = 0 ∧
          ∃ n, n < fuel ∧ id1 = port_cand 0 ex_tuple ex_init n ∧
            ∀ m, m < n →
              ex_cfg_rss.fgs_cur_cpu (port_fg_idx ex_cfg_rss (port_cand 0 ex_tuple ex_init m))
                ≠ 0) ∧
      ∀ n, ex_cfg_rss.fgs_cur_cpu (port_fg_idx ex_cfg_rss (port_cand 0 ex_tuple ex_init n)) = 0 →
        (∀ m, m < n →
          ex_cfg_rss.fgs_cur_cpu (port_fg_idx ex_cfg_rss (port_cand 0 ex_tuple ex_init m)) ≠ 0) →
        ∀ fuel, n < fuel →
          ∃ s1, get_local_port_and_set_queue ex_cfg_rss 0 fuel ex_tuple ex_connect_env_rss
              ex_init
            = .ok (some (port_fg_idx ex_cfg_rss (port_cand 0 ex_tuple ex_init n)),
                port_cand 0 ex_tuple ex_init n, s1)) :=
  ⟨⟨by decide, rfl, rfl, by decide, by decide, by decide⟩,
    port_search_first_owned ex_cfg_rss 0 ex_tuple ex_connect_env_rss ex_init (by decide) rfl rfl
      (by decide) (by decide) (by decide)⟩

/-- On CPU 0 of the example the ports 1 to 7 hash to the flow group of CPU 1 and the
search returns with the port 8. -/
theorem port_search_example :
    (∀ m, m < 7 →
      ex_cfg_rss.fgs_cur_cpu (port_fg_idx ex_cfg_rss (port_cand 0 ex_tuple ex_init m)) ≠ 0) ∧
      ∃ s1, get_local_port_and_set_queue ex_cfg_rss 0 8 ex_tuple ex_connect_env_rss ex_init
        = .ok (some 0, { ex_tuple with src_port := 8 }, s1) := by
  exact ⟨by decide, _, rfl⟩

/-! ## C19, C20: SENDV -/

theorem sendv_len_eq_min (env : sendv_env) (i : Nat) :
    sendv_len env i = min (env.ents i).len (min (env.snd_buf i) 0xFFFF) := by
  unfold sendv_len
  split_ifs with h <;> omega

theorem sendv_writes_succ (env : sendv_env) (pcb k : Nat) :
    sendv_writes env pcb (k + 1) = sendv_writes env pcb k ++
      [ext_call.tcp_write pcb (env.ents k).base (sendv_len env k)] := by
  simp [sendv_writes, List.range_succ]

theorem sendv_ok_bytes_succ (env : sendv_env) (k : Nat) :
    sendv_ok_bytes env (k + 1) = sendv_ok_bytes env k +
      (if env.tcp_write k = err_t.ERR_OK then sendv_len env k else 0) := by
  simp [sendv_ok_bytes, List.range_succ]

/-- The loop started in round `i` with the writes of the rounds before it made: it stops
after the writes of some `k` rounds. -/
theorem sendv_loop_spec (env : sendv_env) (api pcb : Nat) :
    ∀ (n i : Nat) (s0 s : State), (s.pcbs api).pcb = some pcb →
      s = { s0 with calls := s0.calls ++ sendv_writes env pcb i } →
      (∀ j, j < i → env.tcp_write j = err_t.ERR_OK ∧
        (env.ents j).len ≤ min (env.snd_buf j) 0xFFFF) →
      ∃ k, i ≤ k ∧ k ≤ i + n ∧
        sendv_loop env api n i (sendv_ok_bytes env i) s
          = .ok (sendv_ok_bytes env k, { s0 with calls := s0.calls ++ sendv_writes env pcb k }) ∧
        (∀ j, j + 1 < k → env.tcp_write j = err_t.ERR_OK ∧
          (env.ents j).len ≤ min (env.snd_buf j) 0xFFFF)
  | 0, i, s0, s, _, hs, hpre => by
    refine ⟨i, le_refl _, by omega, by rw [hs]; rfl, fun j hj => hpre j (by omega)⟩
  | n + 1, i, s0, s, hp, hs, hpre => by
    rw [sendv_loop, hp]
    simp only
    by_cases hb : env.buf_okay i = true
    · simp only [hb, Bool.not_true, Bool.false_eq_true, if_false]
      have hl : (if decide (min (env.snd_buf i) 0xFFFF < (env.ents i).len) = true then
          min (env.snd_buf i) 0xFFFF else (env.ents i).len) = sendv_len env i := by
        unfold sendv_len
        by_cases hc : min (env.snd_buf i) 0xFFFF < (env.ents i).len <;> simp [hc]
      rw [hl]
      by_cases hz : sendv_len env i = 0
      · rw [if_pos hz]
        exact ⟨i, le_refl _, by omega, by rw [hs], fun j hj => hpre j (by omega)⟩
      · rw [if_neg hz]
        have hs1 : ext (.tcp_write pcb (env.ents i).base (sendv_len env i)) s
            = { s0 with calls := s0.calls ++ sendv_writes env pcb (i + 1) } := by
          rw [hs, sendv_writes_succ]
          simp [ext, List.append_assoc]
        by_cases hw : env.tcp_write i = err_t.ERR_OK
        · have hb1 : sendv_ok_bytes env i + sendv_len env i = sendv_ok_bytes env (i + 1) := by
            rw [sendv_ok_bytes_succ, if_pos hw]
          simp only [hw, ne_eq, not_true_eq_false, if_false]
          by_cases hc : min (env.snd_buf i) 0xFFFF < (env.ents i).len
          · simp only [hc, decide_True, if_true]
            rw [hs1, hb1]
            exact ⟨i + 1, by omega, by omega, rfl, fun j hj => hpre j (by omega)⟩
          · simp only [hc, decide_False, Bool.false_eq_true, if_false]
            rw [hb1]
            obtain ⟨k, h1, h2, h3, h4⟩ := sendv_loop_spec env api pcb n (i + 1) s0
              (ext (.tcp_write pcb (env.ents i).base (sendv_len env i)) s)
              (by simpa [ext] using hp) hs1
              (fun j hj => by
                by_cases e : j = i
                · subst e; exact ⟨hw, by omega⟩
                · exact hpre j (by omega))
            exact ⟨k, by omega, by omega, h3, h4⟩
        · have hb1 : sendv_ok_bytes env i = sendv_ok_bytes env (i + 1) := by
            rw [sendv_ok_bytes_succ, if_neg hw]; rfl
          simp only [ne_eq, hw, not_false_eq_true, if_true]
          rw [hs1, hb1]
          exact ⟨i + 1, by omega, by omega, rfl, fun j hj => hpre j (by omega)⟩
    · have hbf : env.buf_okay i = false := by simpa using hb
      simp only [hbf, Bool.not_false, if_true]
      exact ⟨i, le_refl _, by omega, by rw [hs], fun j hj => hpre j (by omega)⟩

theorem sendv_loop_congr (env env1 : sendv_env) (api : Nat) :
    ∀ (n i acc : Nat) (s : State),
      (∀ j, i ≤ j → j < i + n → env1.ents j = env.ents j ∧ env1.buf_okay j = env.buf_okay j ∧
        env1.snd_buf j = env.snd_buf j ∧ env1.tcp_write j = env.tcp_write j) →
      sendv_loop env1 api n i acc s = sendv_loop env api n i acc s
  | 0, _, _, _, _ => rfl
  | n + 1, i, acc, s, h => by
    obtain ⟨h1, h2, h3, h4⟩ := h i (le_refl _) (by omega)
    rw [sendv_loop, sendv_loop]
    cases (s.pcbs api).pcb with
    | none => rfl
    | some pcb =>
      simp only [h1, h2, h3, h4]
      have ih := fun acc1 s1 => sendv_loop_congr env env1 api n (i + 1) acc1 s1
        (fun j hj1 hj2 => h j (by omega) (by omega))
      simp only [ih]

theorem handle_to_tcpapi_state (cfg : Config) (cpu handle api : Nat) (s s0 : State)
    (h : handle_to_tcpapi cfg cpu handle s = (some api, s0)) :
    s0 = eth_fg_set_current cpu (handle_to_fg_id handle) s := by
  unfold handle_to_tcpapi at h
  split_ifs at h with h1 h2
  · cases h
  · cases h
  · exact (Prod.mk.inj h).2.symm

theorem pcb_ready_enqueue_calls (cfg : Config) (cpu api : Nat) (s s1 : State)
    (h : pcb_ready_enqueue cfg cpu api s = .ok s1) :
    s1.calls = s.calls ∧ ∀ i, (s1.pcbs i).len_xmited = (s.pcbs i).len_xmited := by
  unfold pcb_ready_enqueue at h
  cases hr : fgs_read cfg (handle_to_fg_id (s.pcbs api).handle) with
  | error e => rw [hr] at h; cases h
  | ok home =>
    rw [hr] at h
    simp only at h
    split_ifs at h with h1 h2
    · cases h
      refine ⟨rfl, fun i => ?_⟩
      by_cases e : i = api
      · subst e; simp [set_pcb, upd]
      · simp [set_pcb, upd, e]
    · cases hq : queue_push_back (s.pcb_ready_queue cpu) s.ready_queue_next api with
      | error e => rw [hq] at h; cases h
      | ok r =>
        rw [hq] at h
        cases h
        exact ⟨rfl, fun _ => rfl⟩

/-- The result of a SENDV that reaches its loop on a live CCB. -/
theorem bsys_tcp_sendv_live (cfg : Config) (cpu handle nrents : Nat) (env : sendv_env)
    (s s0 : State) (api pcb : Nat)
    (hl : handle_to_tcpapi cfg cpu handle s = (some api, s0))
    (ha : (s0.pcbs api).alive ≠ 0) (hpcb : (s0.pcbs api).pcb = some pcb)
    (he : env.ents_okay = true) :
    ∃ k, k ≤ min (nrents % 4294967296) cfg.MAX_SG_ENTRIES ∧
      sendv_loop env api (min (nrents % 4294967296) cfg.MAX_SG_ENTRIES) 0 0 s0
        = .ok (sendv_ok_bytes env k, { s0 with calls := s.calls ++ sendv_writes env pcb k }) ∧
      (∀ j, j + 1 < k → env.tcp_write j = err_t.ERR_OK ∧
        (env.ents j).len ≤ min (env.snd_buf j) 0xFFFF) ∧
      bsys_tcp_sendv cfg cpu handle nrents env s =
        if sendv_ok_bytes env k ≠ 0 then
          pcb_ready_enqueue cfg cpu api
            (set_pcb api
              (fun a => { a with len_xmited := int_wrap (a.len_xmited + sendv_ok_bytes env k) })
              (ext (.tcp_output (some (handle_to_fg_id handle)) pcb)
                { s0 with calls := s.calls ++ sendv_writes env pcb k }))
        else .ok { s0 with calls := s.calls ++ sendv_writes env pcb k } := by
  have hs0 := handle_to_tcpapi_state cfg cpu handle api s s0 hl
  have hc : s0.calls = s.calls := by rw [hs0]; rfl
  obtain ⟨k, _, h2, h3, h4⟩ := sendv_loop_spec env api pcb (min (nrents % 4294967296) cfg.MAX_SG_ENTRIES) 0 s0 s0
    hpcb (by simp [sendv_writes]) (fun j hj => by omega)
  have e0 : sendv_ok_bytes env 0 = 0 := rfl
  rw [e0, hc] at h3
  refine ⟨k, by omega, h3, h4, ?_⟩
  unfold bsys_tcp_sendv
  rw [hl]
  simp only [ha, if_false, he, Bool.not_true, Bool.false_eq_true, h3]
  split_ifs with hz
  · rw [hpcb]
  · rfl

theorem sendv_writes_min (env : sendv_env) (pcb k : Nat) :
    sendv_writes env pcb k = (List.range k).map (fun i =>
      ext_call.tcp_write pcb (env.ents i).base
        (min (env.ents i).len (min (env.snd_buf i) 65535))) := by
  unfold sendv_writes
  apply List.map_congr_left
  intro i _
  rw [sendv_len_eq_min]

theorem bsys_tcp_sendv_congr (cfg : Config) (cpu handle nrents : Nat) (env env1 : sendv_env)
    (s : State) (h : sendv_env_agree env env1 cfg.MAX_SG_ENTRIES) :
    bsys_tcp_sendv cfg cpu handle nrents env1 s = bsys_tcp_sendv cfg cpu handle nrents env s := by
  unfold bsys_tcp_sendv
  rcases hh : handle_to_tcpapi cfg cpu handle s with ⟨r, s0⟩
  cases r with
  | none => rfl
  | some api =>
    simp only [h.1]
    rw [sendv_loop_congr env env1 api (min (nrents % 4294967296) cfg.MAX_SG_ENTRIES) 0 0 s0
      (fun j _ hj => h.2 j (by omega))]

/-- C19: for every SENDV on a live CCB (the handle is found, `alive` is set, the TCP-core
PCB is present, the entry array is readable) the loop returns after writing the entries
of some `k` rounds, `k` at most `nrents` and at most `MAX_SG_ENTRIES`; the length passed
to the `i`-th `tcp_write` is `min(entry length, min(snd_buf, 65535))`; every entry written
before the last one had a length within the clamp; the handler makes no other
`tcp_write`; and the entries from `MAX_SG_ENTRIES` on do not influence the result. -/
theorem sendv_entries_clamped (cfg : Config) (cpu handle nrents : Nat) (env : sendv_env)
    (s s0 : State) (api pcb : Nat)
    (hl : handle_to_tcpapi cfg cpu handle s = (some api, s0))
    (ha : (s0.pcbs api).alive ≠ 0) (hpcb : (s0.pcbs api).pcb = some pcb)
    (he : env.ents_okay = true) :
    ∃ k, k ≤ nrents ∧ k ≤ cfg.MAX_SG_ENTRIES ∧
      (∃ n, sendv_loop env api (min (nrents % 4294967296) cfg.MAX_SG_ENTRIES) 0 0 s0
        = .ok (n, { s0 with calls := s.calls ++ (List.range k).map (fun i =>
            ext_call.tcp_write pcb (env.ents i).base
              (min (env.ents i).len (min (env.snd_buf i) 65535))) })) ∧
      (∀ j, j + 1 < k → (env.ents j).len ≤ min (env.snd_buf j) 65535) ∧
      (∀ s2, bsys_tcp_sendv cfg cpu handle nrents env s = .ok s2 →
        ∃ tail, s2.calls = s.calls ++ (List.range k).map (fun i =>
            ext_call.tcp_write pcb (env.ents i).base
              (min (env.ents i).len (min (env.snd_buf i) 65535))) ++ tail ∧
          ∀ c ∈ tail, ∀ p b l, c ≠ ext_call.tcp_write p b l) ∧
      ∀ env1, sendv_env_agree env env1 cfg.MAX_SG_ENTRIES →
        bsys_tcp_sendv cfg cpu handle nrents env1 s
          = bsys_tcp_sendv cfg cpu handle nrents env s := by
  obtain ⟨k, h1, h2, h3, h4⟩ := bsys_tcp_sendv_live cfg cpu handle nrents env s s0 api pcb hl ha
    hpcb he
  rw [sendv_writes_min] at h2 h4
  refine ⟨k, by omega, by omega, ⟨_, h2⟩, fun j hj => (h3 j hj).2, ?_,
    fun env1 hag => bsys_tcp_sendv_congr cfg cpu handle nrents env env1 s hag⟩
  intro s2 hs2
  rw [h4] at hs2
  split_ifs at hs2 with hz
  · obtain ⟨e, _⟩ := pcb_ready_enqueue_calls cfg cpu api _ s2 hs2
    refine ⟨[.tcp_output (some (handle_to_fg_id handle)) pcb], ?_, ?_⟩
    · rw [e]; rfl
    · intro c hc p b l
      rw [List.mem_singleton] at hc
      rw [hc]
      exact fun e => by cases e
  · cases hs2
    exact ⟨[], by simp, fun c hc => by cases hc⟩

theorem sendv_entries_clamped_witness :
    ((handle_to_tcpapi ex_cfg 1 ex_handle ex_open_state).1 = some 1 ∧
      ((handle_to_tcpapi ex_cfg 1 ex_handle ex_open_state).2.pcbs 1).alive ≠ 0 ∧
      ((handle_to_tcpapi ex_cfg 1 ex_handle ex_open_state).2.pcbs 1).pcb = some 7 ∧
      ex_sendv_env3.ents_okay = true) ∧
    ∃ k, k ≤ 3 ∧ k ≤ ex_cfg.MAX_SG_ENTRIES ∧
      (∃ n, sendv_loop ex_sendv_env3 1 (min 3 ex_cfg.MAX_SG_ENTRIES) 0 0
          (handle_to_tcpapi ex_cfg 1 ex_handle ex_open_state).2
        = .ok (n, { (handle_to_tcpapi ex_cfg 1 ex_handle ex_open_state).2 with
            calls := ex_open_state.calls ++ (List.range k).map (fun i =>
              ext_call.tcp_write 7 (ex_sendv_env3.ents i).base
                (min (ex_sendv_env3.ents i).len (min (ex_sendv_env3.snd_buf i) 65535))) })) ∧
      (∀ j, j + 1 < k →
        (ex_sendv_env3.ents j).len ≤ min (ex_sendv_env3.snd_buf j) 65535) ∧
      (∀ s2, bsys_tcp_sendv ex_cfg 1 ex_handle 3 ex_sendv_env3 ex_open_state = .ok s2 →
        ∃ tail, s2.calls = ex_open_state.calls ++ (List.range k).map (fun i =>
            ext_call.tcp_write 7 (ex_sendv_env3.ents i).base
              (min (ex_sendv_env3.ents i).len (min (ex_sendv_env3.snd_buf i) 65535))) ++ tail ∧
          ∀ c ∈ tail, ∀ p b l, c ≠ ext_call.tcp_write p b l) ∧
      ∀ env1, sendv_env_agree ex_sendv_env3 env1 ex_cfg.MAX_SG_ENTRIES →
        bsys_tcp_sendv ex_cfg 1 ex_handle 3 env1 ex_open_state
          = bsys_tcp_sendv ex_cfg 1 ex_handle 3 ex_sendv_env3 ex_open_state :=
  ⟨⟨by decide, by decide, by decide, rfl⟩,
    sendv_entries_clamped ex_cfg 1 ex_handle 3 ex_sendv_env3 ex_open_state
      (handle_to_tcpapi ex_cfg 1 ex_handle ex_open_state).2 1 7 rfl (by decide) (by decide)
      rfl⟩

/-- In the example the second entry asks for 300 bytes with 100 bytes of send buffer: the
handler writes 10 and 100 bytes, leaves the third entry alone, and calls `tcp_output`. -/
theorem sendv_example :
    ∃ s2, bsys_tcp_sendv ex_cfg 1 ex_handle 3 ex_sendv_env3 ex_open_state = .ok s2 ∧
      s2.calls = ex_open_state.calls ++
        [.tcp_write 7 0 10, .tcp_write 7 1000 100, .tcp_output (some 1) 7] ∧
      (s2.pcbs 1).len_xmited = 110 := by
  exact ⟨_, rfl, by decide, by decide⟩

/-! ## C20: what changes `len_xmited` -/

theorem same_xmited_refl (s : State) : same_xmited s s := fun _ => rfl

theorem same_xmited_trans (s s1 s2 : State) (h1 : same_xmited s s1) (h2 : same_xmited s1 s2) :
    same_xmited s s2 := fun i => (h2 i).trans (h1 i)

theorem same_xmited_of_pcbs (s s1 : State) (h : s1.pcbs = s.pcbs) : same_xmited s s1 :=
  fun i => by rw [h]

theorem same_xmited_set (api : Nat) (f : tcpapi_pcb → tcpapi_pcb) (s : State)
    (hf : ∀ a, (f a).len_xmited = a.len_xmited) : same_xmited s (set_pcb api f s) := by
  intro i
  by_cases e : i = api
  · subst e; simp [set_pcb, upd, hf]
  · simp [set_pcb, upd, e]

theorem same_xmited_then_set (s0 s : State) (api : Nat) (f : tcpapi_pcb → tcpapi_pcb)
    (h : same_xmited s0 s) (hf : ∀ a, (f a).len_xmited = a.len_xmited) :
    same_xmited s0 (set_pcb api f s) :=
  same_xmited_trans _ _ _ h (same_xmited_set api f s hf)

theorem same_xmited_enqueue (cfg : Config) (cpu api : Nat) (s s1 : State)
    (h : pcb_ready_enqueue cfg cpu api s = .ok s1) : same_xmited s s1 :=
  (pcb_ready_enqueue_calls cfg cpu api s s1 h).2

theorem same_xmited_free (cfg : Config) (cpu api : Nat) (s : State) :
    same_xmited s (pcb_mempool_free cfg cpu api s) := by
  intro i
  by_cases e : i = api
  · subst e; simp [pcb_mempool_free, upd]
  · simp [pcb_mempool_free, upd, e]

theorem same_xmited_recv_a_pbuf (cfg : Config) (cpu api p : Nat) (s s1 : State)
    (h : recv_a_pbuf cfg cpu api p s = .ok s1) : same_xmited s s1 := by
  unfold recv_a_pbuf at h
  cases hq : queue_push_back (s.pcbs api).pbuf_for_usys s.pbuf_for_usys_next p with
  | error e => rw [hq] at h; cases h
  | ok r =>
    rw [hq] at h
    simp only at h
    split_ifs at h
    refine same_xmited_trans _ _ _ ?_ (same_xmited_enqueue cfg cpu api _ s1 h)
    exact same_xmited_set api (fun a => { a with pbuf_for_usys := r.1 }) s (fun _ => rfl)

theorem same_xmited_accept_loop (cfg : Config) (cpu api : Nat) :
    ∀ (fuel : Nat) (tmp : Option Nat) (s s1 : State),
      accept_loop cfg cpu api fuel tmp s = .ok s1 → same_xmited s s1
  | _, none, s, s1, h => by
    simp only [accept_loop] at h
    cases h
    exact same_xmited_refl s
  | 0, some _, _, _, h => by simp [accept_loop] at h
  | fuel + 1, some tmp, s, s1, h => by
    simp only [accept_loop] at h
    cases hr : recv_a_pbuf cfg cpu api tmp s with
    | error e => rw [hr] at h; cases h
    | ok s2 =>
      rw [hr] at h
      exact same_xmited_trans _ _ _ (same_xmited_recv_a_pbuf cfg cpu api tmp s s2 hr)
        (same_xmited_accept_loop cfg cpu api fuel _ s2 s1 h)

theorem same_xmited_mark_dead (cfg : Config) (cpu : Nat) (api : Option Nat) (cookie : Nat)
    (s s1 : State) (h : mark_dead cfg cpu api cookie s = .ok s1) : same_xmited s s1 := by
  unfold mark_dead at h
  cases api with
  | none => cases h; exact same_xmited_of_pcbs _ _ rfl
  | some a =>
    simp only at h
    refine same_xmited_trans _ _ _ ?_ (same_xmited_enqueue cfg cpu a _ s1 h)
    refine same_xmited_then_set _ _ a _ ?_ (fun _ => rfl)
    cases (s.pcbs a).id <;> exact same_xmited_of_pcbs _ _ rfl

theorem same_xmited_on_sent (cfg : Config) (cpu arg len : Nat) (s : State) (r : err_t × State)
    (h : on_sent cfg cpu arg len s = .ok r) : same_xmited s r.2 := by
  unfold on_sent at h
  cases he : pcb_ready_enqueue cfg cpu arg
      (set_pcb arg (fun a => { a with sent_len := int_wrap (a.sent_len + (len % 65536 : Nat)) }) s) with
  | error e => rw [he] at h; cases h
  | ok s1 =>
    rw [he] at h
    cases h
    refine same_xmited_trans _ _ _ ?_ (same_xmited_enqueue cfg cpu arg _ s1 he)
    exact same_xmited_set arg _ s (fun _ => rfl)

theorem same_xmited_on_err (cfg : Config) (cpu : Nat) (arg : Option Nat) (err : err_t)
    (s s1 : State) (h : on_err cfg cpu arg err s = .ok s1) : same_xmited s s1 := by
  unfold on_err at h
  cases arg with
  | none => cases h; exact same_xmited_refl s
  | some api =>
    simp only at h
    split_ifs at h
    · cases hm : mark_dead cfg cpu (some api) (s.pcbs api).cookie s with
      | error e => rw [hm] at h; cases h
      | ok s2 =>
        rw [hm] at h
        cases h
        exact same_xmited_then_set _ _ api _ (same_xmited_mark_dead cfg cpu _ _ s s2 hm)
          (fun _ => rfl)
    · cases h; exact same_xmited_refl s

theorem same_xmited_on_connected (cfg : Config) (cpu arg : Nat) (err : err_t) (s : State)
    (r : err_t × State) (h : on_connected cfg cpu arg err s = .ok r) : same_xmited s r.2 := by
  unfold on_connected at h
  split_ifs at h
  · cases h; exact same_xmited_of_pcbs _ _ rfl
  · cases he : pcb_ready_enqueue cfg cpu arg
        (set_pcb arg (fun a => { a with uevents := a.uevents ||| PCB_UEVENT_CONNECTED }) s) with
    | error e => rw [he] at h; cases h
    | ok s1 =>
      rw [he] at h
      cases h
      refine same_xmited_trans _ _ _ ?_ (same_xmited_enqueue cfg cpu arg _ s1 he)
      exact same_xmited_set arg _ s (fun _ => rfl)

theorem same_xmited_on_recv (cfg : Config) (cpu arg : Nat) (p : Option Nat) (s : State)
    (r : err_t × State) (h : on_recv cfg cpu arg p s = .ok r) : same_xmited s r.2 := by
  unfold on_recv at h
  cases p with
  | none =>
    simp only at h
    cases hm : mark_dead cfg cpu (some arg) (s.pcbs arg).cookie s with
    | error e => rw [hm] at h; cases h
    | ok s1 =>
      rw [hm] at h
      cases h
      exact same_xmited_mark_dead cfg cpu _ _ s s1 hm
  | some p =>
    simp only at h
    have hlink : ∀ s1, (match (s.pcbs arg).recvd with
        | none => (.ok (set_pcb arg (fun a => { a with recvd := some p, recvd_tail := some p }) s)
            : Exec State)
        | some _ =>
          match (s.pcbs arg).recvd_tail with
          | none => .error Fault.null_deref
          | some t =>
            .ok (set_pcb arg (fun a => { a with recvd_tail := some p })
              { s with pbufs := upd s.pbufs t { s.pbufs t with tcp_api_next := some p } }))
        = .ok s1 → same_xmited s s1 := by
      intro s1 h1
      cases hr : (s.pcbs arg).recvd with
      | none =>
        rw [hr] at h1
        cases h1
        exact same_xmited_set arg _ s (fun _ => rfl)
      | some r0 =>
        rw [hr] at h1
        simp only at h1
        cases ht : (s.pcbs arg).recvd_tail with
        | none => rw [ht] at h1; cases h1
        | some t =>
          rw [ht] at h1
          cases h1
          exact same_xmited_set arg _ _ (fun _ => rfl)
    split at h
    · cases h
    · rename_i s1 hl
      have h1 := hlink s1 hl
      split_ifs at h
      · cases h
        exact h1
      · split at h
        · cases h
        · rename_i s3 h3
          cases h
          have h4 := same_xmited_recv_a_pbuf cfg cpu arg p _ s3 h3
          exact fun i => (h4 i).trans (h1 i)

theorem same_xmited_of_core (s s1 : State) (h : same_core s s1) : same_xmited s s1 :=
  fun i => (h.2.2.2 i).2.2.2.2.2.2.1

theorem same_xmited_handle (cfg : Config) (cpu handle : Nat) (s : State) :
    same_xmited s (handle_to_tcpapi cfg cpu handle s).2 := by
  unfold handle_to_tcpapi
  split_ifs <;> exact same_xmited_of_pcbs _ _ rfl

theorem same_xmited_bsys_tcp_accept (cfg : Config) (cpu handle cookie fuel : Nat) (s s1 : State)
    (h : bsys_tcp_accept cfg cpu handle cookie fuel s = .ok s1) : same_xmited s s1 := by
  unfold bsys_tcp_accept at h
  have h0 := same_xmited_handle cfg cpu handle s
  rcases hh : handle_to_tcpapi cfg cpu handle s with ⟨r, s0⟩
  rw [hh] at h h0
  cases r with
  | none =>
    cases h
    exact same_xmited_trans _ _ _ h0 (same_xmited_of_pcbs _ _ rfl)
  | some api =>
    simp only at h
    have h2 := same_xmited_accept_loop cfg cpu api fuel _ _ s1 h
    refine same_xmited_trans _ _ _ (same_xmited_trans _ _ _ h0 ?_) h2
    refine same_xmited_then_set _ _ api _ ?_ (fun _ => rfl)
    cases (s0.pcbs api).id with
    | none => exact same_xmited_refl _
    | some id =>
      exact same_xmited_then_set _ _ api _ (same_xmited_of_pcbs _ _ rfl) (fun _ => rfl)

theorem same_xmited_bsys_tcp_recv_done (cfg : Config) (cpu handle len fuel : Nat) (s s1 : State)
    (h : bsys_tcp_recv_done cfg cpu handle len fuel s = .ok s1) : same_xmited s s1 := by
  unfold bsys_tcp_recv_done at h
  have h0 := same_xmited_handle cfg cpu handle s
  rcases hh : handle_to_tcpapi cfg cpu handle s with ⟨r, s0⟩
  rw [hh] at h h0
  cases r with
  | none =>
    cases h
    exact same_xmited_trans _ _ _ h0 (same_xmited_of_pcbs _ _ rfl)
  | some api =>
    simp only at h
    split at h
    · cases h
    · rename_i recvd s2 hl
      cases h
      have h2 := same_xmited_of_core _ _ (same_core_recv_done_loop fuel _ len _ _ hl)
      refine same_xmited_then_set _ _ api _ (same_xmited_trans _ _ _ (same_xmited_trans _ _ _ h0 ?_)
        h2) (fun _ => rfl)
      cases (s0.pcbs api).pcb <;> exact same_xmited_of_pcbs _ _ rfl

theorem same_xmited_close_finish (cfg : Config) (cpu api : Nat) (s : State) :
    same_xmited s (close_finish cfg cpu api s) := by
  unfold close_finish
  split_ifs
  · exact same_xmited_set api _ s (fun _ => rfl)
  · exact same_xmited_free cfg cpu api s

theorem same_xmited_bsys_tcp_close (cfg : Config) (cpu handle fuel : Nat) (s s1 : State)
    (h : bsys_tcp_close cfg cpu handle fuel s = .ok s1) : same_xmited s s1 := by
  unfold bsys_tcp_close at h
  have h0 := same_xmited_handle cfg cpu handle s
  rcases hh : handle_to_tcpapi cfg cpu handle s with ⟨r, s0⟩
  rw [hh] at h h0
  cases r with
  | none =>
    cases h
    exact same_xmited_trans _ _ _ h0 (same_xmited_of_pcbs _ _ rfl)
  | some api =>
    simp only at h
    split at h
    · cases h
    · rename_i s2 hl
      cases h
      have h1 := same_xmited_of_core _ _ (same_core_close_reset handle api s0)
      have h2 := same_xmited_of_core _ _ (same_core_close_loop fuel _ _ s2 hl)
      have h3 := same_xmited_of_core _ _ (same_core_close_release_id cpu api s2)
      have h4 := same_xmited_close_finish cfg cpu api (close_release_id cpu api s2)
      exact fun i => (h4 i).trans ((h3 i).trans ((h2 i).trans ((h1 i).trans (h0 i))))

theorem same_xmited_finish_one (cfg : Config) (cpu api : Nat) (s s1 : State)
    (h : __tcp_finish_usys cfg cpu api s = .ok s1) : same_xmited s s1 := by
  unfold __tcp_finish_usys at h
  simp only at h
  have h0 : same_xmited s (set_pcb api
      (fun a => { a with active_usys_count := a.active_usys_count - 1 })
      (ext (.bsys_dispatch_remote cpu) s)) :=
    same_xmited_then_set _ _ api _ (same_xmited_of_pcbs _ _ rfl) (fun _ => rfl)
  split_ifs at h
  · cases h
    exact same_xmited_trans _ _ _ h0 (same_xmited_free cfg cpu api _)
  · have h2 := same_xmited_enqueue cfg cpu api _ s1 h
    refine same_xmited_trans _ _ _ ?_ h2
    exact same_xmited_then_set _ _ api _ h0 (fun _ => rfl)
  · cases h
    exact h0

theorem same_xmited_finish_loop (cfg : Config) (cpu : Nat) :
    ∀ (es : List usys_event) (s s1 : State),
      tcp_finish_usys_loop cfg cpu es s = .ok s1 → same_xmited s s1
  | [], s, s1, h => by
    simp only [tcp_finish_usys_loop] at h
    cases h
    exact same_xmited_refl s
  | e :: es, s, s1, h => by
    simp only [tcp_finish_usys_loop] at h
    split_ifs at h with ht
    · cases hr : bsys_tcp_home_id cfg (usys_arga e) with
      | error f => rw [hr] at h; cases h
      | ok home =>
        rw [hr] at h
        simp only at h
        split at h
        · cases h
        · rename_i s2 h2
          have h3 := same_xmited_finish_one cfg home _ _ s2 h2
          have h4 := same_xmited_finish_loop cfg cpu es s2 s1 h
          have h5 : same_xmited s
              (if home = cpu then s
                else ext (.cpu_run_on_one cpu (handle_to_idx (usys_arga e)) home) s) := by
            split_ifs
            · exact same_xmited_refl s
            · exact same_xmited_of_pcbs _ _ rfl
          exact fun i => (h4 i).trans ((h3 i).trans (h5 i))
    · exact same_xmited_finish_loop cfg cpu es s s1 h

/-! ## C20: entries that allocate or drain a CCB -/

theorem xmited_on_accept (cfg : Config) (cpu cur_fg : Nat) (t : tcp_pcb_info) (s : State)
    (r : err_t × State) (i : Nat) (h : on_accept cfg cpu cur_fg t s = .ok r)
    (hq : (mempool_alloc (s.pcb_mempool cpu)).1 ≠ some i) :
    (r.2.pcbs i).len_xmited = (s.pcbs i).len_xmited := by
  unfold on_accept at h
  rcases ha : mempool_alloc (s.pcb_mempool cpu) with ⟨a, pool1⟩
  rw [ha] at h hq
  cases a with
  | none => cases h; rfl
  | some api =>
    have hne : i ≠ api := fun e => hq (by rw [e])
    simp only at h
    rcases hb : mempool_alloc
      (({ s with pcb_mempool := upd s.pcb_mempool cpu pool1 } : State).id_mempool cpu)
      with ⟨b, idpool1⟩
    rw [hb] at h
    cases b with
    | none =>
      cases h
      exact same_xmited_free cfg cpu api _ i
    | some id =>
      simp only at h
      split at h
      · cases h
      · rename_i s8 he
        cases h
        rw [same_xmited_enqueue cfg cpu api _ s8 he i, accept_init_other _ _ _ _ _ _ _ hne]

theorem get_port_then_search_pcbs (cfg : Config) (cpu fuel : Nat) (id1 : ip_tuple)
    (env : connect_env) (s2 : State) (r : Option Nat × ip_tuple × State)
    (h : (match get_port_with_fdir cfg cpu id1 env.fdir_ok s2 with
      | (some fg, s3) => (.ok (some fg, id1, s3) : Exec (Option Nat × ip_tuple × State))
      | (none, s3) =>
        if !env.rss_ok then .ok (none, id1, s3)
        else port_search cfg cpu fuel id1 s3) = .ok r) :
    r.2.2.pcbs = s2.pcbs ∧ r.2.2.pcb_mempool = s2.pcb_mempool := by
  unfold get_port_with_fdir at h
  by_cases hf : env.fdir_ok = true
  · simp only [hf, Bool.not_true, Bool.false_eq_true, if_false] at h
    cases h
    exact ⟨rfl, rfl⟩
  · have hff : env.fdir_ok = false := by simpa using hf
    simp only [hff, Bool.not_false, if_true] at h
    by_cases hr : env.rss_ok = true
    · simp only [hr, Bool.not_true, Bool.false_eq_true, if_false] at h
      obtain ⟨_, _, c, d, _⟩ := port_search_frame cfg cpu fuel _ _ r h
      rw [c, d]
      exact ⟨rfl, rfl⟩
    · have hrf : env.rss_ok = false := by simpa using hr
      simp only [hrf, Bool.not_false, if_true] at h
      cases h
      exact ⟨rfl, rfl⟩

theorem get_local_port_pcbs (cfg : Config) (cpu fuel : Nat) (id : ip_tuple) (env : connect_env)
    (s : State) (r : Option Nat × ip_tuple × State)
    (h : get_local_port_and_set_queue cfg cpu fuel id env s = .ok r) :
    r.2.2.pcbs = s.pcbs ∧ r.2.2.pcb_mempool = s.pcb_mempool := by
  unfold get_local_port_and_set_queue at h
  by_cases h1 : 1 < cfg.eth_dev_count
  · rw [if_pos h1] at h; cases h
  · rw [if_neg h1] at h
    obtain ⟨a, b⟩ := get_port_then_search_pcbs cfg cpu fuel _ env _ r h
    rw [a, b]
    constructor <;> (split_ifs <;> rfl)

theorem xmited_connect_fail (cpu : Nat) (abort : Option (Option Nat × Nat)) (s : State) :
    (connect_fail cpu abort s).pcbs = s.pcbs := by
  unfold connect_fail
  cases abort <;> rfl

theorem xmited_bsys_tcp_connect (cfg : Config) (cpu cookie fuel : Nat) (env : connect_env)
    (s s1 : State) (i : Nat) (h : bsys_tcp_connect cfg cpu cookie fuel env s = .ok s1)
    (hq : (mempool_alloc (s.pcb_mempool cpu)).1 ≠ some i) :
    (s1.pcbs i).len_xmited = (s.pcbs i).len_xmited := by
  unfold bsys_tcp_connect at h
  cases hu : env.user_id with
  | none => rw [hu] at h; cases h; rfl
  | some tmp0 =>
    rw [hu] at h
    simp only at h
    cases hg : get_local_port_and_set_queue cfg cpu fuel { tmp0 with src_ip := cfg.host_addr }
        env s with
    | error e => rw [hg] at h; cases h
    | ok r =>
      obtain ⟨hp, hm⟩ := get_local_port_pcbs cfg cpu fuel _ env s r hg
      obtain ⟨fg, tmp, s2⟩ := r
      rw [hg] at h
      simp only at hp hm
      cases fg with
      | none =>
        cases h
        show (s2.pcbs i).len_xmited = _
        rw [hp]
      | some cur_fg =>
        simp only at h
        cases hn : env.tcp_new with
        | none =>
          rw [hn] at h
          cases h
          rw [xmited_connect_fail]
          show (s2.pcbs i).len_xmited = _
          rw [hp]
        | some pcb =>
          rw [hn] at h
          simp only at h
          have hpool : (ext (.tcp_nagle_disable pcb) (ext (.tcp_new (some cur_fg)) s2)).pcb_mempool
              = s.pcb_mempool := hm
          rw [hpool] at h
          rcases ha : mempool_alloc (s.pcb_mempool cpu) with ⟨a, pool1⟩
          rw [ha] at h hq
          cases a with
          | none =>
            cases h
            rw [xmited_connect_fail]
            show (s2.pcbs i).len_xmited = _
            rw [hp]
          | some api =>
            have hne : i ≠ api := fun e => hq (by rw [e])
            simp only at h
            have hinit : ∀ st : State, st.pcbs = s.pcbs →
                ((connect_init cur_fg pcb cookie api st).pcbs i).len_xmited
                  = (s.pcbs i).len_xmited := fun st hst => by
              rw [connect_init_other _ _ _ _ _ _ hne, hst]
            split_ifs at h <;> cases h
            · rw [xmited_connect_fail]
              exact hinit _ hp
            · rw [xmited_connect_fail]
              exact hinit _ hp
            · exact hinit _ hp

theorem sendv_ret_mem_first (cfg : Config) (cpu : Nat) (a : tcpapi_pcb) (h c : Nat) (n : Int) :
    usys_event.USYS_TCP_SENDV_RET h c n ∈ first_events cfg cpu a ↔
      h = a.handle ∧ c = a.cookie ∧ n = a.len_xmited ∧ a.len_xmited ≠ 0 := by
  unfold first_events
  by_cases h1 : a.uevents &&& PCB_UEVENT_KNOCK = 0 <;>
  by_cases h2 : a.uevents &&& PCB_UEVENT_CONNECTED = 0 <;>
  by_cases h3 : a.len_xmited = 0 <;>
  by_cases h4 : a.sent_len = 0 <;>
  simp [h1, h2, h3, h4]

theorem sendv_ret_not_mem_last (a : tcpapi_pcb) (h c : Nat) (n : Int) :
    usys_event.USYS_TCP_SENDV_RET h c n ∉ last_events a := by
  unfold last_events
  by_cases h1 : a.alive = 0 <;> by_cases h2 : a.lasterr_sysnr = 0 <;> simp [h1, h2]

theorem gen_recv_chain_events (cfg : Config) (cpu api : Nat) :
    ∀ (fuel p : Nat) (s s1 : State), gen_recv_chain cfg cpu api fuel p s = .ok s1 →
      ∃ evs, s1.usys_arr = upd s.usys_arr cpu (s.usys_arr cpu ++ evs) ∧
        ∀ h c n, usys_event.USYS_TCP_SENDV_RET h c n ∉ evs
  | 0, _, _, _, h => by simp [gen_recv_chain] at h
  | fuel + 1, p, s, s1, h => by
    rw [gen_recv_chain_succ] at h
    obtain ⟨a1, _, _, _⟩ := recv_link_step_spec cfg cpu api p s
    cases hn : (s.pbufs p).next with
    | none =>
      rw [hn] at h
      cases h
      exact ⟨_, a1, fun h c n hm => by simp [recv_event] at hm⟩
    | some p1 =>
      rw [hn] at h
      obtain ⟨evs, e1, e2⟩ := gen_recv_chain_events cfg cpu api fuel p1 _ s1 h
      refine ⟨recv_event cfg (s.pcbs api) (s.pbufs p) :: evs, ?_, ?_⟩
      · rw [e1, a1]
        simp [upd]
      · intro h c n hm
        rcases List.mem_cons.mp hm with hm | hm
        · simp [recv_event] at hm
        · exact e2 h c n hm

theorem gen_recv_queue_events (cfg : Config) (cpu api cf : Nat) :
    ∀ (fuel : Nat) (pos : Option Nat) (s s1 : State),
      gen_recv_queue cfg cpu api cf fuel pos s = .ok s1 →
      ∃ evs, s1.usys_arr = upd s.usys_arr cpu (s.usys_arr cpu ++ evs) ∧
        ∀ h c n, usys_event.USYS_TCP_SENDV_RET h c n ∉ evs
  | fuel, none, s, s1, h => by
    cases fuel <;> simp only [gen_recv_queue, Except.ok.injEq] at h <;> subst h <;>
      exact ⟨[], by simp [upd], fun h c n hm => by cases hm⟩
  | 0, some p, s, s1, h => by simp [gen_recv_queue] at h
  | fuel + 1, some p, s, s1, h => by
    simp only [gen_recv_queue] at h
    cases hc : gen_recv_chain cfg cpu api cf p s with
    | error e => rw [hc] at h; cases h
    | ok s2 =>
      rw [hc] at h
      obtain ⟨ev1, a1, b1⟩ := gen_recv_chain_events cfg cpu api cf p s s2 hc
      obtain ⟨ev2, a2, b2⟩ := gen_recv_queue_events cfg cpu api cf fuel _ s2 s1 h
      refine ⟨ev1 ++ ev2, ?_, ?_⟩
      · rw [a2, a1]
        simp [upd]
      · intro h c n hm
        rcases List.mem_append.mp hm with hm | hm
        · exact b1 h c n hm
        · exact b2 h c n hm

/-! ## C20: the report of `len_xmited` -/

theorem gen_report (cfg : Config) (cpu api fuel : Nat) (s s1 : State)
    (h : __tcp_gen_usys cfg cpu api fuel s = .ok s1) :
    (∀ i, i ≠ api → s1.pcbs i = s.pcbs i) ∧ (s1.pcbs api).len_xmited = 0 ∧
      ∃ evs, s1.usys_arr cpu = s.usys_arr cpu ++ evs ∧
        ∀ hd c n, usys_event.USYS_TCP_SENDV_RET hd c n ∈ evs ↔
          hd = (s.pcbs api).handle ∧ c = (s.pcbs api).cookie ∧
            n = (s.pcbs api).len_xmited ∧ (s.pcbs api).len_xmited ≠ 0 := by
  unfold __tcp_gen_usys at h
  split_ifs at h with hfl hcn
  simp only at h
  obtain ⟨f1, _, _, f4⟩ := gen_usys_first_spec cfg cpu api s
  cases hq : gen_recv_queue cfg cpu api fuel fuel
      ((gen_usys_first cfg cpu api s).pcbs api).pbuf_for_usys.head
      (gen_usys_first cfg cpu api s) with
  | error e => rw [hq] at h; cases h
  | ok s6 =>
    rw [hq] at h
    simp only at h
    obtain ⟨a6, _, _, d6, _⟩ := gen_stage_recv_queue cfg cpu api fuel fuel _ _ s6 hq
    obtain ⟨ev2, g1, g2⟩ := gen_recv_queue_events cfg cpu api fuel fuel _ _ s6 hq
    cases hc : queue_clear fuel (s6.pcbs api).pbuf_for_usys s6.pbuf_for_usys_next with
    | error e => rw [hc] at h; cases h
    | ok r =>
      obtain ⟨q, next⟩ := r
      rw [hc] at h
      simp only [Except.ok.injEq] at h
      obtain ⟨a7, _, _, d7, _⟩ := gen_stage_last cpu api
        { set_pcb api (fun a => { a with pbuf_for_usys := q }) s6 with
          pbuf_for_usys_next := next }
      have l7 := gen_usys_last_spec cpu api
        { set_pcb api (fun a => { a with pbuf_for_usys := q }) s6 with
          pbuf_for_usys_next := next }
      rw [h] at a7 d7 l7
      refine ⟨fun i hi => ?_, ?_, ?_⟩
      · rw [a7 i hi]
        show (set_pcb api (fun a => { a with pbuf_for_usys := q }) s6).pcbs i = s.pcbs i
        rw [set_pcb_pcbs_other _ _ _ _ hi, a6 i hi, gen_usys_first_other cfg cpu api i s hi]
      · rw [d7]
        show ((set_pcb api (fun a => { a with pbuf_for_usys := q }) s6).pcbs api).len_xmited = 0
        rw [set_pcb_pcbs_same]
        show (s6.pcbs api).len_xmited = 0
        rw [d6, f4]; rfl
      · refine ⟨first_events cfg cpu (s.pcbs api) ++ ev2 ++
          last_events (({ set_pcb api (fun a => { a with pbuf_for_usys := q }) s6 with
            pbuf_for_usys_next := next } : State).pcbs api), ?_, ?_⟩
        · rw [l7]
          show upd (set_pcb api (fun a => { a with pbuf_for_usys := q }) s6).usys_arr cpu _ cpu = _
          rw [set_pcb_usys_arr, g1, f1]
          simp [upd, List.append_assoc]
        · intro hd c n
          rw [List.mem_append, List.mem_append, sendv_ret_mem_first]
          constructor
          · rintro ((hm | hm) | hm)
            · exact hm
            · exact absurd hm (g2 hd c n)
            · exact absurd hm (sendv_ret_not_mem_last _ hd c n)
          · exact fun hm => Or.inl (Or.inl hm)

theorem xmited_generate (cfg : Config) (cpu fuel : Nat) (s s1 : State) (i : Nat)
    (h : tcp_generate_usys cfg cpu fuel s = .ok s1)
    (hq : queue_front (s.pcb_ready_queue cpu) ≠ some i) :
    (s1.pcbs i).len_xmited = (s.pcbs i).len_xmited := by
  unfold tcp_generate_usys queue_pop_front at h
  cases hf : queue_front (s.pcb_ready_queue cpu) with
  | none =>
    rw [hf] at h
    cases h
    rfl
  | some n =>
    rw [hf] at h hq
    simp only at h
    have hne : i ≠ n := fun e => hq (by rw [e])
    obtain ⟨a, _, _⟩ := gen_report cfg cpu n fuel _ s1 h
    rw [a i hne]

theorem xmited_steal (cfg : Config) (cpu fuel : Nat) (env : steal_env) (s : State)
    (r : Bool × State) (i : Nat) (h : tcp_steal_idle_wait cfg cpu fuel env s = .ok r)
    (hq : cfg.cpus.all (fun c => decide (queue_front (s.pcb_ready_queue c) ≠ some i)) = true) :
    (r.2.pcbs i).len_xmited = (s.pcbs i).len_xmited := by
  unfold tcp_steal_idle_wait at h
  simp only at h
  split_ifs at h with h1 h2 h3 h4
  · cases h; rfl
  · cases h; rfl
  · have hlt : env.rnd % (cfg.cpus.filter (fun c =>
        !env.in_kernel c && (queue_front (s.pcb_ready_queue c)).isSome)).length
        < (cfg.cpus.filter (fun c =>
        !env.in_kernel c && (queue_front (s.pcb_ready_queue c)).isSome)).length :=
      Nat.mod_lt _ (Nat.pos_of_ne_zero h3)
    have hmem := List.getElem_mem hlt
    rw [← List.getD_eq_getElem _ 0 hlt] at hmem
    have hc := (List.mem_filter.mp hmem).1
    have hfront := List.all_eq_true.mp hq _ hc
    simp only [decide_eq_true_eq] at hfront
    split at h
    · cases h; rfl
    · rename_i api hf
      have hne : i ≠ api := fun e => hfront (by rw [hf, e])
      split_ifs at h with h5
      split at h
      · cases h
      · rename_i s2 hg
        cases h
        obtain ⟨a, _, _⟩ := gen_report cfg cpu api fuel _ s2 hg
        rw [a i hne]
  · cases h; rfl
  · cases h; rfl

theorem xmited_sendv_wrap (cfg : Config) (cpu handle nrents : Nat) (env : sendv_env)
    (s s1 : State) (i : Nat) (h : bsys_tcp_sendv cfg cpu handle nrents env s = .ok s1) :
    (s1.pcbs i).len_xmited
      = if step_handed cfg s i (.sendv cpu handle nrents env) = 0 then (s.pcbs i).len_xmited
        else int_wrap ((s.pcbs i).len_xmited
          + (step_handed cfg s i (.sendv cpu handle nrents env) : Int)) := by
  unfold bsys_tcp_sendv at h
  simp only [step_handed]
  have h0 := same_xmited_handle cfg cpu handle s
  rcases hh : handle_to_tcpapi cfg cpu handle s with ⟨r, s0⟩
  try rw [hh] at h
  try rw [hh] at h0
  try rw [hh]
  cases r with
  | none =>
    cases h
    rw [if_pos rfl]
    exact h0 i
  | some api =>
    simp only at h ⊢
    by_cases ha : (s0.pcbs api).alive = 0
    · rw [if_pos ha] at h
      have h2 := same_xmited_enqueue cfg cpu api _ s1 h
      have h3 := same_xmited_then_set s s0 api
        (fun a => { a with lasterr_sysnr := KSYS_TCP_SENDV, lasterr_err := -RET_CLOSED }) h0
        (fun _ => rfl)
      simp only [ha, ne_eq, not_true_eq_false, false_and, and_false, if_false, if_true]
      exact (h2 i).trans (h3 i)
    · rw [if_neg ha] at h
      by_cases he : env.ents_okay = true
      · simp only [he, Bool.not_true, Bool.false_eq_true, if_false] at h
        cases hl : sendv_loop env api (min (nrents % 4294967296) cfg.MAX_SG_ENTRIES) 0 0 s0 with
        | error e => rw [hl] at h; cases h
        | ok r =>
          obtain ⟨n, s2⟩ := r
          rw [hl] at h
          simp only at h ⊢
          have hc := same_xmited_of_core _ _
            (same_core_sendv_loop env api _ 0 0 s0 (n, s2) hl).1
          by_cases hn : n = 0
          · simp only [hn, ne_eq, not_true_eq_false, if_false] at h
            cases h
            have : (if api = i ∧ (s0.pcbs api).alive ≠ 0 ∧ env.ents_okay = true then n else 0)
                = 0 := by split_ifs <;> simp [hn]
            rw [this, if_pos rfl, hc i, h0 i]
          · simp only [hn, ne_eq, not_false_eq_true, if_true] at h
            cases hp : (s2.pcbs api).pcb with
            | none => rw [hp] at h; cases h
            | some pcb =>
              rw [hp] at h
              simp only at h
              have h2 := same_xmited_enqueue cfg cpu api _ s1 h
              rw [h2 i]
              by_cases e : api = i
              · subst e
                have hin : (if api = api ∧ (s0.pcbs api).alive ≠ 0 ∧ env.ents_okay = true
                    then n else 0) = n := if_pos ⟨rfl, ha, he⟩
                rw [hin, if_neg hn]
                simp only [set_pcb_pcbs_same]
                show int_wrap ((s2.pcbs api).len_xmited + (n : Int)) = _
                rw [hc api, h0 api]
              · have hin : (if api = i ∧ (s0.pcbs api).alive ≠ 0 ∧ env.ents_okay = true
                    then n else 0) = 0 := if_neg (fun hx => e hx.1)
                rw [hin, if_pos rfl, set_pcb_pcbs_other _ _ _ _ (Ne.symm e)]
                show (s2.pcbs i).len_xmited = _
                rw [hc i, h0 i]
      · have hef : env.ents_okay = false := by simpa using he
        simp only [hef, Bool.not_false, if_true] at h
        have h2 := same_xmited_enqueue cfg cpu api _ s1 h
        have h3 := same_xmited_then_set s s0 api
          (fun a => { a with lasterr_sysnr := KSYS_TCP_SENDV, lasterr_err := -RET_FAULT }) h0
          (fun _ => rfl)
        simp only [hef, Bool.false_eq_true, and_false, if_false, if_true]
        exact (h2 i).trans (h3 i)

theorem xmited_sendv (cfg : Config) (cpu handle nrents : Nat) (env : sendv_env) (s s1 : State)
    (i : Nat) (h : bsys_tcp_sendv cfg cpu handle nrents env s = .ok s1)
    (hlo : -2147483648 ≤ (s.pcbs i).len_xmited)
    (hfit : (s.pcbs i).len_xmited
      + (step_handed cfg s i (.sendv cpu handle nrents env) : Int) < 2147483648) :
    (s1.pcbs i).len_xmited
      = (s.pcbs i).len_xmited + (step_handed cfg s i (.sendv cpu handle nrents env) : Int) := by
  rw [xmited_sendv_wrap cfg cpu handle nrents env s s1 i h]
  split_ifs with hz
  · rw [hz, Nat.cast_zero, add_zero]
  · exact int_wrap_eq _ (by omega) hfit

/-! ## C20: the bytes a SENDV_RET reports -/

theorem xmited_step (cfg : Config) (s s1 : State) (a : Action) (i : Nat)
    (h : step cfg s a = .ok s1) (hq : step_quiet cfg s i a = true) :
    (s1.pcbs i).len_xmited = if step_handed cfg s i a = 0 then (s.pcbs i).len_xmited
      else int_wrap ((s.pcbs i).len_xmited + (step_handed cfg s i a : Int)) := by
  cases a with
  | accept_cb cpu cur_fg t =>
    obtain ⟨r, hr⟩ := map_snd_ok _ s1 h
    simp only [step_handed, if_true]
    exact xmited_on_accept cfg cpu cur_fg t s (r, s1) i hr (by simpa [step_quiet] using hq)
  | recv_cb cpu arg p fill =>
    obtain ⟨r, hr⟩ := map_snd_ok _ s1 h
    simp only [step_handed, if_true]
    rw [same_xmited_on_recv cfg cpu arg p _ (r, s1) hr i, (keeps_fill_pbufs cfg fill s).2]
  | sent_cb cpu arg len =>
    obtain ⟨r, hr⟩ := map_snd_ok _ s1 h
    simp only [step_handed, if_true]
    exact same_xmited_on_sent cfg cpu arg len s (r, s1) hr i
  | err_cb cpu arg err =>
    simp only [step_handed, if_true]
    exact same_xmited_on_err cfg cpu arg err s s1 h i
  | connected_cb cpu arg err =>
    obtain ⟨r, hr⟩ := map_snd_ok _ s1 h
    simp only [step_handed, if_true]
    exact same_xmited_on_connected cfg cpu arg err s (r, s1) hr i
  | connect cpu cookie fuel env =>
    simp only [step_handed, if_true]
    exact xmited_bsys_tcp_connect cfg cpu cookie fuel env s s1 i h
      (by simpa [step_quiet] using hq)
  | accept cpu handle cookie fuel =>
    simp only [step_handed, if_true]
    exact same_xmited_bsys_tcp_accept cfg cpu handle cookie fuel s s1 h i
  | sendv cpu handle nrents env => exact xmited_sendv_wrap cfg cpu handle nrents env s s1 i h
  | recv_done cpu handle len fuel =>
    simp only [step_handed, if_true]
    exact same_xmited_bsys_tcp_recv_done cfg cpu handle len fuel s s1 h i
  | close cpu handle fuel =>
    simp only [step_handed, if_true]
    exact same_xmited_bsys_tcp_close cfg cpu handle fuel s s1 h i
  | generate cpu fuel =>
    simp only [step_handed, if_true]
    exact xmited_generate cfg cpu fuel s s1 i h (by simpa [step_quiet] using hq)
  | steal cpu fuel env =>
    obtain ⟨r, hr⟩ := map_snd_ok _ s1 h
    simp only [step_handed, if_true]
    exact xmited_steal cfg cpu fuel env s (r, s1) i hr (by simpa [step_quiet] using hq)
  | finish cpu =>
    simp only [step_handed, if_true]
    have h1 : (tcp_finish_usys cfg cpu s).map
        (fun s1 => { s1 with usys_arr := upd s1.usys_arr cpu [] }) = .ok s1 := h
    cases hf : tcp_finish_usys cfg cpu s with
    | error e => rw [hf] at h1; cases h1
    | ok s2 =>
      rw [hf] at h1
      have h2 : (Except.ok { s2 with usys_arr := upd s2.usys_arr cpu [] } : Exec State)
          = .ok s1 := h1
      simp only [Except.ok.injEq] at h2
      subst h2
      exact same_xmited_finish_loop cfg cpu _ s s2 hf i

theorem xmited_run_wrap (cfg : Config) (i : Nat) :
    ∀ (tr : List Action) (s s1 : State), run cfg s tr = .ok s1 →
      run_quiet cfg i s tr = true →
      (s1.pcbs i).len_xmited = if run_handed cfg i s tr = 0 then (s.pcbs i).len_xmited
        else int_wrap ((s.pcbs i).len_xmited + (run_handed cfg i s tr : Int))
  | [], s, s1, h, _ => by
    simp only [run, Except.ok.injEq] at h
    subst h
    simp [run_handed]
  | a :: as, s, s1, h, hq => by
    simp only [run] at h
    simp only [run_quiet, Bool.and_eq_true] at hq
    by_cases he : env_ok cfg s a = true
    · rw [if_pos he] at h
      cases hst : step cfg s a with
      | error e => rw [hst] at h; cases h
      | ok s2 =>
        rw [hst] at h
        have hq2 := hq.2
        rw [hst] at hq2
        have h1 := xmited_step cfg s s2 a i hst hq.1
        have h2 := xmited_run_wrap cfg i as s2 s1 h hq2
        have e : run_handed cfg i s (a :: as)
            = step_handed cfg s i a + run_handed cfg i s2 as := by
          simp only [run_handed, hst]
        rw [e, h2, h1]
        by_cases z1 : step_handed cfg s i a = 0
        · rw [if_pos z1, z1, Nat.zero_add]
        · have z3 : ¬ step_handed cfg s i a + run_handed cfg i s2 as = 0 := by omega
          rw [if_neg z1, if_neg z3]
          by_cases z2 : run_handed cfg i s2 as = 0
          · rw [if_pos z2, z2, Nat.add_zero]
          · rw [if_neg z2, int_wrap_add, Nat.cast_add, add_assoc]
    · rw [if_neg he] at h; cases h

theorem xmited_run (cfg : Config) (i : Nat) (tr : List Action) (s s1 : State)
    (h : run cfg s tr = .ok s1) (hq : run_quiet cfg i s tr = true)
    (hlo : -2147483648 ≤ (s.pcbs i).len_xmited)
    (hfit : (s.pcbs i).len_xmited + (run_handed cfg i s tr : Int) < 2147483648) :
    (s1.pcbs i).len_xmited = (s.pcbs i).len_xmited + (run_handed cfg i s tr : Int) := by
  rw [xmited_run_wrap cfg i tr s s1 h hq]
  split_ifs with hz
  · rw [hz, Nat.cast_zero, add_zero]
  · exact int_wrap_eq _ (by omega) hfit

theorem pcb_ready_enqueue_returns (cfg : Config) (cpu api : Nat) (s : State)
    (hfg : handle_to_fg_id (s.pcbs api).handle < cfg.ETH_MAX_TOTAL_FG + cfg.NCPU)
    (hhome : cfg.fgs_cur_cpu (handle_to_fg_id (s.pcbs api).handle) = cpu)
    (hq : (s.pcb_ready_queue cpu).head ≠ none → (s.pcb_ready_queue cpu).tail ≠ none) :
    ∃ s1, pcb_ready_enqueue cfg cpu api s = .ok s1 := by
  have hpush : ∃ r, queue_push_back (s.pcb_ready_queue cpu) s.ready_queue_next api = .ok r := by
    unfold queue_push_back
    split_ifs
    · exact ⟨_, rfl⟩
    · cases hh : (s.pcb_ready_queue cpu).head with
      | none => exact ⟨_, rfl⟩
      | some n =>
        simp only
        cases ht : (s.pcb_ready_queue cpu).tail with
        | none => exact absurd ht (hq (by rw [hh]; simp))
        | some t => exact ⟨_, rfl⟩
  obtain ⟨r, hr⟩ := hpush
  unfold pcb_ready_enqueue
  simp only [fgs_read, hfg, if_true, hhome, ne_eq, not_true_eq_false, if_false, hr]
  by_cases hc : (s.pcbs api).active_usys_count = 0
  · simp only [hc, not_true_eq_false, if_false]
    exact ⟨_, rfl⟩
  · simp only [hc, not_false_eq_true, if_true]
    exact ⟨_, rfl⟩

/-- C20 (amended): for the CCB in slot `i`.  A SENDV on the live CCB makes the `tcp_write` calls of
some `k` rounds, all but the last of which returned `ERR_OK`; the bytes it hands over are
the sum of the lengths of those calls that returned `ERR_OK`; when it returns and the sum
is not zero, `len_xmited` is the old value plus this sum, stored in an `int`; it has
grown by exactly the sum when the old value is a value of `int` and the new one does not
pass `INT_MAX`; and the SENDV returns whenever the assertion of `pcb_ready_enqueue`
holds and the ready queue is well formed.  Along every run in which no entry drains or
allocates the CCB and `len_xmited` plus the bytes handed over does not pass `INT_MAX`,
`len_xmited` grows by exactly the bytes the entries of the run hand over.  A drain of the
CCB leaves `len_xmited = 0`, and the events it emits hold a SENDV_RET exactly when
`len_xmited` was non-zero, with the handle, the cookie and `len_xmited` as it was. -/
theorem sendv_ret_reports_handed (cfg : Config) (i : Nat) :
    (∀ cpu handle nrents env s s0 pcb,
      handle_to_tcpapi cfg cpu handle s = (some i, s0) → (s0.pcbs i).alive ≠ 0 →
      (s0.pcbs i).pcb = some pcb → env.ents_okay = true →
      ∃ k, k ≤ min (nrents % 4294967296) cfg.MAX_SG_ENTRIES ∧
        sendv_loop env i (min (nrents % 4294967296) cfg.MAX_SG_ENTRIES) 0 0 s0
          = .ok (sendv_ok_bytes env k,
              { s0 with calls := s.calls ++ sendv_writes env pcb k }) ∧
        (∀ j, j + 1 < k → env.tcp_write j = err_t.ERR_OK) ∧
        step_handed cfg s i (.sendv cpu handle nrents env) = sendv_ok_bytes env k ∧
        (∀ s1, bsys_tcp_sendv cfg cpu handle nrents env s = .ok s1 →
          (s1.pcbs i).len_xmited
            = (if sendv_ok_bytes env k = 0 then (s.pcbs i).len_xmited
               else int_wrap ((s.pcbs i).len_xmited + (sendv_ok_bytes env k : Int))) ∧
          (-2147483648 ≤ (s.pcbs i).len_xmited →
            (s.pcbs i).len_xmited + (sendv_ok_bytes env k : Int) < 2147483648 →
            (s1.pcbs i).len_xmited
              = (s.pcbs i).len_xmited + (sendv_ok_bytes env k : Int))) ∧
        (handle_to_fg_id (s.pcbs i).handle < cfg.ETH_MAX_TOTAL_FG + cfg.NCPU →
          cfg.fgs_cur_cpu (handle_to_fg_id (s.pcbs i).handle) = cpu →
          ((s.pcb_ready_queue cpu).head ≠ none → (s.pcb_ready_queue cpu).tail ≠ none) →
          ∃ s1, bsys_tcp_sendv cfg cpu handle nrents env s = .ok s1)) ∧
    (∀ tr s s1, run cfg s tr = .ok s1 → run_quiet cfg i s tr = true →
      -2147483648 ≤ (s.pcbs i).len_xmited →
      (s.pcbs i).len_xmited + (run_handed cfg i s tr : Int) < 2147483648 →
      (s1.pcbs i).len_xmited = (s.pcbs i).len_xmited + (run_handed cfg i s tr : Int)) ∧
    (∀ cpu fuel s s1, __tcp_gen_usys cfg cpu i fuel s = .ok s1 →
      (s1.pcbs i).len_xmited = 0 ∧
        ∃ evs, s1.usys_arr cpu = s.usys_arr cpu ++ evs ∧
          ∀ hd c n, usys_event.USYS_TCP_SENDV_RET hd c n ∈ evs ↔
            hd = (s.pcbs i).handle ∧ c = (s.pcbs i).cookie ∧
              n = (s.pcbs i).len_xmited ∧ (s.pcbs i).len_xmited ≠ 0) := by
  refine ⟨?_, xmited_run cfg i, fun cpu fuel s s1 h => (gen_report cfg cpu i fuel s s1 h).2⟩
  intro cpu handle nrents env s s0 pcb hl ha hpcb he
  obtain ⟨k, h1, h2, h3, h4⟩ := bsys_tcp_sendv_live cfg cpu handle nrents env s s0 i pcb hl ha
    hpcb he
  have hs0 := handle_to_tcpapi_state cfg cpu handle i s s0 hl
  have hhand : step_handed cfg s i (.sendv cpu handle nrents env) = sendv_ok_bytes env k := by
    simp only [step_handed, hl, h2, ha, he, ne_eq, not_false_eq_true, and_self, if_true]
  refine ⟨k, h1, h2, fun j hj => (h3 j hj).1, hhand, ?_, ?_⟩
  · intro s1 hs1
    rw [← hhand]
    exact ⟨xmited_sendv_wrap cfg cpu handle nrents env s s1 i hs1,
      xmited_sendv cfg cpu handle nrents env s s1 i hs1⟩
  · intro hfg hhome hq
    rw [h4]
    split_ifs
    · refine pcb_ready_enqueue_returns cfg cpu i _ ?_ ?_ ?_
      · rw [hs0]; simpa [set_pcb, ext, eth_fg_set_current, upd] using hfg
      · rw [hs0]; simpa [set_pcb, ext, eth_fg_set_current, upd] using hhome
      · rw [hs0]; simpa [set_pcb, ext, eth_fg_set_current, upd] using hq
    · exact ⟨_, rfl⟩

/-- The statement of `sendv_ret_reports_handed` for the CCB in slot 1 and the run
`ex_trace_sendv` from `ex_open_state`. -/
theorem sendv_ret_reports_handed_witness :
    (run ex_cfg ex_open_state ex_trace_sendv
        = .ok (run_state ex_cfg ex_open_state ex_trace_sendv) ∧
      run_quiet ex_cfg 1 ex_open_state ex_trace_sendv = true ∧
      -2147483648 ≤ (ex_open_state.pcbs 1).len_xmited ∧
      (ex_open_state.pcbs 1).len_xmited
        + (run_handed ex_cfg 1 ex_open_state ex_trace_sendv : Int) < 2147483648) ∧
    ((run_state ex_cfg ex_open_state ex_trace_sendv).pcbs 1).len_xmited
      = (ex_open_state.pcbs 1).len_xmited
        + (run_handed ex_cfg 1 ex_open_state ex_trace_sendv : Int) :=
  ⟨⟨rfl, by decide, by decide, by decide⟩,
    (sendv_ret_reports_handed ex_cfg 1).2.1 ex_trace_sendv ex_open_state
      (run_state ex_cfg ex_open_state ex_trace_sendv) rfl (by decide) (by decide) (by decide)⟩

/-- In the example the two SENDV hand over 110 and 10 bytes, and the next drain reports
120 bytes in one SENDV_RET, after the SENT event of the callback. -/
theorem sendv_ret_example :
    run_handed ex_cfg 1 ex_open_state ex_trace_sendv = 120 ∧
      ∃ s1, tcp_generate_usys ex_cfg 1 4 (run_state ex_cfg ex_open_state ex_trace_sendv)
          = .ok s1 ∧
        s1.usys_arr 1 = [.USYS_TCP_SENDV_RET ex_handle 0 120, .USYS_TCP_SENT ex_handle 0 10] ∧
        (s1.pcbs 1).len_xmited = 0 := by
  exact ⟨by decide, _, rfl, by decide, by decide⟩

/-! ## C28: the intrusive queue and the list it holds -/

theorem queue_push_back_repr (q : queue) (next : Nat → Option Nat) (l : List Nat) (n : Nat)
    (hq : queue_repr q next l) (hnl : n ∉ l) (hn : next n = none) :
    ∃ q1 next1, queue_push_back q next n = .ok (q1, next1) ∧ queue_repr q1 next1 (l ++ [n]) ∧
      (∀ j, j ∉ l → next1 j = next j) := by
  have hc : queue_contains q next n = false := by
    simp only [queue_contains, hn, Option.isSome_none, Bool.false_or, decide_eq_false_iff_not]
    rw [hq.2]
    intro h
    exact hnl (List.mem_of_getLast?_eq_some h)
  cases l with
  | nil =>
    have hh : q.head = none := hq.1
    refine ⟨{ head := some n, tail := some n }, next,
      by simp [queue_push_back, hc, hh], ?_, fun _ _ => rfl⟩
    exact ⟨by simp [is_chain, hn], by simp⟩
  | cons x xs =>
    have hh : q.head = some x := hq.1.1
    obtain ⟨t, ht⟩ : ∃ t, (x :: xs).getLast? = some t := by
      cases h : (x :: xs).getLast? with
      | none => simp at h
      | some t => exact ⟨t, rfl⟩
    have htl : q.tail = some t := by rw [hq.2, ht]
    have htm : t ∈ x :: xs := List.mem_of_getLast?_eq_some ht
    refine ⟨{ head := q.head, tail := some n }, upd next t (some n),
      by simp [queue_push_back, hc, hh, htl], ⟨?_, ?_⟩, ?_⟩
    · exact is_chain_append next n t hn (x :: xs) _ hq.1 ht hnl
    · show some n = ((x :: xs) ++ [n]).getLast?
      rw [List.getLast?_append]; simp
    · intro j hj
      exact upd_other _ _ _ _ (fun e => hj (e ▸ htm))

theorem queue_pop_front_repr (q : queue) (next : Nat → Option Nat) (x : Nat) (xs : List Nat)
    (hq : queue_repr q next (x :: xs)) :
    ∃ q1, queue_pop_front q next = (some x, q1, upd next x none) ∧
      queue_repr q1 (upd next x none) xs := by
  have hh : q.head = some x := hq.1.1
  have hc : is_chain next (next x) xs := hq.1.2
  have hnd := is_chain_head_not_mem next x xs ⟨rfl, hc⟩
  refine ⟨{ head := next x, tail := if (next x).isNone then none else q.tail },
    by simp [queue_pop_front, queue_front, hh], is_chain_upd next x none xs _ hnd hc, ?_⟩
  cases xs with
  | nil =>
    have : next x = none := hc
    simp [this]
  | cons y ys =>
    have : next x = some y := hc.1
    simp only [this, Option.isNone_some, Bool.false_eq_true, if_false]
    rw [hq.2]
    simp [List.getLast?_cons_cons]

theorem queue_pop_front_empty (q : queue) (next : Nat → Option Nat)
    (hq : queue_repr q next []) : queue_pop_front q next = (none, q, next) := by
  have hh : q.head = none := hq.1
  simp [queue_pop_front, queue_front, hh]

theorem queue_clear_repr (q : queue) (next : Nat → Option Nat) (l : List Nat) (fuel : Nat)
    (hq : queue_repr q next l) (hf : l.length < fuel) :
    ∃ q1 next1, queue_clear fuel q next = .ok (q1, next1) ∧ queue_repr q1 next1 [] ∧
      (∀ j, j ∈ l → next1 j = none) ∧ (∀ j, j ∉ l → next1 j = next j) := by
  obtain ⟨q1, next1, hc, hh, ht, hout, hin⟩ := queue_clear_ok l fuel q next hq.1 hf
  refine ⟨q1, next1, hc, ⟨hh, ?_⟩, hin, hout⟩
  show q1.tail = none
  apply ht
  cases l with
  | nil => right; simpa using hq.2
  | cons x xs => left; simp

theorem queue_push_list_repr :
    ∀ (ns : List Nat) (q : queue) (next : Nat → Option Nat) (l : List Nat),
      queue_repr q next l → ns.Nodup → (∀ n, n ∈ ns → n ∉ l ∧ next n = none) →
      ∃ q1 next1, queue_push_list ns q next = .ok (q1, next1) ∧ queue_repr q1 next1 (l ++ ns)
  | [], q, next, l, hq, _, _ => ⟨q, next, rfl, by simpa using hq⟩
  | n :: ns, q, next, l, hq, hnd, hns => by
    obtain ⟨hn1, hn2⟩ := hns n (by simp)
    obtain ⟨q1, next1, hp, hr, hfr⟩ := queue_push_back_repr q next l n hq hn1 hn2
    have hnd2 := List.nodup_cons.mp hnd
    obtain ⟨q2, next2, hp2, hr2⟩ := queue_push_list_repr ns q1 next1 (l ++ [n]) hr hnd2.2 (by
      intro m hm
      obtain ⟨hm1, hm2⟩ := hns m (List.mem_cons_of_mem _ hm)
      refine ⟨?_, ?_⟩
      · intro hx
        rcases List.mem_append.mp hx with hx | hx
        · exact hm1 hx
        · simp only [List.mem_singleton] at hx
          exact hnd2.1 (hx ▸ hm)
      · rw [hfr m hm1]; exact hm2)
    refine ⟨q2, next2, ?_, by simpa using hr2⟩
    simp only [queue_push_list, hp]
    exact hp2

theorem queue_pop_list_repr :
    ∀ (k : Nat) (q : queue) (next : Nat → Option Nat) (l : List Nat),
      queue_repr q next l → k ≤ l.length →
      (queue_pop_list k q next).1 = (l.take k).map some ∧
        queue_repr (queue_pop_list k q next).2.1 (queue_pop_list k q next).2.2 (l.drop k)
  | 0, q, next, l, hq, _ => by simpa [queue_pop_list] using hq
  | k + 1, q, next, [], _, hk => by simp at hk
  | k + 1, q, next, x :: xs, hq, hk => by
    obtain ⟨q1, hp, hr⟩ := queue_pop_front_repr q next x xs hq
    obtain ⟨h1, h2⟩ := queue_pop_list_repr k q1 (upd next x none) xs hr (by simpa using hk)
    simp only [queue_pop_list, hp, List.take_succ_cons, List.map_cons, List.drop_succ_cons]
    exact ⟨by rw [h1], h2⟩

/-- C28: a well-formed queue holds a list `l` of distinct nodes (`head` starts the
`NULL`-terminated chain through `l`, `tail` is its last node).  `queue_push_back` of a
detached node `n` (its `next` is `NULL`, it is not in `l`) leaves the queue holding
`l ++ [n]`; `queue_pop_front` returns the first node of `l`, detaches it and leaves the
queue holding the rest, and on the empty queue it returns `NULL` and changes nothing;
`queue_clear` returns, leaves the empty queue and every former member detached, and touches
no other node.  So pushing detached nodes `ns` one after the other leaves `l ++ ns`, and
`k` pops return the first `k` nodes of the list in their order. -/
theorem queue_refines_fifo (q : queue) (next : Nat → Option Nat) (l : List Nat)
    (hq : queue_repr q next l) :
    (∀ n, n ∉ l → next n = none →
      ∃ q1 next1, queue_push_back q next n = .ok (q1, next1) ∧
        queue_repr q1 next1 (l ++ [n]) ∧ ∀ j, j ∉ l → next1 j = next j) ∧
    (∀ x xs, l = x :: xs →
      ∃ q1, queue_pop_front q next = (some x, q1, upd next x none) ∧
        queue_repr q1 (upd next x none) xs) ∧
    (l = [] → queue_pop_front q next = (none, q, next)) ∧
    (∀ fuel, l.length < fuel →
      ∃ q1 next1, queue_clear fuel q next = .ok (q1, next1) ∧ q1 = init_queue ∧
        queue_repr q1 next1 [] ∧ (∀ j, j ∈ l → next1 j = none) ∧
        (∀ j, j ∉ l → next1 j = next j)) ∧
    (∀ ns, ns.Nodup → (∀ n, n ∈ ns → n ∉ l ∧ next n = none) →
      ∃ q1 next1, queue_push_list ns q next = .ok (q1, next1) ∧
        queue_repr q1 next1 (l ++ ns)) ∧
    (∀ k, k ≤ l.length →
      (queue_pop_list k q next).1 = (l.take k).map some ∧
        queue_repr (queue_pop_list k q next).2.1 (queue_pop_list k q next).2.2 (l.drop k)) := by
  refine ⟨fun n h1 h2 => queue_push_back_repr q next l n hq h1 h2, ?_, ?_, ?_,
    fun ns h1 h2 => queue_push_list_repr ns q next l hq h1 h2,
    fun k hk => queue_pop_list_repr k q next l hq hk⟩
  · intro x xs e
    subst e
    exact queue_pop_front_repr q next x xs hq
  · intro e
    subst e
    exact queue_pop_front_empty q next hq
  · intro fuel hf
    obtain ⟨q1, next1, hc, hr, h1, h2⟩ := queue_clear_repr q next l fuel hq hf
    refine ⟨q1, next1, hc, ?_, hr, h1, h2⟩
    have hh : q1.head = none := hr.1
    have ht : q1.tail = none := by simpa using hr.2
    cases q1
    simp only [init_queue] at hh ht ⊢
    simp_all

/-- The statement of `queue_refines_fifo` for the queue that holds the nodes 1 and 2. -/
theorem queue_refines_fifo_witness :
    queue_repr { head := some 1, tail := some 2 } (upd (fun _ => none) 1 (some 2)) [1, 2] ∧
      (∃ q1 next1, queue_push_back { head := some 1, tail := some 2 }
          (upd (fun _ => none) 1 (some 2)) 3 = .ok (q1, next1) ∧
        queue_repr q1 next1 ([1, 2] ++ [3]) ∧
        ∀ j, j ∉ [1, 2] → next1 j = upd (fun _ => none) 1 (some 2) j) :=
  ⟨⟨⟨rfl, rfl, rfl⟩, rfl⟩,
    (queue_refines_fifo { head := some 1, tail := some 2 } (upd (fun _ => none) 1 (some 2))
      [1, 2] ⟨⟨rfl, rfl, rfl⟩, rfl⟩).1 3 (by decide) rfl⟩

/-! ## C23, C30: RECV_DONE and the list `recvd` -/

theorem acked_count_le : ∀ (l : List Nat) (len : Nat), acked_count l len ≤ l.length
  | [], _ => by simp [acked_count]
  | x :: xs, len => by
    simp only [acked_count]
    split_ifs
    · simp
    · have := acked_count_le xs (len - x)
      simp only [List.length_cons]
      omega

theorem acked_count_sum : ∀ (l : List Nat) (len : Nat),
    (l.take (acked_count l len)).sum ≤ len
  | [], _ => by simp [acked_count]
  | x :: xs, len => by
    simp only [acked_count]
    split_ifs with h
    · simp
    · have := acked_count_sum xs (len - x)
      simp only [List.take_succ_cons, List.sum_cons]
      omega

theorem acked_count_max : ∀ (l : List Nat) (len : Nat), acked_count l len < l.length →
    len < (l.take (acked_count l len + 1)).sum
  | [], _, h => by simp at h
  | x :: xs, len, h => by
    simp only [acked_count] at h ⊢
    split_ifs at h ⊢ with h1
    · simpa using h1
    · have := acked_count_max xs (len - x) (by simpa using h)
      simp only [List.take_succ_cons, List.sum_cons]
      omega

theorem acked_count_add : ∀ (l : List Nat) (a b : Nat),
    acked_count l (a + b) = acked_count l a +
      acked_count (l.drop (acked_count l a)) (a - (l.take (acked_count l a)).sum + b)
  | [], a, b => by simp [acked_count]
  | x :: xs, a, b => by
    by_cases h : a < x
    · simp [acked_count, h]
    · have h2 : ¬ a + b < x := by omega
      have ih := acked_count_add xs (a - x) b
      have e : a + b - x = a - x + b := by omega
      simp only [acked_count, h, h2, if_false, List.drop_succ_cons, List.take_succ_cons,
        List.sum_cons, e, ih, Nat.sub_add_eq]
      omega

theorem recv_done_loop_spec :
    ∀ (l : List Nat) (fuel : Nat) (p : Option Nat) (len : Nat) (s : State) (k : Nat),
      is_chain (recvd_next s) p l → l.length ≤ fuel →
      k = acked_count (l.map (fun r => (s.pbufs r).len)) len →
      recv_done_loop fuel p len s = .ok
        ((l.drop k).head?, { s with calls := s.calls ++ (l.take k).map ext_call.pbuf_free })
  | [], fuel, p, len, s, k, hc, _, hk => by
    have hp : p = none := hc
    subst hp
    subst hk
    cases fuel <;> simp [recv_done_loop, acked_count]
  | x :: xs, 0, p, len, s, k, _, hf, _ => by simp at hf
  | x :: xs, fuel + 1, p, len, s, k, hc, hf, hk => by
    have hp : p = some x := hc.1
    subst hp
    subst hk
    by_cases h : len < (s.pbufs x).len
    · simp [recv_done_loop, acked_count, h]
    · have hc2 : is_chain (recvd_next (ext (.pbuf_free x) s)) (s.pbufs x).tcp_api_next xs := hc.2
      have ih := recv_done_loop_spec xs fuel _ (len - (s.pbufs x).len) (ext (.pbuf_free x) s) _
        hc2 (by simpa using hf) rfl
      simp only [recv_done_loop, h, if_false, ih, List.map_cons, acked_count,
        List.drop_succ_cons, List.take_succ_cons]
      simp [ext]

theorem is_chain_drop (next : Nat → Option Nat) :
    ∀ (k : Nat) (l : List Nat) (p : Option Nat), is_chain next p l →
      is_chain next (l.drop k).head? (l.drop k)
  | 0, [], p, _ => by simp [is_chain]
  | 0, x :: xs, p, h => by
    simp only [List.drop_zero, List.head?_cons]
    exact ⟨rfl, h.2⟩
  | k + 1, [], p, _ => by simp [is_chain]
  | k + 1, x :: xs, p, h => by
    simp only [List.drop_succ_cons]
    exact is_chain_drop next k xs _ h.2

theorem bsys_tcp_recv_done_spec (cfg : Config) (cpu handle len fuel : Nat) (s s0 : State)
    (api : Nat) (l : List Nat)
    (hl : handle_to_tcpapi cfg cpu handle s = (some api, s0))
    (hc : is_chain (recvd_next s) (s.pcbs api).recvd l) (hf : l.length ≤ fuel) :
    ∃ s1, bsys_tcp_recv_done cfg cpu handle len fuel s = .ok s1 ∧ s1.pbufs = s.pbufs ∧
      (s1.pcbs api).recvd
        = (l.drop (acked_count (l.map (fun r => (s.pbufs r).len)) len)).head? ∧
      (∀ i, i ≠ api → s1.pcbs i = s.pcbs i) ∧
      ((s1.pcbs api).alive = (s.pcbs api).alive ∧ (s1.pcbs api).pcb = (s.pcbs api).pcb) ∧
      s1.calls = s.calls ++
        (match (s.pcbs api).pcb with
         | some pcb => [ext_call.tcp_recved (some (handle_to_fg_id handle)) pcb len]
         | none => []) ++
        (l.take (acked_count (l.map (fun r => (s.pbufs r).len)) len)).map
          ext_call.pbuf_free := by
  have e0 := handle_to_tcpapi_state cfg cpu handle api s s0 hl
  subst e0
  cases hp : (s.pcbs api).pcb with
  | none =>
    have hsp := recv_done_loop_spec l fuel _ len (eth_fg_set_current cpu (handle_to_fg_id handle) s)
      _ hc hf rfl
    refine ⟨?_, ?_, ?_, ?_, ?_, ?_, ?_⟩
    rotate_left
    · simp only [bsys_tcp_recv_done, hl]
      simp only [eth_fg_set_current] at hp hsp ⊢
      rw [hp]
      simp only [eth_fg_set_current, hsp]
      exact rfl
    · rfl
    · simp [set_pcb, upd]
    · intro i hi
      simp [set_pcb, upd, hi, eth_fg_set_current]
    · simp [set_pcb, upd, eth_fg_set_current, hp]
    · simp [set_pcb, eth_fg_set_current]
  | some pcb =>
    have hsp := recv_done_loop_spec l fuel _ len
      (ext (.tcp_recved (some (handle_to_fg_id handle)) pcb len)
        (eth_fg_set_current cpu (handle_to_fg_id handle) s)) _ hc hf rfl
    refine ⟨?_, ?_, ?_, ?_, ?_, ?_, ?_⟩
    rotate_left
    · simp only [bsys_tcp_recv_done, hl]
      simp only [eth_fg_set_current] at hp hsp ⊢
      rw [hp]
      simp only [eth_fg_set_current, hsp]
      exact rfl
    · rfl
    · simp [set_pcb, upd, ext]
    · intro i hi
      simp [set_pcb, upd, hi, eth_fg_set_current, ext]
    · simp [set_pcb, upd, eth_fg_set_current, ext, hp]
    · simp [set_pcb, eth_fg_set_current, ext]

theorem sum_take_mono : ∀ (l : List Nat) (k m : Nat), k ≤ m → (l.take k).sum ≤ (l.take m).sum
  | [], _, _, _ => by simp
  | x :: xs, 0, _, _ => by simp
  | x :: xs, k + 1, 0, h => by omega
  | x :: xs, k + 1, m + 1, h => by
    have := sum_take_mono xs k m (by omega)
    simp only [List.take_succ_cons, List.sum_cons]
    omega

theorem acked_count_boundary (l : List Nat) (a k : Nat) (hk : k ≤ l.length)
    (ha : (l.take k).sum = a) : (l.take (acked_count l a)).sum = a := by
  have h1 := acked_count_sum l a
  have h2 := acked_count_le l a
  by_cases hlt : acked_count l a < k
  · have h3 := acked_count_max l a (by omega)
    have h4 := sum_take_mono l (acked_count l a + 1) k (by omega)
    omega
  · have h4 := sum_take_mono l k (acked_count l a) (by omega)
    omega

theorem handle_to_tcpapi_alive (cfg : Config) (cpu handle : Nat) (s s1 : State)
    (h : (s1.pcbs (handle_to_idx handle)).alive = (s.pcbs (handle_to_idx handle)).alive) :
    (handle_to_tcpapi cfg cpu handle s1).1 = (handle_to_tcpapi cfg cpu handle s).1 := by
  unfold handle_to_tcpapi
  rw [h]
  split_ifs <;> rfl

/-- C23: RECV_DONE for a handle that names the CCB `api` whose list `recvd` is the
`NULL`-terminated chain of the buffers `l`.  The handler returns; it frees exactly the
first `k` buffers of `l`, where `k` is the length of the longest initial part of `l` whose
lengths sum to at most `len` (the sum of the first `k` lengths is at most `len`, and when a
buffer is left, the sum of the first `k + 1` lengths is more than `len`); the calls it
makes are `tcp_recved`, when the CCB has a TCP-core connection, and one `pbuf_free` for each
of these buffers in order; it leaves every buffer as it was and `recvd` as the chain of the
other buffers of `l` in their order. -/
theorem recv_done_frees_longest_head (cfg : Config) (cpu handle len fuel : Nat) (s : State)
    (api : Nat) (l : List Nat)
    (hl : (handle_to_tcpapi cfg cpu handle s).1 = some api)
    (hc : is_chain (recvd_next s) (s.pcbs api).recvd l) (hf : l.length ≤ fuel) :
    ∃ k s1, k ≤ l.length ∧
      ((l.take k).map (fun r => (s.pbufs r).len)).sum ≤ len ∧
      (k < l.length → len < ((l.take (k + 1)).map (fun r => (s.pbufs r).len)).sum) ∧
      bsys_tcp_recv_done cfg cpu handle len fuel s = .ok s1 ∧
      s1.pbufs = s.pbufs ∧ is_chain (recvd_next s1) (s1.pcbs api).recvd (l.drop k) ∧
      s1.calls = s.calls ++
        (match (s.pcbs api).pcb with
         | some pcb => [ext_call.tcp_recved (some (handle_to_fg_id handle)) pcb len]
         | none => []) ++ (l.take k).map ext_call.pbuf_free := by
  obtain ⟨hl1, -, -, -⟩ := handle_to_tcpapi_some cfg cpu handle api s hl
  obtain ⟨s1, hr, hp, hrec, -, -, hcalls⟩ :=
    bsys_tcp_recv_done_spec cfg cpu handle len fuel s _ api l hl1 hc hf
  have hle := acked_count_le (l.map (fun r => (s.pbufs r).len)) len
  rw [List.length_map] at hle
  refine ⟨acked_count (l.map (fun r => (s.pbufs r).len)) len, s1, hle, ?_, ?_, hr, hp, ?_,
    hcalls⟩
  · rw [List.map_take]
    exact acked_count_sum _ len
  · intro hlt
    rw [List.map_take]
    exact acked_count_max _ len (by rw [List.length_map]; exact hlt)
  · rw [hrec]
    have e : recvd_next s1 = recvd_next s := by
      funext p
      simp only [recvd_next, hp]
    rw [e]
    exact is_chain_drop _ _ l _ hc

/-- The statement of `recv_done_frees_longest_head` for RECV_DONE of 10 bytes in
`ex_recv_state`, where `recvd` holds the buffers 5 and 7 of 10 bytes each. -/
theorem recv_done_frees_longest_head_witness :
    ((handle_to_tcpapi ex_cfg 1 ex_handle ex_recv_state).1 = some 1 ∧
      is_chain (recvd_next ex_recv_state) (ex_recv_state.pcbs 1).recvd [5, 7]) ∧
    ∃ k s1, k ≤ [5, 7].length ∧
      (([5, 7].take k).map (fun r => (ex_recv_state.pbufs r).len)).sum ≤ 10 ∧
      (k < [5, 7].length →
        10 < (([5, 7].take (k + 1)).map (fun r => (ex_recv_state.pbufs r).len)).sum) ∧
      bsys_tcp_recv_done ex_cfg 1 ex_handle 10 4 ex_recv_state = .ok s1 ∧
      s1.pbufs = ex_recv_state.pbufs ∧
      is_chain (recvd_next s1) (s1.pcbs 1).recvd ([5, 7].drop k) ∧
      s1.calls = ex_recv_state.calls ++
        (match (ex_recv_state.pcbs 1).pcb with
         | some pcb => [ext_call.tcp_recved (some (handle_to_fg_id ex_handle)) pcb 10]
         | none => []) ++ ([5, 7].take k).map ext_call.pbuf_free :=
  ⟨⟨by decide, by decide, by decide, (by decide : recvd_next ex_recv_state 7 = none)⟩,
    recv_done_frees_longest_head ex_cfg 1 ex_handle 10 4 ex_recv_state 1 [5, 7] (by decide)
      ⟨by decide, by decide, (by decide : recvd_next ex_recv_state 7 = none)⟩ (by decide)⟩

/-- C30 as stated fails on the code: in `ex_recv_state` the list `recvd` holds two buffers
of 10 bytes; RECV_DONE(5) followed by RECV_DONE(5) frees nothing and leaves `recvd` at the
first buffer, a single RECV_DONE(10) frees the first buffer and leaves `recvd` at the
second. -/
theorem recv_done_split_counterexample :
    run ex_cfg ex_init ex_trace_recv = .ok ex_recv_state ∧
    is_chain (recvd_next ex_recv_state) (ex_recv_state.pcbs 1).recvd [5, 7] ∧
    (ex_recv_state.pbufs 5).len = 10 ∧ (ex_recv_state.pbufs 7).len = 10 ∧
    (∃ s1 s2, bsys_tcp_recv_done ex_cfg 1 ex_handle 5 4 ex_recv_state = .ok s1 ∧
      bsys_tcp_recv_done ex_cfg 1 ex_handle 5 4 s1 = .ok s2 ∧ (s2.pcbs 1).recvd = some 5 ∧
      s2.calls = ex_recv_state.calls ++
        [.tcp_recved (some 1) 7 5, .tcp_recved (some 1) 7 5]) ∧
    (∃ s3, bsys_tcp_recv_done ex_cfg 1 ex_handle (5 + 5) 4 ex_recv_state = .ok s3 ∧
      (s3.pcbs 1).recvd = some 7 ∧
      s3.calls = ex_recv_state.calls ++ [.tcp_recved (some 1) 7 10, .pbuf_free 5]) := by
  refine ⟨rfl, ⟨by decide, by decide, (by decide : recvd_next ex_recv_state 7 = none)⟩,
    by decide, by decide,
    ⟨run_state ex_cfg ex_recv_state [.recv_done 1 ex_handle 5 4],
      run_state ex_cfg ex_recv_state [.recv_done 1 ex_handle 5 4, .recv_done 1 ex_handle 5 4],
      rfl, rfl, by decide, by decide⟩,
    ⟨run_state ex_cfg ex_recv_state [.recv_done 1 ex_handle 10 4], rfl, by decide, by decide⟩⟩

/-- C30, as the code has it: RECV_DONE(a) followed by RECV_DONE(b) leaves the same list
`recvd` and has freed the same buffers as a single RECV_DONE(a + b) whenever `a` is the
total length of some of the first buffers of `recvd`, that is, whenever the first
acknowledgement ends where a buffer ends. -/
theorem recv_done_split_at_boundary (cfg : Config) (cpu handle a b fuel : Nat) (s : State)
    (api : Nat) (l : List Nat)
    (hl : (handle_to_tcpapi cfg cpu handle s).1 = some api)
    (hc : is_chain (recvd_next s) (s.pcbs api).recvd l) (hf : l.length ≤ fuel)
    (ha : ∃ k, k ≤ l.length ∧ ((l.take k).map (fun r => (s.pbufs r).len)).sum = a) :
    ∃ s1 s2 s3, bsys_tcp_recv_done cfg cpu handle a fuel s = .ok s1 ∧
      bsys_tcp_recv_done cfg cpu handle b fuel s1 = .ok s2 ∧
      bsys_tcp_recv_done cfg cpu handle (a + b) fuel s = .ok s3 ∧
      (s2.pcbs api).recvd = (s3.pcbs api).recvd ∧ s2.pbufs = s3.pbufs ∧
      ∃ k1 k2 r1 r2 r3,
        s1.calls = s.calls ++ r1 ++ (l.take k1).map ext_call.pbuf_free ∧
        s2.calls = s1.calls ++ r2 ++ ((l.drop k1).take k2).map ext_call.pbuf_free ∧
        s3.calls = s.calls ++ r3 ++ (l.take (k1 + k2)).map ext_call.pbuf_free ∧
        (∀ c, c ∈ r1 ++ r2 ++ r3 → ∀ p, c ≠ ext_call.pbuf_free p) := by
  obtain ⟨hl1, hidx, -, -⟩ := handle_to_tcpapi_some cfg cpu handle api s hl
  obtain ⟨k, hk, hka⟩ := ha
  obtain ⟨s1, hr1, hp1, hrec1, -, ⟨hal1, hpcb1⟩, hcalls1⟩ :=
    bsys_tcp_recv_done_spec cfg cpu handle a fuel s _ api l hl1 hc hf
  have hle1 := acked_count_le (l.map (fun r => (s.pbufs r).len)) a
  have hnx : recvd_next s1 = recvd_next s := by
    funext p
    simp only [recvd_next, hp1]
  have hc1 : is_chain (recvd_next s1) (s1.pcbs api).recvd
      (l.drop (acked_count (l.map (fun r => (s.pbufs r).len)) a)) := by
    rw [hrec1, hnx]
    exact is_chain_drop _ _ l _ hc
  have hl2 : (handle_to_tcpapi cfg cpu handle s1).1 = some api := by
    rw [handle_to_tcpapi_alive cfg cpu handle s s1 (by rw [← hidx]; exact hal1), hl]
  obtain ⟨hl3, -, -, -⟩ := handle_to_tcpapi_some cfg cpu handle api s1 hl2
  obtain ⟨s2, hr2, hp2, hrec2, -, -, hcalls2⟩ :=
    bsys_tcp_recv_done_spec cfg cpu handle b fuel s1 _ api _ hl3 hc1
      (by rw [List.length_drop]; omega)
  obtain ⟨s3, hr3, hp3, hrec3, -, -, hcalls3⟩ :=
    bsys_tcp_recv_done_spec cfg cpu handle (a + b) fuel s _ api l hl1 hc hf
  have hb := acked_count_boundary (l.map (fun r => (s.pbufs r).len)) a k
    (by rw [List.length_map]; exact hk) (by rw [← List.map_take]; exact hka)
  have hadd := acked_count_add (l.map (fun r => (s.pbufs r).len)) a b
  rw [hb, Nat.sub_self, Nat.zero_add] at hadd
  have hk2 : acked_count ((l.drop (acked_count (l.map (fun r => (s.pbufs r).len)) a)).map
      (fun r => (s1.pbufs r).len)) b
      = acked_count ((l.map (fun r => (s.pbufs r).len)).drop
          (acked_count (l.map (fun r => (s.pbufs r).len)) a)) b := by
    rw [hp1, List.map_drop]
  rw [hadd, ← hk2] at hcalls3
  refine ⟨s1, s2, s3, hr1, hr2, hr3, ?_, by rw [hp2, hp3, hp1], _, _, _, _, _, hcalls1,
    hcalls2, hcalls3, ?_⟩
  · rw [hrec2, hrec3, hadd, hk2, List.drop_drop, Nat.add_comm]
  · intro c hm p
    rcases List.mem_append.mp hm with hm | hm
    · rcases List.mem_append.mp hm with hm | hm
      · cases hx : (s.pcbs api).pcb with
        | none => rw [hx] at hm; cases hm
        | some q =>
          rw [hx] at hm
          simp only [List.mem_singleton] at hm
          rw [hm]
          exact fun e => by cases e
      · cases hx : (s1.pcbs api).pcb with
        | none => rw [hx] at hm; cases hm
        | some q =>
          rw [hx] at hm
          simp only [List.mem_singleton] at hm
          rw [hm]
          exact fun e => by cases e
    · cases hx : (s.pcbs api).pcb with
      | none => rw [hx] at hm; cases hm
      | some q =>
        rw [hx] at hm
        simp only [List.mem_singleton] at hm
        rw [hm]
        exact fun e => by cases e

/-- The statement of `recv_done_split_at_boundary` in `ex_recv_state` for RECV_DONE(10)
followed by RECV_DONE(10): both buffers are freed, as by RECV_DONE(20). -/
theorem recv_done_split_at_boundary_witness :
    ((handle_to_tcpapi ex_cfg 1 ex_handle ex_recv_state).1 = some 1 ∧
      is_chain (recvd_next ex_recv_state) (ex_recv_state.pcbs 1).recvd [5, 7] ∧
      (([5, 7].take 1).map (fun r => (ex_recv_state.pbufs r).len)).sum = 10) ∧
    ∃ s1 s2 s3, bsys_tcp_recv_done ex_cfg 1 ex_handle 10 4 ex_recv_state = .ok s1 ∧
      bsys_tcp_recv_done ex_cfg 1 ex_handle 10 4 s1 = .ok s2 ∧
      bsys_tcp_recv_done ex_cfg 1 ex_handle (10 + 10) 4 ex_recv_state = .ok s3 ∧
      (s2.pcbs 1).recvd = (s3.pcbs 1).recvd ∧ s2.pbufs = s3.pbufs ∧
      ∃ k1 k2 r1 r2 r3,
        s1.calls = ex_recv_state.calls ++ r1 ++ ([5, 7].take k1).map ext_call.pbuf_free ∧
        s2.calls = s1.calls ++ r2 ++ (([5, 7].drop k1).take k2).map ext_call.pbuf_free ∧
        s3.calls = ex_recv_state.calls ++ r3 ++ ([5, 7].take (k1 + k2)).map ext_call.pbuf_free ∧
        (∀ c, c ∈ r1 ++ r2 ++ r3 → ∀ p, c ≠ ext_call.pbuf_free p) :=
  ⟨⟨by decide, ⟨by decide, by decide, (by decide : recvd_next ex_recv_state 7 = none)⟩,
      by decide⟩,
    recv_done_split_at_boundary ex_cfg 1 ex_handle 10 10 4 ex_recv_state 1 [5, 7] (by decide)
      ⟨by decide, by decide, (by decide : recvd_next ex_recv_state 7 = none)⟩ (by decide)
      ⟨1, by decide, by decide⟩⟩

/-! ## C24, C25: failures of CONNECT and of the accept callback -/

/-- C24 fails on the code: when `tcp_bind` or `tcp_connect` fails, `bsys_tcp_connect`
aborts the TCP-core connection and reports `-RET_NOMEM`, and the CCB it had allocated stays
allocated (slot 0 is no longer in the pool of CPU 0, its first word is 1 and its handle is
found by `handle_to_tcpapi`), also after the next acknowledgement. -/
theorem connect_failure_leaks_ccb :
    ex_init.pcb_mempool 0 = [0, 2] ∧
    (∃ s1, bsys_tcp_connect ex_cfg 0 5 10 ex_connect_env_bind ex_init = .ok s1 ∧
      s1.pcb_mempool 0 = [2] ∧ (s1.pcbs 0).alive = 1 ∧
      (handle_to_tcpapi ex_cfg 0 (s1.pcbs 0).handle s1).1 = some 0 ∧
      s1.usys_arr 0 = [.KSYS_RET KSYS_TCP_CONNECT (-RET_NOMEM) 0] ∧
      s1.calls.getLast? = some (.tcp_abort (some 2) 7) ∧
      ∃ s2, step ex_cfg s1 (.finish 0) = .ok s2 ∧ s2.pcb_mempool 0 = [2]) ∧
    (∃ s1, bsys_tcp_connect ex_cfg 0 5 10 ex_connect_env_conn ex_init = .ok s1 ∧
      s1.pcb_mempool 0 = [2] ∧ (s1.pcbs 0).alive = 1 ∧
      (handle_to_tcpapi ex_cfg 0 (s1.pcbs 0).handle s1).1 = some 0 ∧
      s1.usys_arr 0 = [.KSYS_RET KSYS_TCP_CONNECT (-RET_NOMEM) 0] ∧
      s1.calls.getLast? = some (.tcp_abort (some 2) 7) ∧
      ∃ s2, step ex_cfg s1 (.finish 0) = .ok s2 ∧ s2.pcb_mempool 0 = [2]) := by
  refine ⟨rfl,
    ⟨run_state ex_cfg ex_init [.connect 0 5 10 ex_connect_env_bind], rfl, by decide, by decide,
      by decide, by decide, by decide,
      run_state ex_cfg ex_init [.connect 0 5 10 ex_connect_env_bind, .finish 0], rfl,
      by decide⟩,
    ⟨run_state ex_cfg ex_init [.connect 0 5 10 ex_connect_env_conn], rfl, by decide, by decide,
      by decide, by decide, by decide,
      run_state ex_cfg ex_init [.connect 0 5 10 ex_connect_env_conn, .finish 0], rfl,
      by decide⟩⟩

/-- C25: when the CCB pool or the identity pool of the CPU is empty, `on_accept` returns
`ERR_MEM`; both pools, every ready queue, every `next` field of the ready queues, the
event arrays, the record of outside calls and every CCB that is not a free element of the
pool are as they were before the callback. -/
theorem on_accept_atomic_on_exhaustion (cfg : Config) (cpu cur_fg : Nat) (t : tcp_pcb_info)
    (s : State) (h : s.pcb_mempool cpu = [] ∨ s.id_mempool cpu = []) :
    ∃ s1, on_accept cfg cpu cur_fg t s = .ok (err_t.ERR_MEM, s1) ∧
      s1.pcb_mempool = s.pcb_mempool ∧ s1.id_mempool = s.id_mempool ∧
      s1.pcb_ready_queue = s.pcb_ready_queue ∧ s1.ready_queue_next = s.ready_queue_next ∧
      s1.usys_arr = s.usys_arr ∧ s1.calls = s.calls ∧
      ∀ i, i ∉ s.pcb_mempool cpu → s1.pcbs i = s.pcbs i := by
  cases hp : s.pcb_mempool cpu with
  | nil =>
    refine ⟨s, ?_, rfl, rfl, rfl, rfl, rfl, rfl, fun _ _ => rfl⟩
    simp [on_accept, mempool_alloc, hp]
  | cons api rest =>
    have hid : s.id_mempool cpu = [] := by
      rcases h with h | h
      · rw [hp] at h; cases h
      · exact h
    refine ⟨pcb_mempool_free cfg cpu api { s with pcb_mempool := upd s.pcb_mempool cpu rest },
      ?_, ?_, rfl, rfl, rfl, rfl, rfl, ?_⟩
    · simp [on_accept, mempool_alloc, hp, hid]
    · funext c
      by_cases hc : c = cpu
      · subst hc
        simp [pcb_mempool_free, upd, hp]
      · simp [pcb_mempool_free, upd, hc]
    · intro i hi
      have hne : i ≠ api := fun e => hi (by rw [e]; simp)
      simp [pcb_mempool_free, upd, hne]

/-- The statement of `on_accept_atomic_on_exhaustion` on CPU 0 of the example, with CCBs
left in the pool and no identity record. -/
theorem on_accept_atomic_on_exhaustion_witness :
    (init_state ex_cfg ex_pool (fun _ => []) ex_pbufs).id_mempool 0 = [] ∧
    ∃ s1, on_accept ex_cfg 0 0 (tcp_pcb_info.mk 7 1 2 3)
          (init_state ex_cfg ex_pool (fun _ => []) ex_pbufs) = .ok (err_t.ERR_MEM, s1) ∧
      s1.pcb_mempool = (init_state ex_cfg ex_pool (fun _ => []) ex_pbufs).pcb_mempool ∧
      s1.id_mempool = (init_state ex_cfg ex_pool (fun _ => []) ex_pbufs).id_mempool ∧
      s1.pcb_ready_queue = (init_state ex_cfg ex_pool (fun _ => []) ex_pbufs).pcb_ready_queue ∧
      s1.ready_queue_next = (init_state ex_cfg ex_pool (fun _ => []) ex_pbufs).ready_queue_next ∧
      s1.usys_arr = (init_state ex_cfg ex_pool (fun _ => []) ex_pbufs).usys_arr ∧
      s1.calls = (init_state ex_cfg ex_pool (fun _ => []) ex_pbufs).calls ∧
      ∀ i, i ∉ (init_state ex_cfg ex_pool (fun _ => []) ex_pbufs).pcb_mempool 0 →
        s1.pcbs i = (init_state ex_cfg ex_pool (fun _ => []) ex_pbufs).pcbs i :=
  ⟨rfl, on_accept_atomic_on_exhaustion ex_cfg 0 0 (tcp_pcb_info.mk 7 1 2 3)
    (init_state ex_cfg ex_pool (fun _ => []) ex_pbufs) (Or.inr rfl)⟩

/-! ## C29: the search for a local port -/

theorem toeplitz_split (key : Nat → Nat) (a b c d : Nat) :
    compute_toeplitz_hash key a b c d
      = ([10, 11].foldl (fun st i =>
          [128, 64, 32, 16, 8, 4, 2, 1].foldl
            (fun st j => toeplitz_bit key (toeplitz_input a b c d) i j st) st)
          ((List.range 10).foldl (fun st i =>
            [128, 64, 32, 16, 8, 4, 2, 1].foldl
              (fun st j => toeplitz_bit key (toeplitz_input a b c d) i j st) st)
            (0, bswap32 (key 0 ||| (key 1 <<< 8) ||| (key 2 <<< 16) ||| (key 3 <<< 24))))).1 := by
  unfold compute_toeplitz_hash
  simp only []
  rw [show (12 : Nat) = 10 + 1 + 1 from rfl, List.range_succ, List.range_succ,
    List.foldl_append, List.foldl_append]
  rfl

theorem toeplitz_bit_congr (key input input1 : Nat → Nat) (i j : Nat) (st : Nat × Nat)
    (h : input i = input1 i) : toeplitz_bit key input i j st = toeplitz_bit key input1 i j st := by
  unfold toeplitz_bit
  rw [h]

theorem toeplitz_bytes_congr (key input input1 : Nat → Nat) (init : Nat × Nat) :
    ∀ n, (∀ i, i < n → input i = input1 i) →
      (List.range n).foldl (fun st i =>
        [128, 64, 32, 16, 8, 4, 2, 1].foldl
          (fun st j => toeplitz_bit key input i j st) st) init
      = (List.range n).foldl (fun st i =>
        [128, 64, 32, 16, 8, 4, 2, 1].foldl
          (fun st j => toeplitz_bit key input1 i j st) st) init
  | 0, _ => rfl
  | n + 1, h => by
    rw [List.range_succ, List.foldl_append, List.foldl_append,
      toeplitz_bytes_congr key input input1 init n (fun i hi => h i (by omega))]
    simp only [List.foldl]
    rw [toeplitz_bit_congr key input input1 n 128 _ (h n (by omega)),
      toeplitz_bit_congr key input input1 n 64 _ (h n (by omega)),
      toeplitz_bit_congr key input input1 n 32 _ (h n (by omega)),
      toeplitz_bit_congr key input input1 n 16 _ (h n (by omega)),
      toeplitz_bit_congr key input input1 n 8 _ (h n (by omega)),
      toeplitz_bit_congr key input input1 n 4 _ (h n (by omega)),
      toeplitz_bit_congr key input input1 n 2 _ (h n (by omega)),
      toeplitz_bit_congr key input input1 n 1 _ (h n (by omega))]

theorem toeplitz_input_first_bytes (a b c d i : Nat) (h : i < 10) :
    toeplitz_input a b c d i = toeplitz_input a b c 0 i := by
  unfold toeplitz_input
  split_ifs <;> rfl

theorem ex_search_first_bytes (d : Nat) :
    (List.range 10).foldl (fun st i =>
        [128, 64, 32, 16, 8, 4, 2, 1].foldl
          (fun st j => toeplitz_bit ex_rss_key_rev
            (toeplitz_input (bswap32 9) (bswap32 1) (bswap16 80) d) i j st) st)
        (0, bswap32 (ex_rss_key_rev 0 ||| (ex_rss_key_rev 1 <<< 8) |||
          (ex_rss_key_rev 2 <<< 16) ||| (ex_rss_key_rev 3 <<< 24)))
      = (0, 0) := by
  rw [toeplitz_bytes_congr ex_rss_key_rev _ (toeplitz_input (bswap32 9) (bswap32 1) (bswap16 80) 0)
    _ 10 (fun i hi => toeplitz_input_first_bytes _ _ _ d i hi)]
  decide

theorem ex_search_cycle_bytes : ∀ p, p < 2047 →
    (if ([10, 11].foldl (fun st i =>
          [128, 64, 32, 16, 8, 4, 2, 1].foldl
            (fun st j => toeplitz_bit ex_rss_key_rev
              (toeplitz_input (bswap32 9) (bswap32 1) (bswap16 80) (bswap16 (p + 2))) i j st) st)
          (0, 0)).1 &&& ((4096 + 2 ^ 32 - 1) % 2 ^ 32) = 2048 then 0 else 1) ≠ 0 := by
  decide!

theorem ex_search_cycle (q : Nat) (hq : q < 2047) :
    ex_cfg_search.fgs_cur_cpu (port_fg_idx ex_cfg_search { ex_tuple with src_port := q + 2 })
      ≠ 0 := by
  have h := ex_search_cycle_bytes q hq
  show (if compute_toeplitz_hash ex_rss_key_rev (bswap32 9) (bswap32 1) (bswap16 80)
      (bswap16 (q + 2)) &&& ((4096 + 2 ^ 32 - 1) % 2 ^ 32) = 2048 then 0 else 1) ≠ 0
  rw [toeplitz_split, ex_search_first_bytes]
  exact h

theorem ex_search_loops :
    ∀ (fuel p : Nat) (s : State), 2 ≤ p → p ≤ 2048 → s.local_port 0 = p →
      port_search ex_cfg_search 0 fuel { ex_tuple with src_port := p } s
        = .error Fault.out_of_fuel
  | 0, _, _, _, _, _ => rfl
  | fuel + 1, p, s, h2, h3, hp => by
    have hl := port_fg_idx_lt ex_cfg_search { ex_tuple with src_port := p } (by decide)
      (by decide)
    have hown : ex_cfg_search.fgs_cur_cpu
        (port_fg_idx ex_cfg_search { ex_tuple with src_port := p }) ≠ 0 := by
      have := ex_search_cycle (p - 2) (by omega)
      rwa [show p - 2 + 2 = p by omega] at this
    have hnb : ex_cfg_search.nb_rx_fgs = 4096 := rfl
    have htab : ex_cfg_search.ETH_MAX_TOTAL_FG + ex_cfg_search.NCPU = 4098 := rfl
    obtain ⟨s1, h1, e⟩ := port_search_miss ex_cfg_search 0 fuel { ex_tuple with src_port := p } s
      hl (by omega) hown
    rw [e]
    refine ex_search_loops fuel (next_port 0 (s.local_port 0)) s1 ?_ ?_ h1
    · rw [hp]
      unfold next_port PORTS_PER_CPU
      split_ifs <;> omega
    · rw [hp]
      unfold next_port PORTS_PER_CPU
      split_ifs <;> omega

/-- C29 fails on the code: under `ex_cfg_search` the flow director rejects the filter, RSS
is available, and of the ports 0 .. 2047 reserved for CPU 0 exactly port 1 hashes to a flow
group owned by CPU 0.  The first call of `get_local_port_and_set_queue` returns port 1 and
leaves the counter at 1; from this value of the counter the loop tries the ports 2 .. 2048
over and over (the wrap sets the counter to 1 and the increment makes the next port 2), so
the call does not return within any number of rounds, and neither does CONNECT. -/
theorem port_search_skips_owned_port :
    get_local_port_and_set_queue ex_cfg_search 0 1 ex_tuple ex_connect_env_rss ex_init_search
      = .ok (some 2048, { ex_tuple with src_port := 1 }, ex_search_state) ∧
    ex_search_state.local_port 0 = 1 ∧
    (0 * PORTS_PER_CPU ≤ 1 ∧ 1 ≤ (0 + 1) * PORTS_PER_CPU - 1 ∧
      port_fg_idx ex_cfg_search { ex_tuple with src_port := 1 } < ex_cfg_search.nb_rx_fgs ∧
      ex_cfg_search.fgs_cur_cpu (port_fg_idx ex_cfg_search { ex_tuple with src_port := 1 })
        = 0) ∧
    (∀ fuel, get_local_port_and_set_queue ex_cfg_search 0 fuel ex_tuple ex_connect_env_rss
      ex_search_state = .error Fault.out_of_fuel) ∧
    ∀ fuel, step ex_cfg_search ex_search_state (.connect 0 5 fuel ex_connect_env_rss)
      = .error Fault.out_of_fuel := by
  have hloop : ∀ fuel, get_local_port_and_set_queue ex_cfg_search 0 fuel ex_tuple
      ex_connect_env_rss ex_search_state = .error Fault.out_of_fuel := by
    intro fuel
    obtain ⟨s3, h3, e⟩ := get_local_port_search ex_cfg_search 0 fuel ex_tuple ex_connect_env_rss
      ex_search_state (by decide) rfl rfl
    rw [e]
    have hf : first_port 0 ex_search_state = 2 := by decide
    rw [hf] at h3
    exact ex_search_loops fuel 2 s3 (by omega) (by omega) h3
  refine ⟨rfl, by decide, ⟨by decide, by decide, by decide, by decide⟩, hloop, ?_⟩
  intro fuel
  have e : step ex_cfg_search ex_search_state (.connect 0 5 fuel ex_connect_env_rss)
      = bsys_tcp_connect ex_cfg_search 0 5 fuel ex_connect_env_rss ex_search_state := rfl
  rw [e]
  unfold bsys_tcp_connect
  have hu : ex_connect_env_rss.user_id = some (ip_tuple.mk 0 9 0 80) := rfl
  simp only [hu]
  have ht : ({ (ip_tuple.mk 0 9 0 80) with src_ip := ex_cfg_search.host_addr } : ip_tuple)
      = ex_tuple := rfl
  rw [ht, hloop fuel]

/-! ## The effect of the emission on the state -/

theorem gen_frame_refl (s : State) : gen_frame s s := ⟨rfl, rfl, rfl, rfl, rfl, rfl⟩

theorem gen_frame_trans (s s1 s2 : State) (h1 : gen_frame s s1) (h2 : gen_frame s1 s2) :
    gen_frame s s2 := by
  unfold gen_frame at *
  refine ⟨?_, ?_, ?_, ?_, ?_, ?_⟩
  · rw [h2.1, h1.1]
  · rw [h2.2.1, h1.2.1]
  · rw [h2.2.2.1, h1.2.2.1]
  · rw [h2.2.2.2.1, h1.2.2.2.1]
  · rw [h2.2.2.2.2.1, h1.2.2.2.2.1]
  · rw [h2.2.2.2.2.2, h1.2.2.2.2.2]

theorem inc_active_pcbs (api : Nat) (s : State) :
    (inc_active api s).pcbs = upd s.pcbs api (pcb_add_active (s.pcbs api) 1) := by
  simp [inc_active, set_pcb, pcb_add_active]

theorem recv_link_step_effect (cfg : Config) (cpu api p : Nat) (s : State) :
    (recv_link_step cfg cpu api p s).pcbs = upd s.pcbs api (pcb_add_active (s.pcbs api) 1) ∧
      (recv_link_step cfg cpu api p s).usys_arr = upd s.usys_arr cpu
        (s.usys_arr cpu ++ [recv_event cfg (s.pcbs api) (s.pbufs p)]) ∧
      (recv_link_step cfg cpu api p s).pbuf_for_usys_next = s.pbuf_for_usys_next ∧
      gen_frame s (recv_link_step cfg cpu api p s) := by
  refine ⟨?_, (recv_link_step_spec cfg cpu api p s).1, rfl, rfl, rfl, rfl, rfl, rfl, rfl⟩
  simp [recv_link_step, inc_active, set_pcb, pcb_add_active, usys_emit]

theorem gen_recv_chain_effect (cfg : Config) (cpu api : Nat) :
    ∀ (fuel p : Nat) (s s1 : State), gen_recv_chain cfg cpu api fuel p s = .ok s1 →
      ∃ R, (∀ e, e ∈ R → ∃ addr len,
          e = usys_event.USYS_TCP_RECV (s.pcbs api).handle (s.pcbs api).cookie addr len) ∧
        s1.pcbs = upd s.pcbs api (pcb_add_active (s.pcbs api) R.length) ∧
        s1.usys_arr = upd s.usys_arr cpu (s.usys_arr cpu ++ R) ∧
        s1.pbuf_for_usys_next = s.pbuf_for_usys_next ∧ gen_frame s s1
  | 0, _, _, _, h => by simp [gen_recv_chain] at h
  | fuel + 1, p, s, s1, h => by
    rw [gen_recv_chain_succ] at h
    obtain ⟨a1, a2, a3, a4⟩ := recv_link_step_effect cfg cpu api p s
    have hev : ∃ addr len, recv_event cfg (s.pcbs api) (s.pbufs p)
        = usys_event.USYS_TCP_RECV (s.pcbs api).handle (s.pcbs api).cookie addr len :=
      ⟨_, _, rfl⟩
    cases hn : (s.pbufs p).next with
    | none =>
      rw [hn] at h
      simp only [Except.ok.injEq] at h
      subst h
      refine ⟨[recv_event cfg (s.pcbs api) (s.pbufs p)], ?_, a1, a2, a3, a4⟩
      intro e he
      simp only [List.mem_singleton] at he
      subst he
      exact hev
    | some p1 =>
      rw [hn] at h
      obtain ⟨R, r1, r2, r3, r4, r5⟩ := gen_recv_chain_effect cfg cpu api fuel p1 _ s1 h
      have hsame : (recv_link_step cfg cpu api p s).pcbs api = pcb_add_active (s.pcbs api) 1 := by
        rw [a1]; simp
      refine ⟨recv_event cfg (s.pcbs api) (s.pbufs p) :: R, ?_, ?_, ?_, r4.trans a3,
        gen_frame_trans _ _ _ a4 r5⟩
      · intro e he
        rcases List.mem_cons.mp he with he | he
        · subst he; exact hev
        · rw [hsame] at r1
          exact r1 e he
      · rw [r2, hsame, a1, upd_upd, pcb_add_active_add]
        simp [Nat.add_comm]
      · rw [r3, a2]
        simp [upd]

theorem gen_recv_queue_effect (cfg : Config) (cpu api cf : Nat) :
    ∀ (fuel : Nat) (pos : Option Nat) (s s1 : State),
      gen_recv_queue cfg cpu api cf fuel pos s = .ok s1 →
      ∃ R, (pos = none → R = []) ∧ (∀ e, e ∈ R → ∃ addr len,
          e = usys_event.USYS_TCP_RECV (s.pcbs api).handle (s.pcbs api).cookie addr len) ∧
        s1.pcbs = upd s.pcbs api (pcb_add_active (s.pcbs api) R.length) ∧
        s1.usys_arr = upd s.usys_arr cpu (s.usys_arr cpu ++ R) ∧
        s1.pbuf_for_usys_next = s.pbuf_for_usys_next ∧ gen_frame s s1
  | fuel, none, s, s1, h => by
    cases fuel <;> simp only [gen_recv_queue, Except.ok.injEq] at h <;> subst h <;>
      exact ⟨[], (fun _ => rfl), (fun e he => by cases he),
        by rw [List.length_nil, pcb_add_active_zero, upd_self],
        by rw [List.append_nil, upd_self], rfl, gen_frame_refl _⟩
  | 0, some p, s, s1, h => by simp [gen_recv_queue] at h
  | fuel + 1, some p, s, s1, h => by
    simp only [gen_recv_queue] at h
    cases hc : gen_recv_chain cfg cpu api cf p s with
    | error e => rw [hc] at h; cases h
    | ok s2 =>
      rw [hc] at h
      obtain ⟨R1, a0, a1, a2, a3, a4⟩ := gen_recv_chain_effect cfg cpu api cf p s s2 hc
      obtain ⟨R2, -, b0, b1, b2, b3, b4⟩ := gen_recv_queue_effect cfg cpu api cf fuel _ s2 s1 h
      have hsame : s2.pcbs api = pcb_add_active (s.pcbs api) R1.length := by
        rw [a1]; simp
      refine ⟨R1 ++ R2, (fun e => by cases e), ?_, ?_, ?_, b3.trans a3,
        gen_frame_trans _ _ _ a4 b4⟩
      · intro e he
        rcases List.mem_append.mp he with he | he
        · exact a0 e he
        · rw [hsame] at b0
          exact b0 e he
      · rw [b1, hsame, a1, upd_upd, pcb_add_active_add]
        simp
      · rw [b2, a2]
        simp [upd]

theorem gen_usys_first_effect (cfg : Config) (cpu api : Nat) (s : State) :
    (gen_usys_first cfg cpu api s).pcbs = upd s.pcbs api
        (pcb_after_first (s.pcbs api) (first_events cfg cpu (s.pcbs api)).length) ∧
      (gen_usys_first cfg cpu api s).usys_arr =
        upd s.usys_arr cpu (s.usys_arr cpu ++ first_events cfg cpu (s.pcbs api)) ∧
      (gen_usys_first cfg cpu api s).pbuf_for_usys_next = s.pbuf_for_usys_next ∧
      gen_frame s (gen_usys_first cfg cpu api s) := by
  obtain ⟨f1, f2, f3, f4⟩ := gen_usys_first_spec cfg cpu api s
  refine ⟨?_, f1, f3, f2, ?_, ?_, ?_, ?_, ?_⟩
  · funext j
    by_cases hj : j = api
    · subst hj
      rw [f4]; simp
    · rw [gen_usys_first_other cfg cpu api j s hj, upd_other _ _ _ _ hj]
  all_goals
    unfold gen_usys_first gen_sent gen_sendv_ret gen_connected gen_knock
    split_ifs <;> rfl

theorem gen_usys_last_effect (cpu api : Nat) (s : State)
    (h0 : (s.pcbs api).uevents = 0 ∧ (s.pcbs api).len_xmited = 0 ∧ (s.pcbs api).sent_len = 0) :
    (gen_usys_last cpu api s).pcbs = upd s.pcbs api
        (pcb_after_gen (s.pcbs api) (s.pcbs api).pbuf_for_usys
          (last_events (s.pcbs api)).length) ∧
      (gen_usys_last cpu api s).usys_arr =
        upd s.usys_arr cpu (s.usys_arr cpu ++ last_events (s.pcbs api)) ∧
      (gen_usys_last cpu api s).pbuf_for_usys_next = s.pbuf_for_usys_next ∧
      gen_frame s (gen_usys_last cpu api s) := by
  obtain ⟨u1, u2, u3⟩ := h0
  refine ⟨?_, gen_usys_last_spec cpu api s, ?_, ?_, ?_, ?_, ?_, ?_, ?_⟩
  · funext j
    by_cases hj : j = api
    · subst hj
      unfold gen_usys_last gen_ksys_ret gen_dead last_events pcb_after_gen
      by_cases h1 : (s.pcbs j).alive = 0 <;> by_cases h2 : (s.pcbs j).lasterr_sysnr = 0 <;>
        cases hs : s.pcbs j <;>
        simp_all [inc_active, set_pcb, usys_emit, upd]
      all_goals omega
    · rw [upd_other _ _ _ _ hj]
      unfold gen_usys_last gen_ksys_ret gen_dead
      split_ifs <;> simp [inc_active, set_pcb, usys_emit, upd, hj]
  all_goals
    unfold gen_usys_last gen_ksys_ret gen_dead
    split_ifs <;> rfl

theorem pcb_after_gen_stages (cfg : Config) (cpu : Nat) (a : tcpapi_pcb) (q : queue) (r : Nat) :
    pcb_after_gen
      { pcb_add_active (pcb_after_first a (first_events cfg cpu a).length) r with
        pbuf_for_usys := q } q
      (last_events { pcb_add_active (pcb_after_first a (first_events cfg cpu a).length) r with
        pbuf_for_usys := q }).length
      = pcb_after_gen a q ((first_events cfg cpu a).length + r + (last_events a).length) := by
  cases a
  simp only [pcb_after_gen, pcb_add_active, pcb_after_first, last_events]
  simp only [tcpapi_pcb.mk.injEq, true_and, and_true]
  push_cast
  ring

/-- What a call of `__tcp_gen_usys` that returns has done: both assertions held, the
event array of the CPU has gained the events of the first part, RECV events with the
handle and the cookie of the CCB, and the events of the last part; the CCB is cleared and
counts these events; the queue of buffers is the one `queue_clear` leaves. -/
theorem gen_usys_effect (cfg : Config) (cpu api fuel : Nat) (s s1 : State)
    (h : __tcp_gen_usys cfg cpu api fuel s = .ok s1) :
    ((s.pcbs api).flags = 0 ∧ (s.pcbs api).active_usys_count = 0) ∧
    ∃ R q next,
      ((s.pcbs api).pbuf_for_usys.head = none → R = []) ∧
      (∀ e, e ∈ R → ∃ addr len,
        e = usys_event.USYS_TCP_RECV (s.pcbs api).handle (s.pcbs api).cookie addr len) ∧
      queue_clear fuel (s.pcbs api).pbuf_for_usys s.pbuf_for_usys_next = .ok (q, next) ∧
      s1.pcbs = upd s.pcbs api (pcb_after_gen (s.pcbs api) q
        ((first_events cfg cpu (s.pcbs api)).length + R.length
          + (last_events (s.pcbs api)).length)) ∧
      s1.usys_arr = upd s.usys_arr cpu (s.usys_arr cpu ++
        (first_events cfg cpu (s.pcbs api) ++ R ++ last_events (s.pcbs api))) ∧
      s1.pbuf_for_usys_next = next ∧ gen_frame s s1 := by
  unfold __tcp_gen_usys at h
  split_ifs at h with hfl hcn
  simp only at h
  obtain ⟨f1, f2, f3, f4⟩ := gen_usys_first_effect cfg cpu api s
  have hA : (gen_usys_first cfg cpu api s).pcbs api
      = pcb_after_first (s.pcbs api) (first_events cfg cpu (s.pcbs api)).length := by
    rw [f1]; simp
  cases hq : gen_recv_queue cfg cpu api fuel fuel
      ((gen_usys_first cfg cpu api s).pcbs api).pbuf_for_usys.head
      (gen_usys_first cfg cpu api s) with
  | error e => rw [hq] at h; cases h
  | ok s6 =>
    rw [hq] at h
    simp only at h
    obtain ⟨R, rn, r0, r1, r2, r3, r4⟩ := gen_recv_queue_effect cfg cpu api fuel fuel _ _ s6 hq
    have hB : s6.pcbs api = pcb_add_active
        (pcb_after_first (s.pcbs api) (first_events cfg cpu (s.pcbs api)).length) R.length := by
      rw [r1, hA]; simp
    cases hc : queue_clear fuel (s6.pcbs api).pbuf_for_usys s6.pbuf_for_usys_next with
    | error e => rw [hc] at h; cases h
    | ok r =>
      obtain ⟨q, next⟩ := r
      rw [hc] at h
      simp only [Except.ok.injEq] at h
      have hq6 : (s6.pcbs api).pbuf_for_usys = (s.pcbs api).pbuf_for_usys := by
        rw [hB]; rfl
      rw [hq6, r3, f3] at hc
      obtain ⟨l1, l2, l3, l4⟩ := gen_usys_last_effect cpu api
        { set_pcb api (fun a => { a with pbuf_for_usys := q }) s6 with
          pbuf_for_usys_next := next } (by
            show ((set_pcb api (fun a => { a with pbuf_for_usys := q }) s6).pcbs api).uevents = 0
              ∧ ((set_pcb api (fun a => { a with pbuf_for_usys := q }) s6).pcbs api).len_xmited
                = 0
              ∧ ((set_pcb api (fun a => { a with pbuf_for_usys := q }) s6).pcbs api).sent_len = 0
            rw [set_pcb_pcbs_same, hB]
            exact ⟨rfl, rfl, rfl⟩)
      rw [h] at l1 l2 l3 l4
      have hC : (set_pcb api (fun a => { a with pbuf_for_usys := q }) s6).pcbs api
          = { pcb_add_active (pcb_after_first (s.pcbs api)
                (first_events cfg cpu (s.pcbs api)).length) R.length with
              pbuf_for_usys := q } := by
        rw [set_pcb_pcbs_same, hB]
      have hD : (set_pcb api (fun a => { a with pbuf_for_usys := q }) s6).pcbs
          = upd s.pcbs api { pcb_add_active (pcb_after_first (s.pcbs api)
                (first_events cfg cpu (s.pcbs api)).length) R.length with
              pbuf_for_usys := q } := by
        show upd s6.pcbs api _ = _
        rw [hB, r1, f1, upd_upd, upd_upd]
      have hq7 : ({ pcb_add_active (pcb_after_first (s.pcbs api)
          (first_events cfg cpu (s.pcbs api)).length) R.length with
          pbuf_for_usys := q } : tcpapi_pcb).pbuf_for_usys = q := rfl
      have hL : last_events ({ pcb_add_active (pcb_after_first (s.pcbs api)
          (first_events cfg cpu (s.pcbs api)).length) R.length with
          pbuf_for_usys := q } : tcpapi_pcb) = last_events (s.pcbs api) := rfl
      refine ⟨⟨by simpa using hfl, by simpa using hcn⟩, R, q, next, ?_, ?_, hc, ?_, ?_, l3,
        ?_⟩
      · intro hn
        apply rn
        rw [hA]
        exact hn
      · intro e he
        rw [hA] at r0
        exact r0 e he
      · have e1 := l1
        change s1.pcbs = upd (set_pcb api (fun a => { a with pbuf_for_usys := q }) s6).pcbs api
          (pcb_after_gen ((set_pcb api (fun a => { a with pbuf_for_usys := q }) s6).pcbs api)
            ((set_pcb api (fun a => { a with pbuf_for_usys := q }) s6).pcbs api).pbuf_for_usys
            (last_events ((set_pcb api
              (fun a => { a with pbuf_for_usys := q }) s6).pcbs api)).length) at e1
        rw [hC, hD, hq7, upd_upd, pcb_after_gen_stages] at e1
        exact e1
      · have e2 := l2
        change s1.usys_arr = upd s6.usys_arr cpu (s6.usys_arr cpu ++
          last_events ((set_pcb api (fun a => { a with pbuf_for_usys := q }) s6).pcbs api)) at e2
        rw [hC, hL, r2, f2] at e2
        rw [e2]
        simp [upd, List.append_assoc]
      · have g := gen_frame_trans _ _ _ (gen_frame_trans _ _ _ f4 r4)
          (show gen_frame s6 { set_pcb api (fun a => { a with pbuf_for_usys := q }) s6 with
            pbuf_for_usys_next := next } from ⟨rfl, rfl, rfl, rfl, rfl, rfl⟩)
        exact gen_frame_trans _ _ _ g l4

theorem gen_usys_returns (cfg : Config) (cpu api fuel : Nat) (s : State)
    (l : List Nat) (chains : List (List Nat))
    (hflags : (s.pcbs api).flags = 0) (hcount : (s.pcbs api).active_usys_count = 0)
    (hq : is_chain s.pbuf_for_usys_next (s.pcbs api).pbuf_for_usys.head l)
    (hch : List.Forall₂ (fun p c => is_chain (fun i => (s.pbufs i).next) (some p) c) l chains)
    (hfuel : l.length < fuel ∧ ∀ c ∈ chains, c.length ≤ fuel) :
    ∃ s1, __tcp_gen_usys cfg cpu api fuel s = .ok s1 := by
  obtain ⟨f1, f2, f3, f4⟩ := gen_usys_first_spec cfg cpu api s
  obtain ⟨s6, hr, ha, hb, hn, hd⟩ := gen_recv_queue_spec cfg cpu api fuel l chains fuel
    ((gen_usys_first cfg cpu api s).pcbs api).pbuf_for_usys.head (gen_usys_first cfg cpu api s)
    (by rw [f3, f4]; exact hq) (by rw [f2]; exact hch) (by omega) hfuel.2
  obtain ⟨q, next, hc, _, _, _, _⟩ := queue_clear_ok l fuel (s6.pcbs api).pbuf_for_usys
    s6.pbuf_for_usys_next (by rw [hn, f3, hd, f4]; exact hq) hfuel.1
  have hrun : __tcp_gen_usys cfg cpu api fuel s = .ok (gen_usys_last cpu api
      { set_pcb api (fun a => { a with pbuf_for_usys := q }) s6 with
        pbuf_for_usys_next := next }) := by
    simp only [__tcp_gen_usys, hflags, hcount, hr, hc]
    simp
  exact ⟨_, hrun⟩

/-! ## C26: the CCB after the emission -/

theorem first_events_cleared (cfg : Config) (cpu : Nat) (a : tcpapi_pcb)
    (h : a.uevents = 0 ∧ a.len_xmited = 0 ∧ a.sent_len = 0) : first_events cfg cpu a = [] := by
  obtain ⟨h1, h2, h3⟩ := h
  simp [first_events, h1, h2, h3]

theorem last_events_cleared (a : tcpapi_pcb) (h : a.lasterr_sysnr = 0) :
    ∀ e, e ∈ last_events a → e = usys_event.USYS_TCP_DEAD a.handle a.cookie := by
  intro e he
  unfold last_events at he
  rw [h] at he
  by_cases ha : a.alive = 0
  · simpa [ha] using he
  · simp [ha] at he

/-- C26: a call of `__tcp_gen_usys` that returns was made for a CCB with
`active_usys_count = 0` and leaves `uevents = 0`, `len_xmited = 0`, `sent_len = 0`, the
queue `pbuf_for_usys` without a first buffer (and, when the queue was well formed, as
`init_queue` leaves it), `lasterr.sysnr = 0` (and `lasterr.err = 0` when `lasterr.sysnr`
was set), and `active_usys_count` equal to the number of events it appended to the event
array of the CPU.  A further emission of the CCB in a state where the CCB differs at most
in `active_usys_count` (no callback and no descriptor has touched it) stops at the
assertion while the count is not 0, returns when it is 0, and every event it appends is
DEAD: it appends no KNOCK, CONNECTED, SENDV_RET, SENT, RECV or KSYS_RET. -/
theorem gen_usys_clears_ccb (cfg : Config) (cpu api fuel : Nat) (s s1 : State)
    (h : __tcp_gen_usys cfg cpu api fuel s = .ok s1) :
    (s.pcbs api).active_usys_count = 0 ∧
    (∃ evs, s1.usys_arr cpu = s.usys_arr cpu ++ evs ∧
      (s1.pcbs api).active_usys_count = evs.length) ∧
    (s1.pcbs api).uevents = 0 ∧ (s1.pcbs api).len_xmited = 0 ∧ (s1.pcbs api).sent_len = 0 ∧
    (s1.pcbs api).pbuf_for_usys.head = none ∧
    (((s.pcbs api).pbuf_for_usys.head = none → (s.pcbs api).pbuf_for_usys.tail = none) →
      (s1.pcbs api).pbuf_for_usys = init_queue) ∧
    (s1.pcbs api).lasterr_sysnr = 0 ∧
    ((s.pcbs api).lasterr_sysnr ≠ 0 → (s1.pcbs api).lasterr_err = 0) ∧
    ∀ cpu2 fuel2 s2 c, s2.pcbs api = { s1.pcbs api with active_usys_count := c } →
      (c ≠ 0 → __tcp_gen_usys cfg cpu2 api fuel2 s2 = .error Fault.assert_failed) ∧
      (c = 0 → 0 < fuel2 → ∃ s3, __tcp_gen_usys cfg cpu2 api fuel2 s2 = .ok s3) ∧
      ∀ s3, __tcp_gen_usys cfg cpu2 api fuel2 s2 = .ok s3 →
        ∃ evs2, s3.usys_arr cpu2 = s2.usys_arr cpu2 ++ evs2 ∧
          ∀ e, e ∈ evs2 →
            e = usys_event.USYS_TCP_DEAD (s1.pcbs api).handle (s1.pcbs api).cookie := by
  obtain ⟨⟨hfl, hcn⟩, R, q, next, -, -, hc, hp, hu, -, -⟩ := gen_usys_effect cfg cpu api fuel s s1 h
  have hA : s1.pcbs api = pcb_after_gen (s.pcbs api) q
      ((first_events cfg cpu (s.pcbs api)).length + R.length
        + (last_events (s.pcbs api)).length) := by
    rw [hp]; simp
  have hqh : q.head = none ∧
      (((s.pcbs api).pbuf_for_usys.head = none → (s.pcbs api).pbuf_for_usys.tail = none) →
        q.tail = none) := by
    have key : ∀ (fuel : Nat) (q0 : queue) (nx : Nat → Option Nat),
        queue_clear fuel q0 nx = .ok (q, next) → q.head = none := by
      intro fuel
      induction fuel with
      | zero => intro q0 nx hx; simp [queue_clear] at hx
      | succ f ih =>
        intro q0 nx hx
        simp only [queue_clear, queue_pop_front, queue_front] at hx
        cases hh : q0.head with
        | none =>
          rw [hh] at hx
          simp only [Except.ok.injEq, Prod.mk.injEq] at hx
          rw [← hx.1]; exact hh
        | some n =>
          rw [hh] at hx
          exact ih _ _ hx
    exact ⟨key _ _ _ hc, fun hw => (queue_clear_empty fuel _ _ q next hc hw).2⟩
  refine ⟨hcn, ⟨first_events cfg cpu (s.pcbs api) ++ R ++ last_events (s.pcbs api), ?_, ?_⟩,
    ?_, ?_, ?_, ?_, ?_, ?_, ?_, ?_⟩
  · rw [hu]; simp
  · rw [hA]
    show (s.pcbs api).active_usys_count + _ = _
    rw [hcn]
    simp
    ring
  · rw [hA]; rfl
  · rw [hA]; rfl
  · rw [hA]; rfl
  · rw [hA]; exact hqh.1
  · intro hw
    rw [hA]
    show q = init_queue
    have h1 := hqh.1
    have h2 := hqh.2 hw
    cases q
    simp only [init_queue] at h1 h2 ⊢
    simp_all
  · rw [hA]; rfl
  · intro hne
    rw [hA]
    show (if (s.pcbs api).lasterr_sysnr ≠ 0 then 0 else (s.pcbs api).lasterr_err) = 0
    rw [if_pos hne]
  · intro cpu2 fuel2 s2 c hs2
    have hfl2 : (s2.pcbs api).flags = 0 := by rw [hs2, hA]; exact hfl
    have hc2 : (s2.pcbs api).active_usys_count = c := by rw [hs2]
    have hclr : (s2.pcbs api).uevents = 0 ∧ (s2.pcbs api).len_xmited = 0 ∧
        (s2.pcbs api).sent_len = 0 := by
      rw [hs2, hA]; exact ⟨rfl, rfl, rfl⟩
    have hhd : (s2.pcbs api).pbuf_for_usys.head = none := by
      rw [hs2, hA]; exact hqh.1
    have hle : (s2.pcbs api).lasterr_sysnr = 0 := by rw [hs2, hA]; rfl
    have hhc : (s2.pcbs api).handle = (s1.pcbs api).handle ∧
        (s2.pcbs api).cookie = (s1.pcbs api).cookie := by
      rw [hs2]; exact ⟨rfl, rfl⟩
    refine ⟨?_, ?_, ?_⟩
    · intro hne
      unfold __tcp_gen_usys
      simp [hfl2, hc2, hne]
    · intro hz hf2
      exact gen_usys_returns cfg cpu2 api fuel2 s2 [] [] hfl2 (by rw [hc2, hz])
        (by rw [hhd]; rfl) List.Forall₂.nil ⟨hf2, fun c hc => by cases hc⟩
    · intro s3 h3
      obtain ⟨-, R2, q2, next2, hn2, -, -, -, hu2, -, -⟩ :=
        gen_usys_effect cfg cpu2 api fuel2 s2 s3 h3
      refine ⟨first_events cfg cpu2 (s2.pcbs api) ++ R2 ++ last_events (s2.pcbs api),
        by rw [hu2]; simp, ?_⟩
      rw [first_events_cleared cfg cpu2 _ hclr, hn2 hhd]
      intro e he
      simp only [List.nil_append] at he
      rw [← hhc.1, ← hhc.2]
      exact last_events_cleared _ hle e he

/-- The statement of `gen_usys_clears_ccb` for the emission of the CCB in slot 0 of
`ex_pending_state 0`, which has every kind of event pending. -/
theorem gen_usys_clears_ccb_witness :
    __tcp_gen_usys ex_cfg 0 0 4 (ex_pending_state 0) = .ok ex_emitted_state ∧
    (∃ evs, ex_emitted_state.usys_arr 0 = (ex_pending_state 0).usys_arr 0 ++ evs ∧
      (ex_emitted_state.pcbs 0).active_usys_count = evs.length) ∧
    (ex_emitted_state.pcbs 0).uevents = 0 ∧ (ex_emitted_state.pcbs 0).len_xmited = 0 ∧
    (ex_emitted_state.pcbs 0).sent_len = 0 ∧
    (ex_emitted_state.pcbs 0).pbuf_for_usys.head = none ∧
    (ex_emitted_state.pcbs 0).lasterr_sysnr = 0 :=
  ⟨rfl, (gen_usys_clears_ccb ex_cfg 0 0 4 (ex_pending_state 0) ex_emitted_state rfl).2.1,
    (gen_usys_clears_ccb ex_cfg 0 0 4 (ex_pending_state 0) ex_emitted_state rfl).2.2.1,
    (gen_usys_clears_ccb ex_cfg 0 0 4 (ex_pending_state 0) ex_emitted_state rfl).2.2.2.1,
    (gen_usys_clears_ccb ex_cfg 0 0 4 (ex_pending_state 0) ex_emitted_state rfl).2.2.2.2.1,
    (gen_usys_clears_ccb ex_cfg 0 0 4 (ex_pending_state 0) ex_emitted_state rfl).2.2.2.2.2.1,
    (gen_usys_clears_ccb ex_cfg 0 0 4 (ex_pending_state 0)
      ex_emitted_state rfl).2.2.2.2.2.2.2.1⟩

/-! ## C27: a request to enqueue while acknowledgements are outstanding -/

theorem flag_ready_keeps_closed (f : Nat) :
    (f ||| PCB_FLAG_READY) &&& PCB_FLAG_CLOSED = f &&& PCB_FLAG_CLOSED := by
  unfold PCB_FLAG_CLOSED PCB_FLAG_READY
  rw [Nat.and_comm, Nat.and_or_distrib_left, Nat.and_comm 2 f]
  simp

theorem acked_state_zero (cpu api : Nat) (s : State) : acked_state cpu api 0 s = s := by
  cases s
  simp [acked_state, set_pcb]

theorem acked_state_succ (cpu api k : Nat) (s : State) :
    acked_state cpu api k (acked_state cpu api 1 s) = acked_state cpu api (k + 1) s := by
  cases s
  simp only [acked_state, set_pcb, State.mk.injEq, true_and, and_true]
  refine ⟨?_, ?_⟩
  · simp only [upd_same, upd_upd]
    cases ‹Nat → tcpapi_pcb› api
    simp [sub_sub, add_comm]
  · rw [List.append_assoc, ← List.replicate_add, Nat.add_comm]

theorem finish_acks (cfg : Config) (cpu api : Nat) (s : State)
    (h : (s.pcbs api).active_usys_count - 1 ≠ 0) :
    __tcp_finish_usys cfg cpu api s = .ok (acked_state cpu api 1 s) := by
  unfold __tcp_finish_usys
  have h1 : ((set_pcb api (fun a => { a with active_usys_count := a.active_usys_count - 1 })
      (ext (.bsys_dispatch_remote cpu) s)).pcbs api).active_usys_count ≠ 0 := by
    simpa [set_pcb, ext] using h
  simp only [h1, false_and, if_false]
  simp [acked_state, ext, set_pcb]

theorem finish_iter_acks (cfg : Config) (cpu api : Nat) :
    ∀ (k : Nat) (s : State),
      (∀ j : Nat, 1 ≤ j → j ≤ k → (s.pcbs api).active_usys_count - j ≠ 0) →
      finish_iter cfg cpu api k s = .ok (acked_state cpu api k s)
  | 0, s, _ => by rw [acked_state_zero]; rfl
  | k + 1, s, h => by
    have h1 := finish_acks cfg cpu api s (by simpa using h 1 (by omega) (by omega))
    have hc : ((acked_state cpu api 1 s).pcbs api).active_usys_count
        = (s.pcbs api).active_usys_count - 1 := by
      simp [acked_state, set_pcb]
    have ih := finish_iter_acks cfg cpu api k (acked_state cpu api 1 s) (by
      intro j hj1 hj2
      rw [hc]
      have := h (j + 1) (by omega) (by omega)
      push_cast at this
      omega)
    simp only [finish_iter, h1]
    rw [ih, acked_state_succ]

/-- C27: the CCB `api` has `n > 0` events outstanding and `CLOSED` is not set; its handle
meets the assertion of `pcb_ready_enqueue` on this CPU, whose ready queue is a well-formed
queue `l` that does not hold the CCB.  The first `j < n` acknowledgements do nothing but
count (state `s1`); a request to enqueue then does nothing but set `READY` (state `s2`);
the acknowledgements up to the `n - 1`-th again do nothing but count (state `s3`): no queue
and no `next` field has changed and `flags` is as the request left it; and the `n`-th
acknowledgement returns with the CCB linked at the tail of the ready queue of the CPU
(the queue is `l ++ [api]`), `READY` clear, no event outstanding, and the other ready
queues and the pools as they were. -/
theorem enqueue_request_not_lost (cfg : Config) (cpu api n j : Nat) (s : State) (l : List Nat)
    (hn : (s.pcbs api).active_usys_count = (n : Int)) (hj : j < n)
    (hcl : (s.pcbs api).flags &&& PCB_FLAG_CLOSED = 0)
    (hfg : handle_to_fg_id (s.pcbs api).handle < cfg.ETH_MAX_TOTAL_FG + cfg.NCPU)
    (hhome : cfg.fgs_cur_cpu (handle_to_fg_id (s.pcbs api).handle) = cpu)
    (hq : queue_repr (s.pcb_ready_queue cpu) s.ready_queue_next l)
    (hnl : api ∉ l) (hnx : s.ready_queue_next api = none) :
    ∃ s1 s2 s3 s4,
      finish_iter cfg cpu api j s = .ok s1 ∧ s1 = acked_state cpu api j s ∧
      pcb_ready_enqueue cfg cpu api s1 = .ok s2 ∧
      s2 = set_pcb api (fun a => { a with flags := a.flags ||| PCB_FLAG_READY }) s1 ∧
      finish_iter cfg cpu api (n - 1 - j) s2 = .ok s3 ∧
      s3 = acked_state cpu api (n - 1 - j) s2 ∧
      (s3.pcb_ready_queue = s.pcb_ready_queue ∧ s3.ready_queue_next = s.ready_queue_next ∧
        s3.pbuf_for_usys_next = s.pbuf_for_usys_next ∧ s3.pcb_mempool = s.pcb_mempool ∧
        (∀ i, (s3.pcbs i).pbuf_for_usys = (s.pcbs i).pbuf_for_usys) ∧
        (∀ i, i ≠ api → (s3.pcbs i).flags = (s.pcbs i).flags) ∧
        (s1.pcbs api).flags = (s.pcbs api).flags ∧
        (s3.pcbs api).flags = (s.pcbs api).flags ||| PCB_FLAG_READY ∧
        (s3.pcbs api).active_usys_count = 1) ∧
      __tcp_finish_usys cfg cpu api s3 = .ok s4 ∧
      queue_repr (s4.pcb_ready_queue cpu) s4.ready_queue_next (l ++ [api]) ∧
      (s4.pcbs api).flags &&& PCB_FLAG_READY = 0 ∧ (s4.pcbs api).active_usys_count = 0 ∧
      (∀ c, c ≠ cpu → s4.pcb_ready_queue c = s.pcb_ready_queue c) ∧
      s4.pcb_mempool = s.pcb_mempool ∧ s4.id_mempool = s.id_mempool := by
  have h1 := finish_iter_acks cfg cpu api j s (by
    intro i hi1 hi2
    rw [hn]
    omega)
  have hc1 : ((acked_state cpu api j s).pcbs api).active_usys_count ≠ 0 := by
    simp only [acked_state, set_pcb, upd_same, hn]
    omega
  have hh1 : ((acked_state cpu api j s).pcbs api).handle = (s.pcbs api).handle := by
    simp [acked_state, set_pcb]
  have h2 : pcb_ready_enqueue cfg cpu api (acked_state cpu api j s)
      = .ok (set_pcb api (fun a => { a with flags := a.flags ||| PCB_FLAG_READY })
          (acked_state cpu api j s)) := by
    unfold pcb_ready_enqueue
    rw [hh1]
    simp only [fgs_read, hfg, if_true, hhome, ne_eq, not_true_eq_false, if_false, hc1,
      not_false_eq_true]
  have hc2 : ((set_pcb api (fun a => { a with flags := a.flags ||| PCB_FLAG_READY })
      (acked_state cpu api j s)).pcbs api).active_usys_count = (n : Int) - j := by
    simp [acked_state, set_pcb, hn]
  have h3 := finish_iter_acks cfg cpu api (n - 1 - j)
    (set_pcb api (fun a => { a with flags := a.flags ||| PCB_FLAG_READY })
      (acked_state cpu api j s)) (by
    intro i hi1 hi2
    rw [hc2]
    omega)
  obtain ⟨q1, next1, hp, hr, -⟩ := queue_push_back_repr (s.pcb_ready_queue cpu)
    s.ready_queue_next l api hq hnl hnx
  have hcnt : ((acked_state cpu api (n - 1 - j)
      (set_pcb api (fun a => { a with flags := a.flags ||| PCB_FLAG_READY })
        (acked_state cpu api j s))).pcbs api).active_usys_count = 1 := by
    simp only [acked_state, set_pcb, upd_same, hn]
    omega
  have hflg : ((acked_state cpu api (n - 1 - j)
      (set_pcb api (fun a => { a with flags := a.flags ||| PCB_FLAG_READY })
        (acked_state cpu api j s))).pcbs api).flags = (s.pcbs api).flags ||| PCB_FLAG_READY := by
    simp [acked_state, set_pcb]
  refine ⟨_, _, _, { set_pcb api (fun a => { a with flags := a.flags &&& (255 ^^^ PCB_FLAG_READY) })
      (acked_state cpu api 1 (acked_state cpu api (n - 1 - j)
        (set_pcb api (fun a => { a with flags := a.flags ||| PCB_FLAG_READY })
          (acked_state cpu api j s)))) with
      pcb_ready_queue := upd s.pcb_ready_queue cpu q1, ready_queue_next := next1 },
    h1, rfl, h2, rfl, h3, rfl, ⟨rfl, rfl, rfl, rfl, ?_, ?_, ?_, hflg, hcnt⟩, ?_, ?_, ?_, ?_, ?_,
    rfl, rfl⟩
  · intro i
    by_cases hi : i = api
    · subst hi; simp [acked_state, set_pcb]
    · simp [acked_state, set_pcb, upd, hi]
  · intro i hi
    simp [acked_state, set_pcb, upd, hi]
  · simp [acked_state, set_pcb]
  · unfold __tcp_finish_usys
    have e0 : ((set_pcb api (fun a => { a with active_usys_count := a.active_usys_count - 1 })
        (ext (.bsys_dispatch_remote cpu) (acked_state cpu api (n - 1 - j)
          (set_pcb api (fun a => { a with flags := a.flags ||| PCB_FLAG_READY })
            (acked_state cpu api j s))))).pcbs api).active_usys_count = 0 := by
      have := hcnt
      simp only [set_pcb, ext, upd_same] at this ⊢
      rw [this]; rfl
    have e1 : ((set_pcb api (fun a => { a with active_usys_count := a.active_usys_count - 1 })
        (ext (.bsys_dispatch_remote cpu) (acked_state cpu api (n - 1 - j)
          (set_pcb api (fun a => { a with flags := a.flags ||| PCB_FLAG_READY })
            (acked_state cpu api j s))))).pcbs api).flags
        = (s.pcbs api).flags ||| PCB_FLAG_READY := by
      have := hflg
      simp only [set_pcb, ext, upd_same] at this ⊢
      exact this
    simp only [e0, e1, flag_ready_keeps_closed, hcl, true_and, ne_eq, not_true_eq_false,
      if_false, flag_ready_set, not_false_eq_true, if_true]
    unfold pcb_ready_enqueue
    simp only [set_pcb, ext, acked_state, upd_same, fgs_read, hfg, if_true, hhome, ne_eq,
      not_true_eq_false, if_false, hn, hp]
    have hz : ((n : Int) - (j : Int) - ((n - 1 - j : Nat) : Int) - 1 = 0) := by omega
    simp [hz]
  · show queue_repr (upd s.pcb_ready_queue cpu q1 cpu) next1 (l ++ [api])
    rw [upd_same]; exact hr
  · simp only [set_pcb, upd_same]
    exact flag_ready_cleared _
  · simp only [set_pcb, upd_same, acked_state, hn]
    omega
  · intro c hc
    show upd s.pcb_ready_queue cpu q1 c = s.pcb_ready_queue c
    exact upd_other _ _ _ _ hc

/-- The statement of `enqueue_request_not_lost` for the CCB in slot 0 of
`ex_drained_state`, whose KNOCK event is outstanding: a request to enqueue followed by the
acknowledgement links the CCB in the empty ready queue of CPU 0. -/
theorem enqueue_request_not_lost_witness :
    ((ex_drained_state.pcbs 0).active_usys_count = ((1 : Nat) : Int) ∧
      (ex_drained_state.pcbs 0).flags &&& PCB_FLAG_CLOSED = 0 ∧
      handle_to_fg_id (ex_drained_state.pcbs 0).handle < ex_cfg.ETH_MAX_TOTAL_FG + ex_cfg.NCPU ∧
      ex_cfg.fgs_cur_cpu (handle_to_fg_id (ex_drained_state.pcbs 0).handle) = 0 ∧
      queue_repr (ex_drained_state.pcb_ready_queue 0) ex_drained_state.ready_queue_next [] ∧
      ex_drained_state.ready_queue_next 0 = none) ∧
    ∃ s2 s4,
      pcb_ready_enqueue ex_cfg 0 0 ex_drained_state = .ok s2 ∧
      __tcp_finish_usys ex_cfg 0 0 s2 = .ok s4 ∧
      queue_repr (s4.pcb_ready_queue 0) s4.ready_queue_next ([] ++ [0]) ∧
      (s4.pcbs 0).flags &&& PCB_FLAG_READY = 0 := by
  refine ⟨⟨by decide, by decide, by decide, by decide, ⟨(by decide : (ex_drained_state.pcb_ready_queue 0).head = none), by decide⟩, by decide⟩, ?_⟩
  obtain ⟨s1, s2, s3, s4, h1, e1, h2, e2, h3, e3, -, h4, h5, h6, -⟩ :=
    enqueue_request_not_lost ex_cfg 0 0 1 0 ex_drained_state [] (by decide) (by decide)
      (by decide) (by decide) (by decide)
      ⟨(by decide : (ex_drained_state.pcb_ready_queue 0).head = none), by decide⟩ (by simp)
      (by decide)
  have e4 : s1 = ex_drained_state := by rw [e1, acked_state_zero]
  have e5 : s3 = s2 := by rw [e3]; exact acked_state_zero _ _ _
  subst e4
  rw [e5] at h4
  exact ⟨s2, s4, h2, h4, h5, h6⟩

/-! ## C21: what changes `sent_len` and what reports it -/

theorem sent_bytes_nil (h : Nat) : sent_bytes h [] = 0 := rfl

theorem sent_bytes_append (h : Nat) (a b : List usys_event) :
    sent_bytes h (a ++ b) = sent_bytes h a + sent_bytes h b := by
  simp [sent_bytes]

theorem sent_bytes_single (h : Nat) (e : usys_event) (he : usys_is_sent e = false) :
    sent_bytes h [e] = 0 := by
  cases e <;> simp_all [sent_bytes, usys_is_sent]

theorem sent_frame_refl (x : Option Nat) (s : State) : sent_frame x s s :=
  ⟨fun _ _ => ⟨rfl, rfl⟩, fun c => ⟨[], by simp, fun h => rfl⟩⟩

theorem sent_frame_trans {x : Option Nat} {s s1 s2 : State} (h1 : sent_frame x s s1)
    (h2 : sent_frame x s1 s2) : sent_frame x s s2 := by
  refine ⟨fun i hi => ?_, fun c => ?_⟩
  · exact ⟨((h2.1 i hi).1).trans (h1.1 i hi).1, ((h2.1 i hi).2).trans (h1.1 i hi).2⟩
  · obtain ⟨e1, a1, b1⟩ := h1.2 c
    obtain ⟨e2, a2, b2⟩ := h2.2 c
    refine ⟨e1 ++ e2, by rw [a2, a1, List.append_assoc], fun h => ?_⟩
    rw [sent_bytes_append, b1, b2]; rfl

theorem sent_frame_mono {s s1 : State} (x : Option Nat) (h : sent_frame none s s1) :
    sent_frame x s s1 :=
  ⟨fun i _ => h.1 i (by simp), h.2⟩

theorem sent_frame_of_eq {s s1 : State} (hp : s1.pcbs = s.pcbs) (hu : s1.usys_arr = s.usys_arr) :
    sent_frame none s s1 :=
  ⟨fun i _ => by rw [hp]; exact ⟨rfl, rfl⟩, fun c => ⟨[], by rw [hu]; simp, fun h => rfl⟩⟩

theorem sent_frame_set (api : Nat) (f : tcpapi_pcb → tcpapi_pcb) (s : State)
    (hf : ∀ a, (f a).handle = a.handle ∧ (f a).sent_len = a.sent_len) :
    sent_frame none s (set_pcb api f s) := by
  refine ⟨fun i _ => ?_, fun c => ⟨[], by simp [set_pcb], fun h => rfl⟩⟩
  by_cases e : i = api
  · subst e; simp [set_pcb, upd, hf]
  · simp [set_pcb, upd, e]

theorem sent_frame_set_at (api : Nat) (f : tcpapi_pcb → tcpapi_pcb) (s : State) :
    sent_frame (some api) s (set_pcb api f s) := by
  refine ⟨fun i hi => ?_, fun c => ⟨[], by simp [set_pcb], fun h => rfl⟩⟩
  have e : i ≠ api := fun e => hi (by rw [e])
  simp [set_pcb, upd, e]

theorem sent_frame_emit (cpu : Nat) (e : usys_event) (s : State) (he : usys_is_sent e = false) :
    sent_frame none s (usys_emit cpu e s) := by
  refine ⟨fun i _ => ⟨rfl, rfl⟩, fun c => ?_⟩
  by_cases hc : c = cpu
  · subst hc
    exact ⟨[e], by simp [usys_emit, upd], fun h => sent_bytes_single h e he⟩
  · exact ⟨[], by simp [usys_emit, upd, hc], fun h => rfl⟩

theorem sent_frame_enqueue (cfg : Config) (cpu api : Nat) (s s1 : State)
    (h : pcb_ready_enqueue cfg cpu api s = .ok s1) : sent_frame none s s1 := by
  unfold pcb_ready_enqueue at h
  cases hr : fgs_read cfg (handle_to_fg_id (s.pcbs api).handle) with
  | error e => rw [hr] at h; cases h
  | ok home =>
    rw [hr] at h
    simp only at h
    split_ifs at h with h1 h2
    · cases h
      exact sent_frame_set api _ s (fun _ => ⟨rfl, rfl⟩)
    · cases hp : queue_push_back (s.pcb_ready_queue cpu) s.ready_queue_next api with
      | error e => rw [hp] at h; cases h
      | ok r =>
        rw [hp] at h
        cases h
        exact sent_frame_of_eq rfl rfl

theorem sent_frame_free (cfg : Config) (cpu api : Nat) (s : State) :
    sent_frame none s (pcb_mempool_free cfg cpu api s) := by
  refine ⟨fun i _ => ?_, fun c => ⟨[], by simp [pcb_mempool_free], fun h => rfl⟩⟩
  by_cases e : i = api
  · subst e; simp [pcb_mempool_free, upd]
  · simp [pcb_mempool_free, upd, e]

theorem sent_frame_recv_a_pbuf (cfg : Config) (cpu api p : Nat) (s s1 : State)
    (h : recv_a_pbuf cfg cpu api p s = .ok s1) : sent_frame none s s1 := by
  unfold recv_a_pbuf at h
  cases hq : queue_push_back (s.pcbs api).pbuf_for_usys s.pbuf_for_usys_next p with
  | error e => rw [hq] at h; cases h
  | ok r =>
    rw [hq] at h
    simp only at h
    split_ifs at h
    refine sent_frame_trans ?_ (sent_frame_enqueue cfg cpu api _ s1 h)
    refine sent_frame_trans (sent_frame_set api (fun a => { a with pbuf_for_usys := r.1 }) s
      (fun _ => ⟨rfl, rfl⟩)) ?_
    exact sent_frame_of_eq rfl rfl

theorem sent_frame_accept_loop (cfg : Config) (cpu api : Nat) :
    ∀ (fuel : Nat) (tmp : Option Nat) (s s1 : State),
      accept_loop cfg cpu api fuel tmp s = .ok s1 → sent_frame none s s1
  | _, none, s, s1, h => by
    simp only [accept_loop] at h
    cases h
    exact sent_frame_refl _ s
  | 0, some _, _, _, h => by simp [accept_loop] at h
  | fuel + 1, some tmp, s, s1, h => by
    simp only [accept_loop] at h
    cases hr : recv_a_pbuf cfg cpu api tmp s with
    | error e => rw [hr] at h; cases h
    | ok s2 =>
      rw [hr] at h
      exact sent_frame_trans (sent_frame_recv_a_pbuf cfg cpu api tmp s s2 hr)
        (sent_frame_accept_loop cfg cpu api fuel _ s2 s1 h)

theorem sent_frame_mark_dead (cfg : Config) (cpu : Nat) (api : Option Nat) (cookie : Nat)
    (s s1 : State) (h : mark_dead cfg cpu api cookie s = .ok s1) : sent_frame none s s1 := by
  unfold mark_dead at h
  cases api with
  | none => cases h; exact sent_frame_emit cpu _ s rfl
  | some a =>
    simp only at h
    refine sent_frame_trans ?_ (sent_frame_enqueue cfg cpu a _ s1 h)
    refine sent_frame_trans ?_ (sent_frame_set a _ _ (fun _ => ⟨rfl, rfl⟩))
    cases (s.pcbs a).id <;> exact sent_frame_of_eq rfl rfl

theorem sent_frame_on_err (cfg : Config) (cpu : Nat) (arg : Option Nat) (err : err_t)
    (s s1 : State) (h : on_err cfg cpu arg err s = .ok s1) : sent_frame none s s1 := by
  unfold on_err at h
  cases arg with
  | none => cases h; exact sent_frame_refl _ s
  | some api =>
    simp only at h
    split_ifs at h
    · cases hm : mark_dead cfg cpu (some api) (s.pcbs api).cookie s with
      | error e => rw [hm] at h; cases h
      | ok s2 =>
        rw [hm] at h
        cases h
        exact sent_frame_trans (sent_frame_mark_dead cfg cpu _ _ s s2 hm)
          (sent_frame_set api _ _ (fun _ => ⟨rfl, rfl⟩))
    · cases h; exact sent_frame_refl _ s

theorem sent_frame_on_connected (cfg : Config) (cpu arg : Nat) (err : err_t) (s : State)
    (r : err_t × State) (h : on_connected cfg cpu arg err s = .ok r) :
    sent_frame none s r.2 := by
  unfold on_connected at h
  split_ifs at h
  · cases h; exact sent_frame_emit cpu _ s rfl
  · cases he : pcb_ready_enqueue cfg cpu arg
        (set_pcb arg (fun a => { a with uevents := a.uevents ||| PCB_UEVENT_CONNECTED }) s) with
    | error e => rw [he] at h; cases h
    | ok s1 =>
      rw [he] at h
      cases h
      refine sent_frame_trans ?_ (sent_frame_enqueue cfg cpu arg _ s1 he)
      exact sent_frame_set arg _ s (fun _ => ⟨rfl, rfl⟩)

theorem sent_frame_on_recv (cfg : Config) (cpu arg : Nat) (p : Option Nat) (s : State)
    (r : err_t × State) (h : on_recv cfg cpu arg p s = .ok r) : sent_frame none s r.2 := by
  unfold on_recv at h
  cases p with
  | none =>
    simp only at h
    cases hm : mark_dead cfg cpu (some arg) (s.pcbs arg).cookie s with
    | error e => rw [hm] at h; cases h
    | ok s1 =>
      rw [hm] at h
      cases h
      exact sent_frame_mark_dead cfg cpu _ _ s s1 hm
  | some p =>
    simp only at h
    have hlink : ∀ s1, (match (s.pcbs arg).recvd with
        | none => (.ok (set_pcb arg (fun a => { a with recvd := some p, recvd_tail := some p }) s)
            : Exec State)
        | some _ =>
          match (s.pcbs arg).recvd_tail with
          | none => .error Fault.null_deref
          | some t =>
            .ok (set_pcb arg (fun a => { a with recvd_tail := some p })
              { s with pbufs := upd s.pbufs t { s.pbufs t with tcp_api_next := some p } }))
        = .ok s1 → sent_frame none s s1 := by
      intro s1 h1
      cases hr : (s.pcbs arg).recvd with
      | none =>
        rw [hr] at h1
        cases h1
        exact sent_frame_set arg _ s (fun _ => ⟨rfl, rfl⟩)
      | some r0 =>
        rw [hr] at h1
        simp only at h1
        cases ht : (s.pcbs arg).recvd_tail with
        | none => rw [ht] at h1; cases h1
        | some t =>
          rw [ht] at h1
          cases h1
          refine sent_frame_trans ?_ (sent_frame_set arg _ _ (fun _ => ⟨rfl, rfl⟩))
          exact sent_frame_of_eq rfl rfl
    split at h
    · cases h
    · rename_i s1 hl
      have h1 := hlink s1 hl
      have h2 : sent_frame none s1
          { s1 with pbufs := upd s1.pbufs p { s1.pbufs p with tcp_api_next := none } } :=
        sent_frame_of_eq rfl rfl
      split_ifs at h
      · cases h
        exact sent_frame_trans h1 h2
      · split at h
        · cases h
        · rename_i s3 h3
          cases h
          exact sent_frame_trans (sent_frame_trans h1 h2)
            (sent_frame_recv_a_pbuf cfg cpu arg p _ s3 h3)

theorem sent_frame_handle (cfg : Config) (cpu handle : Nat) (s : State) :
    sent_frame none s (handle_to_tcpapi cfg cpu handle s).2 := by
  unfold handle_to_tcpapi
  split_ifs <;> exact sent_frame_of_eq rfl rfl

theorem sent_frame_bsys_tcp_accept (cfg : Config) (cpu handle cookie fuel : Nat) (s s1 : State)
    (h : bsys_tcp_accept cfg cpu handle cookie fuel s = .ok s1) : sent_frame none s s1 := by
  unfold bsys_tcp_accept at h
  have h0 := sent_frame_handle cfg cpu handle s
  rcases hh : handle_to_tcpapi cfg cpu handle s with ⟨r, s0⟩
  rw [hh] at h h0
  cases r with
  | none =>
    cases h
    exact sent_frame_trans h0 (sent_frame_emit cpu _ s0 rfl)
  | some api =>
    simp only at h
    have h2 := sent_frame_accept_loop cfg cpu api fuel _ _ s1 h
    refine sent_frame_trans (sent_frame_trans h0 ?_) h2
    refine sent_frame_trans ?_ (sent_frame_set api _ _ (fun _ => ⟨rfl, rfl⟩))
    cases (s0.pcbs api).id with
    | none => exact sent_frame_refl _ _
    | some id =>
      exact sent_frame_trans (sent_frame_of_eq rfl rfl)
        (sent_frame_set api _ (id_mempool_free cpu id s0) (fun _ => ⟨rfl, rfl⟩))

theorem recv_done_loop_view :
    ∀ (fuel : Nat) (p : Option Nat) (len : Nat) (s : State) (r : Option Nat × State),
      recv_done_loop fuel p len s = .ok r → r.2.pcbs = s.pcbs ∧ r.2.usys_arr = s.usys_arr
  | fuel, none, _, s, r, h => by
    cases fuel <;>
    · simp only [recv_done_loop, Except.ok.injEq] at h
      subst h; exact ⟨rfl, rfl⟩
  | 0, some _, _, _, _, h => by simp [recv_done_loop] at h
  | fuel + 1, some p, len, s, r, h => by
    simp only [recv_done_loop] at h
    split_ifs at h
    · cases h; exact ⟨rfl, rfl⟩
    · exact recv_done_loop_view fuel _ _ (ext (.pbuf_free p) s) r h

theorem close_loop_view :
    ∀ (fuel : Nat) (p : Option Nat) (s s1 : State), close_loop fuel p s = .ok s1 →
      s1.pcbs = s.pcbs ∧ s1.usys_arr = s.usys_arr
  | fuel, none, s, s1, h => by
    cases fuel <;>
    · simp only [close_loop, Except.ok.injEq] at h
      subst h; exact ⟨rfl, rfl⟩
  | 0, some _, _, _, h => by simp [close_loop] at h
  | fuel + 1, some p, s, s1, h => by
    simp only [close_loop] at h
    exact close_loop_view fuel _ (ext (.pbuf_free p) s) s1 h

theorem sendv_loop_view (env : sendv_env) (api : Nat) :
    ∀ (n i acc : Nat) (s : State) (r : Nat × State),
      sendv_loop env api n i acc s = .ok r → r.2.pcbs = s.pcbs ∧ r.2.usys_arr = s.usys_arr
  | 0, _, _, s, r, h => by
    simp only [sendv_loop, Except.ok.injEq] at h
    subst h; exact ⟨rfl, rfl⟩
  | n + 1, i, acc, s, r, h => by
    simp only [sendv_loop] at h
    cases hp : (s.pcbs api).pcb with
    | none => rw [hp] at h; cases h
    | some pcb =>
      rw [hp] at h
      simp only at h
      split_ifs at h
      all_goals first
        | (cases h; exact ⟨rfl, rfl⟩)
        | exact sendv_loop_view env api n _ _ (ext _ s) r h

theorem sent_frame_bsys_tcp_recv_done (cfg : Config) (cpu handle len fuel : Nat) (s s1 : State)
    (h : bsys_tcp_recv_done cfg cpu handle len fuel s = .ok s1) : sent_frame none s s1 := by
  unfold bsys_tcp_recv_done at h
  have h0 := sent_frame_handle cfg cpu handle s
  rcases hh : handle_to_tcpapi cfg cpu handle s with ⟨r, s0⟩
  rw [hh] at h h0
  cases r with
  | none =>
    cases h
    exact sent_frame_trans h0 (sent_frame_emit cpu _ s0 rfl)
  | some api =>
    simp only at h
    split at h
    · cases h
    · rename_i recvd s2 hl
      cases h
      obtain ⟨a, b⟩ := recv_done_loop_view fuel _ len _ _ hl
      have h2 : sent_frame none s0 s2 := by
        refine sent_frame_of_eq (a.trans ?_) (b.trans ?_) <;>
          (cases (s0.pcbs api).pcb <;> rfl)
      exact sent_frame_trans (sent_frame_trans h0 h2)
        (sent_frame_set api _ _ (fun _ => ⟨rfl, rfl⟩))

theorem sent_frame_close_finish (cfg : Config) (cpu api : Nat) (s : State) :
    sent_frame none s (close_finish cfg cpu api s) := by
  unfold close_finish
  split_ifs
  · exact sent_frame_set api _ s (fun _ => ⟨rfl, rfl⟩)
  · exact sent_frame_free cfg cpu api s

theorem sent_frame_bsys_tcp_close (cfg : Config) (cpu handle fuel : Nat) (s s1 : State)
    (h : bsys_tcp_close cfg cpu handle fuel s = .ok s1) : sent_frame none s s1 := by
  unfold bsys_tcp_close at h
  have h0 := sent_frame_handle cfg cpu handle s
  rcases hh : handle_to_tcpapi cfg cpu handle s with ⟨r, s0⟩
  rw [hh] at h h0
  cases r with
  | none =>
    cases h
    exact sent_frame_trans h0 (sent_frame_emit cpu _ s0 rfl)
  | some api =>
    simp only at h
    split at h
    · cases h
    · rename_i s2 hl
      cases h
      obtain ⟨a, b⟩ := close_loop_view fuel _ _ s2 hl
      have h1 : sent_frame none s0 s2 := by
        refine sent_frame_of_eq (a.trans ?_) (b.trans ?_) <;>
          (unfold close_reset; cases (s0.pcbs api).pcb <;> rfl)
      have h3 : sent_frame none s2 (close_release_id cpu api s2) := by
        unfold close_release_id
        cases (s2.pcbs api).id <;> exact sent_frame_of_eq rfl rfl
      exact sent_frame_trans (sent_frame_trans (sent_frame_trans h0 h1) h3)
        (sent_frame_close_finish cfg cpu api _)

theorem sent_frame_finish_one (cfg : Config) (cpu api : Nat) (s s1 : State)
    (h : __tcp_finish_usys cfg cpu api s = .ok s1) :
    sent_frame none s s1 ∧ s1.usys_arr = s.usys_arr := by
  unfold __tcp_finish_usys at h
  simp only at h
  have h0 : sent_frame none s (set_pcb api
      (fun a => { a with active_usys_count := a.active_usys_count - 1 })
      (ext (.bsys_dispatch_remote cpu) s)) :=
    sent_frame_trans (sent_frame_of_eq rfl rfl) (sent_frame_set api _ _ (fun _ => ⟨rfl, rfl⟩))
  split_ifs at h
  · cases h
    exact ⟨sent_frame_trans h0 (sent_frame_free cfg cpu api _), rfl⟩
  · have h2 := sent_frame_enqueue cfg cpu api _ s1 h
    have h1 := sent_frame_set api
      (fun a => { a with flags := a.flags &&& (255 ^^^ PCB_FLAG_READY) })
      (set_pcb api (fun a => { a with active_usys_count := a.active_usys_count - 1 })
        (ext (.bsys_dispatch_remote cpu) s)) (fun _ => ⟨rfl, rfl⟩)
    refine ⟨sent_frame_trans (sent_frame_trans h0 h1) h2, ?_⟩
    unfold pcb_ready_enqueue at h
    split at h
    · cases h
    · split_ifs at h
      · cases h; rfl
      · split at h
        · cases h
        · cases h; rfl
  · cases h
    exact ⟨h0, rfl⟩

theorem sent_frame_finish_loop (cfg : Config) (cpu : Nat) :
    ∀ (es : List usys_event) (s s1 : State),
      tcp_finish_usys_loop cfg cpu es s = .ok s1 →
      sent_frame none s s1 ∧ s1.usys_arr = s.usys_arr
  | [], s, s1, h => by
    simp only [tcp_finish_usys_loop] at h
    cases h
    exact ⟨sent_frame_refl _ s, rfl⟩
  | e :: es, s, s1, h => by
    simp only [tcp_finish_usys_loop] at h
    split_ifs at h with ht
    · cases hr : bsys_tcp_home_id cfg (usys_arga e) with
      | error f => rw [hr] at h; cases h
      | ok home =>
        rw [hr] at h
        simp only at h
        split at h
        · cases h
        · rename_i s2 h2
          obtain ⟨h3, u3⟩ := sent_frame_finish_one cfg home _ _ s2 h2
          obtain ⟨h4, u4⟩ := sent_frame_finish_loop cfg cpu es s2 s1 h
          have h5 : sent_frame none s
              (if home = cpu then s
                else ext (.cpu_run_on_one cpu (handle_to_idx (usys_arga e)) home) s) := by
            split_ifs
            · exact sent_frame_refl _ s
            · exact sent_frame_of_eq rfl rfl
          refine ⟨sent_frame_trans (sent_frame_trans h5 h3) h4, ?_⟩
          rw [u4, u3]
          split_ifs <;> rfl
    · exact sent_frame_finish_loop cfg cpu es s s1 h

/-! ## C21: entries that allocate a CCB, the sent callback and the drains -/

theorem sent_frame_at_of {s s1 : State} (api : Nat) (h : ∀ i, i ≠ api → s1.pcbs i = s.pcbs i)
    (hu : s1.usys_arr = s.usys_arr) : sent_frame (some api) s s1 := by
  refine ⟨fun i hi => ?_, fun c => ⟨[], by rw [hu]; simp, fun _ => rfl⟩⟩
  have e : i ≠ api := fun e => hi (by rw [e])
  rw [h i e]
  exact ⟨rfl, rfl⟩

theorem enqueue_usys_arr (cfg : Config) (cpu api : Nat) (s s1 : State)
    (h : pcb_ready_enqueue cfg cpu api s = .ok s1) : s1.usys_arr = s.usys_arr := by
  unfold pcb_ready_enqueue at h
  split at h
  · cases h
  · split_ifs at h
    · cases h; rfl
    · split at h
      · cases h
      · cases h; rfl

theorem sent_frame_on_accept (cfg : Config) (cpu cur_fg : Nat) (t : tcp_pcb_info) (s : State)
    (r : err_t × State) (h : on_accept cfg cpu cur_fg t s = .ok r) :
    sent_frame (mempool_alloc (s.pcb_mempool cpu)).1 s r.2 := by
  unfold on_accept at h
  rcases ha : mempool_alloc (s.pcb_mempool cpu) with ⟨a, pool1⟩
  rw [ha] at h
  cases a with
  | none => cases h; exact sent_frame_refl _ s
  | some api =>
    simp only at h
    rcases hb : mempool_alloc
      (({ s with pcb_mempool := upd s.pcb_mempool cpu pool1 } : State).id_mempool cpu)
      with ⟨b, idpool1⟩
    rw [hb] at h
    cases b with
    | none =>
      cases h
      exact sent_frame_mono _ (sent_frame_trans (sent_frame_of_eq rfl rfl)
        (sent_frame_free cfg cpu api _))
    | some id =>
      simp only at h
      split at h
      · cases h
      · rename_i s8 he
        cases h
        refine sent_frame_trans ?_ (sent_frame_mono _ (sent_frame_enqueue cfg cpu api _ s8 he))
        exact sent_frame_at_of api
          (fun i hi => accept_init_other cfg cur_fg t api id _ i hi) rfl

theorem get_port_then_search_view (cfg : Config) (cpu fuel : Nat) (id1 : ip_tuple)
    (env : connect_env) (s2 : State) (r : Option Nat × ip_tuple × State)
    (h : (match get_port_with_fdir cfg cpu id1 env.fdir_ok s2 with
      | (some fg, s3) => (.ok (some fg, id1, s3) : Exec (Option Nat × ip_tuple × State))
      | (none, s3) =>
        if !env.rss_ok then .ok (none, id1, s3)
        else port_search cfg cpu fuel id1 s3) = .ok r) :
    r.2.2.usys_arr = s2.usys_arr := by
  unfold get_port_with_fdir at h
  by_cases hf : env.fdir_ok = true
  · simp only [hf, Bool.not_true, Bool.false_eq_true, if_false] at h
    cases h
    rfl
  · have hff : env.fdir_ok = false := by simpa using hf
    simp only [hff, Bool.not_false, if_true] at h
    by_cases hr : env.rss_ok = true
    · simp only [hr, Bool.not_true, Bool.false_eq_true, if_false] at h
      obtain ⟨_, _, _, _, e, _⟩ := port_search_frame cfg cpu fuel _ _ r h
      rw [e]
      rfl
    · have hrf : env.rss_ok = false := by simpa using hr
      simp only [hrf, Bool.not_false, if_true] at h
      cases h
      rfl

theorem get_local_port_view (cfg : Config) (cpu fuel : Nat) (id : ip_tuple) (env : connect_env)
    (s : State) (r : Option Nat × ip_tuple × State)
    (h : get_local_port_and_set_queue cfg cpu fuel id env s = .ok r) :
    r.2.2.usys_arr = s.usys_arr := by
  unfold get_local_port_and_set_queue at h
  by_cases h1 : 1 < cfg.eth_dev_count
  · rw [if_pos h1] at h; cases h
  · rw [if_neg h1] at h
    have a := get_port_then_search_view cfg cpu fuel _ env _ r h
    rw [a]
    split_ifs <;> rfl

theorem sent_frame_connect_fail (cpu : Nat) (abort : Option (Option Nat × Nat)) (s : State) :
    sent_frame none s (connect_fail cpu abort s) := by
  unfold connect_fail
  cases abort with
  | none => exact sent_frame_emit cpu _ s rfl
  | some p => exact sent_frame_trans (sent_frame_of_eq rfl rfl) (sent_frame_emit cpu _ _ rfl)

theorem sent_frame_bsys_tcp_connect (cfg : Config) (cpu cookie fuel : Nat) (env : connect_env)
    (s s1 : State) (h : bsys_tcp_connect cfg cpu cookie fuel env s = .ok s1) :
    sent_frame (mempool_alloc (s.pcb_mempool cpu)).1 s s1 := by
  unfold bsys_tcp_connect at h
  cases hu : env.user_id with
  | none =>
    rw [hu] at h
    cases h
    exact sent_frame_mono _ (sent_frame_emit cpu _ s rfl)
  | some tmp0 =>
    rw [hu] at h
    simp only at h
    cases hg : get_local_port_and_set_queue cfg cpu fuel { tmp0 with src_ip := cfg.host_addr }
        env s with
    | error e => rw [hg] at h; cases h
    | ok r =>
      obtain ⟨hp, hm⟩ := get_local_port_pcbs cfg cpu fuel _ env s r hg
      have hv := get_local_port_view cfg cpu fuel _ env s r hg
      obtain ⟨fg, tmp, s2⟩ := r
      rw [hg] at h
      simp only at hp hm hv
      have h02 : sent_frame none s s2 := sent_frame_of_eq hp hv
      cases fg with
      | none =>
        cases h
        exact sent_frame_mono _ (sent_frame_trans h02 (sent_frame_emit cpu _ s2 rfl))
      | some cur_fg =>
        simp only at h
        have h03 : sent_frame none s (ext (.tcp_new (some cur_fg)) s2) :=
          sent_frame_trans h02 (sent_frame_of_eq rfl rfl)
        cases hn : env.tcp_new with
        | none =>
          rw [hn] at h
          cases h
          exact sent_frame_mono _ (sent_frame_trans h03 (sent_frame_connect_fail cpu none _))
        | some pcb =>
          rw [hn] at h
          simp only at h
          have h04 : sent_frame none s
              (ext (.tcp_nagle_disable pcb) (ext (.tcp_new (some cur_fg)) s2)) :=
            sent_frame_trans h03 (sent_frame_of_eq rfl rfl)
          have hpool : (ext (.tcp_nagle_disable pcb) (ext (.tcp_new (some cur_fg)) s2)).pcb_mempool
              = s.pcb_mempool := hm
          rw [hpool] at h
          rcases ha : mempool_alloc (s.pcb_mempool cpu) with ⟨a, pool1⟩
          rw [ha] at h
          cases a with
          | none =>
            cases h
            exact sent_frame_trans h04 (sent_frame_connect_fail cpu _ _)
          | some api =>
            simp only at h
            have h07 : sent_frame (some api) s (connect_init cur_fg pcb cookie api
                { ext (.tcp_nagle_disable pcb) (ext (.tcp_new (some cur_fg)) s2) with
                  pcb_mempool := upd s.pcb_mempool cpu pool1 }) := by
              refine sent_frame_trans (sent_frame_mono _ h04) ?_
              exact sent_frame_at_of api (fun i hi => connect_init_other cur_fg pcb cookie api _ i hi)
                rfl
            split_ifs at h <;> cases h
            · exact sent_frame_trans (sent_frame_trans h07
                (sent_frame_mono _ (sent_frame_of_eq rfl rfl)))
                (sent_frame_mono _ (sent_frame_connect_fail cpu _ _))
            · exact sent_frame_trans (sent_frame_trans h07
                (sent_frame_mono _ (sent_frame_of_eq rfl rfl)))
                (sent_frame_mono _ (sent_frame_connect_fail cpu _ _))
            · exact sent_frame_trans (sent_frame_trans h07
                (sent_frame_mono _ (sent_frame_of_eq rfl rfl)))
                (sent_frame_mono _ (sent_frame_emit cpu _ _ rfl))

theorem sent_frame_bsys_tcp_sendv (cfg : Config) (cpu handle nrents : Nat) (env : sendv_env)
    (s s1 : State) (h : bsys_tcp_sendv cfg cpu handle nrents env s = .ok s1) :
    sent_frame none s s1 := by
  unfold bsys_tcp_sendv at h
  have h0 := sent_frame_handle cfg cpu handle s
  rcases hh : handle_to_tcpapi cfg cpu handle s with ⟨r, s0⟩
  rw [hh] at h h0
  cases r with
  | none =>
    cases h
    exact sent_frame_trans h0 (sent_frame_emit cpu _ s0 rfl)
  | some api =>
    simp only at h
    split_ifs at h with ha he
    · refine sent_frame_trans (sent_frame_trans h0 ?_) (sent_frame_enqueue cfg cpu api _ s1 h)
      exact sent_frame_set api _ s0 (fun _ => ⟨rfl, rfl⟩)
    · refine sent_frame_trans (sent_frame_trans h0 ?_) (sent_frame_enqueue cfg cpu api _ s1 h)
      exact sent_frame_set api _ s0 (fun _ => ⟨rfl, rfl⟩)
    · cases hl : sendv_loop env api (min (nrents % 4294967296) cfg.MAX_SG_ENTRIES) 0 0 s0 with
      | error e => rw [hl] at h; cases h
      | ok r =>
        obtain ⟨n, s2⟩ := r
        rw [hl] at h
        simp only at h
        obtain ⟨a, b⟩ := sendv_loop_view env api _ 0 0 s0 (n, s2) hl
        have h2 : sent_frame none s0 s2 := sent_frame_of_eq a b
        split_ifs at h with hn
        · cases hp : (s2.pcbs api).pcb with
          | none => rw [hp] at h; cases h
          | some pcb =>
            rw [hp] at h
            simp only at h
            refine sent_frame_trans (sent_frame_trans h0 h2) ?_
            refine sent_frame_trans ?_ (sent_frame_enqueue cfg cpu api _ s1 h)
            exact sent_frame_trans (sent_frame_of_eq rfl rfl)
              (sent_frame_set api _ (ext (.tcp_output (some (handle_to_fg_id handle)) pcb) s2)
                (fun _ => ⟨rfl, rfl⟩))
        · cases h
          exact sent_frame_trans h0 h2

theorem sent_on_sent (cfg : Config) (cpu arg len : Nat) (s : State) (r : err_t × State)
    (i : Nat) (h : on_sent cfg cpu arg len s = .ok r) :
    (r.2.pcbs i).handle = (s.pcbs i).handle ∧
      (r.2.pcbs i).sent_len = (if arg = i
        then int_wrap ((s.pcbs i).sent_len + ((len % 65536 : Nat) : Int))
        else (s.pcbs i).sent_len) ∧
      r.2.usys_arr = s.usys_arr := by
  unfold on_sent at h
  cases he : pcb_ready_enqueue cfg cpu arg
      (set_pcb arg (fun a => { a with sent_len := int_wrap (a.sent_len + (len % 65536 : Nat)) })
        s) with
  | error e => rw [he] at h; cases h
  | ok s1 =>
    rw [he] at h
    cases h
    have h1 := (sent_frame_enqueue cfg cpu arg _ s1 he).1 i (by simp)
    have h2 := enqueue_usys_arr cfg cpu arg _ s1 he
    refine ⟨h1.1.trans ?_, h1.2.trans ?_, h2⟩
    · by_cases e : i = arg
      · subst e; simp [set_pcb]
      · simp [set_pcb, upd, e]
    · by_cases e : i = arg
      · subst e; simp [set_pcb]
      · have e2 : ¬ arg = i := fun x => e x.symm
        simp [set_pcb, upd, e, e2]

theorem sent_bytes_first (cfg : Config) (cpu : Nat) (a : tcpapi_pcb) (H : Nat) :
    sent_bytes H (first_events cfg cpu a) = if a.handle = H then a.sent_len else 0 := by
  unfold first_events
  by_cases h1 : a.uevents &&& PCB_UEVENT_KNOCK = 0 <;>
  by_cases h2 : a.uevents &&& PCB_UEVENT_CONNECTED = 0 <;>
  by_cases h3 : a.len_xmited = 0 <;>
  by_cases h4 : a.sent_len = 0 <;>
  simp [h1, h2, h3, h4, sent_bytes]

theorem sent_bytes_recv (H h c : Nat) :
    ∀ (R : List usys_event),
      (∀ e, e ∈ R → ∃ addr len, e = usys_event.USYS_TCP_RECV h c addr len) → sent_bytes H R = 0
  | [], _ => rfl
  | e :: R, hR => by
    obtain ⟨addr, len, he⟩ := hR e (by simp)
    have ih := sent_bytes_recv H h c R (fun x hx => hR x (List.mem_cons_of_mem _ hx))
    have e1 : sent_bytes H (e :: R) = sent_bytes H [e] + sent_bytes H R :=
      sent_bytes_append H [e] R
    rw [e1, ih, he]
    rfl

theorem sent_bytes_last (H : Nat) (a : tcpapi_pcb) : sent_bytes H (last_events a) = 0 := by
  unfold last_events
  by_cases h1 : a.alive = 0 <;> by_cases h2 : a.lasterr_sysnr = 0 <;> simp [h1, h2, sent_bytes]

theorem sent_gen (cfg : Config) (cpu n fuel : Nat) (s s1 : State) (i : Nat)
    (hn : handle_to_idx (s.pcbs n).handle = n) (hi : handle_to_idx (s.pcbs i).handle = i)
    (h : __tcp_gen_usys cfg cpu n fuel s = .ok s1) :
    (s1.pcbs i).handle = (s.pcbs i).handle ∧
      ∃ evs, s1.usys_arr cpu = s.usys_arr cpu ++ evs ∧
        sent_bytes (s.pcbs i).handle evs + (s1.pcbs i).sent_len = (s.pcbs i).sent_len := by
  obtain ⟨-, R, q, next, -, hR, -, hp, hu, -, -⟩ := gen_usys_effect cfg cpu n fuel s s1 h
  have hsum : sent_bytes (s.pcbs i).handle
      (first_events cfg cpu (s.pcbs n) ++ R ++ last_events (s.pcbs n))
      = if (s.pcbs n).handle = (s.pcbs i).handle then (s.pcbs n).sent_len else 0 := by
    rw [sent_bytes_append, sent_bytes_append, sent_bytes_first, sent_bytes_last,
      sent_bytes_recv _ _ _ R hR]
    simp
  by_cases e : i = n
  · subst e
    refine ⟨by rw [hp]; simp [pcb_after_gen],
      first_events cfg cpu (s.pcbs i) ++ R ++ last_events (s.pcbs i), by rw [hu]; simp, ?_⟩
    rw [hsum, if_pos rfl, hp]
    simp [pcb_after_gen]
  · refine ⟨by rw [hp, upd_other _ _ _ _ e],
      first_events cfg cpu (s.pcbs n) ++ R ++ last_events (s.pcbs n), by rw [hu]; simp, ?_⟩
    have hne : (s.pcbs n).handle ≠ (s.pcbs i).handle := by
      intro hx
      apply e
      rw [← hi, ← hx, hn]
    rw [hsum, if_neg hne, hp, upd_other _ _ _ _ e]
    simp

/-! ## C21: the bytes the SENT events report -/

theorem sent_gen_from (cfg : Config) (cpu n fuel : Nat) (s0 s s1 : State) (i : Nat)
    (h : __tcp_gen_usys cfg cpu n fuel s = .ok s1)
    (hp : s.pcbs = s0.pcbs) (hu : s.usys_arr = s0.usys_arr)
    (hn : handle_to_idx (s0.pcbs n).handle = n) (hi : handle_to_idx (s0.pcbs i).handle = i) :
    (s1.pcbs i).handle = (s0.pcbs i).handle ∧
      ∃ evs, s1.usys_arr cpu = s0.usys_arr cpu ++ evs ∧
        sent_bytes (s0.pcbs i).handle evs + (s1.pcbs i).sent_len = (s0.pcbs i).sent_len := by
  rw [← hp] at hn hi ⊢
  rw [← hu]
  exact sent_gen cfg cpu n fuel s s1 i hn hi h

theorem sent_generate (cfg : Config) (cpu fuel : Nat) (s s1 : State) (i : Nat)
    (hinv : Inv cfg s) (hv : pcb_valid cfg s i)
    (h : tcp_generate_usys cfg cpu fuel s = .ok s1) :
    (s1.pcbs i).handle = (s.pcbs i).handle ∧
      ∃ evs, s1.usys_arr cpu = s.usys_arr cpu ++ evs ∧
        sent_bytes (s.pcbs i).handle evs + (s1.pcbs i).sent_len = (s.pcbs i).sent_len := by
  unfold tcp_generate_usys queue_pop_front at h
  cases hf : queue_front (s.pcb_ready_queue cpu) with
  | none =>
    rw [hf] at h
    cases h
    exact ⟨rfl, [], by simp, by simp [sent_bytes]⟩
  | some n =>
    rw [hf] at h
    simp only at h
    have hvn := pcb_valid_of_head cfg s cpu n hinv hf
    exact sent_gen_from cfg cpu n fuel s _ s1 i h rfl rfl hvn.1 hv.1

theorem sent_steal (cfg : Config) (cpu fuel : Nat) (env : steal_env) (s : State)
    (r : Bool × State) (i : Nat) (hinv : Inv cfg s) (hv : pcb_valid cfg s i)
    (h : tcp_steal_idle_wait cfg cpu fuel env s = .ok r) :
    (r.2.pcbs i).handle = (s.pcbs i).handle ∧
      ∃ evs, r.2.usys_arr cpu = s.usys_arr cpu ++ evs ∧
        sent_bytes (s.pcbs i).handle evs + (r.2.pcbs i).sent_len = (s.pcbs i).sent_len := by
  have hsame : (r.2 = s) → (r.2.pcbs i).handle = (s.pcbs i).handle ∧
      ∃ evs, r.2.usys_arr cpu = s.usys_arr cpu ++ evs ∧
        sent_bytes (s.pcbs i).handle evs + (r.2.pcbs i).sent_len = (s.pcbs i).sent_len := by
    intro e
    rw [e]
    exact ⟨rfl, [], by simp, by simp [sent_bytes]⟩
  unfold tcp_steal_idle_wait at h
  simp only at h
  split_ifs at h with h1 h2 h3 h4
  · cases h; exact hsame rfl
  · cases h; exact hsame rfl
  · split at h
    · cases h; exact hsame rfl
    · rename_i api hf
      split_ifs at h with h5
      split at h
      · cases h
      · rename_i s2 hg
        cases h
        have hvn := pcb_valid_of_head cfg s _ api hinv hf
        exact sent_gen_from cfg cpu api fuel s _ s2 i hg rfl rfl hvn.1 hv.1
  · cases h; exact hsame rfl
  · cases h; exact hsame rfl

theorem fill_pbufs_usys_arr :
    ∀ (fill : List (Nat × pbuf)) (s : State), (fill_pbufs fill s).usys_arr = s.usys_arr
  | [], _ => rfl
  | w :: ws, s => by
    have e : fill_pbufs (w :: ws) s = fill_pbufs ws { s with pbufs := upd s.pbufs w.1 w.2 } :=
      rfl
    rw [e, fill_pbufs_usys_arr ws]

theorem step_emitted_eq (cfg : Config) (s s1 : State) (a : Action) (evs : List usys_event)
    (h : step cfg s a = .ok s1) (hnf : ∀ c, a ≠ .finish c)
    (hu : s1.usys_arr a.cpu = s.usys_arr a.cpu ++ evs) : step_emitted cfg s a = evs := by
  cases a <;> first
    | exact absurd rfl (hnf _)
    | (simp only [step_emitted, h, hu]; simp)

theorem trace_sent_single (i : Nat) (a : Action) (h : ∀ c arg len, a ≠ .sent_cb c arg len) :
    trace_sent i [a] = 0 := by
  cases a <;> first
    | exact absurd rfl (h _ _ _)
    | rfl

theorem sent_step_of_frame (cfg : Config) (s s1 : State) (a : Action) (i : Nat)
    (x : Option Nat) (hx : some i ≠ x) (hf : sent_frame x s s1)
    (h : step cfg s a = .ok s1) (hnf : ∀ c, a ≠ .finish c)
    (hns : ∀ c arg len, a ≠ .sent_cb c arg len) :
    (s1.pcbs i).handle = (s.pcbs i).handle ∧
      sent_bytes (s.pcbs i).handle (step_emitted cfg s a) + (s1.pcbs i).sent_len
        = (s.pcbs i).sent_len + trace_sent i [a] := by
  obtain ⟨h1, h2⟩ := hf.1 i hx
  obtain ⟨evs, e1, e2⟩ := hf.2 a.cpu
  rw [step_emitted_eq cfg s s1 a evs h hnf e1, e2, trace_sent_single i a hns, h2]
  exact ⟨h1, by simp⟩

theorem sent_step (cfg : Config) (s s1 : State) (a : Action) (i : Nat)
    (hinv : Inv cfg s) (hv : pcb_valid cfg s i)
    (h : step cfg s a = .ok s1) (hk : step_keeps_slot s i a = true)
    (hfit : step_sent_fits s i a = true) :
    (s1.pcbs i).handle = (s.pcbs i).handle ∧
      sent_bytes (s.pcbs i).handle (step_emitted cfg s a) + (s1.pcbs i).sent_len
        = (s.pcbs i).sent_len + trace_sent i [a] := by
  cases a with
  | accept_cb cpu cur_fg t =>
    obtain ⟨r, hr⟩ := map_snd_ok _ s1 h
    have hf := sent_frame_on_accept cfg cpu cur_fg t s (r, s1) hr
    exact sent_step_of_frame cfg s s1 _ i _
      (fun e => by simp [step_keeps_slot] at hk; exact hk e.symm) hf h
      (fun _ e => by cases e) (fun _ _ _ e => by cases e)
  | recv_cb cpu arg p fill =>
    obtain ⟨r, hr⟩ := map_snd_ok _ s1 h
    have hf := sent_frame_on_recv cfg cpu arg p _ (r, s1) hr
    have h0 : sent_frame none s (fill_pbufs fill s) :=
      sent_frame_of_eq (keeps_fill_pbufs cfg fill s).2 (fill_pbufs_usys_arr fill s)
    exact sent_step_of_frame cfg s s1 _ i none (by simp) (sent_frame_trans h0 hf) h
      (fun _ e => by cases e) (fun _ _ _ e => by cases e)
  | sent_cb cpu arg len =>
    obtain ⟨r, hr⟩ := map_snd_ok _ s1 h
    obtain ⟨a1, a2, a3⟩ := sent_on_sent cfg cpu arg len s (r, s1) i hr
    have he : step_emitted cfg s (.sent_cb cpu arg len) = [] :=
      step_emitted_eq cfg s s1 _ [] h (fun _ e => by cases e) (by
        show s1.usys_arr cpu = s.usys_arr cpu ++ []
        rw [List.append_nil]
        exact congrFun a3 cpu)
    refine ⟨a1, ?_⟩
    rw [he]
    show sent_bytes _ [] + (s1.pcbs i).sent_len = _
    rw [sent_bytes_nil]
    simp only [trace_sent]
    have a4 : (s1.pcbs i).sent_len = (if arg = i
        then int_wrap ((s.pcbs i).sent_len + ((len % 65536 : Nat) : Int))
        else (s.pcbs i).sent_len) := a2
    rw [a4]
    by_cases e : arg = i
    · have hf : -2147483648 ≤ (s.pcbs i).sent_len + ((len % 65536 : Nat) : Int) ∧
          (s.pcbs i).sent_len + ((len % 65536 : Nat) : Int) < 2147483648 := by
        simpa [step_sent_fits, e] using hfit
      rw [if_pos e, if_pos e, int_wrap_eq _ hf.1 hf.2]
      simp
    · rw [if_neg e, if_neg e]
      simp
  | err_cb cpu arg err =>
    exact sent_step_of_frame cfg s s1 _ i none (by simp)
      (sent_frame_on_err cfg cpu arg err s s1 h) h
      (fun _ e => by cases e) (fun _ _ _ e => by cases e)
  | connected_cb cpu arg err =>
    obtain ⟨r, hr⟩ := map_snd_ok _ s1 h
    exact sent_step_of_frame cfg s s1 _ i none (by simp)
      (sent_frame_on_connected cfg cpu arg err s (r, s1) hr) h
      (fun _ e => by cases e) (fun _ _ _ e => by cases e)
  | connect cpu cookie fuel env =>
    have hf := sent_frame_bsys_tcp_connect cfg cpu cookie fuel env s s1 h
    exact sent_step_of_frame cfg s s1 _ i _
      (fun e => by simp [step_keeps_slot] at hk; exact hk e.symm) hf h
      (fun _ e => by cases e) (fun _ _ _ e => by cases e)
  | accept cpu handle cookie fuel =>
    exact sent_step_of_frame cfg s s1 _ i none (by simp)
      (sent_frame_bsys_tcp_accept cfg cpu handle cookie fuel s s1 h) h
      (fun _ e => by cases e) (fun _ _ _ e => by cases e)
  | sendv cpu handle nrents env =>
    exact sent_step_of_frame cfg s s1 _ i none (by simp)
      (sent_frame_bsys_tcp_sendv cfg cpu handle nrents env s s1 h) h
      (fun _ e => by cases e) (fun _ _ _ e => by cases e)
  | recv_done cpu handle len fuel =>
    exact sent_step_of_frame cfg s s1 _ i none (by simp)
      (sent_frame_bsys_tcp_recv_done cfg cpu handle len fuel s s1 h) h
      (fun _ e => by cases e) (fun _ _ _ e => by cases e)
  | close cpu handle fuel =>
    exact sent_step_of_frame cfg s s1 _ i none (by simp)
      (sent_frame_bsys_tcp_close cfg cpu handle fuel s s1 h) h
      (fun _ e => by cases e) (fun _ _ _ e => by cases e)
  | generate cpu fuel =>
    obtain ⟨a1, evs, a2, a3⟩ := sent_generate cfg cpu fuel s s1 i hinv hv h
    rw [step_emitted_eq cfg s s1 _ evs h (fun _ e => by cases e) a2]
    exact ⟨a1, by rw [a3]; simp [trace_sent]⟩
  | steal cpu fuel env =>
    obtain ⟨r, hr⟩ := map_snd_ok _ s1 h
    obtain ⟨a1, evs, a2, a3⟩ := sent_steal cfg cpu fuel env s (r, s1) i hinv hv hr
    rw [step_emitted_eq cfg s s1 _ evs h (fun _ e => by cases e) a2]
    exact ⟨a1, by rw [a3]; simp [trace_sent]⟩
  | finish cpu =>
    have h1 : (tcp_finish_usys cfg cpu s).map
        (fun s1 => { s1 with usys_arr := upd s1.usys_arr cpu [] }) = .ok s1 := h
    cases hf : tcp_finish_usys cfg cpu s with
    | error e => rw [hf] at h1; cases h1
    | ok s2 =>
      rw [hf] at h1
      have h2 : (Except.ok { s2 with usys_arr := upd s2.usys_arr cpu [] } : Exec State)
          = .ok s1 := h1
      simp only [Except.ok.injEq] at h2
      subst h2
      obtain ⟨b1, b2⟩ := (sent_frame_finish_loop cfg cpu _ s s2 hf).1.1 i (by simp)
      refine ⟨b1, ?_⟩
      show sent_bytes _ [] + (s2.pcbs i).sent_len = _
      rw [sent_bytes_nil, b2]
      simp [trace_sent]

theorem trace_sent_cons (i : Nat) (a : Action) (as : List Action) :
    trace_sent i (a :: as) = trace_sent i [a] + trace_sent i as := by
  cases a <;> simp [trace_sent]

theorem sent_run (cfg : Config) (hw : cfg.wf) (i : Nat) :
    ∀ (tr : List Action) (s s1 : State), Inv cfg s → pcb_valid cfg s i →
      run cfg s tr = .ok s1 → run_keeps_slot cfg i s tr = true →
      run_sent_fits cfg i s tr = true →
      (s1.pcbs i).handle = (s.pcbs i).handle ∧
        sent_bytes (s.pcbs i).handle (run_emitted cfg s tr) + (s1.pcbs i).sent_len
          = (s.pcbs i).sent_len + trace_sent i tr
  | [], s, s1, _, _, h, _, _ => by
    simp only [run, Except.ok.injEq] at h
    subst h
    simp [run_emitted, trace_sent, sent_bytes]
  | a :: as, s, s1, hinv, hv, h, hk, hfit => by
    simp only [run] at h
    simp only [run_keeps_slot, Bool.and_eq_true] at hk
    simp only [run_sent_fits, Bool.and_eq_true] at hfit
    by_cases he : env_ok cfg s a = true
    · rw [if_pos he] at h
      cases hst : step cfg s a with
      | error e => rw [hst] at h; cases h
      | ok s2 =>
        rw [hst] at h
        have hk2 := hk.2
        rw [hst] at hk2
        have hfit2 := hfit.2
        rw [hst] at hfit2
        obtain ⟨a1, a2⟩ := sent_step cfg s s2 a i hinv hv hst hk.1 hfit.1
        obtain ⟨k1, k2⟩ := keeps_step cfg hw s s2 a he hst hinv
        obtain ⟨b1, b2⟩ := sent_run cfg hw i as s2 s1 k1 (k2 i hv) h hk2 hfit2
        rw [a1] at b1 b2
        refine ⟨b1, ?_⟩
        simp only [run_emitted, hst]
        rw [sent_bytes_append, trace_sent_cons]
        linarith
    · rw [if_neg he] at h; cases h

/-- C21 (amended): for the CCB in slot `i`, found allocated (its first word is 0 or 1) in a
reachable state `s`, and every run of entries from `s` in which no entry allocates the
slot again and no sent callback takes `sent_len`, an `int`, out of the range of `int`: the
handle of the CCB stays the same, and the sum of the lengths of the SENT events with this
handle that the entries of the run appended to the event arrays, plus `sent_len` at the
end of the run, equals `sent_len` in `s` plus the sum of the `len` arguments of the sent
callbacks of the run for the CCB.  A CCB starts with `sent_len = 0`: both `on_accept` and
`bsys_tcp_connect` initialise it so. -/
theorem sent_bytes_conserved (cfg : Config) (hw : cfg.wf) (i : Nat) (tr : List Action)
    (s s1 : State) (hr : Reachable cfg s) (ha : (s.pcbs i).alive ≤ 1)
    (h : run cfg s tr = .ok s1) (hk : run_keeps_slot cfg i s tr = true)
    (hfit : run_sent_fits cfg i s tr = true) :
    (s1.pcbs i).handle = (s.pcbs i).handle ∧
      sent_bytes (s.pcbs i).handle (run_emitted cfg s tr) + (s1.pcbs i).sent_len
        = (s.pcbs i).sent_len + trace_sent i tr ∧
      ∀ pcb cookie accepted a, (init_pcb_fields pcb cookie accepted a).sent_len = 0 := by
  have hinv := Inv_reachable cfg hw s hr
  obtain ⟨h1, h2⟩ := sent_run cfg hw i tr s s1 hinv (pcb_valid_of_alive cfg s i hinv ha) h hk
    hfit
  exact ⟨h1, h2, fun _ _ _ _ => rfl⟩

/-- The statement of `sent_bytes_conserved` for the CCB in slot 1 and the run
`ex_trace_sent` from `ex_open_state`: one SENT event reports 10 bytes, 3 bytes are still
to be reported, and the sent callbacks brought 13 bytes. -/
theorem sent_bytes_conserved_witness :
    (Reachable ex_cfg ex_open_state ∧ (ex_open_state.pcbs 1).alive ≤ 1 ∧
      run ex_cfg ex_open_state ex_trace_sent = .ok (run_state ex_cfg ex_open_state ex_trace_sent) ∧
      run_keeps_slot ex_cfg 1 ex_open_state ex_trace_sent = true ∧
      run_sent_fits ex_cfg 1 ex_open_state ex_trace_sent = true) ∧
    (sent_bytes (ex_open_state.pcbs 1).handle (run_emitted ex_cfg ex_open_state ex_trace_sent)
        + ((run_state ex_cfg ex_open_state ex_trace_sent).pcbs 1).sent_len
      = (ex_open_state.pcbs 1).sent_len + trace_sent 1 ex_trace_sent) ∧
    sent_bytes (ex_open_state.pcbs 1).handle (run_emitted ex_cfg ex_open_state ex_trace_sent)
      = 10 ∧
    ((run_state ex_cfg ex_open_state ex_trace_sent).pcbs 1).sent_len = 3 ∧
    trace_sent 1 ex_trace_sent = 13 :=
  ⟨⟨run_reachable ex_cfg ex_trace_open ex_init _ ex_init_reachable rfl, by decide, rfl,
      by decide, by decide⟩,
    (sent_bytes_conserved ex_cfg ex_cfg_wf 1 ex_trace_sent ex_open_state
      (run_state ex_cfg ex_open_state ex_trace_sent)
      (run_reachable ex_cfg ex_trace_open ex_init _ ex_init_reachable rfl) (by decide) rfl
      (by decide) (by decide)).2.1,
    by decide, by decide, by decide⟩

/-! ## C22: the RECV events of one emission -/

theorem recv_events_append (cfg : Config) (a : tcpapi_pcb) (pbufs : Nat → pbuf)
    (links : Nat → List Nat) (A B : List Nat) :
    recv_events cfg a pbufs links (A ++ B)
      = recv_events cfg a pbufs links A ++ recv_events cfg a pbufs links B := by
  simp [recv_events]

theorem recv_events_congr (cfg : Config) (a b : tcpapi_pcb) (pbufs : Nat → pbuf)
    (links : Nat → List Nat) (bufs : List Nat) (h1 : b.handle = a.handle)
    (h2 : b.cookie = a.cookie) :
    recv_events cfg b pbufs links bufs = recv_events cfg a pbufs links bufs := by
  simp [recv_events, recv_event, h1, h2]

theorem recv_events_data (cfg : Config) (a : tcpapi_pcb) (pbufs pbufs0 : Nat → pbuf)
    (links : Nat → List Nat) (bufs : List Nat) (h : ∀ q, pbuf_data_eq (pbufs q) (pbufs0 q)) :
    recv_events cfg a pbufs links bufs = recv_events cfg a pbufs0 links bufs := by
  unfold recv_events
  apply List.map_congr_left
  intro q _
  obtain ⟨-, h2, h3, h4⟩ := h q
  simp [recv_event, h2, h3, h4]

theorem recv_events_filter (cfg : Config) (a : tcpapi_pcb) (pbufs : Nat → pbuf)
    (links : Nat → List Nat) (bufs : List Nat) :
    (recv_events cfg a pbufs links bufs).filter usys_is_recv
      = recv_events cfg a pbufs links bufs := by
  rw [List.filter_eq_self]
  intro e he
  simp only [recv_events, List.mem_map] at he
  obtain ⟨q, -, rfl⟩ := he
  rfl

theorem first_events_no_recv (cfg : Config) (cpu : Nat) (a : tcpapi_pcb) :
    (first_events cfg cpu a).filter usys_is_recv = [] := by
  unfold first_events
  split_ifs <;> rfl

theorem last_events_no_recv (a : tcpapi_pcb) : (last_events a).filter usys_is_recv = [] := by
  unfold last_events
  split_ifs <;> rfl

theorem gen_recv_chain_exact (cfg : Config) (cpu api : Nat) :
    ∀ (c : List Nat) (fuel p : Nat) (s s1 : State),
      is_chain (fun i => (s.pbufs i).next) (some p) c →
      gen_recv_chain cfg cpu api fuel p s = .ok s1 →
      s1.usys_arr = upd s.usys_arr cpu
          (s.usys_arr cpu ++ c.map (fun i => recv_event cfg (s.pcbs api) (s.pbufs i))) ∧
        s1.pbufs = s.pbufs ∧ s1.pbuf_for_usys_next = s.pbuf_for_usys_next ∧
        (s1.pcbs api).handle = (s.pcbs api).handle ∧ (s1.pcbs api).cookie = (s.pcbs api).cookie
  | [], _, _, _, _, h, _ => by simp [is_chain] at h
  | _ :: _, 0, _, _, _, _, h => by simp [gen_recv_chain] at h
  | x :: xs, fuel + 1, p, s, s1, hc, h => by
    rw [gen_recv_chain_succ] at h
    simp only [is_chain] at hc
    obtain ⟨hp, hrest⟩ := hc
    have hp : p = x := by simpa using hp
    subst hp
    obtain ⟨e1, e2, e3, e4⟩ := recv_link_step_spec cfg cpu api p s
    cases hn : (s.pbufs p).next with
    | none =>
      rw [hn] at h hrest
      simp only [Except.ok.injEq] at h
      subst h
      have hxs : xs = [] := by
        cases xs with
        | nil => rfl
        | cons y ys => simp [is_chain] at hrest
      subst hxs
      exact ⟨by rw [e1]; simp, e2, e3, by rw [e4]; rfl, by rw [e4]; rfl⟩
    | some p1 =>
      rw [hn] at h hrest
      obtain ⟨a1, a2, a3, a4, a5⟩ := gen_recv_chain_exact cfg cpu api xs fuel p1 _ s1
        (by rw [e2]; exact hrest) h
      refine ⟨?_, a2.trans e2, a3.trans e3, ?_, ?_⟩
      · rw [a1, e1, e2, e4]; simp [recv_event_add_active]
      · rw [a4, e4]; rfl
      · rw [a5, e4]; rfl

theorem gen_recv_queue_exact (cfg : Config) (cpu api cf : Nat) (links : Nat → List Nat) :
    ∀ (P : List Nat) (fuel : Nat) (pos : Option Nat) (s s1 : State),
      is_chain s.pbuf_for_usys_next pos P →
      (∀ p, p ∈ P → is_chain (fun i => (s.pbufs i).next) (some p) (links p)) →
      gen_recv_queue cfg cpu api cf fuel pos s = .ok s1 →
      s1.usys_arr = upd s.usys_arr cpu
        (s.usys_arr cpu ++ recv_events cfg (s.pcbs api) s.pbufs links P)
  | [], fuel, pos, s, s1, hc, _, h => by
    simp only [is_chain] at hc
    subst hc
    cases fuel <;> simp only [gen_recv_queue, Except.ok.injEq] at h <;> subst h <;>
      simp [recv_events]
  | x :: xs, 0, pos, s, s1, hc, _, h => by
    simp only [is_chain] at hc
    obtain ⟨hp, _⟩ := hc
    subst hp
    simp [gen_recv_queue] at h
  | x :: xs, fuel + 1, pos, s, s1, hc, hl, h => by
    simp only [is_chain] at hc
    obtain ⟨hp, hrest⟩ := hc
    subst hp
    simp only [gen_recv_queue] at h
    cases hch : gen_recv_chain cfg cpu api cf x s with
    | error e => rw [hch] at h; cases h
    | ok s2 =>
      rw [hch] at h
      obtain ⟨a1, a2, a3, a4, a5⟩ := gen_recv_chain_exact cfg cpu api (links x) cf x s s2
        (hl x (by simp)) hch
      have hr := gen_recv_queue_exact cfg cpu api cf links xs fuel _ s2 s1
        (by rw [a3]; exact hrest)
        (by intro p hp; rw [a2]; exact hl p (List.mem_cons_of_mem _ hp)) h
      rw [hr, a1, a2, recv_events_congr cfg (s.pcbs api) (s2.pcbs api) _ _ _ a4 a5]
      simp [recv_events]

theorem gen_usys_recv_exact (cfg : Config) (cpu api fuel : Nat) (s s1 : State)
    (links : Nat → List Nat) (P : List Nat)
    (h : __tcp_gen_usys cfg cpu api fuel s = .ok s1)
    (hP : is_chain s.pbuf_for_usys_next (s.pcbs api).pbuf_for_usys.head P)
    (hl : ∀ p, p ∈ P → is_chain (fun i => (s.pbufs i).next) (some p) (links p)) :
    ((s1.usys_arr cpu).drop (s.usys_arr cpu).length).filter usys_is_recv
      = recv_events cfg (s.pcbs api) s.pbufs links P := by
  unfold __tcp_gen_usys at h
  split_ifs at h with hfl hcn
  simp only at h
  obtain ⟨f1, f2, f3, f4⟩ := gen_usys_first_effect cfg cpu api s
  have hA : (gen_usys_first cfg cpu api s).pcbs api
      = pcb_after_first (s.pcbs api) (first_events cfg cpu (s.pcbs api)).length := by
    rw [f1]; simp
  cases hq : gen_recv_queue cfg cpu api fuel fuel
      ((gen_usys_first cfg cpu api s).pcbs api).pbuf_for_usys.head
      (gen_usys_first cfg cpu api s) with
  | error e => rw [hq] at h; cases h
  | ok s6 =>
    rw [hq] at h
    simp only at h
    cases hc : queue_clear fuel (s6.pcbs api).pbuf_for_usys s6.pbuf_for_usys_next with
    | error e => rw [hc] at h; cases h
    | ok r =>
      obtain ⟨q, next⟩ := r
      rw [hc] at h
      simp only [Except.ok.injEq] at h
      have hx := gen_recv_queue_exact cfg cpu api fuel links P fuel _ _ s6
        (by rw [f3, hA]; exact hP) (by rw [f4.1]; exact hl) hq
      have hl2 := gen_usys_last_spec cpu api
        { set_pcb api (fun a => { a with pbuf_for_usys := q }) s6 with
          pbuf_for_usys_next := next }
      rw [h] at hl2
      rw [hl2]
      show ((upd s6.usys_arr cpu (s6.usys_arr cpu ++ _) cpu).drop _).filter _ = _
      rw [hx, f2, f4.1, recv_events_congr cfg (s.pcbs api) _ _ _ _
        (by rw [hA]; rfl) (by rw [hA]; rfl)]
      simp [List.filter_append, first_events_no_recv, last_events_no_recv, recv_events_filter]

/-! ## C22: what the ready queue and the acknowledgement leave of the receive side -/

theorem queue_clear_view :
    ∀ (fuel : Nat) (l : List Nat) (q q1 : queue) (next next1 : Nat → Option Nat),
      queue_repr q next l → queue_clear fuel q next = .ok (q1, next1) → queue_repr q1 next1 []
  | 0, _, _, _, _, _, _, h => by simp [queue_clear] at h
  | fuel + 1, [], q, q1, next, next1, hq, h => by
    simp only [queue_clear, queue_pop_front_empty q next hq, Except.ok.injEq,
      Prod.mk.injEq] at h
    obtain ⟨rfl, rfl⟩ := h
    exact hq
  | fuel + 1, x :: xs, q, q1, next, next1, hq, h => by
    obtain ⟨q2, hp, hr⟩ := queue_pop_front_repr q next x xs hq
    simp only [queue_clear, hp] at h
    exact queue_clear_view fuel xs q2 q1 _ next1 hr h

theorem recv_same_refl (i : Nat) (s : State) : recv_same i s s :=
  ⟨rfl, rfl, rfl, rfl, rfl, rfl, rfl, rfl, rfl, rfl, rfl⟩

theorem recv_same_trans (i : Nat) (s s1 s2 : State) (h1 : recv_same i s s1)
    (h2 : recv_same i s1 s2) : recv_same i s s2 := by
  unfold recv_same at *
  obtain ⟨hpb, hnx, hus, hhd, hck, hal, hac, hrc, hrt, hpq, hfl⟩ := h1
  obtain ⟨kpb, knx, kus, khd, kck, kal, kac, krc, krt, kpq, kfl⟩ := h2
  rw [kpb, knx, kus, khd, kck, kal, kac, krc, krt, kpq, kfl]
  exact ⟨hpb, hnx, hus, hhd, hck, hal, hac, hrc, hrt, hpq, hfl⟩

theorem recvd_next_eq (s s1 : State) (h : s1.pbufs = s.pbufs) : recvd_next s1 = recvd_next s := by
  funext p
  simp [recvd_next, h]

theorem recv_inv_same (cfg : Config) (cpu i handle : Nat) (pbufs0 : Nat → pbuf)
    (links : Nat → List Nat) (s s1 : State) (D : List Nat) (E : List usys_event)
    (hi : recv_inv cfg cpu i handle pbufs0 links s D E) (hs : recv_same i s s1)
    (hq : queue_own cpu i s1) : recv_inv cfg cpu i handle pbufs0 links s1 D E := by
  obtain ⟨a1, a2, a3, a4, a5, a6, a7, a8, a9, a10, a11⟩ := hs
  refine ⟨by rw [a4]; exact hi.handle_eq, by rw [a6]; exact hi.alive, hq,
    by rw [a3]; exact hi.events, by rw [a11]; exact hi.not_closed,
    by rw [a1]; exact hi.data, ?_, ?_⟩
  · intro hacc
    rw [a7] at hacc
    rw [recvd_next_eq s s1 a1, a8, a9, a10, a2]
    exact hi.before hacc
  · intro hacc
    rw [a7] at hacc
    obtain ⟨P, p1, p2, p3⟩ := hi.after hacc
    refine ⟨P, by rw [a10, a2]; exact p1, p2, ?_⟩
    rw [recv_events_congr cfg (s.pcbs i) (s1.pcbs i) _ _ P a4 a5,
      recv_events_congr cfg (s.pcbs i) (s1.pcbs i) _ _ D a4 a5]
    exact p3

theorem flag_clear_ready_keeps_closed (f : Nat) :
    (f &&& (255 ^^^ PCB_FLAG_READY)) &&& PCB_FLAG_CLOSED = f &&& PCB_FLAG_CLOSED := by
  rw [Nat.and_assoc]
  rfl

theorem recv_enqueue (cfg : Config) (cpu i handle : Nat) (s s1 : State)
    (hH : recv_handle cfg cpu i handle) (hh : (s.pcbs i).handle = handle)
    (hq : queue_own cpu i s) (h : pcb_ready_enqueue cfg cpu i s = .ok s1) :
    recv_same i s s1 ∧ queue_own cpu i s1 := by
  unfold pcb_ready_enqueue at h
  rw [hh] at h
  simp only [fgs_read, hH.2.1, if_true, hH.2.2, ne_eq, not_true_eq_false, if_false] at h
  split_ifs at h with hc
  · cases hp : queue_push_back (s.pcb_ready_queue cpu) s.ready_queue_next i with
    | error e => rw [hp] at h; cases h
    | ok r =>
      obtain ⟨q, next⟩ := r
      rw [hp] at h
      simp only [Except.ok.injEq] at h
      subst h
      refine ⟨⟨rfl, rfl, rfl, rfl, rfl, rfl, rfl, rfl, rfl, rfl, rfl⟩, ?_⟩
      unfold queue_push_back at hp
      split_ifs at hp with hcont
      · simp only [Except.ok.injEq, Prod.mk.injEq] at hp
        obtain ⟨rfl, rfl⟩ := hp
        simpa [queue_own] using hq
      · have hn : s.ready_queue_next i = none := by
          simp only [queue_contains, Bool.or_eq_true, not_or] at hcont
          simpa using hcont.1
        rcases hq with hq | ⟨-, ht, -⟩
        · rw [hq] at hp
          simp only [Except.ok.injEq, Prod.mk.injEq] at hp
          obtain ⟨rfl, rfl⟩ := hp
          right
          simp [hn]
        · exfalso
          apply hcont
          simp [queue_contains, ht]
  · simp only [Except.ok.injEq] at h
    subst h
    refine ⟨⟨rfl, rfl, rfl, by simp, by simp, by simp, by simp, by simp, by simp, by simp, ?_⟩,
      hq⟩
    simp only [set_pcb_pcbs_same]
    exact flag_ready_keeps_closed _

theorem recv_finish_one (cfg : Config) (cpu i handle : Nat) (s s1 : State)
    (hH : recv_handle cfg cpu i handle) (hh : (s.pcbs i).handle = handle)
    (hq : queue_own cpu i s) (hcl : (s.pcbs i).flags &&& PCB_FLAG_CLOSED = 0)
    (h : __tcp_finish_usys cfg cpu i s = .ok s1) :
    recv_same i s s1 ∧ queue_own cpu i s1 := by
  unfold __tcp_finish_usys at h
  simp only at h
  have hcl2 : ((set_pcb i (fun a => { a with active_usys_count := a.active_usys_count - 1 })
      (ext (.bsys_dispatch_remote cpu) s)).pcbs i).flags &&& PCB_FLAG_CLOSED = 0 := by
    simpa [ext] using hcl
  have hsame : recv_same i s (set_pcb i
      (fun a => { a with active_usys_count := a.active_usys_count - 1 })
      (ext (.bsys_dispatch_remote cpu) s)) :=
    ⟨rfl, rfl, rfl, by simp [ext], by simp [ext], by simp [ext], by simp [ext], by simp [ext],
      by simp [ext], by simp [ext], by simp [ext]⟩
  split_ifs at h with h1 h2
  · exact absurd hcl2 h1.2
  · have hsame2 : recv_same i s (set_pcb i
        (fun a => { a with flags := a.flags &&& (255 ^^^ PCB_FLAG_READY) })
        (set_pcb i (fun a => { a with active_usys_count := a.active_usys_count - 1 })
          (ext (.bsys_dispatch_remote cpu) s))) :=
      ⟨rfl, rfl, rfl, by simp [ext], by simp [ext], by simp [ext], by simp [ext],
        by simp [ext], by simp [ext], by simp [ext],
        by simp only [set_pcb_pcbs_same]; exact flag_clear_ready_keeps_closed _⟩
    obtain ⟨r1, r2⟩ := recv_enqueue cfg cpu i handle (set_pcb i
        (fun a => { a with flags := a.flags &&& (255 ^^^ PCB_FLAG_READY) })
        (set_pcb i (fun a => { a with active_usys_count := a.active_usys_count - 1 })
          (ext (.bsys_dispatch_remote cpu) s))) s1 hH
      (by rw [hsame2.2.2.2.1]; exact hh) hq h
    exact ⟨recv_same_trans i _ _ _ hsame2 r1, r2⟩
  · simp only [Except.ok.injEq] at h
    subst h
    exact ⟨hsame, hq⟩

theorem recv_finish_loop (cfg : Config) (cpu i handle : Nat)
    (hH : recv_handle cfg cpu i handle) :
    ∀ (es : List usys_event) (s s1 : State),
      (∀ e, e ∈ es → usys_is_tcp e = true → usys_arga e = handle) →
      (s.pcbs i).handle = handle → queue_own cpu i s →
      (s.pcbs i).flags &&& PCB_FLAG_CLOSED = 0 →
      tcp_finish_usys_loop cfg cpu es s = .ok s1 → recv_same i s s1 ∧ queue_own cpu i s1
  | [], s, s1, _, _, hq, _, h => by
    simp only [tcp_finish_usys_loop, Except.ok.injEq] at h
    subst h
    exact ⟨recv_same_refl i s, hq⟩
  | e :: es, s, s1, hes, hh, hq, hcl, h => by
    have hrest : ∀ e1, e1 ∈ es → usys_is_tcp e1 = true → usys_arga e1 = handle :=
      fun e1 h1 => hes e1 (List.mem_cons_of_mem _ h1)
    simp only [tcp_finish_usys_loop] at h
    split_ifs at h with ht
    · rw [hes e (by simp) ht] at h
      simp only [bsys_tcp_home_id, fgs_read, hH.2.1, if_true, hH.2.2, hH.1] at h
      cases hf : __tcp_finish_usys cfg cpu i s with
      | error f => rw [hf] at h; cases h
      | ok s2 =>
        rw [hf] at h
        obtain ⟨r1, r2⟩ := recv_finish_one cfg cpu i handle s s2 hH hh hq hcl hf
        obtain ⟨r3, r4⟩ := recv_finish_loop cfg cpu i handle hH es s2 s1 hrest
          (by rw [r1.2.2.2.1]; exact hh) r2 (by rw [r1.2.2.2.2.2.2.2.2.2.2]; exact hcl) h
        exact ⟨recv_same_trans i _ _ _ r1 r3, r4⟩
    · exact recv_finish_loop cfg cpu i handle hH es s s1 hrest hh hq hcl h

/-! ## C22: queueing a buffer for emission -/

theorem recv_keep_of_same (i : Nat) (s s1 : State) (h : recv_same i s s1) : recv_keep i s s1 := by
  obtain ⟨a1, a2, a3, a4, a5, a6, a7, a8, a9, a10, a11⟩ := h
  exact ⟨a1, a3, a4, a5, a6, a7, a8, a9, a11⟩

theorem recv_keep_refl (i : Nat) (s : State) : recv_keep i s s :=
  ⟨rfl, rfl, rfl, rfl, rfl, rfl, rfl, rfl, rfl⟩

theorem recv_keep_trans (i : Nat) (s s1 s2 : State) (h1 : recv_keep i s s1)
    (h2 : recv_keep i s1 s2) : recv_keep i s s2 := by
  unfold recv_keep at *
  obtain ⟨hpb, hus, hhd, hck, hal, hac, hrc, hrt, hfl⟩ := h1
  obtain ⟨kpb, kus, khd, kck, kal, kac, krc, krt, kfl⟩ := h2
  rw [kpb, kus, khd, kck, kal, kac, krc, krt, kfl]
  exact ⟨hpb, hus, hhd, hck, hal, hac, hrc, hrt, hfl⟩

theorem recv_a_pbuf_view (cfg : Config) (cpu i handle p : Nat) (s s1 : State) (P : List Nat)
    (hH : recv_handle cfg cpu i handle) (hh : (s.pcbs i).handle = handle)
    (hq : queue_own cpu i s)
    (hr : queue_repr (s.pcbs i).pbuf_for_usys s.pbuf_for_usys_next P) (hp : p ∉ P)
    (h : recv_a_pbuf cfg cpu i p s = .ok s1) :
    queue_repr (s1.pcbs i).pbuf_for_usys s1.pbuf_for_usys_next (P ++ [p]) ∧
      recv_keep i s s1 ∧ queue_own cpu i s1 := by
  unfold recv_a_pbuf at h
  by_cases hn : s.pbuf_for_usys_next p = none
  · obtain ⟨q1, next1, hpush, hrepr, -⟩ := queue_push_back_repr _ _ P p hr hp hn
    rw [hpush] at h
    simp only at h
    split_ifs at h with ht
    obtain ⟨r1, r2⟩ := recv_enqueue cfg cpu i handle
      { set_pcb i (fun a => { a with pbuf_for_usys := q1 }) s with
        pbuf_for_usys_next := next1 } s1 hH
      (by show ((set_pcb i (fun a => { a with pbuf_for_usys := q1 }) s).pcbs i).handle = handle
          rw [set_pcb_pcbs_same]; exact hh) hq h
    obtain ⟨a1, a2, a3, a4, a5, a6, a7, a8, a9, a10, a11⟩ := r1
    have hpc : ({ set_pcb i (fun a => { a with pbuf_for_usys := q1 }) s with
        pbuf_for_usys_next := next1 } : State).pcbs i
        = { s.pcbs i with pbuf_for_usys := q1 } := by
      simp [set_pcb]
    refine ⟨?_, ⟨a1, a3, ?_, ?_, ?_, ?_, ?_, ?_, ?_⟩, r2⟩
    · rw [a10, a2, hpc]
      exact hrepr
    · rw [a4, hpc]
    · rw [a5, hpc]
    · rw [a6, hpc]
    · rw [a7, hpc]
    · rw [a8, hpc]
    · rw [a9, hpc]
    · rw [a11, hpc]
  · have hcont : queue_contains (s.pcbs i).pbuf_for_usys s.pbuf_for_usys_next p = true := by
      cases hx : s.pbuf_for_usys_next p with
      | none => exact absurd hx hn
      | some y => simp [queue_contains, hx]
    simp only [queue_push_back, hcont, if_true] at h
    split_ifs at h with ht
    exfalso
    have ht2 : (s.pcbs i).pbuf_for_usys.tail = some p := by
      have : ((set_pcb i (fun a => { a with pbuf_for_usys := (s.pcbs i).pbuf_for_usys })
          s).pcbs i).pbuf_for_usys.tail = some p := by
        by_contra hne
        exact ht hne
      rw [set_pcb_pcbs_same] at this
      exact this
    rw [hr.2] at ht2
    exact hp (List.mem_of_getLast?_eq_some ht2)

theorem accept_loop_view (cfg : Config) (cpu i handle : Nat)
    (hH : recv_handle cfg cpu i handle) :
    ∀ (D : List Nat) (fuel : Nat) (tmp : Option Nat) (s s1 : State) (P : List Nat),
      (s.pcbs i).handle = handle → queue_own cpu i s →
      queue_repr (s.pcbs i).pbuf_for_usys s.pbuf_for_usys_next P →
      is_chain (recvd_next s) tmp D → (∀ x, x ∈ D → x ∉ P) →
      accept_loop cfg cpu i fuel tmp s = .ok s1 →
      queue_repr (s1.pcbs i).pbuf_for_usys s1.pbuf_for_usys_next (P ++ D) ∧
        recv_keep i s s1 ∧ queue_own cpu i s1
  | [], fuel, tmp, s, s1, P, _, hq, hr, hc, _, h => by
    simp only [is_chain] at hc
    subst hc
    cases fuel <;> simp only [accept_loop, Except.ok.injEq] at h <;> subst h <;>
      exact ⟨by simpa using hr, recv_keep_refl i _, hq⟩
  | x :: xs, 0, tmp, s, s1, P, _, _, _, hc, _, h => by
    simp only [is_chain] at hc
    obtain ⟨hp, _⟩ := hc
    subst hp
    simp [accept_loop] at h
  | x :: xs, fuel + 1, tmp, s, s1, P, hh, hq, hr, hc, hd, h => by
    have hnd := is_chain_nodup _ _ _ hc
    simp only [is_chain] at hc
    obtain ⟨hp, hrest⟩ := hc
    subst hp
    simp only [accept_loop] at h
    cases hx : recv_a_pbuf cfg cpu i x s with
    | error e => rw [hx] at h; cases h
    | ok s2 =>
      rw [hx] at h
      simp only at h
      obtain ⟨r1, r2, r3⟩ := recv_a_pbuf_view cfg cpu i handle x s s2 P hH hh hq hr
        (hd x (by simp)) hx
      obtain ⟨t1, t2, t3⟩ := accept_loop_view cfg cpu i handle hH xs fuel _ s2 s1 (P ++ [x])
        (by rw [r2.2.2.1]; exact hh) r3 r1
        (by rw [recvd_next_eq s s2 r2.1]
            have : (s2.pbufs x).tcp_api_next = recvd_next s x := by
              rw [r2.1]; rfl
            rw [this]; exact hrest)
        (by intro y hy hm
            rcases List.mem_append.mp hm with hm | hm
            · exact hd y (List.mem_cons_of_mem _ hy) hm
            · simp only [List.mem_singleton] at hm
              subst hm
              exact (List.nodup_cons.mp hnd).1 hy) h
      exact ⟨by simpa using t1, recv_keep_trans i _ _ _ r2 t2, t3⟩

theorem on_recv_eq (cfg : Config) (cpu arg p : Nat) (s : State) :
    on_recv cfg cpu arg (some p) s =
      match recv_append arg p s with
      | .error e => .error e
      | .ok s2 =>
        if !(s2.pcbs arg).accepted then .ok (err_t.ERR_OK, s2)
        else
          match recv_a_pbuf cfg cpu arg p s2 with
          | .error e => .error e
          | .ok s3 => .ok (err_t.ERR_OK, s3) := by
  unfold on_recv recv_append
  cases (s.pcbs arg).recvd with
  | none => rfl
  | some r =>
    cases (s.pcbs arg).recvd_tail with
    | none => rfl
    | some t => rfl

/-! ## C22: the receive callback and ACCEPT -/

theorem upd_comm {α : Type} (f : Nat → α) (i j : Nat) (v w : α) (h : i ≠ j) :
    upd (upd f i v) j w = upd (upd f j w) i v := by
  funext k
  by_cases h1 : k = i
  · subst h1
    simp [upd, h]
  · by_cases h2 : k = j
    · subst h2
      simp [upd, h1]
    · simp [upd, h1, h2]

theorem pbuf_data_eq_link (pb : Nat → pbuf) (t : Nat) (v : Option Nat) (q : Nat) :
    pbuf_data_eq (upd pb t { pb t with tcp_api_next := v } q) (pb q) := by
  by_cases hq : q = t
  · subst hq
    simp [pbuf_data_eq]
  · simp [upd, hq, pbuf_data_eq]

theorem recvd_next_upd (s s2 : State) (t : Nat) (v : Option Nat)
    (h : s2.pbufs = upd s.pbufs t { s.pbufs t with tcp_api_next := v }) :
    recvd_next s2 = upd (recvd_next s) t v := by
  funext q
  simp only [recvd_next, h]
  by_cases hq : q = t
  · subst hq
    simp [recvd_next]
  · simp [upd, hq, recvd_next]

theorem pbuf_data_eq_trans (a b c : pbuf) (h1 : pbuf_data_eq a b) (h2 : pbuf_data_eq b c) :
    pbuf_data_eq a c :=
  ⟨h1.1.trans h2.1, h1.2.1.trans h2.2.1, h1.2.2.1.trans h2.2.2.1, h1.2.2.2.trans h2.2.2.2⟩

theorem is_chain_none (next : Nat → Option Nat) (l : List Nat) (h : is_chain next none l) :
    l = [] := by
  cases l with
  | nil => rfl
  | cons x xs => simp [is_chain] at h

theorem recv_append_view (i p : Nat) (s s2 : State) (h : recv_append i p s = .ok s2) :
    s2.usys_arr = s.usys_arr ∧ s2.pbuf_for_usys_next = s.pbuf_for_usys_next ∧
      s2.pcb_ready_queue = s.pcb_ready_queue ∧ s2.ready_queue_next = s.ready_queue_next ∧
      (s2.pcbs i).handle = (s.pcbs i).handle ∧ (s2.pcbs i).cookie = (s.pcbs i).cookie ∧
      (s2.pcbs i).alive = (s.pcbs i).alive ∧ (s2.pcbs i).accepted = (s.pcbs i).accepted ∧
      (s2.pcbs i).flags = (s.pcbs i).flags ∧
      (s2.pcbs i).pbuf_for_usys = (s.pcbs i).pbuf_for_usys ∧
      (∀ q, pbuf_data_eq (s2.pbufs q) (s.pbufs q)) ∧
      ∀ D, is_chain (recvd_next s) (s.pcbs i).recvd D →
        (∀ t, D.getLast? = some t → (s.pcbs i).recvd_tail = some t) → p ∉ D →
        is_chain (recvd_next s2) (s2.pcbs i).recvd (D ++ [p]) ∧
          (s2.pcbs i).recvd_tail = some p := by
  unfold recv_append at h
  cases hr : (s.pcbs i).recvd with
  | none =>
    rw [hr] at h
    simp only [Except.ok.injEq] at h
    subst h
    refine ⟨rfl, rfl, rfl, rfl, by simp [set_pcb], by simp [set_pcb], by simp [set_pcb],
      by simp [set_pcb], by simp [set_pcb], by simp [set_pcb], ?_, ?_⟩
    · intro q
      by_cases hq : q = p
      · subst hq; simp [set_pcb, pbuf_data_eq]
      · simp [set_pcb, upd, hq, pbuf_data_eq]
    · intro D hc _ _
      have hD := is_chain_none _ _ hc
      subst hD
      refine ⟨?_, by simp [set_pcb]⟩
      simp [is_chain, set_pcb, recvd_next]
  | some r =>
    rw [hr] at h
    cases hrt : (s.pcbs i).recvd_tail with
    | none => rw [hrt] at h; cases h
    | some t =>
      rw [hrt] at h
      simp only [Except.ok.injEq] at h
      have e1 : recvd_next (set_pcb i (fun a => { a with recvd_tail := some p }) { s with pbufs := upd s.pbufs t { s.pbufs t with tcp_api_next := some p } }) = upd (recvd_next s) t (some p) :=
        recvd_next_upd s _ t (some p) rfl
      have e2 : recvd_next s2 = upd (recvd_next (set_pcb i (fun a => { a with recvd_tail := some p }) { s with pbufs := upd s.pbufs t { s.pbufs t with tcp_api_next := some p } })) p none := by
        subst h
        exact recvd_next_upd (set_pcb i (fun a => { a with recvd_tail := some p }) { s with pbufs := upd s.pbufs t { s.pbufs t with tcp_api_next := some p } }) _ p none rfl
      have hrec : (s2.pcbs i).recvd = (s.pcbs i).recvd := by
        subst h
        simp [set_pcb]
      have hdata : ∀ q, pbuf_data_eq (s2.pbufs q) (s.pbufs q) := by
        intro q
        subst h
        exact pbuf_data_eq_trans _ _ _ (pbuf_data_eq_link (set_pcb i (fun a => { a with recvd_tail := some p }) { s with pbufs := upd s.pbufs t { s.pbufs t with tcp_api_next := some p } }).pbufs p none q)
          (pbuf_data_eq_link s.pbufs t (some p) q)
      refine ⟨by subst h; rfl, by subst h; rfl, by subst h; rfl, by subst h; rfl,
        by subst h; simp [set_pcb], by subst h; simp [set_pcb], by subst h; simp [set_pcb],
        by subst h; simp [set_pcb], by subst h; simp [set_pcb], by subst h; simp [set_pcb],
        hdata, ?_⟩
      intro D hc ht hpD
      obtain ⟨t0, ht0⟩ : ∃ t0, D.getLast? = some t0 := by
        cases D with
        | nil => simp [is_chain] at hc
        | cons x xs =>
          cases hl : (x :: xs).getLast? with
          | none => simp at hl
          | some t0 => exact ⟨t0, rfl⟩
      have htt : t = t0 := by
        have := ht t0 ht0
        exact Option.some.inj this
      subst htt
      have htm : t ∈ D := List.mem_of_getLast?_eq_some ht0
      have hpt : p ≠ t := fun e => hpD (e ▸ htm)
      refine ⟨?_, by subst h; simp [set_pcb]⟩
      rw [e2, e1, hrec, hr, upd_comm _ t p _ _ (Ne.symm hpt)]
      have hc2 := is_chain_upd (recvd_next s) p none D _ hpD hc
      exact is_chain_append (upd (recvd_next s) p none) p t (by simp) D _ hc2 ht0 hpD

/-! ## C22: the entries of one connection keep the receive invariant -/

theorem recv_step_deliver (cfg : Config) (cpu i handle : Nat) (pbufs0 : Nat → pbuf)
    (links : Nat → List Nat) (s : State) (r : err_t × State) (D : List Nat)
    (E : List usys_event) (p : Nat) (hH : recv_handle cfg cpu i handle)
    (hi : recv_inv cfg cpu i handle pbufs0 links s D E) (hp : p ∉ D)
    (h : on_recv cfg cpu i (some p) s = .ok r) :
    recv_inv cfg cpu i handle pbufs0 links r.2 (D ++ [p]) E ∧ r.2.usys_arr = s.usys_arr ∧
      (r.2.pcbs i).accepted = (s.pcbs i).accepted := by
  rw [on_recv_eq] at h
  cases ha : recv_append i p s with
  | error e => rw [ha] at h; cases h
  | ok s2 =>
    rw [ha] at h
    simp only at h
    obtain ⟨v1, v2, v3, v4, v5, v6, v7, v8, v9, v10, v11, v12⟩ := recv_append_view i p s s2 ha
    have hq2 : queue_own cpu i s2 := by
      unfold queue_own
      rw [v3, v4]
      exact hi.queue
    by_cases hacc : (s.pcbs i).accepted = true
    · have hacc2 : (s2.pcbs i).accepted = true := v8.trans hacc
      simp only [hacc2, Bool.not_true, Bool.false_eq_true, if_false] at h
      cases hx : recv_a_pbuf cfg cpu i p s2 with
      | error e => rw [hx] at h; cases h
      | ok s3 =>
        rw [hx] at h
        simp only [Except.ok.injEq] at h
        subst h
        obtain ⟨P, p1, p2, p3⟩ := hi.after hacc
        obtain ⟨r1, r2, r3⟩ := recv_a_pbuf_view cfg cpu i handle p s2 s3 P hH
          (v5.trans hi.handle_eq) hq2 (by rw [v10, v2]; exact p1) (fun hm => hp (p2 p hm)) hx
        obtain ⟨b1, b2, b3, b4, b5, b6, b7, b8, b9⟩ := r2
        refine ⟨⟨b3.trans (v5.trans hi.handle_eq), ?_, r3, ?_, ?_, ?_, ?_, ?_⟩,
          b2.trans v1, b6.trans v8⟩
        · show (s3.pcbs i).alive ≤ 1
          rw [b5, v7]; exact hi.alive
        · show ∀ e, e ∈ s3.usys_arr cpu → _
          rw [b2, v1]; exact hi.events
        · show (s3.pcbs i).flags &&& PCB_FLAG_CLOSED = 0
          rw [b9, v9]; exact hi.not_closed
        · intro q
          show pbuf_data_eq (s3.pbufs q) (pbufs0 q)
          rw [b1]
          exact pbuf_data_eq_trans _ _ _ (v11 q) (hi.data q)
        · intro hb
          have : (s3.pcbs i).accepted = true := b6.trans hacc2
          rw [this] at hb
          cases hb
        · intro _
          refine ⟨P ++ [p], r1, ?_, ?_⟩
          · intro x hx2
            rcases List.mem_append.mp hx2 with hx2 | hx2
            · exact List.mem_append_left _ (p2 x hx2)
            · exact List.mem_append_right _ hx2
          · show E ++ recv_events cfg (s3.pcbs i) pbufs0 links (P ++ [p])
              = recv_events cfg (s3.pcbs i) pbufs0 links (D ++ [p])
            rw [recv_events_congr cfg (s.pcbs i) (s3.pcbs i) _ _ _ (b3.trans v5) (b4.trans v6),
              recv_events_congr cfg (s.pcbs i) (s3.pcbs i) _ _ _ (b3.trans v5) (b4.trans v6),
              recv_events_append, recv_events_append, ← List.append_assoc, p3]
    · have hf : (s.pcbs i).accepted = false := by simpa using hacc
      have hf2 : (s2.pcbs i).accepted = false := v8.trans hf
      simp only [hf2, Bool.not_false, if_true, Except.ok.injEq] at h
      subst h
      obtain ⟨c1, c2, c3, c4⟩ := hi.before hf
      obtain ⟨k1, k2⟩ := v12 D c1 c2 hp
      refine ⟨⟨v5.trans hi.handle_eq, ?_, hq2, ?_, ?_, ?_, ?_, ?_⟩, v1, v8⟩
      · show (s2.pcbs i).alive ≤ 1
        rw [v7]; exact hi.alive
      · show ∀ e, e ∈ s2.usys_arr cpu → _
        rw [v1]; exact hi.events
      · show (s2.pcbs i).flags &&& PCB_FLAG_CLOSED = 0
        rw [v9]; exact hi.not_closed
      · intro q
        exact pbuf_data_eq_trans _ _ _ (v11 q) (hi.data q)
      · intro _
        refine ⟨k1, ?_, ?_, c4⟩
        · intro t ht
          have : t = p := by simpa using ht.symm
          subst this
          exact k2
        · show queue_repr (s2.pcbs i).pbuf_for_usys s2.pbuf_for_usys_next []
          rw [v10, v2]; exact c3
      · intro hb
        have : (s2.pcbs i).accepted = false := hf2
        rw [this] at hb
        cases hb

theorem recv_accept_finish (cfg : Config) (cpu i handle fuel : Nat) (pbufs0 : Nat → pbuf)
    (links : Nat → List Nat) (s s2 s1 : State) (D : List Nat) (E : List usys_event)
    (h : accept_loop cfg cpu i fuel (s2.pcbs i).recvd s2 = .ok s1)
    (hH : recv_handle cfg cpu i handle)
    (hi : recv_inv cfg cpu i handle pbufs0 links s D E) (hf : (s.pcbs i).accepted = false)
    (e1 : s2.pbufs = s.pbufs) (e2 : s2.pbuf_for_usys_next = s.pbuf_for_usys_next)
    (e3 : s2.usys_arr = s.usys_arr) (e4 : s2.pcb_ready_queue = s.pcb_ready_queue)
    (e5 : s2.ready_queue_next = s.ready_queue_next)
    (e6 : (s2.pcbs i).handle = (s.pcbs i).handle) (e7 : (s2.pcbs i).alive = (s.pcbs i).alive)
    (e8 : (s2.pcbs i).flags = (s.pcbs i).flags) (e9 : (s2.pcbs i).recvd = (s.pcbs i).recvd)
    (e10 : (s2.pcbs i).pbuf_for_usys = (s.pcbs i).pbuf_for_usys)
    (e11 : (s2.pcbs i).accepted = true) :
    recv_inv cfg cpu i handle pbufs0 links s1 D E ∧ s1.usys_arr = s.usys_arr ∧
      (s1.pcbs i).accepted = true := by
  obtain ⟨c1, c2, c3, c4⟩ := hi.before hf
  have hq2 : queue_own cpu i s2 := by
    unfold queue_own
    rw [e4, e5]
    exact hi.queue
  obtain ⟨t1, t2, t3⟩ := accept_loop_view cfg cpu i handle hH D fuel _ s2 s1 []
    (e6.trans hi.handle_eq) hq2 (by rw [e10, e2]; exact c3)
    (by rw [recvd_next_eq s s2 e1, e9]; exact c1) (fun _ _ hm => by cases hm) h
  obtain ⟨b1, b2, b3, b4, b5, b6, b7, b8, b9⟩ := t2
  have hacc1 : (s1.pcbs i).accepted = true := b6.trans e11
  refine ⟨⟨b3.trans (e6.trans hi.handle_eq), ?_, t3, ?_, ?_, ?_, ?_, ?_⟩, b2.trans e3, hacc1⟩
  · rw [b5, e7]; exact hi.alive
  · rw [b2, e3]; exact hi.events
  · rw [b9, e8]; exact hi.not_closed
  · intro q
    rw [b1, e1]
    exact hi.data q
  · intro hb
    rw [hacc1] at hb
    cases hb
  · intro _
    refine ⟨D, by simpa using t1, fun x hx => hx, ?_⟩
    rw [c4]
    rfl

theorem recv_step_accept (cfg : Config) (cpu i handle cookie fuel : Nat) (pbufs0 : Nat → pbuf)
    (links : Nat → List Nat) (s s1 : State) (D : List Nat) (E : List usys_event)
    (hH : recv_handle cfg cpu i handle)
    (hi : recv_inv cfg cpu i handle pbufs0 links s D E) (hf : (s.pcbs i).accepted = false)
    (h : bsys_tcp_accept cfg cpu handle cookie fuel s = .ok s1) :
    recv_inv cfg cpu i handle pbufs0 links s1 D E ∧ s1.usys_arr = s.usys_arr ∧
      (s1.pcbs i).accepted = true := by
  unfold bsys_tcp_accept at h
  have hl : handle_to_tcpapi cfg cpu handle s
      = (some i, eth_fg_set_current cpu (handle_to_fg_id handle) s) := by
    unfold handle_to_tcpapi
    rw [if_neg (by have := hH.2.1; omega), hH.1, if_neg (by have := hi.alive; omega)]
  rw [hl] at h
  simp only [eth_fg_set_current] at h
  cases hid : (s.pcbs i).id with
  | none =>
    rw [hid] at h
    simp only at h
    exact recv_accept_finish cfg cpu i handle fuel pbufs0 links s _ s1 D E h hH hi hf rfl rfl
      rfl rfl rfl (by simp [set_pcb]) (by simp [set_pcb]) (by simp [set_pcb])
      (by simp [set_pcb]) (by simp [set_pcb]) (by simp [set_pcb])
  | some id =>
    rw [hid] at h
    simp only at h
    exact recv_accept_finish cfg cpu i handle fuel pbufs0 links s _ s1 D E h hH hi hf rfl rfl
      rfl rfl rfl (by simp [set_pcb, id_mempool_free]) (by simp [set_pcb, id_mempool_free])
      (by simp [set_pcb, id_mempool_free]) (by simp [set_pcb, id_mempool_free])
      (by simp [set_pcb, id_mempool_free]) (by simp [set_pcb, id_mempool_free])

/-! ## C22: the drain and the acknowledgement -/

theorem recv_step_generate (cfg : Config) (cpu i handle fuel : Nat) (pbufs0 : Nat → pbuf)
    (links : Nat → List Nat) (s s1 : State) (D : List Nat) (E : List usys_event)
    (hi : recv_inv cfg cpu i handle pbufs0 links s D E)
    (hl : ∀ p, p ∈ D → is_chain (fun q => (pbufs0 q).next) (some p) (links p))
    (h : tcp_generate_usys cfg cpu fuel s = .ok s1) :
    recv_inv cfg cpu i handle pbufs0 links s1 D
        (E ++ ((s1.usys_arr cpu).drop (s.usys_arr cpu).length).filter usys_is_recv) ∧
      (s1.pcbs i).accepted = (s.pcbs i).accepted := by
  unfold tcp_generate_usys at h
  rcases hi.queue with hq | ⟨hq1, hq2, hq3⟩
  · simp only [queue_pop_front, queue_front, hq, Except.ok.injEq] at h
    subst h
    rw [List.drop_length, List.filter_nil, List.append_nil]
    exact ⟨hi, rfl⟩
  · simp only [queue_pop_front, queue_front, hq1] at h
    obtain ⟨-, R, q, next, -, -, gclear, gpcbs, -, gnext, gframe⟩ :=
      gen_usys_effect cfg cpu i fuel _ s1 h
    obtain ⟨g1, g2, g3, g4, g5, g6⟩ := gframe
    have hfr := (frame_tcp_gen_usys cfg cpu i fuel _ s1 h).2.2.2.2
    have hnextfun : (fun q => (s.pbufs q).next) = (fun q => (pbufs0 q).next) := by
      funext q
      exact (hi.data q).1
    have hpcb : ∃ n, s1.pcbs i = pcb_after_gen (s.pcbs i) q n :=
      ⟨_, (congrFun gpcbs i).trans (upd_same _ _ _)⟩
    obtain ⟨n, hpcb⟩ := hpcb
    have hown : queue_own cpu i s1 := by
      left
      rw [g3]
      simp [hq3]
    have hev : ∀ e, e ∈ s1.usys_arr cpu → usys_is_tcp e = true → usys_arga e = handle := by
      intro e he ht
      rcases hfr cpu e he ht with h1 | h1
      · exact hi.events e h1 ht
      · have := Option.some.inj h1
        rw [this]
        exact hi.handle_eq
    have hcommon : ∀ P, queue_repr (s.pcbs i).pbuf_for_usys s.pbuf_for_usys_next P →
        (∀ x, x ∈ P → x ∈ D) →
        queue_repr (s1.pcbs i).pbuf_for_usys s1.pbuf_for_usys_next [] ∧
          ((s1.usys_arr cpu).drop (s.usys_arr cpu).length).filter usys_is_recv
            = recv_events cfg (s.pcbs i) pbufs0 links P := by
      intro P hP hsub
      refine ⟨?_, ?_⟩
      · rw [hpcb, gnext]
        exact queue_clear_view fuel P _ q _ next hP gclear
      · have hx := gen_usys_recv_exact cfg cpu i fuel _ s1 links P h hP.1
          (by intro p hp
              show is_chain (fun q => (s.pbufs q).next) (some p) (links p)
              rw [hnextfun]
              exact hl p (hsub p hp))
        rw [← recv_events_data cfg (s.pcbs i) s.pbufs pbufs0 links P hi.data]
        exact hx
    have hacc : (s1.pcbs i).accepted = (s.pcbs i).accepted := by rw [hpcb]; rfl
    refine ⟨⟨by rw [hpcb]; exact hi.handle_eq, by rw [hpcb]; exact hi.alive, hown, hev,
      by rw [hpcb]; exact hi.not_closed, by intro q; rw [g1]; exact hi.data q, ?_, ?_⟩, hacc⟩
    · intro hb
      rw [hacc] at hb
      obtain ⟨c1, c2, c3, c4⟩ := hi.before hb
      obtain ⟨k1, k2⟩ := hcommon [] c3 (fun _ hx => by cases hx)
      refine ⟨?_, ?_, k1, ?_⟩
      · rw [recvd_next_eq _ s1 g1, hpcb]
        exact c1
      · rw [hpcb]
        exact c2
      · rw [k2, c4]
        rfl
    · intro hb
      rw [hacc] at hb
      obtain ⟨P, p1, p2, p3⟩ := hi.after hb
      obtain ⟨k1, k2⟩ := hcommon P p1 p2
      refine ⟨[], k1, (fun _ hx => by cases hx), ?_⟩
      rw [k2, recv_events_congr cfg (s.pcbs i) (s1.pcbs i) _ _ _ (by rw [hpcb]; rfl)
        (by rw [hpcb]; rfl), recv_events_congr cfg (s.pcbs i) (s1.pcbs i) _ _ D
        (by rw [hpcb]; rfl) (by rw [hpcb]; rfl)]
      rw [← p3]
      simp [recv_events]

theorem recv_step_finish (cfg : Config) (cpu i handle : Nat) (pbufs0 : Nat → pbuf)
    (links : Nat → List Nat) (s s1 : State) (D : List Nat) (E : List usys_event)
    (hH : recv_handle cfg cpu i handle)
    (hi : recv_inv cfg cpu i handle pbufs0 links s D E)
    (h : step cfg s (.finish cpu) = .ok s1) :
    recv_inv cfg cpu i handle pbufs0 links s1 D E ∧
      (s1.pcbs i).accepted = (s.pcbs i).accepted := by
  simp only [step] at h
  cases hfin : tcp_finish_usys cfg cpu s with
  | error e => rw [hfin] at h; cases h
  | ok s2 =>
    rw [hfin] at h
    simp only [Except.map, Except.ok.injEq] at h
    subst h
    obtain ⟨r1, r2⟩ := recv_finish_loop cfg cpu i handle hH (s.usys_arr cpu) s s2 hi.events
      hi.handle_eq hi.queue hi.not_closed hfin
    have hi2 := recv_inv_same cfg cpu i handle pbufs0 links s s2 D E hi r1 r2
    exact ⟨⟨hi2.handle_eq, hi2.alive, hi2.queue, by intro e he; simp at he, hi2.not_closed,
      hi2.data, hi2.before, hi2.after⟩, r1.2.2.2.2.2.2.1⟩

/-! ## C22: runs of one connection -/

theorem trace_delivered_cons (i : Nat) (a : Action) (as : List Action) :
    trace_delivered i (a :: as) = trace_delivered i [a] ++ trace_delivered i as := by
  cases a with
  | recv_cb c arg p fill =>
    cases p with
    | none => rfl
    | some p =>
      simp only [trace_delivered]
      split_ifs <;> rfl
  | _ => rfl

theorem trace_accepts_cons (a : Action) (as : List Action) :
    trace_accepts (a :: as) = trace_accepts [a] + trace_accepts as := by
  cases a <;> simp [trace_accepts]
  omega

theorem recv_script_cons (cpu i handle : Nat) (a : Action) (as : List Action) :
    recv_script cpu i handle (a :: as)
      = (recv_script cpu i handle [a] && recv_script cpu i handle as) := by
  cases a with
  | recv_cb c arg p fill =>
    cases p with
    | none => rfl
    | some p => simp [recv_script]
  | _ => simp [recv_script]

theorem trace_delivered_append (i : Nat) :
    ∀ (pre post : List Action),
      trace_delivered i (pre ++ post) = trace_delivered i pre ++ trace_delivered i post
  | [], _ => rfl
  | a :: as, post => by
    rw [List.cons_append, trace_delivered_cons, trace_delivered_append i as post,
      trace_delivered_cons i a as, List.append_assoc]

theorem trace_accepts_append :
    ∀ (pre post : List Action),
      trace_accepts (pre ++ post) = trace_accepts pre + trace_accepts post
  | [], _ => by simp [trace_accepts]
  | a :: as, post => by
    rw [List.cons_append, trace_accepts_cons, trace_accepts_append as post,
      trace_accepts_cons a as, Nat.add_assoc]

theorem recv_script_append (cpu i handle : Nat) :
    ∀ (pre post : List Action),
      recv_script cpu i handle (pre ++ post)
        = (recv_script cpu i handle pre && recv_script cpu i handle post)
  | [], _ => by simp [recv_script]
  | a :: as, post => by
    rw [List.cons_append, recv_script_cons, recv_script_append cpu i handle as post,
      recv_script_cons cpu i handle a as, Bool.and_assoc]

theorem run_append_ok (cfg : Config) :
    ∀ (pre post : List Action) (s s1 : State), run cfg s (pre ++ post) = .ok s1 →
      ∃ sm, run cfg s pre = .ok sm ∧ run cfg sm post = .ok s1
  | [], _, s, _, h => ⟨s, rfl, h⟩
  | a :: as, post, s, s1, h => by
    simp only [List.cons_append, run] at h ⊢
    split_ifs at h ⊢ with henv
    cases hst : step cfg s a with
    | error e => rw [hst] at h; cases h
    | ok s2 =>
      rw [hst] at h
      exact run_append_ok cfg as post s2 s1 h

theorem recv_step (cfg : Config) (cpu i handle : Nat) (pbufs0 : Nat → pbuf)
    (links : Nat → List Nat) (a : Action) (s s1 : State) (D : List Nat) (E : List usys_event)
    (hH : recv_handle cfg cpu i handle)
    (hi : recv_inv cfg cpu i handle pbufs0 links s D E)
    (hs : recv_script cpu i handle [a] = true)
    (hacc : (s.pcbs i).accepted = true → trace_accepts [a] = 0)
    (hnd : (D ++ trace_delivered i [a]).Nodup)
    (hl : ∀ p, p ∈ D → is_chain (fun q => (pbufs0 q).next) (some p) (links p))
    (h : step cfg s a = .ok s1) :
    recv_inv cfg cpu i handle pbufs0 links s1 (D ++ trace_delivered i [a])
        (E ++ (step_emitted cfg s a).filter usys_is_recv) ∧
      ((s1.pcbs i).accepted = true ↔ ((s.pcbs i).accepted = true ∨ trace_accepts [a] = 1)) := by
  cases a with
  | recv_cb c arg p fill =>
    cases p with
    | none => simp [recv_script] at hs
    | some p =>
      simp only [recv_script, Bool.and_true, Bool.and_eq_true, decide_eq_true_eq,
        List.isEmpty_iff] at hs
      obtain ⟨⟨hc, harg⟩, hfill⟩ := hs
      subst hc
      subst harg
      subst hfill
      have hst := h
      simp only [step, fill_pbufs, List.foldl_nil] at h
      cases hon : on_recv cfg c arg (some p) s with
      | error e => rw [hon] at h; cases h
      | ok r =>
        rw [hon] at h
        simp only [Except.map, Except.ok.injEq] at h
        subst h
        have hdl : trace_delivered arg [Action.recv_cb c arg (some p) []] = [p] := by
          simp [trace_delivered]
        rw [hdl] at hnd ⊢
        have hp : p ∉ D := by
          intro hm
          have := List.nodup_append.mp hnd
          exact this.2.2 hm (by simp)
        obtain ⟨k1, k2, k3⟩ := recv_step_deliver cfg c arg handle pbufs0 links s r D E p hH hi
          hp hon
        have hem : step_emitted cfg s (.recv_cb c arg (some p) []) = [] :=
          step_emitted_eq cfg s r.2 _ [] hst (by intro c1 e; cases e)
            (by show r.2.usys_arr c = s.usys_arr c ++ []
                rw [k2, List.append_nil])
        rw [hem, List.filter_nil, List.append_nil, k3]
        exact ⟨k1, by simp [trace_accepts]⟩
  | accept c hd cookie fuel =>
    simp only [recv_script, Bool.and_true, Bool.and_eq_true, decide_eq_true_eq] at hs
    obtain ⟨hc, hhd⟩ := hs
    subst hc
    subst hhd
    have hf : (s.pcbs i).accepted = false := by
      cases hb : (s.pcbs i).accepted with
      | false => rfl
      | true => have := hacc hb; simp [trace_accepts] at this
    have hst := h
    simp only [step] at h
    obtain ⟨k1, k2, k3⟩ := recv_step_accept cfg c i hd cookie fuel pbufs0 links s s1 D E hH hi
      hf h
    have hem : step_emitted cfg s (.accept c hd cookie fuel) = [] :=
      step_emitted_eq cfg s s1 _ [] hst (by intro c1 e; cases e)
        (by show s1.usys_arr c = s.usys_arr c ++ []
            rw [k2, List.append_nil])
    rw [hem, List.filter_nil, List.append_nil]
    have hdl : trace_delivered i [Action.accept c hd cookie fuel] = [] := rfl
    rw [hdl, List.append_nil]
    exact ⟨k1, by simp [trace_accepts, k3]⟩
  | generate c fuel =>
    simp only [recv_script, Bool.and_true, decide_eq_true_eq] at hs
    subst hs
    have hst := h
    simp only [step] at h
    obtain ⟨k1, k2⟩ := recv_step_generate cfg c i handle fuel pbufs0 links s s1 D E hi hl h
    have hem : step_emitted cfg s (.generate c fuel)
        = (s1.usys_arr c).drop (s.usys_arr c).length := by
      simp only [step_emitted, hst]
      rfl
    have hdl : trace_delivered i [Action.generate c fuel] = [] := rfl
    rw [hem, hdl, List.append_nil, k2]
    exact ⟨k1, by simp [trace_accepts]⟩
  | finish c =>
    simp only [recv_script, Bool.and_true, decide_eq_true_eq] at hs
    subst hs
    obtain ⟨k1, k2⟩ := recv_step_finish cfg c i handle pbufs0 links s s1 D E hH hi h
    have hem : step_emitted cfg s (.finish c) = [] := rfl
    have hdl : trace_delivered i [Action.finish c] = [] := rfl
    rw [hem, hdl, List.append_nil, List.filter_nil, List.append_nil, k2]
    exact ⟨k1, by simp [trace_accepts]⟩
  | _ => simp [recv_script] at hs

theorem recv_run (cfg : Config) (cpu i handle : Nat) (pbufs0 : Nat → pbuf)
    (links : Nat → List Nat) (hH : recv_handle cfg cpu i handle) :
    ∀ (tr : List Action) (s s1 : State) (D : List Nat) (E : List usys_event),
      recv_inv cfg cpu i handle pbufs0 links s D E → recv_script cpu i handle tr = true →
      ((s.pcbs i).accepted = true → trace_accepts tr = 0) → trace_accepts tr ≤ 1 →
      (D ++ trace_delivered i tr).Nodup →
      (∀ p, p ∈ D ++ trace_delivered i tr →
        is_chain (fun q => (pbufs0 q).next) (some p) (links p)) →
      run cfg s tr = .ok s1 →
      recv_inv cfg cpu i handle pbufs0 links s1 (D ++ trace_delivered i tr)
          (E ++ (run_emitted cfg s tr).filter usys_is_recv) ∧
        ((s1.pcbs i).accepted = true ↔ ((s.pcbs i).accepted = true ∨ trace_accepts tr = 1))
  | [], s, s1, D, E, hi, _, _, _, _, _, h => by
    simp only [run, Except.ok.injEq] at h
    subst h
    simp only [trace_delivered, run_emitted, trace_accepts, List.append_nil, List.filter_nil]
    exact ⟨hi, by simp⟩
  | a :: as, s, s1, D, E, hi, hs, hacc, hle, hnd, hl, h => by
    rw [recv_script_cons] at hs
    simp only [Bool.and_eq_true] at hs
    rw [trace_accepts_cons] at hacc hle
    rw [trace_delivered_cons, ← List.append_assoc] at hnd hl
    simp only [run] at h
    split_ifs at h with henv
    cases hst : step cfg s a with
    | error e => rw [hst] at h; cases h
    | ok s2 =>
      rw [hst] at h
      simp only at h
      obtain ⟨k1, k2⟩ := recv_step cfg cpu i handle pbufs0 links a s s2 D E hH hi hs.1
        (fun ha => by have := hacc ha; omega) (List.nodup_append.mp hnd).1
        (fun p hp => hl p (List.mem_append_left _ (List.mem_append_left _ hp))) hst
      obtain ⟨r1, r2⟩ := recv_run cfg cpu i handle pbufs0 links hH as s2 s1 _ _ k1 hs.2
        (fun ha => by
          rcases k2.mp ha with h1 | h1
          · have := hacc h1; omega
          · omega) (by omega) hnd hl h
      refine ⟨?_, ?_⟩
      · rw [trace_delivered_cons, ← List.append_assoc]
        simp only [run_emitted, hst, List.filter_append, ← List.append_assoc]
        exact r1
      · rw [trace_accepts_cons, r2, k2]
        constructor
        · rintro ((h1 | h1) | h1)
          · exact Or.inl h1
          · exact Or.inr (by omega)
          · exact Or.inr (by omega)
        · rintro (h1 | h1)
          · exact Or.inl (Or.inl h1)
          · by_cases h2 : trace_accepts [a] = 1
            · exact Or.inl (Or.inr h2)
            · exact Or.inr (by omega)

theorem recv_inv_start (cfg : Config) (cpu i handle : Nat) (links : Nat → List Nat) (s : State)
    (hs : recv_start cfg cpu i handle s) :
    recv_inv cfg cpu i handle s.pbufs links s [] [] := by
  refine ⟨hs.handle_eq, hs.alive, hs.queue, hs.events, hs.not_closed,
    fun q => ⟨rfl, rfl, rfl, rfl⟩, ?_, ?_⟩
  · intro _
    refine ⟨by rw [hs.recvd]; rfl, fun t ht => by simp at ht, ?_, rfl⟩
    rw [hs.pbuf_queue]
    exact ⟨rfl, rfl⟩
  · intro h
    rw [hs.not_accepted] at h
    cases h

/-! ## C22: the order of the RECV events of one connection -/

/-- C22: take one inbound connection whose CCB in slot `i` is allocated under `handle`, not
accepted, with no buffer delivered or queued, and a run `tr` of its entries on its home CPU
(`recv_script`: receive callbacks that hand distinct buffers to the CCB, at most one ACCEPT
of the handle, drains of the ready queue, acknowledgements) that returns.  Then no part
of the run before the ACCEPT emits a RECV event; and once the ACCEPT is handled, the RECV
events emitted so far followed by the RECV events of the buffers `P` still queued for
emission are the RECV events of all delivered buffers, link by link in the order of
delivery, those delivered before ACCEPT included.  So when nothing is queued, the RECV events
emitted are those of every delivered buffer, once each and in arrival order. -/
theorem recv_events_in_arrival_order (cfg : Config) (cpu i handle : Nat)
    (links : Nat → List Nat) (tr : List Action) (s s1 : State)
    (hstart : recv_start cfg cpu i handle s)
    (hscript : recv_script cpu i handle tr = true) (hacc : trace_accepts tr ≤ 1)
    (hnd : (trace_delivered i tr).Nodup)
    (hl : ∀ p, p ∈ trace_delivered i tr →
      is_chain (fun q => (s.pbufs q).next) (some p) (links p))
    (h : run cfg s tr = .ok s1) :
    (∀ pre post, tr = pre ++ post → trace_accepts pre = 0 →
      (run_emitted cfg s pre).filter usys_is_recv = []) ∧
    (trace_accepts tr = 1 →
      ∃ P, queue_repr (s1.pcbs i).pbuf_for_usys s1.pbuf_for_usys_next P ∧
        (∀ x, x ∈ P → x ∈ trace_delivered i tr) ∧
        (run_emitted cfg s tr).filter usys_is_recv
            ++ recv_events cfg (s1.pcbs i) s.pbufs links P
          = recv_events cfg (s1.pcbs i) s.pbufs links (trace_delivered i tr)) ∧
    (trace_accepts tr = 1 → (s1.pcbs i).pbuf_for_usys.head = none →
      (run_emitted cfg s tr).filter usys_is_recv
        = recv_events cfg (s1.pcbs i) s.pbufs links (trace_delivered i tr)) := by
  have hinv := recv_inv_start cfg cpu i handle links s hstart
  have hna : (s.pcbs i).accepted = true → False := by
    intro ha
    rw [hstart.not_accepted] at ha
    cases ha
  have hmain : trace_accepts tr = 1 →
      ∃ P, queue_repr (s1.pcbs i).pbuf_for_usys s1.pbuf_for_usys_next P ∧
        (∀ x, x ∈ P → x ∈ trace_delivered i tr) ∧
        (run_emitted cfg s tr).filter usys_is_recv
            ++ recv_events cfg (s1.pcbs i) s.pbufs links P
          = recv_events cfg (s1.pcbs i) s.pbufs links (trace_delivered i tr) := by
    intro hone
    obtain ⟨r1, r2⟩ := recv_run cfg cpu i handle s.pbufs links hstart.handle_ok tr s s1 [] []
      hinv hscript (fun ha => (hna ha).elim) hacc (by simpa using hnd)
      (fun p hp => hl p (by simpa using hp)) h
    obtain ⟨P, p1, p2, p3⟩ := r1.after (r2.mpr (Or.inr hone))
    exact ⟨P, p1, (by simpa using p2), (by simpa using p3)⟩
  refine ⟨?_, hmain, ?_⟩
  · intro pre post htr hpre
    subst htr
    obtain ⟨sm, hm, -⟩ := run_append_ok cfg pre post s s1 h
    rw [recv_script_append] at hscript
    simp only [Bool.and_eq_true] at hscript
    rw [trace_delivered_append] at hnd hl
    obtain ⟨r1, r2⟩ := recv_run cfg cpu i handle s.pbufs links hstart.handle_ok pre s sm [] []
      hinv hscript.1 (fun ha => (hna ha).elim) (by omega)
      (by simpa using (List.nodup_append.mp hnd).1)
      (fun p hp => hl p (List.mem_append_left _ (by simpa using hp))) hm
    have hf : (sm.pcbs i).accepted = false := by
      cases hb : (sm.pcbs i).accepted with
      | false => rfl
      | true =>
        rcases r2.mp hb with h1 | h1
        · exact (hna h1).elim
        · omega
    simpa using (r1.before hf).2.2.2
  · intro hone hhead
    obtain ⟨P, p1, -, p3⟩ := hmain hone
    have hP : P = [] := by
      have hc := p1.1
      rw [hhead] at hc
      exact is_chain_none _ _ hc
    subst hP
    simpa [recv_events] using p3

/-- The statement of `recv_events_in_arrival_order` for the CCB in slot 1 and the run
`ex_trace_order` from `ex_open_state`: the drain before ACCEPT emits no RECV event, and
after the run the RECV events are those of the links 5, 6 of the buffer delivered before
ACCEPT and then of the buffer 7 delivered after it. -/
theorem recv_events_in_arrival_order_witness :
    (recv_start ex_cfg 1 1 ex_handle ex_open_state ∧
      recv_script 1 1 ex_handle ex_trace_order = true ∧ trace_accepts ex_trace_order ≤ 1 ∧
      (trace_delivered 1 ex_trace_order).Nodup ∧
      run ex_cfg ex_open_state ex_trace_order
        = .ok (run_state ex_cfg ex_open_state ex_trace_order)) ∧
    (run_emitted ex_cfg ex_open_state ex_trace_order).filter usys_is_recv
      = recv_events ex_cfg ((run_state ex_cfg ex_open_state ex_trace_order).pcbs 1)
          ex_open_state.pbufs ex_links (trace_delivered 1 ex_trace_order) ∧
    (run_emitted ex_cfg ex_open_state ex_trace_order).filter usys_is_recv
      = [.USYS_TCP_RECV ex_handle 9 505 5, .USYS_TCP_RECV ex_handle 9 606 6,
         .USYS_TCP_RECV ex_handle 9 707 7] ∧
    (run_emitted ex_cfg ex_open_state
      [.recv_cb 1 1 (some 5) [], .generate 1 4]).filter usys_is_recv = [] :=
  have hstart : recv_start ex_cfg 1 1 ex_handle ex_open_state :=
    ⟨⟨by decide, by decide, by decide⟩, by decide, by decide, Or.inl (by decide), by decide,
      by decide, by decide, by decide, by decide⟩
  have hl : ∀ p, p ∈ trace_delivered 1 ex_trace_order →
      is_chain (fun q => (ex_open_state.pbufs q).next) (some p) (ex_links p) := by
    intro p hp
    have hp2 : p = 5 ∨ p = 7 := by
      have : trace_delivered 1 ex_trace_order = [5, 7] := by decide
      rw [this] at hp
      simpa using hp
    rcases hp2 with rfl | rfl
    · exact ⟨rfl, (by decide : (ex_open_state.pbufs 5).next = some 6),
        (by decide : (ex_open_state.pbufs 6).next = none)⟩
    · exact ⟨rfl, (by decide : (ex_open_state.pbufs 7).next = none)⟩
  ⟨⟨hstart, by decide, by decide, by decide, rfl⟩,
    (recv_events_in_arrival_order ex_cfg 1 1 ex_handle ex_links ex_trace_order ex_open_state
      (run_state ex_cfg ex_open_state ex_trace_order) hstart (by decide) (by decide)
      (by decide) hl rfl).2.2 (by decide) (by decide),
    by decide,
    (recv_events_in_arrival_order ex_cfg 1 1 ex_handle ex_links ex_trace_order ex_open_state
      (run_state ex_cfg ex_open_state ex_trace_order) hstart (by decide) (by decide)
      (by decide) hl rfl).1 [.recv_cb 1 1 (some 5) [], .generate 1 4]
      [.accept 1 ex_handle 9 4, .recv_cb 1 1 (some 7) [], .generate 1 4, .finish 1] rfl
      (by decide)⟩

/-! ## C31: what keeps the TCP-core connection of a CCB that is alive -/

theorem keeps_pcb_refl (s : State) : keeps_pcb s s := fun _ h => h

theorem keeps_pcb_trans (s s1 s2 : State) (h1 : keeps_pcb s s1) (h2 : keeps_pcb s1 s2) :
    keeps_pcb s s2 := fun i h => h2 i (h1 i h)

theorem keeps_pcb_of_pcbs (s s1 : State) (h : s1.pcbs = s.pcbs) : keeps_pcb s s1 :=
  fun i hp => by rw [h]; exact hp

theorem keeps_pcb_set (api : Nat) (f : tcpapi_pcb → tcpapi_pcb) (s : State)
    (hf : pcb_present (s.pcbs api) → pcb_present (f (s.pcbs api))) :
    keeps_pcb s (set_pcb api f s) := by
  intro i hp
  by_cases e : i = api
  · subst e
    rw [set_pcb_pcbs_same]
    exact hf hp
  · rw [set_pcb_pcbs_other _ _ _ _ e]
    exact hp

theorem keeps_pcb_then_set (s0 s : State) (api : Nat) (f : tcpapi_pcb → tcpapi_pcb)
    (h : keeps_pcb s0 s) (hf : pcb_present (s.pcbs api) → pcb_present (f (s.pcbs api))) :
    keeps_pcb s0 (set_pcb api f s) :=
  keeps_pcb_trans _ _ _ h (keeps_pcb_set api f s hf)

theorem keeps_pcb_enqueue (cfg : Config) (cpu api : Nat) (s s1 : State)
    (h : pcb_ready_enqueue cfg cpu api s = .ok s1) : keeps_pcb s s1 := by
  unfold pcb_ready_enqueue at h
  cases hr : fgs_read cfg (handle_to_fg_id (s.pcbs api).handle) with
  | error e => rw [hr] at h; cases h
  | ok home =>
    rw [hr] at h
    simp only at h
    split_ifs at h with h1 h2
    · cases h
      exact keeps_pcb_set api _ s (fun hp => hp)
    · cases hp : queue_push_back (s.pcb_ready_queue cpu) s.ready_queue_next api with
      | error e => rw [hp] at h; cases h
      | ok r =>
        rw [hp] at h
        cases h
        exact keeps_pcb_of_pcbs _ _ rfl

theorem keeps_pcb_free (cfg : Config) (hw : cfg.wf) (cpu api : Nat) (s : State) :
    keeps_pcb s (pcb_mempool_free cfg cpu api s) := by
  intro i hp
  by_cases e : i = api
  · subst e
    intro ha
    have hh := hw.hdr
    simp [pcb_mempool_free] at ha
    omega
  · have : (pcb_mempool_free cfg cpu api s).pcbs i = s.pcbs i := by
      simp [pcb_mempool_free, upd, e]
    rw [this]
    exact hp

theorem keeps_pcb_recv_a_pbuf (cfg : Config) (cpu api p : Nat) (s s1 : State)
    (h : recv_a_pbuf cfg cpu api p s = .ok s1) : keeps_pcb s s1 := by
  unfold recv_a_pbuf at h
  cases hq : queue_push_back (s.pcbs api).pbuf_for_usys s.pbuf_for_usys_next p with
  | error e => rw [hq] at h; cases h
  | ok r =>
    rw [hq] at h
    simp only at h
    split_ifs at h
    refine keeps_pcb_trans _ _ _ ?_ (keeps_pcb_enqueue cfg cpu api _ s1 h)
    exact keeps_pcb_set api (fun a => { a with pbuf_for_usys := r.1 }) s (fun hp => hp)

theorem keeps_pcb_accept_loop (cfg : Config) (cpu api : Nat) :
    ∀ (fuel : Nat) (tmp : Option Nat) (s s1 : State),
      accept_loop cfg cpu api fuel tmp s = .ok s1 → keeps_pcb s s1
  | _, none, s, s1, h => by
    simp only [accept_loop] at h
    cases h
    exact keeps_pcb_refl s
  | 0, some _, _, _, h => by simp [accept_loop] at h
  | fuel + 1, some tmp, s, s1, h => by
    simp only [accept_loop] at h
    cases hr : recv_a_pbuf cfg cpu api tmp s with
    | error e => rw [hr] at h; cases h
    | ok s2 =>
      rw [hr] at h
      exact keeps_pcb_trans _ _ _ (keeps_pcb_recv_a_pbuf cfg cpu api tmp s s2 hr)
        (keeps_pcb_accept_loop cfg cpu api fuel _ s2 s1 h)

theorem keeps_pcb_mark_dead (cfg : Config) (cpu : Nat) (api : Option Nat) (cookie : Nat)
    (s s1 : State) (h : mark_dead cfg cpu api cookie s = .ok s1) : keeps_pcb s s1 := by
  unfold mark_dead at h
  cases api with
  | none => cases h; exact keeps_pcb_of_pcbs _ _ rfl
  | some a =>
    simp only at h
    refine keeps_pcb_trans _ _ _ ?_ (keeps_pcb_enqueue cfg cpu a _ s1 h)
    refine keeps_pcb_then_set _ _ a _ ?_ (fun _ ha => by cases ha)
    cases (s.pcbs a).id <;> exact keeps_pcb_of_pcbs _ _ rfl

theorem keeps_pcb_on_sent (cfg : Config) (cpu arg len : Nat) (s : State) (r : err_t × State)
    (h : on_sent cfg cpu arg len s = .ok r) : keeps_pcb s r.2 := by
  unfold on_sent at h
  cases he : pcb_ready_enqueue cfg cpu arg
      (set_pcb arg (fun a => { a with sent_len := int_wrap (a.sent_len + (len % 65536 : Nat)) }) s) with
  | error e => rw [he] at h; cases h
  | ok s1 =>
    rw [he] at h
    cases h
    refine keeps_pcb_trans _ _ _ ?_ (keeps_pcb_enqueue cfg cpu arg _ s1 he)
    exact keeps_pcb_set arg _ s (fun hp => hp)

theorem keeps_pcb_on_err (cfg : Config) (cpu : Nat) (arg : Option Nat) (err : err_t)
    (s s1 : State) (h : on_err cfg cpu arg err s = .ok s1) : keeps_pcb s s1 := by
  unfold on_err at h
  cases arg with
  | none => cases h; exact keeps_pcb_refl s
  | some api =>
    simp only at h
    split_ifs at h
    · cases hm : mark_dead cfg cpu (some api) (s.pcbs api).cookie s with
      | error e => rw [hm] at h; cases h
      | ok s2 =>
        rw [hm] at h
        cases h
        have hdead := mark_dead_alive cfg cpu api _ s s2 hm
        refine keeps_pcb_then_set _ _ api _ (keeps_pcb_mark_dead cfg cpu _ _ s s2 hm) ?_
        intro _ ha
        have : (s2.pcbs api).alive = 1 := ha
        rw [hdead] at this
        cases this
    · cases h; exact keeps_pcb_refl s

theorem keeps_pcb_on_connected (cfg : Config) (cpu arg : Nat) (err : err_t) (s : State)
    (r : err_t × State) (h : on_connected cfg cpu arg err s = .ok r) : keeps_pcb s r.2 := by
  unfold on_connected at h
  split_ifs at h
  · cases h; exact keeps_pcb_of_pcbs _ _ rfl
  · cases he : pcb_ready_enqueue cfg cpu arg
        (set_pcb arg (fun a => { a with uevents := a.uevents ||| PCB_UEVENT_CONNECTED }) s) with
    | error e => rw [he] at h; cases h
    | ok s1 =>
      rw [he] at h
      cases h
      refine keeps_pcb_trans _ _ _ ?_ (keeps_pcb_enqueue cfg cpu arg _ s1 he)
      exact keeps_pcb_set arg _ s (fun hp => hp)

theorem keeps_pcb_recv_append (arg p : Nat) (s s2 : State) (h : recv_append arg p s = .ok s2) :
    keeps_pcb s s2 := by
  unfold recv_append at h
  cases hr : (s.pcbs arg).recvd with
  | none =>
    rw [hr] at h
    simp only [Except.ok.injEq] at h
    subst h
    exact keeps_pcb_set arg (fun a => { a with recvd := some p, recvd_tail := some p }) s
      (fun hp => hp)
  | some r =>
    rw [hr] at h
    cases hrt : (s.pcbs arg).recvd_tail with
    | none => rw [hrt] at h; cases h
    | some t =>
      rw [hrt] at h
      simp only [Except.ok.injEq] at h
      subst h
      exact keeps_pcb_set arg (fun a => { a with recvd_tail := some p }) _ (fun hp => hp)

theorem keeps_pcb_on_recv (cfg : Config) (cpu arg : Nat) (p : Option Nat) (s : State)
    (r : err_t × State) (h : on_recv cfg cpu arg p s = .ok r) : keeps_pcb s r.2 := by
  cases p with
  | none =>
    unfold on_recv at h
    simp only at h
    cases hm : mark_dead cfg cpu (some arg) (s.pcbs arg).cookie s with
    | error e => rw [hm] at h; cases h
    | ok s1 =>
      rw [hm] at h
      cases h
      exact keeps_pcb_mark_dead cfg cpu _ _ s s1 hm
  | some p =>
    rw [on_recv_eq] at h
    cases ha : recv_append arg p s with
    | error e => rw [ha] at h; cases h
    | ok s2 =>
      rw [ha] at h
      simp only at h
      have h1 := keeps_pcb_recv_append arg p s s2 ha
      split_ifs at h
      · cases h
        exact h1
      · cases hx : recv_a_pbuf cfg cpu arg p s2 with
        | error e => rw [hx] at h; cases h
        | ok s3 =>
          rw [hx] at h
          cases h
          exact keeps_pcb_trans _ _ _ h1 (keeps_pcb_recv_a_pbuf cfg cpu arg p s2 s3 hx)

theorem keeps_pcb_handle (cfg : Config) (cpu handle : Nat) (s : State) :
    keeps_pcb s (handle_to_tcpapi cfg cpu handle s).2 := by
  unfold handle_to_tcpapi
  split_ifs <;> exact keeps_pcb_of_pcbs _ _ rfl

theorem keeps_pcb_bsys_tcp_accept (cfg : Config) (cpu handle cookie fuel : Nat) (s s1 : State)
    (h : bsys_tcp_accept cfg cpu handle cookie fuel s = .ok s1) : keeps_pcb s s1 := by
  unfold bsys_tcp_accept at h
  have h0 := keeps_pcb_handle cfg cpu handle s
  rcases hh : handle_to_tcpapi cfg cpu handle s with ⟨r, s0⟩
  rw [hh] at h h0
  cases r with
  | none =>
    cases h
    exact keeps_pcb_trans _ _ _ h0 (keeps_pcb_of_pcbs _ _ rfl)
  | some api =>
    simp only at h
    have h2 := keeps_pcb_accept_loop cfg cpu api fuel _ _ s1 h
    refine keeps_pcb_trans _ _ _ (keeps_pcb_trans _ _ _ h0 ?_) h2
    refine keeps_pcb_then_set _ _ api _ ?_ (fun hp => hp)
    cases (s0.pcbs api).id with
    | none => exact keeps_pcb_refl _
    | some id =>
      exact keeps_pcb_then_set _ _ api _ (keeps_pcb_of_pcbs _ _ rfl) (fun hp => hp)

theorem keeps_pcb_bsys_tcp_recv_done (cfg : Config) (cpu handle len fuel : Nat) (s s1 : State)
    (h : bsys_tcp_recv_done cfg cpu handle len fuel s = .ok s1) : keeps_pcb s s1 := by
  unfold bsys_tcp_recv_done at h
  have h0 := keeps_pcb_handle cfg cpu handle s
  rcases hh : handle_to_tcpapi cfg cpu handle s with ⟨r, s0⟩
  rw [hh] at h h0
  cases r with
  | none =>
    cases h
    exact keeps_pcb_trans _ _ _ h0 (keeps_pcb_of_pcbs _ _ rfl)
  | some api =>
    simp only at h
    split at h
    · cases h
    · rename_i recvd s2 hl
      cases h
      have h2 := keeps_pcb_of_pcbs _ _ (recv_done_loop_view fuel _ len _ _ hl).1
      refine keeps_pcb_then_set _ _ api _ (keeps_pcb_trans _ _ _ (keeps_pcb_trans _ _ _ h0 ?_)
        h2) (fun hp => hp)
      cases (s0.pcbs api).pcb <;> exact keeps_pcb_of_pcbs _ _ rfl

theorem keeps_pcb_close_finish (cfg : Config) (hw : cfg.wf) (cpu api : Nat) (s : State) :
    keeps_pcb s (close_finish cfg cpu api s) := by
  unfold close_finish
  split_ifs
  · exact keeps_pcb_set api _ s (fun hp => hp)
  · exact keeps_pcb_free cfg hw cpu api s

theorem keeps_pcb_bsys_tcp_close (cfg : Config) (hw : cfg.wf) (cpu handle fuel : Nat)
    (s s1 : State) (h : bsys_tcp_close cfg cpu handle fuel s = .ok s1) : keeps_pcb s s1 := by
  unfold bsys_tcp_close at h
  have h0 := keeps_pcb_handle cfg cpu handle s
  rcases hh : handle_to_tcpapi cfg cpu handle s with ⟨r, s0⟩
  rw [hh] at h h0
  cases r with
  | none =>
    cases h
    exact keeps_pcb_trans _ _ _ h0 (keeps_pcb_of_pcbs _ _ rfl)
  | some api =>
    simp only at h
    split at h
    · cases h
    · rename_i s2 hl
      cases h
      have h1 := keeps_pcb_of_pcbs _ _ (close_reset_frame handle api s0).1
      have h2 := keeps_pcb_of_pcbs _ _ (close_loop_view fuel _ _ s2 hl).1
      have h3 := keeps_pcb_of_pcbs _ _ (close_release_id_frame cpu api s2).1
      have h4 := keeps_pcb_close_finish cfg hw cpu api (close_release_id cpu api s2)
      exact keeps_pcb_trans _ _ _ (keeps_pcb_trans _ _ _ (keeps_pcb_trans _ _ _
        (keeps_pcb_trans _ _ _ h0 h1) h2) h3) h4

theorem keeps_pcb_finish_one (cfg : Config) (hw : cfg.wf) (cpu api : Nat) (s s1 : State)
    (h : __tcp_finish_usys cfg cpu api s = .ok s1) : keeps_pcb s s1 := by
  unfold __tcp_finish_usys at h
  simp only at h
  have h0 : keeps_pcb s (set_pcb api
      (fun a => { a with active_usys_count := a.active_usys_count - 1 })
      (ext (.bsys_dispatch_remote cpu) s)) :=
    keeps_pcb_then_set _ _ api _ (keeps_pcb_of_pcbs _ _ rfl) (fun hp => hp)
  split_ifs at h
  · cases h
    exact keeps_pcb_trans _ _ _ h0 (keeps_pcb_free cfg hw cpu api _)
  · have h2 := keeps_pcb_enqueue cfg cpu api _ s1 h
    refine keeps_pcb_trans _ _ _ ?_ h2
    exact keeps_pcb_then_set _ _ api _ h0 (fun hp => hp)
  · cases h
    exact h0

theorem keeps_pcb_finish_loop (cfg : Config) (hw : cfg.wf) (cpu : Nat) :
    ∀ (es : List usys_event) (s s1 : State),
      tcp_finish_usys_loop cfg cpu es s = .ok s1 → keeps_pcb s s1
  | [], s, s1, h => by
    simp only [tcp_finish_usys_loop] at h
    cases h
    exact keeps_pcb_refl s
  | e :: es, s, s1, h => by
    simp only [tcp_finish_usys_loop] at h
    split_ifs at h with ht
    · cases hr : bsys_tcp_home_id cfg (usys_arga e) with
      | error f => rw [hr] at h; cases h
      | ok home =>
        rw [hr] at h
        simp only at h
        split at h
        · cases h
        · rename_i s2 h2
          have h3 := keeps_pcb_finish_one cfg hw home _ _ s2 h2
          have h4 := keeps_pcb_finish_loop cfg hw cpu es s2 s1 h
          have h5 : keeps_pcb s
              (if home = cpu then s
                else ext (.cpu_run_on_one cpu (handle_to_idx (usys_arga e)) home) s) := by
            split_ifs
            · exact keeps_pcb_refl s
            · exact keeps_pcb_of_pcbs _ _ rfl
          exact keeps_pcb_trans _ _ _ (keeps_pcb_trans _ _ _ h5 h3) h4
    · exact keeps_pcb_finish_loop cfg hw cpu es s s1 h

/-! ## C31: entries that allocate or drain a CCB, and SENDV -/

theorem pcb_present_accept_init (cfg : Config) (cur_fg : Nat) (t : tcp_pcb_info) (api id : Nat)
    (s : State) : pcb_present ((accept_init cfg cur_fg t api id s).pcbs api) := by
  intro _
  simp [accept_init, init_pcb_fields, set_pcb, ext, upd]

theorem pcb_present_connect_init (cur_fg pcb cookie api : Nat) (s : State) :
    pcb_present ((connect_init cur_fg pcb cookie api s).pcbs api) := by
  intro _
  simp [connect_init, init_pcb_fields, set_pcb, ext, upd]

theorem keeps_pcb_on_accept (cfg : Config) (hw : cfg.wf) (cpu cur_fg : Nat) (t : tcp_pcb_info)
    (s : State) (r : err_t × State) (h : on_accept cfg cpu cur_fg t s = .ok r) :
    keeps_pcb s r.2 := by
  unfold on_accept at h
  rcases ha : mempool_alloc (s.pcb_mempool cpu) with ⟨a, pool1⟩
  rw [ha] at h
  cases a with
  | none => cases h; exact keeps_pcb_refl s
  | some api =>
    simp only at h
    rcases hb : mempool_alloc
      (({ s with pcb_mempool := upd s.pcb_mempool cpu pool1 } : State).id_mempool cpu)
      with ⟨b, idpool1⟩
    rw [hb] at h
    cases b with
    | none =>
      cases h
      refine keeps_pcb_trans _ _ _ ?_ (keeps_pcb_free cfg hw cpu api _)
      exact keeps_pcb_of_pcbs _ _ rfl
    | some id =>
      simp only at h
      split at h
      · cases h
      · rename_i s8 he
        cases h
        refine keeps_pcb_trans _ _ _ ?_ (keeps_pcb_enqueue cfg cpu api _ s8 he)
        intro i hp
        by_cases e : i = api
        · subst e
          exact pcb_present_accept_init cfg cur_fg t i id _
        · rw [accept_init_other _ _ _ _ _ _ _ e]
          exact hp

theorem keeps_pcb_connect_init (cur_fg pcb cookie api : Nat) (s st : State)
    (hst : st.pcbs = s.pcbs) : keeps_pcb s (connect_init cur_fg pcb cookie api st) := by
  intro i hp
  by_cases e : i = api
  · subst e
    exact pcb_present_connect_init cur_fg pcb cookie i st
  · rw [connect_init_other _ _ _ _ _ _ e, hst]
    exact hp

theorem keeps_pcb_bsys_tcp_connect (cfg : Config) (cpu cookie fuel : Nat) (env : connect_env)
    (s s1 : State) (h : bsys_tcp_connect cfg cpu cookie fuel env s = .ok s1) :
    keeps_pcb s s1 := by
  unfold bsys_tcp_connect at h
  cases hu : env.user_id with
  | none => rw [hu] at h; cases h; exact keeps_pcb_of_pcbs _ _ rfl
  | some tmp0 =>
    rw [hu] at h
    simp only at h
    cases hg : get_local_port_and_set_queue cfg cpu fuel { tmp0 with src_ip := cfg.host_addr }
        env s with
    | error e => rw [hg] at h; cases h
    | ok r =>
      obtain ⟨hp, -⟩ := get_local_port_pcbs cfg cpu fuel _ env s r hg
      obtain ⟨fg, tmp, s2⟩ := r
      rw [hg] at h
      simp only at hp
      cases fg with
      | none =>
        cases h
        exact keeps_pcb_of_pcbs _ _ hp
      | some cur_fg =>
        simp only at h
        cases hn : env.tcp_new with
        | none =>
          rw [hn] at h
          cases h
          exact keeps_pcb_of_pcbs _ _ ((xmited_connect_fail _ _ _).trans hp)
        | some pcb =>
          rw [hn] at h
          simp only at h
          rcases ha : mempool_alloc
            ((ext (.tcp_nagle_disable pcb) (ext (.tcp_new (some cur_fg)) s2)).pcb_mempool cpu)
            with ⟨a, pool1⟩
          rw [ha] at h
          cases a with
          | none =>
            cases h
            exact keeps_pcb_of_pcbs _ _ ((xmited_connect_fail _ _ _).trans hp)
          | some api =>
            simp only at h
            have hinit : ∀ st : State, st.pcbs = s.pcbs →
                keeps_pcb s (connect_init cur_fg pcb cookie api st) :=
              fun st hst => keeps_pcb_connect_init cur_fg pcb cookie api s st hst
            split_ifs at h <;> cases h
            · exact keeps_pcb_trans _ _ _ (hinit _ hp)
                (keeps_pcb_of_pcbs _ _ (xmited_connect_fail _ _ _))
            · exact keeps_pcb_trans _ _ _ (hinit _ hp)
                (keeps_pcb_of_pcbs _ _ (xmited_connect_fail _ _ _))
            · exact keeps_pcb_trans _ _ _ (hinit _ hp) (keeps_pcb_of_pcbs _ _ rfl)

theorem keeps_pcb_gen (cfg : Config) (cpu api fuel : Nat) (s s1 : State)
    (h : __tcp_gen_usys cfg cpu api fuel s = .ok s1) : keeps_pcb s s1 := by
  obtain ⟨-, R, q, next, -, -, -, gpcbs, -, -, -⟩ := gen_usys_effect cfg cpu api fuel s s1 h
  intro i hp
  rw [gpcbs]
  by_cases e : i = api
  · subst e
    rw [upd_same]
    exact hp
  · rw [upd_other _ _ _ _ e]
    exact hp

theorem keeps_pcb_generate (cfg : Config) (cpu fuel : Nat) (s s1 : State)
    (h : tcp_generate_usys cfg cpu fuel s = .ok s1) : keeps_pcb s s1 := by
  unfold tcp_generate_usys queue_pop_front at h
  cases hf : queue_front (s.pcb_ready_queue cpu) with
  | none =>
    rw [hf] at h
    cases h
    exact keeps_pcb_refl s
  | some n =>
    rw [hf] at h
    simp only at h
    refine keeps_pcb_trans _ _ _ ?_ (keeps_pcb_gen cfg cpu n fuel _ s1 h)
    exact keeps_pcb_of_pcbs _ _ rfl

theorem keeps_pcb_steal (cfg : Config) (cpu fuel : Nat) (env : steal_env) (s : State)
    (r : Bool × State) (h : tcp_steal_idle_wait cfg cpu fuel env s = .ok r) :
    keeps_pcb s r.2 := by
  unfold tcp_steal_idle_wait at h
  simp only at h
  split_ifs at h with h1 h2 h3 h4
  · cases h; exact keeps_pcb_refl s
  · cases h; exact keeps_pcb_refl s
  · split at h
    · cases h; exact keeps_pcb_refl s
    · rename_i api hf
      split_ifs at h with h5
      split at h
      · cases h
      · rename_i s2 hg
        cases h
        refine keeps_pcb_trans _ _ _ ?_ (keeps_pcb_gen cfg cpu api fuel _ s2 hg)
        exact keeps_pcb_of_pcbs _ _ rfl
  · cases h; exact keeps_pcb_refl s
  · cases h; exact keeps_pcb_refl s

theorem keeps_pcb_bsys_tcp_sendv (cfg : Config) (cpu handle nrents : Nat) (env : sendv_env)
    (s s1 : State) (h : bsys_tcp_sendv cfg cpu handle nrents env s = .ok s1) :
    keeps_pcb s s1 := by
  unfold bsys_tcp_sendv at h
  have h0 := keeps_pcb_handle cfg cpu handle s
  rcases hh : handle_to_tcpapi cfg cpu handle s with ⟨r, s0⟩
  rw [hh] at h h0
  cases r with
  | none =>
    cases h
    exact keeps_pcb_trans _ _ _ h0 (keeps_pcb_of_pcbs _ _ rfl)
  | some api =>
    simp only at h
    split_ifs at h with h1 h2
    · exact keeps_pcb_trans _ _ _ (keeps_pcb_then_set _ _ api _ h0 (fun hp => hp))
        (keeps_pcb_enqueue cfg cpu api _ s1 h)
    · exact keeps_pcb_trans _ _ _ (keeps_pcb_then_set _ _ api _ h0 (fun hp => hp))
        (keeps_pcb_enqueue cfg cpu api _ s1 h)
    · cases hl : sendv_loop env api (min (nrents % 4294967296) cfg.MAX_SG_ENTRIES) 0 0 s0 with
      | error e => rw [hl] at h; cases h
      | ok r =>
        obtain ⟨acc, s2⟩ := r
        rw [hl] at h
        simp only at h
        have h2 := keeps_pcb_of_pcbs _ _ (sendv_loop_view env api _ _ _ _ _ hl).1
        split_ifs at h with h3
        · cases hp : (s2.pcbs api).pcb with
          | none => rw [hp] at h; cases h
          | some pcb =>
            rw [hp] at h
            simp only at h
            refine keeps_pcb_trans _ _ _ ?_ (keeps_pcb_enqueue cfg cpu api _ s1 h)
            refine keeps_pcb_then_set _ _ api _ ?_ (fun hq => hq)
            exact keeps_pcb_trans _ _ _ (keeps_pcb_trans _ _ _ h0 h2) (keeps_pcb_of_pcbs _ _ rfl)
        · cases h
          exact keeps_pcb_trans _ _ _ h0 h2

theorem keeps_pcb_step (cfg : Config) (hw : cfg.wf) (s s1 : State) (a : Action)
    (h : step cfg s a = .ok s1) : keeps_pcb s s1 := by
  cases a with
  | accept_cb cpu cur_fg t =>
    obtain ⟨r, hr⟩ := map_snd_ok _ s1 h
    exact keeps_pcb_on_accept cfg hw cpu cur_fg t s (r, s1) hr
  | recv_cb cpu arg p fill =>
    obtain ⟨r, hr⟩ := map_snd_ok _ s1 h
    exact keeps_pcb_trans _ _ _ (keeps_pcb_of_pcbs _ _ (keeps_fill_pbufs cfg fill s).2)
      (keeps_pcb_on_recv cfg cpu arg p _ (r, s1) hr)
  | sent_cb cpu arg len =>
    obtain ⟨r, hr⟩ := map_snd_ok _ s1 h
    exact keeps_pcb_on_sent cfg cpu arg len s (r, s1) hr
  | err_cb cpu arg err => exact keeps_pcb_on_err cfg cpu arg err s s1 h
  | connected_cb cpu arg err =>
    obtain ⟨r, hr⟩ := map_snd_ok _ s1 h
    exact keeps_pcb_on_connected cfg cpu arg err s (r, s1) hr
  | connect cpu cookie fuel env => exact keeps_pcb_bsys_tcp_connect cfg cpu cookie fuel env s s1 h
  | accept cpu handle cookie fuel =>
    exact keeps_pcb_bsys_tcp_accept cfg cpu handle cookie fuel s s1 h
  | sendv cpu handle nrents env => exact keeps_pcb_bsys_tcp_sendv cfg cpu handle nrents env s s1 h
  | recv_done cpu handle len fuel =>
    exact keeps_pcb_bsys_tcp_recv_done cfg cpu handle len fuel s s1 h
  | close cpu handle fuel => exact keeps_pcb_bsys_tcp_close cfg hw cpu handle fuel s s1 h
  | generate cpu fuel => exact keeps_pcb_generate cfg cpu fuel s s1 h
  | steal cpu fuel env =>
    obtain ⟨r, hr⟩ := map_snd_ok _ s1 h
    exact keeps_pcb_steal cfg cpu fuel env s (r, s1) hr
  | finish cpu =>
    have h1 : (tcp_finish_usys cfg cpu s).map
        (fun s1 => { s1 with usys_arr := upd s1.usys_arr cpu [] }) = .ok s1 := h
    cases hf : tcp_finish_usys cfg cpu s with
    | error e => rw [hf] at h1; cases h1
    | ok s2 =>
      rw [hf] at h1
      have h2 : (Except.ok { s2 with usys_arr := upd s2.usys_arr cpu [] } : Exec State)
          = .ok s1 := h1
      simp only [Except.ok.injEq] at h2
      subst h2
      exact keeps_pcb_trans _ _ _ (keeps_pcb_finish_loop cfg hw cpu _ s s2 hf)
        (keeps_pcb_of_pcbs _ _ rfl)

theorem pcb_present_reachable (cfg : Config) (hw : cfg.wf) (s : State) (hr : Reachable cfg s) :
    ∀ i, pcb_present (s.pcbs i) := by
  induction hr with
  | init pcb_pool id_pool pbufs hp =>
    intro i ha
    have hh := hw.hdr
    have : cfg.mempool_hdr = 1 := ha
    omega
  | step s s1 a _ he hs ih => exact fun i => keeps_pcb_step cfg hw s s1 a hs i (ih i)

theorem on_err_clears_dead (cfg : Config) (cpu api : Nat) (err : err_t) (s s1 : State)
    (h : on_err cfg cpu (some api) err s = .ok s1) :
    (s1.pcbs api).pcb = (s.pcbs api).pcb ∨ ((s1.pcbs api).pcb = none ∧ (s1.pcbs api).alive = 0) := by
  unfold on_err at h
  simp only at h
  split_ifs at h
  · cases hm : mark_dead cfg cpu (some api) (s.pcbs api).cookie s with
    | error e => rw [hm] at h; cases h
    | ok s2 =>
      rw [hm] at h
      cases h
      right
      rw [set_pcb_pcbs_same]
      exact ⟨rfl, mark_dead_alive cfg cpu api _ s s2 hm⟩
  · cases h
    exact Or.inl rfl

/-! ## C31: a CCB that is alive has a TCP-core connection -/

/-- C31: in every reachable state a CCB whose `alive` is true has a `pcb` that is not
`NULL`.  So for a SENDV whose handle is found and whose CCB passes the test of `alive`, the
loop of `bsys_tcp_sendv`, which reads `api->pcb->snd_buf` and calls `tcp_write(api->pcb)`
in each round, returns, the `pcb` handed to `tcp_output` after it is the same connection,
and the handler is the enqueue of the bytes handed over: it takes no branch with a `NULL`
`pcb`.  The two steps behind it: the initialisation that `on_accept` and `bsys_tcp_connect`
give a fresh CCB sets `alive` and `pcb` together, and when `on_err` has cleared `pcb` it has
set `alive` to false before. -/
theorem alive_ccb_has_pcb (cfg : Config) (hw : cfg.wf) (s : State) (hr : Reachable cfg s) :
    (∀ i, (s.pcbs i).alive = 1 → (s.pcbs i).pcb ≠ none) ∧
    (∀ cpu handle api s0, handle_to_tcpapi cfg cpu handle s = (some api, s0) →
      (s0.pcbs api).alive ≠ 0 →
      ∃ pcb, (s0.pcbs api).pcb = some pcb ∧
        ∀ nrents env, env.ents_okay = true →
          ∃ acc s1,
            sendv_loop env api (min (nrents % 4294967296) cfg.MAX_SG_ENTRIES) 0 0 s0 = .ok (acc, s1) ∧
            (s1.pcbs api).pcb = some pcb ∧
            bsys_tcp_sendv cfg cpu handle nrents env s =
              if acc ≠ 0 then
                pcb_ready_enqueue cfg cpu api
                  (set_pcb api (fun a => { a with len_xmited := int_wrap (a.len_xmited + acc) })
                    (ext (.tcp_output (some (handle_to_fg_id handle)) pcb) s1))
              else .ok s1) ∧
    (∀ pcb cookie accepted a, (init_pcb_fields pcb cookie accepted a).alive = 1 ∧
      (init_pcb_fields pcb cookie accepted a).pcb = some pcb) ∧
    (∀ cpu api err s1, on_err cfg cpu (some api) err s = .ok s1 →
      (s1.pcbs api).pcb = (s.pcbs api).pcb ∨
        ((s1.pcbs api).pcb = none ∧ (s1.pcbs api).alive = 0)) := by
  have hall := pcb_present_reachable cfg hw s hr
  refine ⟨fun i ha => hall i ha, ?_, fun _ _ _ _ => ⟨rfl, rfl⟩,
    fun cpu api err s1 h => on_err_clears_dead cfg cpu api err s s1 h⟩
  intro cpu handle api s0 hl ha
  obtain ⟨-, -, hle, -⟩ := handle_to_tcpapi_some cfg cpu handle api s (by rw [hl])
  have hs0 := handle_to_tcpapi_state cfg cpu handle api s s0 hl
  have hpcbs : s0.pcbs = s.pcbs := by rw [hs0]; rfl
  have halive : (s.pcbs api).alive = 1 := by
    rw [hpcbs] at ha
    omega
  cases hp : (s.pcbs api).pcb with
  | none => exact absurd hp (hall api halive)
  | some pcb =>
    have hp0 : (s0.pcbs api).pcb = some pcb := by rw [hpcbs]; exact hp
    refine ⟨pcb, hp0, ?_⟩
    intro nrents env he
    obtain ⟨k, -, h3, -, h5⟩ := bsys_tcp_sendv_live cfg cpu handle nrents env s s0 api pcb hl ha
      hp0 he
    exact ⟨sendv_ok_bytes env k, _, h3, hp0, h5⟩

/-- The statement of `alive_ccb_has_pcb` for the state after `ex_trace_open`: the CCB in
slot 1 is alive and its `pcb` is the connection 7 that `on_accept` was given. -/
theorem alive_ccb_has_pcb_witness :
    (Reachable ex_cfg ex_open_state ∧ (ex_open_state.pcbs 1).alive = 1) ∧
      (ex_open_state.pcbs 1).pcb ≠ none ∧ (ex_open_state.pcbs 1).pcb = some 7 :=
  ⟨⟨run_reachable ex_cfg ex_trace_open ex_init _ ex_init_reachable rfl, by decide⟩,
    (alive_ccb_has_pcb ex_cfg ex_cfg_wf ex_open_state
      (run_reachable ex_cfg ex_trace_open ex_init _ ex_init_reachable rfl)).1 1 (by decide),
    by decide⟩

/-! ## C8 and a handle the application makes up -/

/-- C8 fails for a handle the application makes up.  The handle `ex_forged_handle` has
the flow group 0, so `tcp_route_ksys` runs its CLOSE on CPU 0, and the index 1 of a CCB
that CPU 1 has allocated and linked in its ready queue.  `handle_to_tcpapi` finds the
CCB (the flow group is in range and the first word of the slot is 1), `bsys_tcp_close`
frees the slot into the pool of CPU 0, which no assertion of `pcb_ready_enqueue` guards,
and the next inbound connection on CPU 0 takes the slot and links it in the ready queue
of CPU 0 while it is still the head of the ready queue of CPU 1: the walks of both
queues meet the CCB in slot 1. -/
theorem forged_close_links_twice :
    bsys_tcp_home_id ex_cfg ex_forged_handle = .ok 0 ∧
    (handle_to_tcpapi ex_cfg 0 ex_forged_handle
      (run_state ex_cfg ex_init [.accept_cb 1 1 (tcp_pcb_info.mk 7 1 2 3)])).1 = some 1 ∧
    run_unchecked ex_cfg ex_init ex_trace_forged = .ok ex_forged_state ∧
    queue_walk ex_forged_state.ready_queue_next 3 (ex_forged_state.pcb_ready_queue 0).head
      = [1] ∧
    queue_walk ex_forged_state.ready_queue_next 3 (ex_forged_state.pcb_ready_queue 1).head
      = [1] ∧
    ex_forged_state.pcb_mempool 0 = [0, 2] ∧ ex_forged_state.pcb_mempool 1 = [3] ∧
    env_ok ex_cfg (run_state ex_cfg ex_init [.accept_cb 1 1 (tcp_pcb_info.mk 7 1 2 3)])
      (.close 0 ex_forged_handle 4) = false :=
  ⟨rfl, by decide, rfl, by decide, by decide, by decide, by decide, by decide⟩

/-! ## The filter that CLOSE removes -/

/-- The call of `remove_fdir_filter`: the filter it asks the device to remove has the
addresses and the ports of the identity record with source and destination exchanged,
as the filter that `get_port_with_fdir` adds for an identity has. -/
theorem remove_fdir_filter_call (id : Nat) (s : State) :
    (remove_fdir_filter id s).calls = s.calls ++ [.fdir_remove_perfect_filter
      (ip_tuple.mk (s.ids id).dst_ip (s.ids id).src_ip (s.ids id).dst_port
        (s.ids id).src_port)] :=
  rfl

/-- In the example, `on_accept` on CPU 1 records the identity of the connection (remote
address and port as source, host address and local port as destination), and the CLOSE
of its handle removes the filter with the host address and the local port as source. -/
theorem close_removes_exchanged_filter :
    (run_state ex_cfg ex_init [.accept_cb 1 1 (tcp_pcb_info.mk 7 1 2 3)]).ids 1
      = ip_tuple.mk 16777216 1 2 3 ∧
    (run_state ex_cfg ex_init
      [.accept_cb 1 1 (tcp_pcb_info.mk 7 1 2 3), .close 1 ex_handle 4]).calls
      = [.tcp_nagle_disable 7, .tcp_arg 7 1, .tcp_close_with_reset (some 1) 7,
         .fdir_remove_perfect_filter (ip_tuple.mk 1 16777216 3 2)] :=
  ⟨by decide, by decide⟩

/-! ## Runs that repeat one entry on a live CCB -/

theorem pcb_ready_enqueue_fields (cfg : Config) (cpu api : Nat) (s s1 : State)
    (h : pcb_ready_enqueue cfg cpu api s = .ok s1) :
    (∀ i, s1.pcbs i = { s.pcbs i with flags := (s1.pcbs i).flags }) ∧
      s1.usys_arr = s.usys_arr ∧ s1.pcb_mempool = s.pcb_mempool ∧
      (((s.pcb_ready_queue cpu).head ≠ none → (s.pcb_ready_queue cpu).tail ≠ none) →
        (s1.pcb_ready_queue cpu).head ≠ none → (s1.pcb_ready_queue cpu).tail ≠ none) := by
  unfold pcb_ready_enqueue at h
  cases hf : fgs_read cfg (handle_to_fg_id (s.pcbs api).handle) with
  | error e => rw [hf] at h; cases h
  | ok home =>
    rw [hf] at h
    simp only at h
    split_ifs at h with h1 h2
    · simp only [Except.ok.injEq] at h
      subst h
      refine ⟨fun i => ?_, rfl, rfl, fun hq => hq⟩
      by_cases hi : i = api
      · subst hi; rw [set_pcb_pcbs_same]
      · rw [set_pcb_pcbs_other _ _ _ _ hi]
    · cases hq : queue_push_back (s.pcb_ready_queue cpu) s.ready_queue_next api with
      | error e => rw [hq] at h; cases h
      | ok r =>
        rw [hq] at h
        simp only [Except.ok.injEq] at h
        subst h
        refine ⟨fun i => rfl, rfl, rfl, fun hw => ?_⟩
        show (upd s.pcb_ready_queue cpu r.1 cpu).head ≠ none →
          (upd s.pcb_ready_queue cpu r.1 cpu).tail ≠ none
        rw [upd_same]
        unfold queue_push_back at hq
        split_ifs at hq with hc
        · cases hq; exact hw
        · cases hh : (s.pcb_ready_queue cpu).head with
          | none =>
            rw [hh] at hq
            cases hq
            intro _; simp
          | some n =>
            rw [hh] at hq
            simp only at hq
            cases ht : (s.pcb_ready_queue cpu).tail with
            | none => rw [ht] at hq; cases hq
            | some t =>
              rw [ht] at hq
              cases hq
              intro _; simp

theorem slot_live_enqueue (cfg : Config) (cpu api i : Nat) (s s1 : State)
    (hl : slot_live cfg cpu i s) (h : pcb_ready_enqueue cfg cpu api s = .ok s1) :
    slot_live cfg cpu i s1 := by
  obtain ⟨h1, _, _, h4⟩ := pcb_ready_enqueue_fields cfg cpu api s s1 h
  have e : ∀ j, (s1.pcbs j).handle = (s.pcbs j).handle ∧ (s1.pcbs j).alive = (s.pcbs j).alive :=
    fun j => by rw [h1 j]; exact ⟨rfl, rfl⟩
  exact ⟨by rw [(e i).1]; exact hl.fg, by rw [(e i).1]; exact hl.home,
    by rw [(e i).1]; exact hl.idx, by rw [(e i).2]; exact hl.alive, h4 hl.queue⟩

theorem pcb_ready_enqueue_tail (cfg : Config) (cpu api : Nat) (s s1 : State)
    (ht : (s.pcb_ready_queue cpu).tail = some api)
    (h : pcb_ready_enqueue cfg cpu api s = .ok s1) :
    s1.pcb_ready_queue cpu = s.pcb_ready_queue cpu := by
  unfold pcb_ready_enqueue at h
  cases hf : fgs_read cfg (handle_to_fg_id (s.pcbs api).handle) with
  | error e => rw [hf] at h; cases h
  | ok home =>
    rw [hf] at h
    simp only at h
    split_ifs at h with h1 h2
    · simp only [Except.ok.injEq] at h
      subst h; rfl
    · have hc : queue_contains (s.pcb_ready_queue cpu) s.ready_queue_next api = true := by
        simp [queue_contains, ht]
      have hq : queue_push_back (s.pcb_ready_queue cpu) s.ready_queue_next api
          = .ok (s.pcb_ready_queue cpu, s.ready_queue_next) := by
        unfold queue_push_back
        rw [if_pos hc]
      rw [hq] at h
      simp only [Except.ok.injEq] at h
      subst h
      show upd s.pcb_ready_queue cpu (s.pcb_ready_queue cpu) cpu = _
      rw [upd_same]

theorem ccb_kept_refl (cpu i : Nat) (s : State) : ccb_kept cpu i s s :=
  ⟨fun _ => rfl, rfl, fun _ => rfl⟩

theorem ccb_kept_trans (cpu i : Nat) (s s1 s2 : State) (h1 : ccb_kept cpu i s s1)
    (h2 : ccb_kept cpu i s1 s2) : ccb_kept cpu i s s2 := by
  refine ⟨fun j => ?_, h2.pool.trans h1.pool, fun ht => ?_⟩
  · rw [h2.pcbs j, h1.pcbs j]
  · have e1 := h1.queue ht
    exact (h2.queue (by rw [e1]; exact ht)).trans e1

theorem ccb_kept_fields (cpu i : Nat) (s s1 : State) (h : ccb_kept cpu i s s1) (j : Nat) :
    (s1.pcbs j).uevents = (s.pcbs j).uevents ∧
      (s1.pcbs j).pbuf_for_usys = (s.pcbs j).pbuf_for_usys ∧
      (s1.pcbs j).alive = (s.pcbs j).alive ∧
      (s1.pcbs j).lasterr_sysnr = (s.pcbs j).lasterr_sysnr ∧
      (s1.pcbs j).active_usys_count = (s.pcbs j).active_usys_count := by
  rw [h.pcbs j]
  exact ⟨rfl, rfl, rfl, rfl, rfl⟩

theorem ccb_kept_enqueue (cfg : Config) (cpu i : Nat) (s s1 : State)
    (h : pcb_ready_enqueue cfg cpu i s = .ok s1) : ccb_kept cpu i s s1 := by
  obtain ⟨h1, _, h3, _⟩ := pcb_ready_enqueue_fields cfg cpu i s s1 h
  refine ⟨fun j => ?_, h3, fun ht => pcb_ready_enqueue_tail cfg cpu i s s1 ht h⟩
  have e := h1 j
  rw [e]

/-- A sent callback on a live CCB of the running CPU returns, and leaves in `sent_len`
the old value plus `len`, stored in an `int`. -/
theorem sent_cb_live (cfg : Config) (cpu i len : Nat) (s : State)
    (hl : slot_live cfg cpu i s) :
    env_ok cfg s (.sent_cb cpu i len) = true ∧
      ∃ s1, step cfg s (.sent_cb cpu i len) = .ok s1 ∧ slot_live cfg cpu i s1 ∧
        (s1.pcbs i).sent_len = int_wrap ((s.pcbs i).sent_len + ((len % 65536 : Nat) : Int)) ∧
        (s1.pcbs i).len_xmited = (s.pcbs i).len_xmited ∧
        ccb_kept cpu i s s1 ∧
        step_emitted cfg s (.sent_cb cpu i len) = [] := by
  refine ⟨by simp [env_ok, cb_arg_ok, hl.alive], ?_⟩
  have hl0 : slot_live cfg cpu i (set_pcb i
      (fun a => { a with sent_len := int_wrap (a.sent_len + (len % 65536 : Nat)) }) s) :=
    ⟨by rw [set_pcb_pcbs_same]; exact hl.fg, by rw [set_pcb_pcbs_same]; exact hl.home,
      by rw [set_pcb_pcbs_same]; exact hl.idx, by rw [set_pcb_pcbs_same]; exact hl.alive,
      hl.queue⟩
  have hk0 : ccb_kept cpu i s (set_pcb i
      (fun a => { a with sent_len := int_wrap (a.sent_len + (len % 65536 : Nat)) }) s) := by
    refine ⟨fun j => ?_, rfl, fun _ => rfl⟩
    by_cases hj : j = i
    · subst hj; rw [set_pcb_pcbs_same]
    · rw [set_pcb_pcbs_other _ _ _ _ hj]
  obtain ⟨s1, hs1⟩ := pcb_ready_enqueue_returns cfg cpu i _ hl0.fg hl0.home hl0.queue
  have hon : on_sent cfg cpu i len s = .ok (err_t.ERR_OK, s1) := by
    unfold on_sent
    rw [hs1]
  have hst : step cfg s (.sent_cb cpu i len) = .ok s1 := by
    show (on_sent cfg cpu i len s).map Prod.snd = .ok s1
    rw [hon]; rfl
  obtain ⟨a1, a2, a3⟩ := sent_on_sent cfg cpu i len s (err_t.ERR_OK, s1) i hon
  refine ⟨s1, hst, slot_live_enqueue cfg cpu i i _ s1 hl0 hs1, ?_,
    same_xmited_on_sent cfg cpu i len s (err_t.ERR_OK, s1) hon i,
    ccb_kept_trans cpu i _ _ _ hk0 (ccb_kept_enqueue cfg cpu i _ s1 hs1), ?_⟩
  · rw [a2, if_pos rfl]
  · exact step_emitted_eq cfg s s1 _ [] hst (fun _ e => by cases e) (by
      show s1.usys_arr cpu = s.usys_arr cpu ++ []
      rw [List.append_nil]
      exact congrFun a3 cpu)

/-- A run of `n` sent callbacks on a live CCB of the running CPU returns: no event is
emitted, and `sent_len` is the old value plus `n` times `len`, stored in an `int`. -/
theorem sent_cb_run (cfg : Config) (cpu i len : Nat) :
    ∀ (n : Nat) (s : State), slot_live cfg cpu i s →
      ∃ s1, run cfg s (List.replicate n (.sent_cb cpu i len)) = .ok s1 ∧
        slot_live cfg cpu i s1 ∧
        (s1.pcbs i).sent_len = (if n = 0 then (s.pcbs i).sent_len
          else int_wrap ((s.pcbs i).sent_len + ((n * (len % 65536) : Nat) : Int))) ∧
        (s1.pcbs i).len_xmited = (s.pcbs i).len_xmited ∧
        ccb_kept cpu i s s1 ∧
        run_emitted cfg s (List.replicate n (.sent_cb cpu i len)) = [] ∧
        run_keeps_slot cfg i s (List.replicate n (.sent_cb cpu i len)) = true ∧
        trace_sent i (List.replicate n (.sent_cb cpu i len))
          = ((n * (len % 65536) : Nat) : Int)
  | 0, s, hl => ⟨s, rfl, hl, rfl, rfl, ccb_kept_refl cpu i s, rfl, rfl, by simp [trace_sent]⟩
  | n + 1, s, hl => by
    obtain ⟨he, s2, hst, hl2, b1, bx, b2, b3⟩ := sent_cb_live cfg cpu i len s hl
    obtain ⟨s1, c1, c2, c3, cx, c4, c5, c6, c7⟩ := sent_cb_run cfg cpu i len n s2 hl2
    refine ⟨s1, ?_, c2, ?_, cx.trans bx, ccb_kept_trans cpu i _ _ _ b2 c4, ?_, ?_, ?_⟩
    · simp only [List.replicate_succ, run, he, if_true, hst]
      exact c1
    · rw [c3, if_neg (Nat.succ_ne_zero n), b1]
      by_cases hn : n = 0
      · subst hn
        simp
      · rw [if_neg hn, int_wrap_add]
        congr 1
        push_cast
        ring
    · simp only [List.replicate_succ, run_emitted, hst, b3, List.nil_append]
      exact c5
    · simp only [List.replicate_succ, run_keeps_slot, hst, step_keeps_slot, Bool.true_and]
      exact c6
    · simp only [List.replicate_succ, trace_sent, if_true]
      rw [c7]
      push_cast
      ring

/-! ## Runs of SENDV on the connection of the example -/

theorem ex_handle_fg : handle_to_fg_id ex_handle = 1 := by decide

theorem ex_handle_idx : handle_to_idx ex_handle = 1 := by decide

/-- The SENDV `ex_sendv_max` on the live connection in slot 1 returns and hands 65535
bytes to the TCP core. -/
theorem sendv_max_live (s : State) (p : Nat) (hl : slot_live ex_cfg 1 1 s)
    (hh : (s.pcbs 1).handle = ex_handle) (hp : (s.pcbs 1).pcb = some p) :
    env_ok ex_cfg s ex_sendv_max = true ∧ step_handed ex_cfg s 1 ex_sendv_max = 65535 ∧
      ∃ s1, step ex_cfg s ex_sendv_max = .ok s1 ∧ slot_live ex_cfg 1 1 s1 ∧
        (s1.pcbs 1).handle = ex_handle ∧ (s1.pcbs 1).pcb = some p ∧ ccb_kept 1 1 s s1 := by
  have hto : handle_to_tcpapi ex_cfg 1 ex_handle s = (some 1, eth_fg_set_current 1 1 s) := by
    unfold handle_to_tcpapi
    rw [ex_handle_fg, ex_handle_idx, if_neg (by decide), if_neg (by rw [hl.alive]; decide)]
  have ha : ((eth_fg_set_current 1 1 s).pcbs 1).alive ≠ 0 := by
    show (s.pcbs 1).alive ≠ 0
    rw [hl.alive]; decide
  have hp0 : ((eth_fg_set_current 1 1 s).pcbs 1).pcb = some p := hp
  have hloop : sendv_loop ex_sendv_env_max 1 (min (1 % 4294967296) ex_cfg.MAX_SG_ENTRIES) 0 0
      (eth_fg_set_current 1 1 s)
      = .ok (65535, ext (.tcp_write p 0 65535) (eth_fg_set_current 1 1 s)) := by
    show sendv_loop ex_sendv_env_max 1 1 0 0 (eth_fg_set_current 1 1 s) = _
    simp [sendv_loop, hp, ex_sendv_env_max]
  have hhand : step_handed ex_cfg s 1 ex_sendv_max = 65535 := by
    show step_handed ex_cfg s 1 (.sendv 1 ex_handle 1 ex_sendv_env_max) = 65535
    simp only [step_handed, hto, hloop]
    exact if_pos ⟨trivial, ha, rfl⟩
  have henv : env_ok ex_cfg s ex_sendv_max = true := by
    show handle_ok ex_cfg s 1 ex_handle = true
    unfold handle_ok
    rw [hto]
    simp only [hh, ex_handle_fg]
    decide
  refine ⟨henv, hhand, ?_⟩
  have hsend : bsys_tcp_sendv ex_cfg 1 ex_handle 1 ex_sendv_env_max s
      = pcb_ready_enqueue ex_cfg 1 1
          (set_pcb 1 (fun a => { a with len_xmited := int_wrap (a.len_xmited + (65535 : Nat)) })
            (ext (.tcp_output (some (handle_to_fg_id ex_handle)) p)
              (ext (.tcp_write p 0 65535) (eth_fg_set_current 1 1 s)))) := by
    unfold bsys_tcp_sendv
    rw [hto]
    simp only [ha, if_false, hloop]
    simp [ex_sendv_env_max, hp, ext]
  have hl0 : slot_live ex_cfg 1 1
      (set_pcb 1 (fun a => { a with len_xmited := int_wrap (a.len_xmited + (65535 : Nat)) })
        (ext (.tcp_output (some (handle_to_fg_id ex_handle)) p)
          (ext (.tcp_write p 0 65535) (eth_fg_set_current 1 1 s)))) :=
    ⟨by rw [set_pcb_pcbs_same]; exact hl.fg, by rw [set_pcb_pcbs_same]; exact hl.home,
      by rw [set_pcb_pcbs_same]; exact hl.idx, by rw [set_pcb_pcbs_same]; exact hl.alive,
      hl.queue⟩
  obtain ⟨s1, hs1⟩ := pcb_ready_enqueue_returns ex_cfg 1 1 _ hl0.fg hl0.home hl0.queue
  obtain ⟨f1, _, _, _⟩ := pcb_ready_enqueue_fields ex_cfg 1 1 _ s1 hs1
  have hk0 : ccb_kept 1 1 s
      (set_pcb 1 (fun a => { a with len_xmited := int_wrap (a.len_xmited + (65535 : Nat)) })
        (ext (.tcp_output (some (handle_to_fg_id ex_handle)) p)
          (ext (.tcp_write p 0 65535) (eth_fg_set_current 1 1 s)))) := by
    refine ⟨fun j => ?_, rfl, fun _ => rfl⟩
    by_cases hj : j = 1
    · subst hj; rw [set_pcb_pcbs_same]; rfl
    · rw [set_pcb_pcbs_other _ _ _ _ hj]; rfl
  refine ⟨s1, ?_, slot_live_enqueue ex_cfg 1 1 1 _ s1 hl0 hs1, ?_, ?_,
    ccb_kept_trans 1 1 _ _ _ hk0 (ccb_kept_enqueue ex_cfg 1 1 _ s1 hs1)⟩
  · show bsys_tcp_sendv ex_cfg 1 ex_handle 1 ex_sendv_env_max s = .ok s1
    rw [hsend, hs1]
  · rw [f1 1]
    show (s.pcbs 1).handle = ex_handle
    exact hh
  · rw [f1 1]
    show (s.pcbs 1).pcb = some p
    exact hp

/-- A run of `n` SENDV `ex_sendv_max` on the live connection in slot 1 returns; no entry
drains the CCB and the run hands `n` times 65535 bytes to the TCP core. -/
theorem sendv_max_run (p : Nat) :
    ∀ (n : Nat) (s : State), slot_live ex_cfg 1 1 s → (s.pcbs 1).handle = ex_handle →
      (s.pcbs 1).pcb = some p →
      ∃ s1, run ex_cfg s (List.replicate n ex_sendv_max) = .ok s1 ∧
        slot_live ex_cfg 1 1 s1 ∧ (s1.pcbs 1).handle = ex_handle ∧
        (s1.pcbs 1).pcb = some p ∧ ccb_kept 1 1 s s1 ∧
        run_quiet ex_cfg 1 s (List.replicate n ex_sendv_max) = true ∧
        run_handed ex_cfg 1 s (List.replicate n ex_sendv_max) = n * 65535
  | 0, s, hl, hh, hp => ⟨s, rfl, hl, hh, hp, ccb_kept_refl 1 1 s, rfl, by simp [run_handed]⟩
  | n + 1, s, hl, hh, hp => by
    obtain ⟨he, b0, s2, hst, hl2, b1, b2, b3⟩ := sendv_max_live s p hl hh hp
    obtain ⟨s1, c1, c2, c3, c4, c5, c6, c7⟩ := sendv_max_run p n s2 hl2 b1 b2
    refine ⟨s1, ?_, c2, c3, c4, ccb_kept_trans 1 1 _ _ _ b3 c5, ?_, ?_⟩
    · simp only [List.replicate_succ, run, he, if_true, hst]
      exact c1
    · simp only [List.replicate_succ, run_quiet, hst, Bool.and_eq_true]
      exact ⟨rfl, c6⟩
    · simp only [List.replicate_succ, run_handed, hst, b0, c7]
      ring

/-! ## The byte counters past `INT_MAX` -/

theorem run_state_ok (cfg : Config) (s s1 : State) (tr : List Action)
    (h : run cfg s tr = .ok s1) : run_state cfg s tr = s1 := by
  unfold run_state
  rw [h]

theorem ex_open_live : slot_live ex_cfg 1 1 ex_open_state :=
  ⟨by decide, by decide, by decide, by decide, by decide⟩

theorem ex_open_reachable : Reachable ex_cfg ex_open_state :=
  run_reachable ex_cfg ex_trace_open ex_init _ ex_init_reachable rfl

/-- C21 as stated fails: from the reachable state `ex_open_state`, in which the CCB in
slot 1 is live with `sent_len = 0`, the TCP core reports 65535 bytes as sent 32769 times
before the CPU drains its ready queue.  Every callback returns, no event is emitted, the
callbacks brought 2147516415 bytes, and `sent_len`, an `int`, holds -2147450881: the
SENT total plus `sent_len` is not the sum of the `len` arguments. -/
theorem sent_len_wraps_counterexample :
    Reachable ex_cfg ex_open_state ∧ (ex_open_state.pcbs 1).alive ≤ 1 ∧
    run ex_cfg ex_open_state ex_trace_sent_wrap
      = .ok (run_state ex_cfg ex_open_state ex_trace_sent_wrap) ∧
    run_keeps_slot ex_cfg 1 ex_open_state ex_trace_sent_wrap = true ∧
    (ex_open_state.pcbs 1).sent_len = 0 ∧
    trace_sent 1 ex_trace_sent_wrap = 2147516415 ∧
    run_emitted ex_cfg ex_open_state ex_trace_sent_wrap = [] ∧
    ((run_state ex_cfg ex_open_state ex_trace_sent_wrap).pcbs 1).sent_len = -2147450881 ∧
    sent_bytes (ex_open_state.pcbs 1).handle (run_emitted ex_cfg ex_open_state ex_trace_sent_wrap)
        + ((run_state ex_cfg ex_open_state ex_trace_sent_wrap).pcbs 1).sent_len
      ≠ (ex_open_state.pcbs 1).sent_len + trace_sent 1 ex_trace_sent_wrap := by
  obtain ⟨s1, c1, -, c3, -, -, c5, c6, c7⟩ := sent_cb_run ex_cfg 1 1 65535 32769 ex_open_state
    ex_open_live
  have e : ex_trace_sent_wrap = List.replicate 32769 (.sent_cb 1 1 65535) := rfl
  have h0 : (ex_open_state.pcbs 1).sent_len = 0 := by decide
  have hs : run_state ex_cfg ex_open_state ex_trace_sent_wrap = s1 := by
    rw [e]; exact run_state_ok _ _ _ _ c1
  have hv : (s1.pcbs 1).sent_len = -2147450881 := by
    rw [c3, if_neg (by decide), h0]
    decide
  have ht : trace_sent 1 ex_trace_sent_wrap = 2147516415 := by
    rw [e, c7]
    decide
  have hm : run_emitted ex_cfg ex_open_state ex_trace_sent_wrap = [] := by rw [e]; exact c5
  refine ⟨ex_open_reachable, by decide, ?_, ?_, h0, ht, hm, ?_, ?_⟩
  · rw [hs, e]; exact c1
  · rw [e]; exact c6
  · rw [hs]; exact hv
  · rw [hs, hv, hm, ht, h0]
    decide

/-- C20 as stated fails: from the reachable state `ex_open_state`, in which the CCB in
slot 1 is live with `len_xmited = 0`, the application sends 65535 bytes 32768 times
before the CPU drains its ready queue: every SENDV returns and `len_xmited` is the
2147450880 bytes handed over.  The next SENDV hands 65535 bytes more to the TCP core and
leaves -2147450881 in `len_xmited`, an `int`: it has not grown by the bytes handed
over, and this is the value the next SENDV_RET reports. -/
theorem sendv_len_xmited_wraps_counterexample :
    (ex_open_state.pcbs 1).len_xmited = 0 ∧
    run ex_cfg ex_open_state ex_trace_sendv_full
      = .ok (run_state ex_cfg ex_open_state ex_trace_sendv_full) ∧
    run_quiet ex_cfg 1 ex_open_state ex_trace_sendv_full = true ∧
    run_handed ex_cfg 1 ex_open_state ex_trace_sendv_full = 2147450880 ∧
    Reachable ex_cfg (run_state ex_cfg ex_open_state ex_trace_sendv_full) ∧
    ((run_state ex_cfg ex_open_state ex_trace_sendv_full).pcbs 1).alive = 1 ∧
    ((run_state ex_cfg ex_open_state ex_trace_sendv_full).pcbs 1).len_xmited = 2147450880 ∧
    step_handed ex_cfg (run_state ex_cfg ex_open_state ex_trace_sendv_full) 1 ex_sendv_max
      = 65535 ∧
    run ex_cfg (run_state ex_cfg ex_open_state ex_trace_sendv_full) [ex_sendv_max]
      = .ok (run_state ex_cfg (run_state ex_cfg ex_open_state ex_trace_sendv_full)
          [ex_sendv_max]) ∧
    ((run_state ex_cfg (run_state ex_cfg ex_open_state ex_trace_sendv_full)
      [ex_sendv_max]).pcbs 1).len_xmited = -2147450881 := by
  obtain ⟨s0, c1, c2, c3, c4, -, c6, c7⟩ := sendv_max_run 7 32768 ex_open_state ex_open_live
    (by decide) (by decide)
  have e : ex_trace_sendv_full = List.replicate 32768 ex_sendv_max := rfl
  have h0 : (ex_open_state.pcbs 1).len_xmited = 0 := by decide
  have hs : run_state ex_cfg ex_open_state ex_trace_sendv_full = s0 := by
    rw [e]; exact run_state_ok _ _ _ _ c1
  have hv : (s0.pcbs 1).len_xmited = 2147450880 := by
    rw [xmited_run_wrap ex_cfg 1 _ ex_open_state s0 c1 c6, c7, if_neg (by decide), h0]
    decide
  obtain ⟨he, hh, s1, hst, -, -, -, -⟩ := sendv_max_live s0 7 c2 c3 c4
  have hr1 : run ex_cfg s0 [ex_sendv_max] = .ok s1 := by
    simp only [run, he, if_true, hst]
  have hv1 : (s1.pcbs 1).len_xmited = -2147450881 := by
    rw [xmited_step ex_cfg s0 s1 ex_sendv_max 1 hst rfl, hh, if_neg (by decide), hv]
    decide
  rw [hs]
  refine ⟨h0, ?_, ?_, ?_, run_reachable ex_cfg _ ex_open_state s0 ex_open_reachable c1,
    c2.alive, hv, hh, ?_, ?_⟩
  · rw [e]; exact c1
  · rw [e]; exact c6
  · rw [e, c7]
  · rw [run_state_ok _ _ _ _ hr1]; exact hr1
  · rw [run_state_ok _ _ _ _ hr1]; exact hv1

/-- The exclusion of the counters past `INT_MAX` from the ready-queue discipline is
needed: after the 32769 sent callbacks of `ex_trace_sent_wrap`, none of them for 0 bytes,
the CCB in slot 1 is allocated, has no event outstanding and is linked in the ready queue
of its CPU, and none of the six conditions holds: `sent_len` is negative. -/
theorem sent_wrap_links_idle :
    Reachable ex_cfg (run_state ex_cfg ex_open_state ex_trace_sent_wrap) ∧
    pcb_allocated (run_state ex_cfg ex_open_state ex_trace_sent_wrap) 1 ∧
    ((run_state ex_cfg ex_open_state ex_trace_sent_wrap).pcbs 1).active_usys_count = 0 ∧
    pcb_linked (run_state ex_cfg ex_open_state ex_trace_sent_wrap) 1 1 ∧
    ¬ pcb_pending ((run_state ex_cfg ex_open_state ex_trace_sent_wrap).pcbs 1) := by
  have hst : step ex_cfg ex_open_state (.sent_cb 1 1 65535)
      = .ok (run_state ex_cfg ex_open_state [ex_sent_max]) := rfl
  have hl : slot_live ex_cfg 1 1 (run_state ex_cfg ex_open_state [ex_sent_max]) :=
    ⟨by decide, by decide, by decide, by decide, by decide⟩
  obtain ⟨s1, c1, -, c3, cx, c4, -, -, -⟩ := sent_cb_run ex_cfg 1 1 65535 32768 _ hl
  have hrun : run ex_cfg ex_open_state ex_trace_sent_wrap = .ok s1 := by
    have er : ex_trace_sent_wrap
        = .sent_cb 1 1 65535 :: List.replicate 32768 (.sent_cb 1 1 65535) := rfl
    have he : env_ok ex_cfg ex_open_state (.sent_cb 1 1 65535) = true := by decide
    rw [er, run, if_pos he, hst]
    exact c1
  rw [run_state_ok _ _ _ _ hrun]
  have hq : s1.pcb_ready_queue 1 = { head := some 1, tail := some 1 } := by
    rw [c4.queue (by decide)]
    decide
  have hpool : s1.pcb_mempool = upd ex_pool 1 [3] := by
    rw [c4.pool]; rfl
  have hv : (s1.pcbs 1).sent_len = -2147450881 := by
    rw [c3, if_neg (by decide)]
    decide
  have hx : (s1.pcbs 1).len_xmited = 0 := by
    rw [cx]; decide
  obtain ⟨f1, f2, f3, f4, f5⟩ := ccb_kept_fields 1 1 _ s1 c4 1
  refine ⟨run_reachable ex_cfg _ ex_open_state s1 ex_open_reachable hrun, ?_, ?_, ⟨1, ?_⟩, ?_⟩
  · intro c
    rw [hpool]
    unfold upd ex_pool
    by_cases h0 : c = 0
    · simp [h0]
    · by_cases h1 : c = 1 <;> simp [h0, h1]
  · rw [f5]
    decide
  · rw [hq]
    simp [queue_walk]
  · unfold pcb_pending
    rw [f1, f2, f3, f4, hv, hx]
    decide

end Zygos
